import Mathlib

/-!
# libesphttpd core (`core/httpd.c`): a shallow embedding and its properties

Bytes (`char`) are natural numbers below 256; a C string is the run of bytes
up to the first NUL, and a read past the end of a modelled memory region
yields NUL.  Machine `int`s are modelled by `Int`/`Nat`; the quantities that
occur are lengths and offsets of buffers that are far from the 32-bit limit.
The build option `CONFIG_ESPHTTPD_CORS_SUPPORT` is taken as undefined.
-/

namespace Httpd

/-! ## Form/query decoder -/

/-- Value of a hex character, `httpdHexVal`. -/
def httpdHexVal (c : Nat) : Nat :=
  if 48 ≤ c ∧ c ≤ 57 then c - 48
  else if 65 ≤ c ∧ c ≤ 70 then c - 65 + 10
  else if 97 ≤ c ∧ c ≤ 102 then c - 97 + 10
  else 0

/-- The `while (s<valLen && d<retLen)` loop of `httpdUrlDecode`.  Every
iteration ends in `s++`, so the first argument counts the iterations that are
left at most. -/
def httpdUrlDecodeLoop (val : List Nat) (valLen retLen : Int) :
    Nat → Nat → Nat → Nat → Nat → List Nat → Nat × List Nat
  | 0, _, d, _, _, ret => (d, ret)
  | n + 1, s, d, esced, escVal, ret =>
    if (s : Int) < valLen ∧ (d : Int) < retLen then
      if esced = 1 then
        httpdUrlDecodeLoop val valLen retLen n (s + 1) d 2 (httpdHexVal (val.getD s 0) <<< 4) ret
      else if esced = 2 then
        httpdUrlDecodeLoop val valLen retLen n (s + 1) (d + 1) 0
          (escVal + httpdHexVal (val.getD s 0))
          (ret.set d ((escVal + httpdHexVal (val.getD s 0)) % 256))
      else if val.getD s 0 = 37 then
        httpdUrlDecodeLoop val valLen retLen n (s + 1) d 1 escVal ret
      else if val.getD s 0 = 43 then
        httpdUrlDecodeLoop val valLen retLen n (s + 1) (d + 1) esced escVal (ret.set d 32)
      else
        httpdUrlDecodeLoop val valLen retLen n (s + 1) (d + 1) esced escVal
          (ret.set d (val.getD s 0))
    else (d, ret)

/-- Decode a percent-encoded value, `httpdUrlDecode`: the returned pair is the
`int` result and the `ret` buffer after the call. -/
def httpdUrlDecode (val : List Nat) (valLen : Int) (ret : List Nat) (retLen : Int) :
    Int × List Nat :=
  let r := httpdUrlDecodeLoop val valLen retLen valLen.toNat 0 0 0 0 ret
  ((r.1 : Int), if (r.1 : Int) < retLen then r.2.set r.1 0 else r.2)

/-- The hex digits in order of their value, with the letters in lower case:
`0123456789abcdef`. -/
def hexDigitsLower : List Nat :=
  [48, 49, 50, 51, 52, 53, 54, 55, 56, 57, 97, 98, 99, 100, 101, 102]

/-- The hex digits in order of their value, with the letters in upper case:
`0123456789ABCDEF`. -/
def hexDigitsUpper : List Nat :=
  [48, 49, 50, 51, 52, 53, 54, 55, 56, 57, 65, 66, 67, 68, 69, 70]

/-- The value `hexval` of a byte as a hex digit, after the words of the claim:
the place of the digit among the sixteen hex digits, in either case, and 0 for
a byte that is no hex digit. -/
def hexval (c : Nat) : Nat :=
  if c ∈ hexDigitsLower then hexDigitsLower.indexOf c
  else if c ∈ hexDigitsUpper then hexDigitsUpper.indexOf c
  else 0

/-- The full decoding `D` of a byte string, after the words of the claim: `+`
is a space, `%` with two following bytes is the byte `16*hexval h1 + hexval h2`,
an incomplete trailing escape gives nothing, any other byte is itself. -/
def urlDecodeFull : List Nat → List Nat
  | [] => []
  | [c] => if c = 37 then [] else if c = 43 then [32] else [c]
  | [c, h1] =>
    if c = 37 then [] else (if c = 43 then 32 else c) :: urlDecodeFull [h1]
  | c :: h1 :: h2 :: rest =>
    if c = 37 then (16 * hexval h1 + hexval h2) :: urlDecodeFull rest
    else (if c = 43 then 32 else c) :: urlDecodeFull (h1 :: h2 :: rest)

/-- Output still to come when the decoder loop stands in escape state `esced`
with `escVal` accumulated and `suf` unread. -/
def decodeFrom (esced escVal : Nat) (suf : List Nat) : List Nat :=
  if esced = 1 then
    match suf with
    | h1 :: h2 :: rest => (16 * httpdHexVal h1 + httpdHexVal h2) :: urlDecodeFull rest
    | _ => []
  else if esced = 2 then
    match suf with
    | h2 :: rest => ((escVal + httpdHexVal h2) % 256) :: urlDecodeFull rest
    | [] => []
  else urlDecodeFull suf

/-- The buffer `ret` after `count` decoded bytes of `D` were stored and, when
room is left below `retLen`, the terminating NUL. -/
def retAfter (D ret : List Nat) (retLen : Int) : List Nat :=
  D.take (min retLen.toNat D.length) ++
    (if ((min retLen.toNat D.length : Nat) : Int) < retLen
      then 0 :: ret.drop (min retLen.toNat D.length + 1)
      else ret.drop (min retLen.toNat D.length))

/-- Upper-case hex digit of a value below 16. -/
def hexDigitUpper (n : Nat) : Nat :=
  if n < 10 then 48 + n else 65 + (n - 10)

/-- Bytes the minimal percent-encoder keeps raw: `[A-Za-z0-9_.~-]`. -/
def keptRaw (c : Nat) : Bool :=
  (65 ≤ c && c ≤ 90) || (97 ≤ c && c ≤ 122) || (48 ≤ c && c ≤ 57) ||
    c == 95 || c == 46 || c == 126 || c == 45

/-- The minimal percent-encoder of the round-trip property: bytes of
`[A-Za-z0-9_.~-]` raw, a space as `+`, any other byte as `%` and its two hex
digits. -/
def percentEncode : List Nat → List Nat
  | [] => []
  | c :: rest =>
    (if keptRaw c then [c]
      else if c = 32 then [43]
      else [37, hexDigitUpper (c / 16), hexDigitUpper (c % 16)]) ++ percentEncode rest

/-! ## C strings

A `char *` that is only read is modelled by the bytes from the pointer on. -/

/-- The C string stored at the start of a memory region: the bytes before the
first NUL. -/
def cstr (m : List Nat) : List Nat :=
  m.takeWhile (fun c => c != 0)

/-- Length of the C string, `strlen`. -/
def strlen (m : List Nat) : Nat :=
  (cstr m).length

/-- Test `strcmp(a, b)==0`. -/
def strcmpEq (a b : List Nat) : Bool :=
  cstr a == cstr b

/-- Test `strncmp(a, b, n)==0`. -/
def strncmpEq (a b : List Nat) (n : Nat) : Bool :=
  (cstr a).take n == (cstr b).take n

/-- Lower-case form of an ASCII letter, `tolower` in the C locale. -/
def tolower (c : Nat) : Nat :=
  if 65 ≤ c ∧ c ≤ 90 then c + 32 else c

/-- Test `strcasecmp(a, b)==0`. -/
def strcasecmpEq (a b : List Nat) : Bool :=
  (cstr a).map tolower == (cstr b).map tolower

/-- Test `strncasecmp(a, b, n)==0`. -/
def strncasecmpEq (a b : List Nat) (n : Nat) : Bool :=
  ((cstr a).take n).map tolower == ((cstr b).take n).map tolower

/-- Offset of the first place in `s`, counted from `i`, where `needle` starts. -/
def strstrFrom (needle : List Nat) : List Nat → Nat → Option Nat
  | [], _ => none
  | c :: cs, i =>
    if needle.isPrefixOf (c :: cs) then some i else strstrFrom needle cs (i + 1)

/-- Search `strstr(hay, needle)` for a non-empty `needle`: the offset of the
first occurrence inside the C string at `hay`, or `none` for `NULL`. -/
def strstr (hay needle : List Nat) : Option Nat :=
  strstrFrom needle (cstr hay) 0

/-- White space as `isspace` sees it. -/
def isspace (c : Nat) : Bool :=
  c == 32 || (9 ≤ c && c ≤ 13)

/-- Digits read by `atoi`, most significant first. -/
def atoiDigits : List Nat → Int → Int
  | [], acc => acc
  | c :: cs, acc =>
    if 48 ≤ c ∧ c ≤ 57 then atoiDigits cs (acc * 10 + ((c - 48 : Nat) : Int)) else acc

/-- Conversion `atoi`.  The value is not reduced to the 32 bits of an `int`:
the definition follows the code for digit strings whose value an `int` can
hold, and says nothing of the others. -/
def atoi (s : List Nat) : Int :=
  match s.dropWhile isspace with
  | 45 :: r => - atoiDigits r 0
  | 43 :: r => atoiDigits r 0
  | r => atoiDigits r 0

/-- Number of bytes `' '` at the start of a region: the loops
`while (h[i]==' ') i++`. -/
def skipSpaces (m : List Nat) : Nat :=
  (m.takeWhile (fun c => c == 32)).length

/-- The `len` bytes a `memcpy` reads from `data`. -/
def memRead (data : List Nat) (len : Nat) : List Nat :=
  (data ++ List.replicate len 0).take len

/-- The loop of `httpdFindArg`; `p` is the pointer of the same name, `none`
for `NULL`.  The first argument bounds the iterations; `none` is returned
when it runs out. -/
def httpdFindArgLoop (arg buff : List Nat) (buffLen : Int) :
    Nat → Option (List Nat) → Option (Int × List Nat)
  | 0, _ => none
  | n + 1, p =>
    match p with
    | none => some (-1, buff)
    | some p =>
      if p.getD 0 0 ≠ 10 ∧ p.getD 0 0 ≠ 13 ∧ p.getD 0 0 ≠ 0 then
        if strncmpEq p arg (strlen arg) = true ∧ p.getD (strlen arg) 0 = 61 then
          some (httpdUrlDecode (p.drop (strlen arg + 1))
            ((match strstr (p.drop (strlen arg + 1)) [38] with
              | some k => k
              | none => strlen (p.drop (strlen arg + 1)) : Nat) : Int)
            buff buffLen)
        else
          match strstr p [38] with
          | none => httpdFindArgLoop arg buff buffLen n none
          | some k => httpdFindArgLoop arg buff buffLen n (some (p.drop (k + 1)))
      else some (-1, buff)

/-- Find an argument in get- or post-data, `httpdFindArg`: the result is the
`int` returned and the buffer `buff` after the call; `line = none` is `NULL`. -/
def httpdFindArg (line : Option (List Nat)) (arg buff : List Nat) (buffLen : Int) :
    Option (Int × List Nat) :=
  match line with
  | none => some (-1, buff)
  | some l => httpdFindArgLoop arg buff buffLen (l.length + 2) (some l)

/-- The `&`-separated pairs of `line`, which end at the first NUL, CR or LF. -/
def pairsOf : List Nat → List (List Nat)
  | [] => [[]]
  | c :: cs =>
    if c = 0 ∨ c = 13 ∨ c = 10 then [[]]
    else if c = 38 then [] :: pairsOf cs
    else (c :: (pairsOf cs).headD []) :: (pairsOf cs).tail

/-- Key of a `key=value` pair: the bytes before its first `=`; a piece
without `=` has no key. -/
def pairKey (pair : List Nat) : Option (List Nat) :=
  if 61 ∈ pair then some (pair.takeWhile (fun c => c != 61)) else none

/-- Value of a `key=value` pair: the bytes after its first `=`. -/
def pairValue (pair : List Nat) : List Nat :=
  (pair.dropWhile (fun c => c != 61)).drop 1

/-- What the contract of `httpdFindArg` asks for: the length of the decoded
value of the first pair with key `name` and `dst` holding that value and a
NUL, or -1 and `dst` untouched when no pair has that key. -/
def findArgSpec (line name dst : List Nat) : Int × List Nat :=
  match (pairsOf line).find? (fun p => pairKey p == some name) with
  | some p =>
    (((urlDecodeFull (pairValue p)).length : Nat),
      urlDecodeFull (pairValue p) ++ 0 :: dst.drop ((urlDecodeFull (pairValue p)).length + 1))
  | none => (-1, dst)

/-- Every CR or LF before the first NUL of `line` is the first byte of a
pair: it starts the line or directly follows an `&`. -/
def crlfStartsPair (line : List Nat) : Prop :=
  ∀ i, i < strlen line → (line.getD i 0 = 13 ∨ line.getD i 0 = 10) →
    i = 0 ∨ line.getD (i - 1) 0 = 38

/-- Bytes of the pair at the start of `p` as the scan of `httpdFindArg` sees
it: up to the next `&` or NUL. -/
def seg (p : List Nat) : List Nat :=
  p.takeWhile (fun c => c != 0 && c != 38)

/-! ## Connection data -/

/-- Return codes of a handler, `CgiStatus`. -/
inductive CgiStatus where
  | HTTPD_CGI_MORE
  | HTTPD_CGI_DONE
  | HTTPD_CGI_NOTFOUND
  | HTTPD_CGI_AUTHENTICATED
  deriving DecidableEq, Repr

/-- Request methods, the `HTTPD_METHOD_*` values. -/
inductive RequestTypes where
  | HTTPD_METHOD_GET
  | HTTPD_METHOD_POST
  | HTTPD_METHOD_OPTIONS
  | HTTPD_METHOD_PUT
  | HTTPD_METHOD_PATCH
  | HTTPD_METHOD_DELETE
  deriving DecidableEq, Repr

/-- Transfer modes a handler may select, `TransferModes`. -/
inductive TransferModes where
  | HTTPD_TRANSFER_CLOSE
  | HTTPD_TRANSFER_CHUNKED
  | HTTPD_TRANSFER_NONE
  deriving DecidableEq, Repr

/-- Handler function pointers: the built-in `cgiNotFound` and the functions of
the application, told apart by a number. -/
inductive CgiFn where
  | cgiNotFound
  | user (id : Nat)
  deriving DecidableEq, Repr

/-- An item of the send backlog, `HttpSendBacklogItem` (the `next` pointers
are the list structure). -/
structure HttpSendBacklogItem where
  len : Int
  data : List Nat
  deriving DecidableEq, Repr

/-- The bits of `HttpdPriv.flags`, one field for each `HFL_*` mask. -/
structure Flags where
  HFL_HTTP11 : Bool
  HFL_CHUNKED : Bool
  HFL_SENDINGBODY : Bool
  HFL_DISCONAFTERSENT : Bool
  HFL_NOCONNECTIONSTR : Bool
  deriving DecidableEq, Repr

/-- The value `flags=0`. -/
def Flags.zero : Flags :=
  { HFL_HTTP11 := false, HFL_CHUNKED := false, HFL_SENDINGBODY := false,
    HFL_DISCONAFTERSENT := false, HFL_NOCONNECTIONSTR := false }

/-- Private data of a connection, `HttpdPriv`.  `head` is the array of
`HTTPD_MAX_HEAD_LEN` bytes; `sendBuff` holds the `sendBuffLen` bytes in use of
the send buffer, so `sendBuffLen` is its length; `chunkHdr` is an offset into
`sendBuff`, `none` for `NULL`. -/
structure HttpdPriv where
  head : List Nat
  headPos : Nat
  sendBuff : List Nat
  chunkHdr : Option Nat
  sendBacklog : List HttpSendBacklogItem
  sendBacklogSize : Int
  flags : Flags
  deriving DecidableEq, Repr

/-- Used length of the send buffer. -/
def HttpdPriv.sendBuffLen (p : HttpdPriv) : Int :=
  (p.sendBuff.length : Int)

/-- POST state of a connection, `HttpdPostData`; `multipartBoundary` is an
offset into `head`. -/
structure HttpdPostData where
  len : Int
  buffSize : Int
  buffLen : Nat
  received : Nat
  buff : Option (List Nat)
  multipartBoundary : Option Nat
  deriving DecidableEq, Repr

/-- A connection, `HttpdConnData`.  `conn` is the transport handle (`none` when
gone); `url`, `getArgs` and `hostName` are offsets into `priv.head`; the
`void *` arguments are numbers, 0 for `NULL`. -/
structure HttpdConnData where
  conn : Option Nat
  requestType : Option RequestTypes
  url : Option Nat
  getArgs : Option Nat
  cgiArg : Nat
  cgiArg2 : Nat
  cgiData : Nat
  hostName : Option Nat
  priv : HttpdPriv
  cgi : Option CgiFn
  recvHdl : Option Nat
  post : HttpdPostData
  remote_port : Int
  remote_ip : List Nat
  slot : Nat
  deriving DecidableEq, Repr

/-- What a handler can read of its connection: the public fields and, through
`url`, `getArgs`, `hostName` and `httpdGetHeader`, the request head.  The rest
of `HttpdPriv` is opaque to handlers. -/
structure CgiView where
  conn : Option Nat
  requestType : Option RequestTypes
  url : Option Nat
  getArgs : Option Nat
  cgiArg : Nat
  cgiArg2 : Nat
  cgiData : Nat
  hostName : Option Nat
  head : List Nat
  headPos : Nat
  recvHdl : Option Nat
  post : HttpdPostData
  remote_port : Int
  remote_ip : List Nat
  slot : Nat
  deriving DecidableEq, Repr

/-- The view a handler gets of a connection. -/
def cgiView (c : HttpdConnData) : CgiView :=
  { conn := c.conn, requestType := c.requestType, url := c.url, getArgs := c.getArgs,
    cgiArg := c.cgiArg, cgiArg2 := c.cgiArg2, cgiData := c.cgiData, hostName := c.hostName,
    head := c.priv.head, headPos := c.priv.headPos, recvHdl := c.recvHdl, post := c.post,
    remote_port := c.remote_port, remote_ip := c.remote_ip, slot := c.slot }

/-- One run of a handler: the calls it makes into the server and the code it
returns.  A `send` goes on with the result of `httpdSend`. -/
inductive CgiScript where
  | ret (r : CgiStatus)
  | send (data : List Nat) (len : Int) (k : Int → CgiScript)
  | startResponse (code : Nat) (k : CgiScript)
  | header (field val : List Nat) (k : CgiScript)
  | endHeaders (k : CgiScript)
  | setTransferMode (mode : TransferModes) (k : CgiScript)
  | setCgiData (v : Nat) (k : CgiScript)
  | setRecvHdl (h : Option Nat) (k : CgiScript)

/-- What `core/httpd.c` takes from outside: the build-time constants of
`httpd.h` and the handler and receive-handler functions of the application. -/
structure HttpdEnv where
  HTTPD_MAX_CONNECTIONS : Nat
  HTTPD_MAX_HEAD_LEN : Nat
  HTTPD_MAX_SENDBUFF_LEN : Nat
  HTTPD_MAX_POST_LEN : Nat
  HTTPD_MAX_BACKLOG_SIZE : Nat
  HTTPDVER : List Nat
  cgiFns : Nat → CgiView → CgiScript
  recvHdls : Nat → CgiView → List Nat → CgiScript

/-- What the server does to the outside, and what it calls, in order. -/
inductive Event where
  | platLock
  | platUnlock
  | platSendData (conn : Option Nat) (buff : List Nat) (r : Bool)
  | platDisconnect (conn : Option Nat)
  | platDisableTimeout (conn : Option Nat)
  | cgiCall (fn : CgiFn) (post : HttpdPostData)
  | cgiReturn (fn : CgiFn) (r : CgiStatus)
  | cgiSend (data : List Nat) (r : Int)
  | cgiEndHeaders
  | recvHdlCall (id : Nat) (data : List Nat)
  | recvHdlReturn (id : Nat) (r : CgiStatus)
  deriving DecidableEq, Repr

/-- The platform: the answers `httpdPlatSendData` and `malloc` are going to
give (success once a list is used up) and the record of events so far. -/
structure World where
  sendOk : List Bool
  mallocOk : List Bool
  trace : List Event
  deriving DecidableEq, Repr

/-- Append an event to the record. -/
def World.log (w : World) (e : Event) : World :=
  { w with trace := w.trace ++ [e] }

/-- The platform call `httpdPlatSendData`. -/
def httpdPlatSendData (w : World) (conn : Option Nat) (buff : List Nat) : Bool × World :=
  (w.sendOk.headD true,
    { w with sendOk := w.sendOk.tail,
             trace := w.trace ++ [Event.platSendData conn buff (w.sendOk.headD true)] })

/-- A call of `malloc`: whether it succeeds. -/
def platMalloc (w : World) : Bool × World :=
  (w.mallocOk.headD true, { w with mallocOk := w.mallocOk.tail })

/-! ## Output framing -/

/-- Add data to the send buffer, `httpdSend`: the `int` returned and the
connection after the call.  A negative `len` takes `data` as a C string. -/
def httpdSend (env : HttpdEnv) (conn : HttpdConnData) (data : List Nat) (len : Int) :
    Int × HttpdConnData :=
  if conn.conn = none then (0, conn)
  else if (if len < 0 then (strlen data : Int) else len) = 0 then (0, conn)
  else if conn.priv.flags.HFL_CHUNKED = true ∧ conn.priv.flags.HFL_SENDINGBODY = true ∧
      conn.priv.chunkHdr = none then
    if conn.priv.sendBuffLen + (if len < 0 then (strlen data : Int) else len) + 6 >
        env.HTTPD_MAX_SENDBUFF_LEN then (0, conn)
    else if conn.priv.sendBuffLen + 6 + (if len < 0 then (strlen data : Int) else len) >
        env.HTTPD_MAX_SENDBUFF_LEN then
      (0, { conn with priv := { conn.priv with
              chunkHdr := some conn.priv.sendBuff.length,
              sendBuff := conn.priv.sendBuff ++ [48, 48, 48, 48, 13, 10] } })
    else
      (1, { conn with priv := { conn.priv with
              chunkHdr := some conn.priv.sendBuff.length,
              sendBuff := conn.priv.sendBuff ++ [48, 48, 48, 48, 13, 10] ++
                memRead data (if len < 0 then (strlen data : Int) else len).toNat } })
  else if conn.priv.sendBuffLen + (if len < 0 then (strlen data : Int) else len) >
      env.HTTPD_MAX_SENDBUFF_LEN then (0, conn)
  else
    (1, { conn with priv := { conn.priv with
            sendBuff := conn.priv.sendBuff ++
              memRead data (if len < 0 then (strlen data : Int) else len).toNat } })

/-- Hex digit of the low four bits of `val`, `httpdHexNibble`. -/
def httpdHexNibble (val : Int) : Nat :=
  if val % 16 < 10 then 48 + (val % 16).toNat else 65 + ((val % 16).toNat - 10)

/-- Decimal digits of `n`, least significant first, with at most `fuel + 1`
digits. -/
def decimalRev : Nat → Nat → List Nat
  | 0, n => [48 + n % 10]
  | fuel + 1, n => if n < 10 then [48 + n] else (48 + n % 10) :: decimalRev fuel (n / 10)

/-- The text `%d` prints for a natural number. -/
def decimal (n : Nat) : List Nat :=
  (decimalRev n n).reverse

/-- Set the transfer mode, `httpdSetTransferMode`. -/
def httpdSetTransferMode (conn : HttpdConnData) (mode : TransferModes) : HttpdConnData :=
  match mode with
  | .HTTPD_TRANSFER_CLOSE =>
    { conn with priv := { conn.priv with flags :=
        { conn.priv.flags with HFL_CHUNKED := false, HFL_NOCONNECTIONSTR := false } } }
  | .HTTPD_TRANSFER_CHUNKED =>
    { conn with priv := { conn.priv with flags :=
        { conn.priv.flags with HFL_CHUNKED := true, HFL_NOCONNECTIONSTR := false } } }
  | .HTTPD_TRANSFER_NONE =>
    { conn with priv := { conn.priv with flags :=
        { conn.priv.flags with HFL_CHUNKED := false, HFL_NOCONNECTIONSTR := true } } }

/-- The text `httpdStartResponse` formats (it is taken to fit its 256-byte
buffer): `HTTP/1.x code OK`, the `Server:` line and the connection line. -/
def responseHead (env : HttpdEnv) (flags : Flags) (code : Nat) : List Nat :=
  [72, 84, 84, 80, 47, 49, 46] ++ [if flags.HFL_HTTP11 then 49 else 48] ++ [32] ++
    decimal code ++
    [32, 79, 75, 13, 10, 83, 101, 114, 118, 101, 114, 58, 32, 101, 115, 112, 45, 104, 116,
      116, 112, 100, 47] ++ env.HTTPDVER ++ [13, 10] ++
    (if flags.HFL_NOCONNECTIONSTR then []
      else if flags.HFL_CHUNKED then
        [84, 114, 97, 110, 115, 102, 101, 114, 45, 69, 110, 99, 111, 100, 105, 110, 103, 58,
          32, 99, 104, 117, 110, 107, 101, 100, 13, 10]
      else
        [67, 111, 110, 110, 101, 99, 116, 105, 111, 110, 58, 32, 99, 108, 111, 115, 101, 13,
          10])

/-- Start the response headers, `httpdStartResponse`. -/
def httpdStartResponse (env : HttpdEnv) (conn : HttpdConnData) (code : Nat) : HttpdConnData :=
  (httpdSend env conn (responseHead env conn.priv.flags code)
    (responseHead env conn.priv.flags code).length).2

/-- Send a http header, `httpdHeader`. -/
def httpdHeader (env : HttpdEnv) (conn : HttpdConnData) (field val : List Nat) :
    HttpdConnData :=
  (httpdSend env (httpdSend env (httpdSend env (httpdSend env conn field (-1)).2
    [58, 32] (-1)).2 val (-1)).2 [13, 10] (-1)).2

/-- Finish the headers, `httpdEndHeaders`. -/
def httpdEndHeaders (env : HttpdEnv) (conn : HttpdConnData) : HttpdConnData :=
  let c := (httpdSend env conn [13, 10] (-1)).2
  { c with priv := { c.priv with flags := { c.priv.flags with HFL_SENDINGBODY := true } } }

/-- The handler `cgiNotFound`, which spits out a 404 error. -/
def cgiNotFound (v : CgiView) : CgiScript :=
  if v.conn = none then .ret .HTTPD_CGI_DONE
  else
    .startResponse 404 (.endHeaders (.send
      [52, 48, 52, 32, 70, 105, 108, 101, 32, 110, 111, 116, 32, 102, 111, 117, 110, 100, 46]
      (-1) (fun _ => .ret .HTTPD_CGI_DONE)))

/-- Run the calls of a handler on the connection. -/
def runCgi (env : HttpdEnv) : CgiScript → HttpdConnData × World →
    CgiStatus × (HttpdConnData × World)
  | .ret r, s => (r, s)
  | .send data len k, s =>
    runCgi env (k (httpdSend env s.1 data len).1)
      ((httpdSend env s.1 data len).2,
        s.2.log (.cgiSend (memRead data (if len < 0 then (strlen data : Int) else len).toNat)
          (httpdSend env s.1 data len).1))
  | .startResponse code k, s => runCgi env k (httpdStartResponse env s.1 code, s.2)
  | .header field val k, s => runCgi env k (httpdHeader env s.1 field val, s.2)
  | .endHeaders k, s => runCgi env k (httpdEndHeaders env s.1, s.2.log .cgiEndHeaders)
  | .setTransferMode mode k, s => runCgi env k (httpdSetTransferMode s.1 mode, s.2)
  | .setCgiData v k, s => runCgi env k ({ s.1 with cgiData := v }, s.2)
  | .setRecvHdl h k, s => runCgi env k ({ s.1 with recvHdl := h }, s.2)

/-- The code behind a handler function pointer. -/
def cgiScript (env : HttpdEnv) (fn : CgiFn) (v : CgiView) : CgiScript :=
  match fn with
  | .cgiNotFound => cgiNotFound v
  | .user id => env.cgiFns id v

/-- The call `fn(conn)` of a handler. -/
def callCgi (env : HttpdEnv) (fn : CgiFn) (s : HttpdConnData × World) :
    CgiStatus × (HttpdConnData × World) :=
  let r := runCgi env (cgiScript env fn (cgiView s.1)) (s.1, s.2.log (.cgiCall fn s.1.post))
  (r.1, (r.2.1, r.2.2.log (.cgiReturn fn r.1)))

/-- The chunk fix-up at the start of `httpdFlushSendBuffer`, for a chunk
header at offset `h`. -/
def fixChunkHdr (env : HttpdEnv) (conn : HttpdConnData) (h : Nat) : HttpdConnData :=
  let c := (httpdSend env conn [13, 10] 2).2
  let len : Int := (c.priv.sendBuffLen - h) - 8
  { c with priv := { c.priv with
      sendBuff :=
        (((c.priv.sendBuff.set h (httpdHexNibble (len >>> 12))).set (h + 1)
          (httpdHexNibble (len >>> 8))).set (h + 2)
          (httpdHexNibble (len >>> 4))).set (h + 3) (httpdHexNibble (len >>> 0)),
      chunkHdr := none } }

/-- The first two steps of `httpdFlushSendBuffer`: fix up an open chunk, and
add the NULL chunk when a chunked body is finished. -/
def closeChunks (env : HttpdEnv) (conn : HttpdConnData) : HttpdConnData :=
  let conn1 :=
    match conn.priv.chunkHdr with
    | none => conn
    | some h => fixChunkHdr env conn h
  if conn1.priv.flags.HFL_CHUNKED = true ∧ conn1.priv.flags.HFL_SENDINGBODY = true ∧
      conn1.cgi = none then
    { conn1 with priv := { conn1.priv with
        sendBuff := conn1.priv.sendBuff ++ [48, 13, 10, 13, 10] } }
  else conn1

/-- Send what is in the send buffer, `httpdFlushSendBuffer`. -/
def httpdFlushSendBuffer (env : HttpdEnv) (s : HttpdConnData × World) :
    HttpdConnData × World :=
  if s.1.conn = none then s
  else
    let conn := closeChunks env s.1
    if conn.priv.sendBuffLen ≠ 0 then
      let rw := httpdPlatSendData s.2 conn.conn conn.priv.sendBuff
      if rw.1 = false then
        if conn.priv.sendBacklogSize + conn.priv.sendBuffLen > env.HTTPD_MAX_BACKLOG_SIZE then
          ({ conn with priv := { conn.priv with sendBuff := [] } }, rw.2)
        else if (platMalloc rw.2).1 = false then (conn, (platMalloc rw.2).2)
        else
          ({ conn with priv := { conn.priv with
              sendBacklog := conn.priv.sendBacklog ++
                [{ len := conn.priv.sendBuffLen, data := conn.priv.sendBuff }],
              sendBacklogSize := conn.priv.sendBacklogSize + conn.priv.sendBuffLen,
              sendBuff := [] } }, (platMalloc rw.2).2)
      else ({ conn with priv := { conn.priv with sendBuff := [] } }, rw.2)
    else (conn, s.2)

/-- A handler is finished, `httpdCgiIsDone`. -/
def httpdCgiIsDone (env : HttpdEnv) (s : HttpdConnData × World) : HttpdConnData × World :=
  if s.1.priv.flags.HFL_CHUNKED = true then
    let f := httpdFlushSendBuffer env ({ s.1 with cgi := none }, s.2)
    ({ f.1 with
        priv := { f.1.priv with headPos := 0, flags := Flags.zero },
        post := { f.1.post with len := -1, buff := none, buffLen := 0, received := 0 },
        hostName := none }, f.2)
  else
    ({ s.1 with
        cgi := none,
        priv := { s.1.priv with flags := { s.1.priv.flags with HFL_DISCONAFTERSENT := true } } },
      s.2)

/-! ## Request handling -/

/-- A route table entry, `HttpdBuiltInUrl`; the table is the list of entries
before the terminating entry with a `NULL` url. -/
structure HttpdBuiltInUrl where
  url : List Nat
  cgiCb : CgiFn
  cgiArg : Nat
  cgiArg2 : Nat
  deriving DecidableEq, Repr

/-- The match test of `httpdProcessRequest`: a literal match, or a route
ending in `*` whose bytes before it start the url. -/
def routeMatch (route url : List Nat) : Bool :=
  strcmpEq route url ||
    (route.getD (strlen route - 1) 0 == 42 && strncmpEq route url (strlen route - 1))

/-- The inner loop of `httpdProcessRequest`: the index, from `i` on, of the
first entry of the table that matches, or of the terminating entry. -/
def findUrl (url : List Nat) : List HttpdBuiltInUrl → Nat → Nat
  | [], i => i
  | r :: rest, i => if routeMatch r.url url = true then i else findUrl url rest (i + 1)

/-- The handler `httpdProcessRequest` installs once the table scan stands at
index `i1`: that of the entry there, or `cgiNotFound` at the end of the table. -/
def installCgi (urls : List HttpdBuiltInUrl) (i1 : Nat) (conn : HttpdConnData) :
    CgiFn × HttpdConnData :=
  match urls.get? i1 with
  | some r =>
    (r.cgiCb,
      { conn with cgiData := 0, cgi := some r.cgiCb, cgiArg := r.cgiArg, cgiArg2 := r.cgiArg2 })
  | none => (.cgiNotFound, { conn with cgi := some .cgiNotFound })

/-- The outer loop `while (1)` of `httpdProcessRequest`, entered with index
`i`.  The first argument bounds the iterations; `none` is returned when it
runs out. -/
def httpdProcessRequestLoop (env : HttpdEnv) (urls : List HttpdBuiltInUrl) :
    Nat → Nat → HttpdConnData × World → Option (HttpdConnData × World)
  | 0, _, _ => none
  | n + 1, i, s =>
    let i1 := findUrl (s.1.priv.head.drop (s.1.url.getD 0)) (urls.drop i) i
    let r := callCgi env (installCgi urls i1 s.1).1 ((installCgi urls i1 s.1).2, s.2)
    match r.1 with
    | .HTTPD_CGI_MORE =>
      some (httpdFlushSendBuffer env
        (r.2.1, if r.2.1.recvHdl ≠ none then r.2.2.log (.platDisableTimeout r.2.1.conn)
          else r.2.2))
    | .HTTPD_CGI_DONE => some (httpdCgiIsDone env r.2)
    | _ => httpdProcessRequestLoop env urls n (i1 + 1) r.2

/-- Find the handler for a request and call it, `httpdProcessRequest`. -/
def httpdProcessRequest (env : HttpdEnv) (urls : List HttpdBuiltInUrl)
    (s : HttpdConnData × World) : Option (HttpdConnData × World) :=
  if s.1.url = none then some s
  else httpdProcessRequestLoop env urls (urls.length + 2) 0 s

/-- The part of `httpdParseHeader` for a request line (`firstLine` set), for
the line at offset `h` of the head. -/
def parseRequestLine (h : Nat) (conn : HttpdConnData) : HttpdConnData :=
  let url := h + ((conn.priv.head.drop h).takeWhile (fun c => c != 32)).length + 1
  match strstr (conn.priv.head.drop url) [32] with
  | none => { conn with url := some url }
  | some k =>
    let head1 := conn.priv.head.set (url + k) 0
    let e := url + k + 1 + skipSpaces (head1.drop (url + k + 1))
    let flags1 : Flags :=
      if strcasecmpEq (head1.drop e) [72, 84, 84, 80, 47, 49, 46, 49] = true then
        { conn.priv.flags with HFL_HTTP11 := true, HFL_CHUNKED := true }
      else conn.priv.flags
    match strstr (head1.drop url) [63] with
    | some q =>
      { conn with
        url := some url,
        getArgs := some (url + q + 1),
        priv := { conn.priv with head := head1.set (url + q) 0, flags := flags1 } }
    | none =>
      { conn with
        url := some url,
        getArgs := none,
        priv := { conn.priv with head := head1, flags := flags1 } }

/-- The part of `httpdParseHeader` for a `Content-Length:` line at offset `h`.
A request for a negative number of bytes is taken to fail in `malloc`. -/
def parseContentLength (env : HttpdEnv) (h : Nat) (s : HttpdConnData × World) :
    HttpdConnData × World :=
  let line := s.1.priv.head.drop h
  let len : Int := atoi (line.drop (15 + skipSpaces (line.drop 15)))
  let buffSize : Int := if len > env.HTTPD_MAX_POST_LEN then env.HTTPD_MAX_POST_LEN else len
  if buffSize + 1 < 0 then
    ({ s.1 with post := { s.1.post with len := len, buffSize := buffSize, buff := none } }, s.2)
  else if (platMalloc s.2).1 = false then
    ({ s.1 with post := { s.1.post with len := len, buffSize := buffSize, buff := none } },
      (platMalloc s.2).2)
  else
    ({ s.1 with post := { s.1.post with
        len := len, buffSize := buffSize,
        buff := some (List.replicate (buffSize + 1).toNat 0), buffLen := 0 } },
      (platMalloc s.2).2)

/-- The part of `httpdParseHeader` for a `Content-Type: ` line at offset `h`. -/
def parseContentType (h : Nat) (conn : HttpdConnData) : HttpdConnData :=
  let line := conn.priv.head.drop h
  if strstr line [109, 117, 108, 116, 105, 112, 97, 114, 116, 47, 102, 111, 114, 109, 45,
      100, 97, 116, 97] ≠ none then
    match strstr line [98, 111, 117, 110, 100, 97, 114, 121, 61] with
    | some b =>
      { conn with
        post := { conn.post with multipartBoundary := some (h + b + 7) },
        priv := { conn.priv with head := (conn.priv.head.set (h + b + 7) 45).set (h + b + 8) 45 } }
    | none => conn
  else conn

/-- Parse a line of header data, `httpdParseHeader`, for the line at offset
`h` of the head. -/
def httpdParseHeader (env : HttpdEnv) (h : Nat) (s : HttpdConnData × World) :
    HttpdConnData × World :=
  let line := s.1.priv.head.drop h
  if strncmpEq line [71, 69, 84, 32] 4 = true then
    (parseRequestLine h { s.1 with requestType := some .HTTPD_METHOD_GET }, s.2)
  else if strncasecmpEq line [72, 111, 115, 116, 58] 5 = true then
    ({ s.1 with hostName := some (h + 5 + skipSpaces (line.drop 5)) }, s.2)
  else if strncmpEq line [80, 79, 83, 84, 32] 5 = true then
    (parseRequestLine h { s.1 with requestType := some .HTTPD_METHOD_POST }, s.2)
  else if strncmpEq line [79, 80, 84, 73, 79, 78, 83, 32] 8 = true then
    (parseRequestLine h { s.1 with requestType := some .HTTPD_METHOD_OPTIONS }, s.2)
  else if strncmpEq line [80, 85, 84, 32] 4 = true then
    (parseRequestLine h { s.1 with requestType := some .HTTPD_METHOD_PUT }, s.2)
  else if strncmpEq line [80, 65, 84, 67, 72, 32] 6 = true then
    (parseRequestLine h { s.1 with requestType := some .HTTPD_METHOD_PATCH }, s.2)
  else if strncmpEq line [68, 69, 76, 69, 84, 69, 32] 7 = true then
    (parseRequestLine h { s.1 with requestType := some .HTTPD_METHOD_DELETE }, s.2)
  else if strncasecmpEq line [67, 111, 110, 110, 101, 99, 116, 105, 111, 110, 58] 11 = true then
    if strncmpEq (line.drop (11 + skipSpaces (line.drop 11))) [99, 108, 111, 115, 101] 5 = true
    then
      ({ s.1 with priv := { s.1.priv with
          flags := { s.1.priv.flags with HFL_CHUNKED := false } } }, s.2)
    else s
  else if strncasecmpEq line
      [67, 111, 110, 116, 101, 110, 116, 45, 76, 101, 110, 103, 116, 104, 58] 15 = true then
    parseContentLength env h s
  else if strncasecmpEq line
      [67, 111, 110, 116, 101, 110, 116, 45, 84, 121, 112, 101, 58, 32] 14 = true then
    (parseContentType h s.1, s.2)
  else s

/-- The loop of `httpdRecvCb` over the received header lines, with `p` the
offset of the next line.  The first argument bounds the iterations; `none` is
returned when it runs out. -/
def parseHeaders (env : HttpdEnv) : Nat → Nat → HttpdConnData × World →
    Option (HttpdConnData × World)
  | 0, _, _ => none
  | n + 1, p, s =>
    if (p : Int) < (s.1.priv.headPos : Int) - 4 then
      match strstr (s.1.priv.head.drop p) [13, 10] with
      | none => some s
      | some k =>
        parseHeaders env n (p + k + 2)
          (httpdParseHeader env p
            ({ s.1 with priv := { s.1.priv with head := s.1.priv.head.set (p + k) 0 } }, s.2))
    else some s

/-- The head after a header byte `b` is stored by `httpdRecvCb`: a CR is faked
in front of a lone LF, the byte is kept while there is room, and the head is
NUL-terminated.  The definition follows the code while `headPos` stays below
`HTTPD_MAX_HEAD_LEN`: with `headPos` at `HTTPD_MAX_HEAD_LEN`, after a faked CR
stored without a test for room, `head[headPos]=0` writes behind the array in
C, and here it leaves the buffer as it is. -/
def storeHeadByte (env : HttpdEnv) (priv : HttpdPriv) (b : Nat) : HttpdPriv :=
  let priv1 : HttpdPriv :=
    if b = 10 ∧ priv.headPos ≠ 0 ∧ priv.head.getD (priv.headPos - 1) 0 ≠ 13 then
      { priv with head := priv.head.set priv.headPos 13, headPos := priv.headPos + 1 }
    else priv
  let priv2 : HttpdPriv :=
    if (priv1.headPos : Int) < (env.HTTPD_MAX_HEAD_LEN : Int) - 1 then
      { priv1 with head := priv1.head.set priv1.headPos b, headPos := priv1.headPos + 1 }
    else priv1
  { priv2 with head := priv2.head.set priv2.headPos 0 }

/-- A call `recvHdl(pInstance, conn, data, len)` of a receive handler. -/
def callRecvHdl (env : HttpdEnv) (id : Nat) (data : List Nat) (s : HttpdConnData × World) :
    CgiStatus × (HttpdConnData × World) :=
  let r := runCgi env (env.recvHdls id (cgiView s.1) data) (s.1, s.2.log (.recvHdlCall id data))
  (r.1, (r.2.1, r.2.2.log (.recvHdlReturn id r.1)))

/-- What `httpdRecvCb` does once the end of the headers is seen: the post
length and url are reset, the header lines are parsed, and a request without
post data is processed at once. -/
def headersDone (env : HttpdEnv) (urls : List HttpdBuiltInUrl) (s : HttpdConnData × World) :
    Option (HttpdConnData × World) :=
  match parseHeaders env (s.1.priv.headPos + 1) 0
      ({ s.1 with post := { s.1.post with len := 0 }, url := none }, s.2) with
  | none => none
  | some s2 => if s2.1.post.len = 0 then httpdProcessRequest env urls s2 else some s2

/-- One pass of the loop of `httpdRecvCb` for a header byte `b`
(`conn->post->len<0`). -/
def recvHeadByte (env : HttpdEnv) (urls : List HttpdBuiltInUrl) (b : Nat)
    (s : HttpdConnData × World) : Option (HttpdConnData × World) :=
  if b = 10 ∧ strstr (storeHeadByte env s.1.priv b).head [13, 10, 13, 10] ≠ none then
    headersDone env urls ({ s.1 with priv := storeHeadByte env s.1.priv b }, s.2)
  else some ({ s.1 with priv := storeHeadByte env s.1.priv b }, s.2)

/-- A POST byte `b` is stored: the first three statements of the POST branch
of `httpdRecvCb`.  The code stores through `post->buff` whatever it holds.
With `buff` at `NULL`, after a failed `malloc` in `httpdParseHeader`, that
store has no defined behaviour in C; here the byte is dropped, so the
definition follows the code only where there is a post buffer
(`postBuffInv`). -/
def storePostByte (conn : HttpdConnData) (b : Nat) : HttpdConnData :=
  { conn with
    post := { conn.post with
      buff := conn.post.buff.map (fun m => m.set conn.post.buffLen b),
      buffLen := conn.post.buffLen + 1,
      received := conn.post.received + 1 },
    hostName := none }

/-- The test `buffLen >= buffSize || received == len` for a chunk of post
data. -/
def postChunkReady (conn : HttpdConnData) : Prop :=
  (conn.post.buffLen : Int) ≥ conn.post.buffSize ∨ (conn.post.received : Int) = conn.post.len

instance (conn : HttpdConnData) : Decidable (postChunkReady conn) := by
  unfold postChunkReady
  infer_instance

/-- The post buffer is zero-terminated, `buff[buffLen]=0`. -/
def terminatePostChunk (conn : HttpdConnData) : HttpdConnData :=
  { conn with post := { conn.post with
      buff := conn.post.buff.map (fun m => m.set conn.post.buffLen 0) } }

/-- A received chunk of post data is processed: the handler of the connection
is called, or `httpdProcessRequest` chooses one when none is set yet. -/
def passPostChunk (env : HttpdEnv) (urls : List HttpdBuiltInUrl) (s : HttpdConnData × World) :
    Option (HttpdConnData × World) :=
  match s.1.cgi with
  | some fn =>
    if (callCgi env fn s).1 = .HTTPD_CGI_DONE then some (httpdCgiIsDone env (callCgi env fn s).2)
    else some (callCgi env fn s).2
  | none => httpdProcessRequest env urls s

/-- The statement `conn->post->buffLen = 0`. -/
def clearBuffLen (s : HttpdConnData × World) : HttpdConnData × World :=
  ({ s.1 with post := { s.1.post with buffLen := 0 } }, s.2)

/-- One pass of the loop of `httpdRecvCb` for a POST byte `b`
(`conn->post->len>0`). -/
def recvPostByte (env : HttpdEnv) (urls : List HttpdBuiltInUrl) (b : Nat)
    (s : HttpdConnData × World) : Option (HttpdConnData × World) :=
  if postChunkReady (storePostByte s.1 b) then
    match passPostChunk env urls (terminatePostChunk (storePostByte s.1 b), s.2) with
    | none => none
    | some s4 => some (clearBuffLen s4)
  else some (storePostByte s.1 b, s.2)

/-- The receive handler gets the data from the current byte on, and the loop
of `httpdRecvCb` is left. -/
def recvHdlData (env : HttpdEnv) (id : Nat) (data : List Nat) (s : HttpdConnData × World) :
    HttpdConnData × World :=
  if (callRecvHdl env id data s).1 = .HTTPD_CGI_DONE then
    httpdCgiIsDone env (callRecvHdl env id data s).2
  else (callRecvHdl env id data s).2

/-- The loop `for (x=0; x<len; x++)` of `httpdRecvCb` over the bytes still to
be handled. -/
def httpdRecvLoop (env : HttpdEnv) (urls : List HttpdBuiltInUrl) :
    List Nat → HttpdConnData × World → Option (HttpdConnData × World)
  | [], s => some s
  | b :: rest, s =>
    if s.1.post.len < 0 then
      match recvHeadByte env urls b s with
      | none => none
      | some s1 => httpdRecvLoop env urls rest s1
    else if s.1.post.len ≠ 0 then
      match recvPostByte env urls b s with
      | none => none
      | some s1 => httpdRecvLoop env urls rest s1
    else
      match s.1.recvHdl with
      | some id => some (recvHdlData env id (b :: rest) s)
      | none => httpdRecvLoop env urls rest s

/-- The body of `httpdRecvCb` once the connection is found: `rconn` is the
transport handle `httpdFindConnData` has stored, `data` the `len` bytes
received. -/
def recvCbConn (env : HttpdEnv) (urls : List HttpdBuiltInUrl) (rconn : Option Nat)
    (data : List Nat) (s : HttpdConnData × World) : Option (HttpdConnData × World) :=
  if (platMalloc s.2).1 = false then
    some ({ s.1 with conn := rconn }, (platMalloc s.2).2.log .platUnlock)
  else
    match httpdRecvLoop env urls data
        ({ s.1 with conn := rconn, priv := { s.1.priv with sendBuff := [] } },
          (platMalloc s.2).2) with
    | none => none
    | some s1 =>
      let s2 := if s1.1.conn ≠ none then httpdFlushSendBuffer env s1 else s1
      some (s2.1, s2.2.log .platUnlock)

/-- The body of `httpdContinue` for a connection that is not `NULL`, after the
lock is taken. -/
def continueConn (env : HttpdEnv) (s : HttpdConnData × World) : HttpdConnData × World :=
  match s.1.priv.sendBacklog with
  | item :: next =>
    ({ s.1 with priv := { s.1.priv with
        sendBacklogSize := s.1.priv.sendBacklogSize - item.len,
        sendBacklog := next } },
      (httpdPlatSendData s.2 s.1.conn (memRead item.data item.len.toNat)).2.log .platUnlock)
  | [] =>
    if s.1.priv.flags.HFL_DISCONAFTERSENT = true then
      (s.1, (s.2.log (.platDisconnect s.1.conn)).log .platUnlock)
    else
      match s.1.cgi with
      | none => (s.1, s.2.log .platUnlock)
      | some fn =>
        if (platMalloc s.2).1 = false then (s.1, (platMalloc s.2).2.log .platUnlock)
        else
          let r := callCgi env fn
            ({ s.1 with priv := { s.1.priv with sendBuff := [] } }, (platMalloc s.2).2)
          let s1 := if r.1 = .HTTPD_CGI_DONE then httpdCgiIsDone env r.2 else r.2
          let s2 :=
            if r.1 = .HTTPD_CGI_NOTFOUND ∨ r.1 = .HTTPD_CGI_AUTHENTICATED then
              httpdCgiIsDone env s1
            else s1
          let s3 := httpdFlushSendBuffer env s2
          (s3.1, s3.2.log .platUnlock)

/-- Resume a connection, `httpdContinue`; `conn = none` is `NULL`. -/
def httpdContinue (env : HttpdEnv) (conn : Option HttpdConnData) (w : World) :
    Option HttpdConnData × World :=
  match conn with
  | none => (none, w.log .platLock)
  | some c =>
    let s := continueConn env (c, w.log .platLock)
    (some s.1, s.2)

/-- A server instance, `HttpdInstance`: the route table and the connection
slots, `none` for an empty slot. -/
structure HttpdInstance where
  builtInUrls : List HttpdBuiltInUrl
  connData : List (Option HttpdConnData)
  deriving DecidableEq, Repr

/-- The scan of `httpdFindConnData` over the slots from index `i` on. -/
def findConnIdx (remIp : List Nat) (remPort : Int) : List (Option HttpdConnData) → Nat →
    Option Nat
  | [], _ => none
  | c :: cs, i =>
    match c with
    | some d =>
      if d.remote_port = remPort ∧ d.remote_ip.take 4 = remIp.take 4 then some i
      else findConnIdx remIp remPort cs (i + 1)
    | none => findConnIdx remIp remPort cs (i + 1)

/-- Look up the connection of an event, `httpdFindConnData`: the slot found,
with the transport handle stored in it, or `none` after the transport of the
event is disconnected. -/
def httpdFindConnData (inst : HttpdInstance) (w : World) (conn : Option Nat)
    (remIp : List Nat) (remPort : Int) : Option (Nat × HttpdConnData) × World :=
  match findConnIdx remIp remPort inst.connData 0 with
  | some i =>
    match inst.connData.getD i none with
    | some d => (some (i, { d with conn := conn }), w)
    | none => (none, w.log (.platDisconnect conn))
  | none => (none, w.log (.platDisconnect conn))

/-- Callback for received data, `httpdRecvCb`. -/
def httpdRecvCb (env : HttpdEnv) (inst : HttpdInstance) (w : World) (rconn : Option Nat)
    (remIp : List Nat) (remPort : Int) (data : List Nat) : Option (HttpdInstance × World) :=
  match httpdFindConnData inst (w.log .platLock) rconn remIp remPort with
  | (none, w1) => some (inst, w1.log .platUnlock)
  | (some (i, c), w1) =>
    match recvCbConn env inst.builtInUrls rconn data (c, w1) with
    | none => none
    | some s => some ({ inst with connData := inst.connData.set i (some s.1) }, s.2)

/-- Callback for sent data, `httpdSentCb`. -/
def httpdSentCb (env : HttpdEnv) (inst : HttpdInstance) (w : World) (rconn : Option Nat)
    (remIp : List Nat) (remPort : Int) : HttpdInstance × World :=
  match httpdFindConnData inst w rconn remIp remPort with
  | (none, w1) => (inst, (httpdContinue env none w1).2)
  | (some (i, c), w1) =>
    match httpdContinue env (some c) w1 with
    | (some c1, w2) => ({ inst with connData := inst.connData.set i (some c1) }, w2)
    | (none, w2) => (inst, w2)

/-- The connection `httpdConnectCb` sets up for transport `conn` in slot `i`. -/
def newConn (env : HttpdEnv) (conn : Option Nat) (remIp : List Nat) (remPort : Int) (i : Nat) :
    HttpdConnData :=
  { conn := conn, requestType := none, url := none, getArgs := none, cgiArg := 0,
    cgiArg2 := 0, cgiData := 0, hostName := none,
    priv := { head := List.replicate env.HTTPD_MAX_HEAD_LEN 0, headPos := 0, sendBuff := [],
              chunkHdr := none, sendBacklog := [], sendBacklogSize := 0, flags := Flags.zero },
    cgi := none, recvHdl := none,
    post := { len := -1, buffSize := 0, buffLen := 0, received := 0, buff := none,
              multipartBoundary := none },
    remote_port := remPort, remote_ip := remIp.take 4, slot := i }

/-! ## Reading the record of events -/

/-- The handler calls of a record: which function returned which code. -/
def cgiReturns (t : List Event) : List (CgiFn × CgiStatus) :=
  t.filterMap (fun e =>
    match e with
    | .cgiReturn fn r => some (fn, r)
    | _ => none)

/-- The handler calls of a record: which function was called and the POST
state it was shown. -/
def cgiCalls (t : List Event) : List (CgiFn × HttpdPostData) :=
  t.filterMap (fun e =>
    match e with
    | .cgiCall fn post => some (fn, post)
    | _ => none)

/-- The bytes handed to the transport in a record, accepted or not. -/
def sentBytes (t : List Event) : List Nat :=
  (t.filterMap (fun e =>
    match e with
    | .platSendData _ buff _ => some buff
    | _ => none)).flatten

/-- The parts of a connection no call made by a handler changes. -/
def cgiFrame (c : HttpdConnData) :
    Option Nat × Option RequestTypes × Option Nat × Option Nat × Nat × Nat × Option Nat ×
      List Nat × Nat × List HttpSendBacklogItem × Int × Bool × Bool × Option CgiFn ×
      HttpdPostData × Int × List Nat × Nat :=
  (c.conn, c.requestType, c.url, c.getArgs, c.cgiArg, c.cgiArg2, c.hostName, c.priv.head,
    c.priv.headPos, c.priv.sendBacklog, c.priv.sendBacklogSize, c.priv.flags.HFL_HTTP11,
    c.priv.flags.HFL_DISCONAFTERSENT, c.cgi, c.post, c.remote_port, c.remote_ip, c.slot)

/-- The search of `httpdProcessRequest` over the entries `ms` that match the
url, read off the handler calls `calls` it made: every call but the last is
the next matching entry declining, the last is a matching entry answering DONE
or MORE, or `cgiNotFound` answering DONE after all matching entries. -/
def resolves : List HttpdBuiltInUrl → List (CgiFn × CgiStatus) → Bool
  | [], calls => calls == [(CgiFn.cgiNotFound, CgiStatus.HTTPD_CGI_DONE)]
  | _ :: _, [] => false
  | r :: ms, (fn, st) :: rest =>
    fn == r.cgiCb &&
      (((st == .HTTPD_CGI_DONE || st == .HTTPD_CGI_MORE) && rest == []) ||
        ((st == .HTTPD_CGI_NOTFOUND || st == .HTTPD_CGI_AUTHENTICATED) && resolves ms rest))

/-- The match rule of the route table on strings: the pattern is the url, or
it ends in `*` and the bytes before the `*` start the url. -/
def routeMatches (pattern url : List Nat) : Bool :=
  pattern == url || (pattern.getLast? == some 42 && pattern.dropLast.isPrefixOf url)

/-- Events a handler records through the calls it makes. -/
def Event.isApi : Event → Bool
  | .cgiSend _ _ => true
  | .cgiEndHeaders => true
  | _ => false

/-- Events of the transport. -/
def Event.isPlat : Event → Bool
  | .platSendData _ _ _ => true
  | .platDisconnect _ => true
  | .platDisableTimeout _ => true
  | _ => false

/-- The bytes of a method name as they stand in a request line. -/
def methodBytes : RequestTypes → List Nat
  | .HTTPD_METHOD_GET => [71, 69, 84]
  | .HTTPD_METHOD_POST => [80, 79, 83, 84]
  | .HTTPD_METHOD_OPTIONS => [79, 80, 84, 73, 79, 78, 83]
  | .HTTPD_METHOD_PUT => [80, 85, 84]
  | .HTTPD_METHOD_PATCH => [80, 65, 84, 67, 72]
  | .HTTPD_METHOD_DELETE => [68, 69, 76, 69, 84, 69]

/-- The request line `M SP target SP version`. -/
def requestLine (m : RequestTypes) (target version : List Nat) : List Nat :=
  methodBytes m ++ 32 :: (target ++ 32 :: version)

/-- The C string a connection holds at offset `p` of its head. -/
def headStr (c : HttpdConnData) (p : Nat) : List Nat :=
  cstr (c.priv.head.drop p)

/-- A small build of the server for the worked examples: no handlers of the
application are involved. -/
def idleEnv : HttpdEnv :=
  { HTTPD_MAX_CONNECTIONS := 2, HTTPD_MAX_HEAD_LEN := 64, HTTPD_MAX_SENDBUFF_LEN := 128,
    HTTPD_MAX_POST_LEN := 8, HTTPD_MAX_BACKLOG_SIZE := 256, HTTPDVER := [48, 46, 52],
    cgiFns := fun _ _ => .ret .HTTPD_CGI_NOTFOUND,
    recvHdls := fun _ _ _ => .ret .HTTPD_CGI_DONE }

/-- A fresh connection whose head buffer holds `head`. -/
def connWithHead (env : HttpdEnv) (head : List Nat) : HttpdConnData :=
  { newConn env (some 1) [10, 0, 0, 1] 80 0 with
    priv := { (newConn env (some 1) [10, 0, 0, 1] 80 0).priv with head := head } }

/-- The platform before anything has happened. -/
def World.start : World :=
  { sendOk := [], mallocOk := [], trace := [] }

/-- A connection whose request has been parsed with URL `url`. -/
def connWithUrl (env : HttpdEnv) (url : List Nat) : HttpdConnData :=
  { connWithHead env (url ++ [0]) with url := some 0 }

/-- The route table of the prefix-route example: `/api/*` for handler 1, then
`/*` for handler 2. -/
def apiRoutes : List HttpdBuiltInUrl :=
  [{ url := [47, 97, 112, 105, 47, 42], cgiCb := .user 1, cgiArg := 0, cgiArg2 := 0 },
   { url := [47, 42], cgiCb := .user 2, cgiArg := 0, cgiArg2 := 0 }]

/-- The calls `httpdSend` a handler made in a record, with their results. -/
def cgiSends (t : List Event) : List (List Nat × Int) :=
  t.filterMap (fun e =>
    match e with
    | .cgiSend data r => some (data, r)
    | _ => none)

/-- A build with a send buffer of 128 bytes whose only handler answers in two
cycles: the headers and `AAA` with MORE, then, on resume, `n` bytes `B` in
one `httpdSend` with DONE. -/
def burstEnv (n : Nat) : HttpdEnv :=
  { idleEnv with
    cgiFns := fun _ v =>
      if v.cgiData = 0 then
        .startResponse 200 (.endHeaders (.send [65, 65, 65] (-1)
          (fun _ => .setCgiData 1 (.ret .HTTPD_CGI_MORE))))
      else .send (List.replicate n 66) n (fun _ => .ret .HTTPD_CGI_DONE) }

/-- The route table `/big` for handler 0. -/
def bigRoutes : List HttpdBuiltInUrl :=
  [{ url := [47, 98, 105, 103], cgiCb := .user 0, cgiArg := 0, cgiArg2 := 0 }]

/-- The request `GET /big HTTP/1.1` with an empty header block. -/
def bigRequest : List Nat :=
  requestLine .HTTPD_METHOD_GET [47, 98, 105, 103] [72, 84, 84, 80, 47, 49, 46, 49] ++
    [13, 10, 13, 10]

/-- The bytes the transport gets when the request `bigRequest` is received on
a fresh connection and one sent event follows. -/
def bigTransfer (n : Nat) : Option (List Nat × List (List Nat × Int)) :=
  (recvCbConn (burstEnv n) bigRoutes (some 1) bigRequest
    (newConn (burstEnv n) (some 1) [10, 0, 0, 1] 80 0, World.start)).map
    (fun s => (sentBytes (continueConn (burstEnv n) s).2.trace,
      cgiSends (continueConn (burstEnv n) s).2.trace))

/-- Every way the handler run `sc` can end, whatever the results 0 or 1 its
`httpdSend` calls get, returns a code that satisfies `ok`. -/
def CgiScript.returnsIn (ok : CgiStatus → Bool) : CgiScript → Bool
  | .ret r => ok r
  | .send _ _ k => (k 0).returnsIn ok && (k 1).returnsIn ok
  | .startResponse _ k => k.returnsIn ok
  | .header _ _ k => k.returnsIn ok
  | .endHeaders k => k.returnsIn ok
  | .setTransferMode _ k => k.returnsIn ok
  | .setCgiData _ k => k.returnsIn ok
  | .setRecvHdl _ k => k.returnsIn ok

/-- The pieces of `l` of `size` bytes each, the last one shorter when the
bytes run out; the first argument bounds the number of pieces. -/
def chunksOf (size : Nat) : Nat → List Nat → List (List Nat)
  | 0, _ => []
  | n + 1, l => if l = [] then [] else l.take size :: chunksOf size n (l.drop size)

/-- The handler calls of a record with what each was shown of the post data:
the function, the `buffLen` bytes of `post.buff` and the byte after them. -/
def shownChunks (t : List Event) : List (CgiFn × List Nat × Nat) :=
  (cgiCalls t).map (fun c =>
    (c.1, (c.2.buff.getD []).take c.2.buffLen, (c.2.buff.getD []).getD c.2.buffLen 1))

/-- The state of a connection that reads a post body of `n` bytes in chunks of
`size`: `k` bytes are received, `acc` are those of the chunk in progress, and
the handler is `fn` once one has been chosen. -/
structure PostInv (urls : List HttpdBuiltInUrl) (fn : CgiFn) (n : Int) (size : Nat)
    (acc : List Nat) (k : Nat) (s : HttpdConnData × World) : Prop where
  len : s.1.post.len = n
  buffSize : s.1.post.buffSize = size
  received : s.1.post.received = k
  buffLen : s.1.post.buffLen = acc.length
  buff : ∃ bf, s.1.post.buff = some bf ∧ bf.length = size + 1 ∧ bf.take acc.length = acc
  cgi : s.1.cgi = none ∨ s.1.cgi = some fn
  url : s.1.url ≠ none
  route : (urls.find? (fun r => routeMatch r.url (s.1.priv.head.drop (s.1.url.getD 0)))).map
    (fun r => r.cgiCb) = some fn
  accLt : acc.length < size

/-- A build whose handlers take post data: MORE while the body is incomplete,
then a 200 response and DONE. -/
def formEnv : HttpdEnv :=
  { idleEnv with
    cgiFns := fun _ v =>
      if (v.post.received : Int) < v.post.len then .ret .HTTPD_CGI_MORE
      else .startResponse 200 (.endHeaders (.ret .HTTPD_CGI_DONE)) }

/-- The route table `/form` for handler 0. -/
def formRoutes : List HttpdBuiltInUrl :=
  [{ url := [47, 102, 111, 114, 109], cgiCb := .user 0, cgiArg := 0, cgiArg2 := 0 }]

/-- The header line `Content-Length: 11`. -/
def formLength : List Nat :=
  [67, 111, 110, 116, 101, 110, 116, 45, 76, 101, 110, 103, 116, 104, 58, 32, 49, 49]

/-- The body `name=worldX`. -/
def formBody : List Nat :=
  [110, 97, 109, 101, 61, 119, 111, 114, 108, 100, 88]

/-- A connection that has read the request line for `/form` and stands at the
header line `Content-Length: 11`, at offset 6 of the head. -/
def formConn : HttpdConnData :=
  { connWithHead formEnv ([47, 102, 111, 114, 109, 0] ++ formLength ++ [0]) with
    url := some 0, requestType := some .HTTPD_METHOD_POST }

/-- The request `POST /form HTTP/1.1` with `Content-Length: 11` and the body
`name=worldX`. -/
def formRequest : List Nat :=
  requestLine .HTTPD_METHOD_POST [47, 102, 111, 114, 109] [72, 84, 84, 80, 47, 49, 46, 49] ++
    [13, 10] ++ formLength ++ [13, 10, 13, 10] ++ formBody

/-- Successive calls of `httpdRecvCb` for one connection, one per piece of
data. -/
def recvPieces (env : HttpdEnv) (urls : List HttpdBuiltInUrl) (rconn : Option Nat) :
    List (List Nat) → HttpdConnData × World → Option (HttpdConnData × World)
  | [], s => some s
  | d :: rest, s =>
    match recvCbConn env urls rconn d s with
    | none => none
    | some s1 => recvPieces env urls rconn rest s1

/-- A build whose handlers answer every piece of post data with 70 bytes and
give up, returning DONE, when `httpdSend` does not take them; otherwise they
return MORE until the body is complete. -/
def pickyEnv : HttpdEnv :=
  { idleEnv with
    cgiFns := fun _ v =>
      .send (List.replicate 70 65) 70 (fun r =>
        if r = 0 then .ret .HTTPD_CGI_DONE
        else if (v.post.received : Int) < v.post.len then .ret .HTTPD_CGI_MORE
        else .ret .HTTPD_CGI_DONE) }

/-- The request `POST /form HTTP/1.1` with `Content-Length: 32` and a body of
four times `01234567`. -/
def pickyRequest : List Nat :=
  requestLine .HTTPD_METHOD_POST [47, 102, 111, 114, 109] [72, 84, 84, 80, 47, 49, 46, 49] ++
    [13, 10] ++
    [67, 111, 110, 116, 101, 110, 116, 45, 76, 101, 110, 103, 116, 104, 58, 32, 51, 50] ++
    [13, 10, 13, 10] ++
    [48, 49, 50, 51, 52, 53, 54, 55, 48, 49, 50, 51, 52, 53, 54, 55,
     48, 49, 50, 51, 52, 53, 54, 55, 48, 49, 50, 51, 52, 53, 54, 55]

/-- What is compared between two deliveries of a request: the parsed request
fields, with the strings they point to in the head, and the pieces of post
data the handlers were shown. -/
structure ParsedRequest where
  requestType : Option RequestTypes
  url : Option (List Nat)
  getArgs : Option (List Nat)
  hostName : Option (List Nat)
  chunks : List (CgiFn × List Nat × Nat)
  deriving DecidableEq, Repr

/-- What is left of a delivery for comparison. -/
def parsedRequest (s : HttpdConnData × World) : ParsedRequest :=
  { requestType := s.1.requestType, url := s.1.url.map (headStr s.1),
    getArgs := s.1.getArgs.map (headStr s.1), hostName := s.1.hostName.map (headStr s.1),
    chunks := shownChunks s.2.trace }

/-- One run of a handler that does not look at what `httpdSend` returns and
installs no receive handler: its calls into the server in order, and the code
it returns. -/
inductive PlainScript where
  | ret (r : CgiStatus)
  | send (data : List Nat) (len : Int) (k : PlainScript)
  | startResponse (code : Nat) (k : PlainScript)
  | header (field val : List Nat) (k : PlainScript)
  | endHeaders (k : PlainScript)
  | setTransferMode (mode : TransferModes) (k : PlainScript)
  | setCgiData (v : Nat) (k : PlainScript)

/-- The handler run a plain script stands for. -/
def PlainScript.toScript : PlainScript → CgiScript
  | .ret r => .ret r
  | .send data len k => .send data len (fun _ => k.toScript)
  | .startResponse code k => .startResponse code k.toScript
  | .header field val k => .header field val k.toScript
  | .endHeaders k => .endHeaders k.toScript
  | .setTransferMode mode k => .setTransferMode mode k.toScript
  | .setCgiData v k => .setCgiData v k.toScript

/-- The run of `cgiNotFound` as a plain script. -/
def plainNotFound (v : CgiView) : PlainScript :=
  if v.conn = none then .ret .HTTPD_CGI_DONE
  else
    .startResponse 404 (.endHeaders (.send
      [52, 48, 52, 32, 70, 105, 108, 101, 32, 110, 111, 116, 32, 102, 111, 117, 110, 100, 46]
      (-1) (.ret .HTTPD_CGI_DONE)))

/-- A connection with its output side blanked: the send buffer, the open chunk
header and the backlog. -/
def norm (c : HttpdConnData) : HttpdConnData :=
  { c with priv := { c.priv with
      sendBuff := [], chunkHdr := none, sendBacklog := [], sendBacklogSize := 0 } }

/-- Two states of a connection that differ in the output side and in what the
platform was asked to do only: the other fields and the handler calls on record
agree, allocations succeed, no receive handler is installed, and the transport
handle is `rconn`. -/
structure Sim (rconn : Option Nat) (s t : HttpdConnData × World) : Prop where
  conn : norm s.1 = norm t.1
  calls : cgiCalls s.2.trace = cgiCalls t.2.trace
  mallocL : s.2.mallocOk = []
  mallocR : t.2.mallocOk = []
  recvHdl : s.1.recvHdl = none
  handle : s.1.conn = rconn

/-- Two runs end alike: both out of steps, or in states that are `Sim`. -/
def ORel (rconn : Option Nat) :
    Option (HttpdConnData × World) → Option (HttpdConnData × World) → Prop
  | some a, some b => Sim rconn a b
  | none, none => True
  | _, _ => False

/-- The handlers of `formEnv` as plain scripts. -/
def formPlain (_ : Nat) (v : CgiView) : PlainScript :=
  if (v.post.received : Int) < v.post.len then .ret .HTTPD_CGI_MORE
  else .startResponse 200 (.endHeaders (.ret .HTTPD_CGI_DONE))

/-- A live connection with `hi` in its send buffer, on a transport that
refuses the next send. -/
def refusedFlush : HttpdConnData × World :=
  ({ newConn idleEnv (some 1) [10, 0, 0, 1] 80 0 with
      priv := { (newConn idleEnv (some 1) [10, 0, 0, 1] 80 0).priv with sendBuff := [104, 105] } },
    { sendOk := [false], mallocOk := [], trace := [] })

/-- What the transport is asked to do: send bytes on a handle, or close it. -/
inductive Out where
  | data (conn : Option Nat) (bytes : List Nat)
  | close (conn : Option Nat)
  deriving DecidableEq, Repr

/-- The requests to the transport in a record, in order: the data of each
`httpdPlatSendData`, accepted or not, and each `httpdPlatDisconnect`. -/
def outs (t : List Event) : List Out :=
  t.filterMap (fun e =>
    match e with
    | .platSendData c b _ => some (Out.data c b)
    | .platDisconnect c => some (Out.close c)
    | _ => none)

/-- The bytes `httpdContinue` hands to the transport for a backlog item. -/
def itemBytes (item : HttpSendBacklogItem) : List Nat :=
  memRead item.data item.len.toNat

/-- A number of sent events in a row for one connection: `httpdContinue` that
many times. -/
def sentEvents (env : HttpdEnv) : Nat → HttpdConnData × World → HttpdConnData × World
  | 0, s => s
  | n + 1, s => sentEvents env n (continueConn env (s.1, s.2.log .platLock))

/-- A connection with one item of two bytes, `hi`, in its backlog. -/
def queuedConn : HttpdConnData :=
  { newConn idleEnv (some 1) [10, 0, 0, 1] 80 0 with
    priv := { (newConn idleEnv (some 1) [10, 0, 0, 1] 80 0).priv with
      sendBacklog := [{ len := 2, data := [104, 105] }], sendBacklogSize := 2 } }

/-- A live connection in chunked mode whose handler has ended the headers and
is still installed, with an empty send buffer. -/
def chunkedConn : HttpdConnData :=
  { newConn idleEnv (some 1) [10, 0, 0, 1] 80 0 with
    cgi := some (.user 0),
    priv := { (newConn idleEnv (some 1) [10, 0, 0, 1] 80 0).priv with
      flags := { Flags.zero with HFL_HTTP11 := true, HFL_CHUNKED := true,
                                 HFL_SENDINGBODY := true } } }

/-- The connection `chunkedConn` with handler state: arguments 5 and 6, data
pointer 7 and receive handler 3. -/
def busyConn : HttpdConnData :=
  { chunkedConn with cgiArg := 5, cgiArg2 := 6, cgiData := 7, recvHdl := some 3 }

/-- The connection `busyConn` before its handler has ended the headers, with
`hi` in the send buffer. -/
def earlyConn : HttpdConnData :=
  { busyConn with
    priv := { busyConn.priv with
      sendBuff := [104, 105],
      flags := { Flags.zero with HFL_HTTP11 := true, HFL_CHUNKED := true } } }

/-- A build whose handlers answer with a 200 response and the body `hi`, and
are done. -/
def helloEnv : HttpdEnv :=
  { idleEnv with
    cgiFns := fun _ _ =>
      .startResponse 200 (.endHeaders (.send [104, 105] (-1) (fun _ => .ret .HTTPD_CGI_DONE))) }

/-- The route table `/hello` for handler 0. -/
def helloRoutes : List HttpdBuiltInUrl :=
  [{ url := [47, 104, 101, 108, 108, 111], cgiCb := .user 0, cgiArg := 0, cgiArg2 := 0 }]

/-- The request `GET /hello HTTP/1.0` with an empty header block. -/
def helloRequest : List Nat :=
  requestLine .HTTPD_METHOD_GET [47, 104, 101, 108, 108, 111] [72, 84, 84, 80, 47, 49, 46, 48] ++
    [13, 10, 13, 10]

/-- The connection `queuedConn` marked to be closed once its data is sent. -/
def closingConn : HttpdConnData :=
  { queuedConn with
    priv := { queuedConn.priv with
      flags := { Flags.zero with HFL_DISCONAFTERSENT := true } } }

/-- The backlog of a connection with its byte count. -/
def backlogOf (c : HttpdConnData) : List HttpSendBacklogItem × Int :=
  (c.priv.sendBacklog, c.priv.sendBacklogSize)

/-- A property of connections that looks at the backlog and its byte count
only and that a flush keeps. -/
structure BacklogProp (env : HttpdEnv) (P : HttpdConnData → Prop) : Prop where
  congr : ∀ c d : HttpdConnData, backlogOf d = backlogOf c → P c → P d
  flush : ∀ s : HttpdConnData × World, P s.1 → P (httpdFlushSendBuffer env s).1

/-- Backlog accounting: `sendBacklogSize` is the sum of the `len` fields of the
queued items and at most `HTTPD_MAX_BACKLOG_SIZE`. -/
def backlogOk (env : HttpdEnv) (c : HttpdConnData) : Prop :=
  c.priv.sendBacklogSize = (c.priv.sendBacklog.map (fun it => it.len)).sum ∧
    c.priv.sendBacklogSize ≤ env.HTTPD_MAX_BACKLOG_SIZE

instance (env : HttpdEnv) (c : HttpdConnData) : Decidable (backlogOk env c) := by
  unfold backlogOk
  infer_instance

/-- Backlog accounting, with the lengths of the items not negative. -/
def backlogInv (env : HttpdEnv) (c : HttpdConnData) : Prop :=
  backlogOk env c ∧ ∀ it ∈ c.priv.sendBacklog, 0 ≤ it.len

/-- The events of a connection after its connect: data received, a sent
event, and a flush of the send buffer asked for from outside the callbacks. -/
inductive ConnEvent where
  | recv (data : List Nat)
  | sent
  | flush
  deriving DecidableEq, Repr

/-- The events `evs` in order on a connection with transport handle `rconn`:
`httpdRecvCb`, `httpdContinue` and `httpdFlushSendBuffer`. -/
def connEvents (env : HttpdEnv) (urls : List HttpdBuiltInUrl) (rconn : Option Nat) :
    List ConnEvent → HttpdConnData × World → Option (HttpdConnData × World)
  | [], s => some s
  | .recv data :: evs, s =>
    match recvCbConn env urls rconn data (s.1, s.2.log .platLock) with
    | none => none
    | some s1 => connEvents env urls rconn evs s1
  | .sent :: evs, s => connEvents env urls rconn evs (continueConn env (s.1, s.2.log .platLock))
  | .flush :: evs, s => connEvents env urls rconn evs (httpdFlushSendBuffer env s)

/-- The scan of `httpdConnectCb` for an empty slot, from index `i` on with
`n` slots left to look at: the index of the first empty one, or the index
after the last. -/
def findFreeSlot (slots : List (Option HttpdConnData)) : Nat → Nat → Nat
  | 0, i => i
  | n + 1, i => if slots.getD i none = none then i else findFreeSlot slots n (i + 1)

/-- How a call of `httpdConnectCb` ends.  `returned`: it returns `r`, with
the instance and the platform as given.  `halfBuilt`: the allocation of the
post struct failed; it returns 0, unlocked, and slot `i` points to a
connection that has no post struct.  `nullWrite`: the allocation of the
private struct failed and `memset` writes through the `NULL` pointer. -/
inductive ConnectResult where
  | returned (r : Int) (inst : HttpdInstance) (w : World)
  | halfBuilt (i : Nat) (w : World)
  | nullWrite (w : World)
  deriving DecidableEq, Repr

/-- Callback for a new connection, `httpdConnectCb`. -/
def httpdConnectCb (env : HttpdEnv) (inst : HttpdInstance) (w : World) (conn : Option Nat)
    (remIp : List Nat) (remPort : Int) : ConnectResult :=
  let w1 := w.log .platLock
  let i := findFreeSlot inst.connData env.HTTPD_MAX_CONNECTIONS 0
  if i = env.HTTPD_MAX_CONNECTIONS then .returned 0 inst (w1.log .platUnlock)
  else if (platMalloc w1).1 = false then
    .returned 0 { inst with connData := inst.connData.set i none }
      ((platMalloc w1).2.log .platUnlock)
  else if (platMalloc (platMalloc w1).2).1 = false then
    .nullWrite (platMalloc (platMalloc w1).2).2
  else if (platMalloc (platMalloc (platMalloc w1).2).2).1 = false then
    .halfBuilt i ((platMalloc (platMalloc (platMalloc w1).2).2).2.log .platUnlock)
  else
    .returned 1
      { inst with connData := inst.connData.set i (some (newConn env conn remIp remPort i)) }
      ((platMalloc (platMalloc (platMalloc w1).2).2).2.log .platUnlock)

/-- Retire a connection, `httpdRetireConn`, for the connection of slot `i`:
its memory is freed and the slot that points to it is cleared. -/
def httpdRetireConn (inst : HttpdInstance) (i : Nat) : HttpdInstance :=
  { inst with connData := inst.connData.set i none }

/-- Callback for a closed connection, `httpdDisconCb`: the handler, if one is
installed, is called once with the transport handle cleared, and the
connection is retired. -/
def httpdDisconCb (env : HttpdEnv) (inst : HttpdInstance) (w : World) (rconn : Option Nat)
    (remIp : List Nat) (remPort : Int) : HttpdInstance × World :=
  match httpdFindConnData inst (w.log .platLock) rconn remIp remPort with
  | (none, w1) => (inst, w1.log .platUnlock)
  | (some (i, c), w1) =>
    match c.cgi with
    | some fn =>
      (httpdRetireConn inst i, (callCgi env fn ({ c with conn := none }, w1)).2.2.log .platUnlock)
    | none => (httpdRetireConn inst i, w1.log .platUnlock)

/-- Number of slots that hold a connection. -/
def liveSlots (slots : List (Option HttpdConnData)) : Nat :=
  (slots.filter (fun c => c.isSome)).length

/-- The test of `httpdFindConnData` on a stored connection. -/
def connMatches (remIp : List Nat) (remPort : Int) (d : HttpdConnData) : Prop :=
  d.remote_port = remPort ∧ d.remote_ip.take 4 = remIp.take 4

instance (remIp : List Nat) (remPort : Int) (d : HttpdConnData) :
    Decidable (connMatches remIp remPort d) := by
  unfold connMatches
  infer_instance

/-- Locks taken and not given back in a record of events. -/
def locksHeld (t : List Event) : Int :=
  (t.filter (fun e => e == .platLock)).length - (t.filter (fun e => e == .platUnlock)).length

/-- An instance with `HTTPD_MAX_CONNECTIONS` empty slots. -/
def emptyInstance (env : HttpdEnv) (urls : List HttpdBuiltInUrl) : HttpdInstance :=
  { builtInUrls := urls, connData := List.replicate env.HTTPD_MAX_CONNECTIONS none }

/-- The next `n` allocations succeed. -/
def mallocsOk (w : World) (n : Nat) : Prop :=
  ∀ b ∈ w.mallocOk.take n, b = true

instance (w : World) (n : Nat) : Decidable (mallocsOk w n) := by
  unfold mallocsOk
  infer_instance

/-- An instance of two slots with a connection from 10.0.0.1:80 in slot 1. -/
def oneConnInstance : HttpdInstance :=
  { builtInUrls := [], connData := [none, some (newConn idleEnv (some 1) [10, 0, 0, 1] 80 1)] }

/-- A call of `httpdSend` on record: the result, and the state after it with
the bytes offered and the result noted. -/
def httpdSendLogged (env : HttpdEnv) (s : HttpdConnData × World) (data : List Nat) (len : Int) :
    Int × (HttpdConnData × World) :=
  ((httpdSend env s.1 data len).1,
    ((httpdSend env s.1 data len).2,
      s.2.log (.cgiSend (memRead data (if len < 0 then (strlen data : Int) else len).toNat)
        (httpdSend env s.1 data len).1)))

/-- The text `httpdSend_html` sends in place of the byte `c`. -/
def htmlEntity (c : Nat) : List Nat :=
  if c = 34 then [38, 35, 51, 52, 59]
  else if c = 39 then [38, 35, 51, 57, 59]
  else if c = 60 then [38, 108, 116, 59]
  else [38, 103, 116, 59]

/-- The statement after the loop of `httpdSend_html`: the run from `start` to
`e` that is still to be sent. -/
def htmlRest (env : HttpdEnv) (data : List Nat) (start e : Nat) (s : HttpdConnData × World) :
    Int × (HttpdConnData × World) :=
  if start < e then
    if (httpdSendLogged env s (data.drop start) ((e : Int) - start)).1 = 0 then
      (0, (httpdSendLogged env s (data.drop start) ((e : Int) - start)).2)
    else (1, (httpdSendLogged env s (data.drop start) ((e : Int) - start)).2)
  else (1, s)

/-- The loop of `httpdSend_html` with `n` bytes left to look at, at index `e`
(`end` in the source), and the statement after it.  A byte past the end of
`data` reads as NUL. -/
def htmlLoop (env : HttpdEnv) (data : List Nat) :
    Nat → Nat → Nat → HttpdConnData × World → Int × (HttpdConnData × World)
  | 0, start, e, s => htmlRest env data start e s
  | n + 1, start, e, s =>
    if data.getD e 0 = 0 then htmlRest env data start e s
    else if data.getD e 0 = 34 ∨ data.getD e 0 = 39 ∨ data.getD e 0 = 60 ∨
        data.getD e 0 = 62 then
      if start < e ∧ (httpdSendLogged env s (data.drop start) ((e : Int) - start)).1 = 0 then
        (0, (httpdSendLogged env s (data.drop start) ((e : Int) - start)).2)
      else
        let s1 :=
          if start < e then (httpdSendLogged env s (data.drop start) ((e : Int) - start)).2
          else s
        if (httpdSendLogged env s1 (htmlEntity (data.getD e 0))
            (htmlEntity (data.getD e 0)).length).1 = 0 then
          (0, (httpdSendLogged env s1 (htmlEntity (data.getD e 0))
            (htmlEntity (data.getD e 0)).length).2)
        else
          htmlLoop env data n (e + 1) (e + 1)
            (httpdSendLogged env s1 (htmlEntity (data.getD e 0))
              (htmlEntity (data.getD e 0)).length).2
    else htmlLoop env data n start (e + 1) s

/-- Send data encoded for HTML, `httpdSend_html`: the `int` returned and the
state after the call. -/
def httpdSend_html (env : HttpdEnv) (s : HttpdConnData × World) (data : List Nat) (len : Int) :
    Int × (HttpdConnData × World) :=
  if s.1.conn = none then (0, s)
  else if (if len < 0 then (strlen data : Int) else len) = 0 then (0, s)
  else htmlLoop env data (if len < 0 then (strlen data : Int) else len).toNat 0 0 s

/-- What stands for a byte in HTML text, after the words of the claim: the
double quote (34) is `&#34;`, the single quote (39) is `&#39;`, the less-than
sign (60) is `&lt;`, the greater-than sign (62) is `&gt;`, and every other byte
is itself. -/
def htmlReplace (c : Nat) : List Nat :=
  if c = 34 then [38, 35, 51, 52, 59]
  else if c = 39 then [38, 35, 51, 57, 59]
  else if c = 60 then [38, 108, 116, 59]
  else if c = 62 then [38, 103, 116, 59]
  else [c]

/-- The HTML encoding of a text, after the words of the claim: every byte is
replaced as `htmlReplace` says. -/
def htmlEscape (l : List Nat) : List Nat :=
  l.flatMap htmlReplace

/-- A text with every LF replaced by CR LF. -/
def crlf (l : List Nat) : List Nat :=
  l.flatMap (fun b => if b = 10 then [13, 10] else [b])

/-- Two LF bytes in a row are found at the very end of the text only: the
text has no empty line before its last line end. -/
def blankLineAtEndOnly : List Nat → Bool
  | [] => true
  | b :: t =>
    if b = 10 ∧ t.head? = some 10 then t.tail.isEmpty else blankLineAtEndOnly t

/-- A connection that is reading a request head and has stored the bytes
`done` of it, with CR LF for each LF, from the start of the head buffer on. -/
structure HeadInv (env : HttpdEnv) (done : List Nat) (s : HttpdConnData × World) : Prop where
  state : s.1.post.len < 0
  size : s.1.priv.head.length = env.HTTPD_MAX_HEAD_LEN
  pos : s.1.priv.headPos = (crlf done).length
  content : s.1.priv.head.take (crlf done).length = crlf done
  last : s.1.priv.headPos ≠ 0 → s.1.priv.head.getD (s.1.priv.headPos - 1) 0 ≠ 13


/-- The request `GET /hello HTTP/1.0` with the header `Host: a`, every line
ended by a lone LF. -/
def lfRequest : List Nat :=
  requestLine .HTTPD_METHOD_GET [47, 104, 101, 108, 108, 111] [72, 84, 84, 80, 47, 49, 46, 48] ++
    [10] ++ [72, 111, 115, 116, 58, 32, 97] ++ [10, 10]

/-- The request `POST /form HTTP/1.0` with the header `Content-Length: -5`. -/
def negLenRequest : List Nat :=
  requestLine .HTTPD_METHOD_POST [47, 102, 111, 114, 109] [72, 84, 84, 80, 47, 49, 46, 48] ++
    [13, 10] ++
    [67, 111, 110, 116, 101, 110, 116, 45, 76, 101, 110, 103, 116, 104, 58, 32, 45, 53] ++
    [13, 10, 13, 10]

/-- The request `POST /form HTTP/1.0` with `Content-Length: 4` and the body
`abcd`. -/
def shortFormRequest : List Nat :=
  requestLine .HTTPD_METHOD_POST [47, 102, 111, 114, 109] [72, 84, 84, 80, 47, 49, 46, 48] ++
    [13, 10] ++
    [67, 111, 110, 116, 101, 110, 116, 45, 76, 101, 110, 103, 116, 104, 58, 32, 52] ++
    [13, 10, 13, 10] ++ [97, 98, 99, 100]

/-- A build with a send buffer of 128 bytes whose handlers answer with a 200
response and a body of `n` bytes `B` in one `httpdSend`, and are done. -/
def fillEnv (n : Nat) : HttpdEnv :=
  { idleEnv with
    cgiFns := fun _ _ =>
      .startResponse 200 (.endHeaders
        (.send (List.replicate n 66) n (fun _ => .ret .HTTPD_CGI_DONE))) }

/-- A build whose handler `id` answers with a 200 response and a body of one
byte, the letter number `id` of the alphabet, and is done. -/
def letterEnv : HttpdEnv :=
  { idleEnv with
    cgiFns := fun id _ =>
      .startResponse 200 (.endHeaders (.send [97 + id] 1 (fun _ => .ret .HTTPD_CGI_DONE))) }

/-- The route table `/a` for handler 0 and `/b` for handler 1. -/
def letterRoutes : List HttpdBuiltInUrl :=
  [{ url := [47, 97], cgiCb := .user 0, cgiArg := 0, cgiArg2 := 0 },
   { url := [47, 98], cgiCb := .user 1, cgiArg := 0, cgiArg2 := 0 }]

/-- The request `GET /x HTTP/1.1` for a one-letter path `x`, with an empty
header block. -/
def letterRequest (x : Nat) : List Nat :=
  requestLine .HTTPD_METHOD_GET [47, x] [72, 84, 84, 80, 47, 49, 46, 49] ++ [13, 10, 13, 10]

/-- The response of `letterEnv` to `letterRequest x` in chunked mode: the
head, the chunk with the letter and the terminal chunk. -/
def letterResponse (x : Nat) : List Nat :=
  responseHead letterEnv { Flags.zero with HFL_HTTP11 := true, HFL_CHUNKED := true } 200 ++
    [13, 10] ++ [48, 48, 48, 49, 13, 10, x, 13, 10] ++ [48, 13, 10, 13, 10]

/-- The calls of `httpdPlatSendData` in a record, in order: the bytes and
whether the transport took them. -/
def sendCalls (t : List Event) : List (List Nat × Bool) :=
  t.filterMap (fun e =>
    match e with
    | .platSendData _ b r => some (b, r)
    | _ => none)

/-- The request line `GET /aa...a HTTP/1.0` with 70 letters `a`, ended by
CR LF: 86 bytes, more than a head buffer of 64 bytes holds. -/
def longRequestLine : List Nat :=
  requestLine .HTTPD_METHOD_GET (47 :: List.replicate 70 97) [72, 84, 84, 80, 47, 49, 46, 48] ++
    [13, 10]

/-- The calls of handlers in a record: the calls of handler functions and of
receive handlers. -/
def handlerCalls (t : List Event) : List Event :=
  t.filter (fun e =>
    match e with
    | .cgiCall _ _ => true
    | .recvHdlCall _ _ => true
    | _ => false)

/-- A build whose handlers install receive handler 0, answer with a 200
response and are done; the receive handler takes what it is given and asks
for more. -/
def socketEnv : HttpdEnv :=
  { idleEnv with
    cgiFns := fun _ _ =>
      .setRecvHdl (some 0) (.startResponse 200 (.endHeaders (.ret .HTTPD_CGI_DONE))),
    recvHdls := fun _ _ _ => .ret .HTTPD_CGI_MORE }

/-- The connection `closingConn` after a request without post data:
`post.len` is 0. -/
def drainingConn : HttpdConnData :=
  { closingConn with post := { closingConn.post with len := 0 } }

/-- The text in the head buffer after the byte `b` is stored behind the text
`acc`, while there is room: a CR is faked in front of an LF that follows
neither the start of the buffer nor a CR. -/
def storeText (acc : List Nat) (b : Nat) : List Nat :=
  if b = 10 ∧ acc.length ≠ 0 ∧ acc.getD (acc.length - 1) 0 ≠ 13 then acc ++ [13, b]
  else acc ++ [b]

/-- The test of `httpdRecvCb` for the end of the headers, the byte is LF and
CR LF CR LF is found in the head, succeeds at the last byte of `data` and at
no byte before it, when `data` is stored behind the text `acc`. -/
def headEndsAt : List Nat → List Nat → Bool
  | _, [] => false
  | acc, b :: rest =>
    if b = 10 ∧ strstr (storeText acc b) [13, 10, 13, 10] ≠ none then rest.isEmpty
    else headEndsAt (storeText acc b) rest

/-- The connection `s` with `text` stored from the start of its head buffer
on, closed by a NUL, and `headPos` behind the text. -/
def headRead (s : HttpdConnData × World) (text : List Nat) : HttpdConnData × World :=
  ({ s.1 with priv := { s.1.priv with
      head := text ++ 0 :: s.1.priv.head.drop (text.length + 1),
      headPos := text.length } }, s.2)

/-- A request of 75 bytes for a head buffer of 64: the request line
`GET /aa...a HTTP/1.0` of 62 bytes, CR LF, the header `Host: a` and the empty
line. -/
def wideRequest : List Nat :=
  requestLine .HTTPD_METHOD_GET (47 :: List.replicate 48 97) [72, 84, 84, 80, 47, 49, 46, 48] ++
    [13, 10] ++ [72, 111, 115, 116, 58, 32, 97] ++ [13, 10, 13, 10]

/-- Every allocation still to come succeeds, and a connection that expects
post data has its post buffer: the store of a post byte into `post->buff` in
`httpdRecvCb` finds a buffer. -/
def postBuffInv (s : HttpdConnData × World) : Prop :=
  s.2.mallocOk = [] ∧ (0 < s.1.post.len → s.1.post.buff ≠ none)

/-- A request head as a client sends it: the lines, each closed by CR LF, and
the empty line that ends the head. -/
def requestHead (lines : List (List Nat)) : List Nat :=
  lines.flatMap (fun l => l ++ [13, 10]) ++ [13, 10]

/-- The header lines of a stored head parsed one after the other, the first
at offset `p`: the CR that closes the line is replaced by NUL and the line is
handed to `httpdParseHeader`. -/
def parseLines (env : HttpdEnv) :
    List (List Nat) → Nat → HttpdConnData × World → HttpdConnData × World
  | [], _, s => s
  | l :: ls, p, s =>
    parseLines env ls (p + l.length + 2)
      (httpdParseHeader env p
        ({ s.1 with priv := { s.1.priv with head := s.1.priv.head.set (p + l.length) 0 } }, s.2))

/-- The lines of a head with the CR LF that closes each of them. -/
def linesText (lines : List (List Nat)) : List Nat :=
  lines.flatMap (fun l => l ++ [13, 10])

/-- The lines of the request `GET /hello HTTP/1.0` with the header `Host: a`. -/
def helloLines : List (List Nat) :=
  [requestLine .HTTPD_METHOD_GET [47, 104, 101, 108, 108, 111] [72, 84, 84, 80, 47, 49, 46, 48],
    [72, 111, 115, 116, 58, 32, 97]]

/-! ## Properties -/

/-- The table of `httpdHexVal` gives every byte its value as a hex digit. -/
theorem httpdHexVal_eq_hexval (c : Nat) : httpdHexVal c = hexval c := by
  by_cases hc : c < 103
  · interval_cases c <;> rfl
  · have h1 : httpdHexVal c = 0 := by
      unfold httpdHexVal
      split_ifs <;> omega
    have h2 : c ∉ hexDigitsLower := by
      intro h
      simp only [hexDigitsLower, List.mem_cons, List.mem_singleton, List.not_mem_nil,
        or_false] at h
      omega
    have h3 : c ∉ hexDigitsUpper := by
      intro h
      simp only [hexDigitsUpper, List.mem_cons, List.mem_singleton, List.not_mem_nil,
        or_false] at h
      omega
    rw [h1, hexval, if_neg h2, if_neg h3]

theorem httpdHexVal_le (c : Nat) : httpdHexVal c ≤ 15 := by
  unfold httpdHexVal
  split_ifs <;> omega

theorem urlDecodeFull_cons (c : Nat) (rest : List Nat) :
    urlDecodeFull (c :: rest) =
      if c = 37 then decodeFrom 1 0 rest
      else (if c = 43 then 32 else c) :: urlDecodeFull rest := by
  match rest with
  | [] => by_cases h : c = 37 <;> by_cases h2 : c = 43 <;> simp [urlDecodeFull, decodeFrom, h, h2]
  | [h1] => by_cases h : c = 37 <;> simp [urlDecodeFull, decodeFrom, h]
  | h1 :: h2 :: r =>
    by_cases h : c = 37 <;> simp [urlDecodeFull, decodeFrom, h, httpdHexVal_eq_hexval]

theorem decodeFrom_one_cons (e : Nat) (h1 : Nat) (rest : List Nat) :
    decodeFrom 1 e (h1 :: rest) = decodeFrom 2 (httpdHexVal h1 <<< 4) rest := by
  have := httpdHexVal_le h1
  cases rest with
  | nil => simp [decodeFrom]
  | cons h2 r =>
    have h2le := httpdHexVal_le h2
    simp only [decodeFrom, Nat.shiftLeft_eq]
    simp
    omega

theorem decodeFrom_nil (e v : Nat) : decodeFrom e v [] = [] := by
  unfold decodeFrom
  split_ifs <;> simp [urlDecodeFull]

theorem set_take_drop (ret out : List Nat) (d k v : Nat) (h : d < ret.length) :
    (ret.set d v).take (d + 1) ++ out.take k ++ (ret.set d v).drop (d + 1 + k) =
      ret.take d ++ (v :: out).take (k + 1) ++ ret.drop (d + (k + 1)) := by
  rw [List.set_eq_take_append_cons_drop, if_pos h]
  have hl : (List.take d ret).length = d := by simp; omega
  rw [List.take_append_eq_append_take, List.drop_append_eq_append_drop]
  have e1 : d + 1 + k - d = k + 1 := by omega
  have e3 : List.drop (d + 1 + k) (List.take d ret) = [] := by
    apply List.drop_eq_nil_of_le; omega
  have e4 : List.take (d + 1) (List.take d ret) = List.take d ret := by
    apply List.take_of_length_le; omega
  simp [hl, e1, e3, e4]
  try (congr 1; omega)

/-- What the loop yields when the next output byte is `v` and `out` follows. -/
theorem loop_emit (ret out : List Nat) (R d v : Nat) (hd : d < R) (hR : R ≤ ret.length) :
    (d + 1 + min (R - (d + 1)) out.length,
      (ret.set d v).take (d + 1) ++ out.take (min (R - (d + 1)) out.length) ++
        (ret.set d v).drop (d + 1 + min (R - (d + 1)) out.length)) =
    (d + min (R - d) (v :: out).length,
      ret.take d ++ (v :: out).take (min (R - d) (v :: out).length) ++
        ret.drop (d + min (R - d) (v :: out).length)) := by
  have hk : min (R - d) (v :: out).length = min (R - (d + 1)) out.length + 1 := by
    simp only [List.length_cons]; omega
  rw [hk, set_take_drop _ _ _ _ _ (by omega)]
  congr 1
  omega

theorem httpdUrlDecodeLoop_spec (val : List Nat) (V R : Nat) (hV : V ≤ val.length) :
    ∀ (n s d esced escVal : Nat) (ret : List Nat),
      s + n = V → d ≤ R → R ≤ ret.length →
      httpdUrlDecodeLoop val V R n s d esced escVal ret =
        (d + min (R - d) (decodeFrom esced escVal ((val.take V).drop s)).length,
          ret.take d ++
            (decodeFrom esced escVal ((val.take V).drop s)).take
              (min (R - d) (decodeFrom esced escVal ((val.take V).drop s)).length) ++
            ret.drop (d + min (R - d) (decodeFrom esced escVal ((val.take V).drop s)).length)) := by
  intro n
  induction n with
  | zero =>
    intro s d esced escVal ret hs _ _
    have : (val.take V).drop s = [] := List.drop_eq_nil_of_le (by simp; omega)
    simp [httpdUrlDecodeLoop, this, decodeFrom_nil]
  | succ n ih =>
    intro s d esced escVal ret hs hd hR
    have hlt : s < (val.take V).length := by simp; omega
    have hg : val.getD s 0 = (val.take V).getD s 0 := by
      rw [List.getD_eq_getElem _ _ hlt, List.getD_eq_getElem _ _ (by omega)]
      simp
    have hdrop : (val.take V).drop s = val.getD s 0 :: (val.take V).drop (s + 1) := by
      rw [hg, List.getD_eq_getElem _ _ hlt]
      exact List.drop_eq_getElem_cons hlt
    rw [hdrop]
    unfold httpdUrlDecodeLoop
    by_cases hdR : d < R
    · have hc : ((s : Int) < (V : Int) ∧ (d : Int) < (R : Int)) := by
        constructor <;> omega
      rw [if_pos hc]
      by_cases h1 : esced = 1
      · rw [if_pos h1, ih _ _ _ _ _ (by omega) hd hR, h1, decodeFrom_one_cons]
      · rw [if_neg h1]
        by_cases h2 : esced = 2
        · rw [if_pos h2, ih _ _ _ _ _ (by omega) (by omega) (by simpa using hR)]
          have e : decodeFrom esced escVal (val.getD s 0 :: (val.take V).drop (s + 1)) =
              ((escVal + httpdHexVal (val.getD s 0)) % 256) ::
                decodeFrom 0 (escVal + httpdHexVal (val.getD s 0)) ((val.take V).drop (s + 1)) := by
            simp [decodeFrom, h2]
          rw [e]
          exact loop_emit _ _ _ _ _ hdR hR
        · rw [if_neg h2]
          have e0 : ∀ l v, decodeFrom esced v l = urlDecodeFull l := by
            intro l v; simp [decodeFrom, h1, h2]
          rw [e0, urlDecodeFull_cons]
          by_cases h37 : val.getD s 0 = 37
          · rw [if_pos h37, if_pos h37, ih _ _ _ _ _ (by omega) hd hR]
            simp [decodeFrom]
          · rw [if_neg h37, if_neg h37]
            by_cases h43 : val.getD s 0 = 43
            · rw [if_pos h43, if_pos h43,
                ih _ _ _ _ _ (by omega) (by omega) (by simpa using hR), e0]
              exact loop_emit _ _ _ _ _ hdR hR
            · rw [if_neg h43, if_neg h43,
                ih _ _ _ _ _ (by omega) (by omega) (by simpa using hR), e0]
              exact loop_emit _ _ _ _ _ hdR hR
    · have hc : ¬ ((s : Int) < (V : Int) ∧ (d : Int) < (R : Int)) := by
        intro h; omega
      rw [if_neg hc]
      have : R - d = 0 := by omega
      simp [this]

theorem httpdUrlDecode_eq (val ret : List Nat) (V : Nat) (retLen : Int) (hV : V ≤ val.length)
    (h0 : 0 ≤ retLen) (hret : retLen ≤ ret.length) :
    httpdUrlDecode val V ret retLen =
      (((min retLen.toNat (urlDecodeFull (val.take V)).length : Nat) : Int),
        retAfter (urlDecodeFull (val.take V)) ret retLen) := by
  obtain ⟨R, rfl⟩ := Int.eq_ofNat_of_zero_le h0
  have hR : R ≤ ret.length := by omega
  unfold httpdUrlDecode retAfter
  simp only [Int.toNat_ofNat]
  rw [httpdUrlDecodeLoop_spec val V R hV V 0 0 0 0 ret (by omega) (by omega) hR]
  have e0 : decodeFrom 0 0 (List.drop 0 (val.take V)) = urlDecodeFull (val.take V) := by
    simp [decodeFrom]
  rw [e0]
  simp only [Nat.sub_zero, Nat.zero_add, List.take_zero, List.nil_append]
  generalize urlDecodeFull (val.take V) = D
  congr 1
  by_cases hk : ((min R D.length : Nat) : Int) < (R : Int)
  · rw [if_pos hk, if_pos hk]
    have hk2 : min R D.length < ret.length := by omega
    have hlen : (List.take (min R D.length) D).length = min R D.length := by
      simp
    rw [List.set_append, if_neg (by omega), hlen, Nat.sub_self,
      List.drop_eq_getElem_cons hk2, List.set_cons_zero]
  · rw [if_neg hk, if_neg hk]

theorem httpdHexVal_hexDigitUpper (n : Nat) (h : n < 16) : httpdHexVal (hexDigitUpper n) = n := by
  unfold httpdHexVal hexDigitUpper
  split_ifs <;> omega

theorem urlDecodeFull_percentEncode (b : List Nat) (hb : ∀ c ∈ b, c < 256) :
    urlDecodeFull (percentEncode b) = b := by
  induction b with
  | nil => rfl
  | cons c rest ih =>
    have hc : c < 256 := hb c (by simp)
    have ih2 := ih (fun x hx => hb x (by simp [hx]))
    unfold percentEncode
    by_cases hk : keptRaw c = true
    · have h37 : c ≠ 37 := by
        intro h; subst h; simp [keptRaw] at hk
      have h43 : c ≠ 43 := by
        intro h; subst h; simp [keptRaw] at hk
      simp [hk, urlDecodeFull_cons, h37, h43, ih2]
    · by_cases h32 : c = 32
      · subst h32
        simp [keptRaw, urlDecodeFull_cons, ih2]
      · have e1 := httpdHexVal_hexDigitUpper (c / 16) (by omega)
        have e2 := httpdHexVal_hexDigitUpper (c % 16) (by omega)
        simp [hk, h32, urlDecodeFull_cons, decodeFrom, ih2, e1, e2]
        omega

/-- C1: for every byte string `val` and every `retLen ≥ 0` (with `ret` a
buffer of at least `retLen` bytes), `httpdUrlDecode` returns
`min retLen |D|` and leaves in `ret` exactly the first that many bytes of the
full decoding `D` of `val`, then a NUL exactly when the count is below
`retLen`, then the old contents of `ret`.  The decoding `D` is `urlDecodeFull`,
with the digit values `hexval` read off the list of the sixteen hex digits. -/
theorem httpdUrlDecode_writes_prefix_of_full_decoding (val ret : List Nat) (retLen : Int)
    (h0 : 0 ≤ retLen) (hret : retLen ≤ ret.length) :
    httpdUrlDecode val val.length ret retLen =
      (((min retLen.toNat (urlDecodeFull val).length : Nat) : Int),
        retAfter (urlDecodeFull val) ret retLen) := by
  have h := httpdUrlDecode_eq val ret val.length retLen (le_refl _) h0 hret
  rwa [List.take_length] at h

theorem httpdUrlDecode_writes_prefix_of_full_decoding_witness :
    (0 : Int) ≤ 2 ∧ (2 : Int) ≤ ([9, 9, 9, 9] : List Nat).length ∧
    httpdUrlDecode [97, 43, 37, 52, 49, 37, 52] ([97, 43, 37, 52, 49, 37, 52] : List Nat).length
        [9, 9, 9, 9] 2 =
      (((min (2 : Int).toNat (urlDecodeFull [97, 43, 37, 52, 49, 37, 52]).length : Nat) : Int),
        retAfter (urlDecodeFull [97, 43, 37, 52, 49, 37, 52]) [9, 9, 9, 9] 2) :=
  ⟨by decide, by decide,
    httpdUrlDecode_writes_prefix_of_full_decoding [97, 43, 37, 52, 49, 37, 52] [9, 9, 9, 9] 2
      (by decide) (by decide)⟩

/-- The examples of C1: `a+%41%4` decodes to `a A` (the escape `%41` is the
byte 65, the trailing `%4` gives nothing), `%zF` to the byte 15 and `%Ff` to
the byte 255; with room for four bytes `httpdUrlDecode` returns 3 and writes
`a A` and a NUL. -/
theorem httpdUrlDecode_example :
    urlDecodeFull [97, 43, 37, 52, 49, 37, 52] = [97, 32, 65] ∧
    urlDecodeFull [37, 122, 70] = [15] ∧ urlDecodeFull [37, 70, 102] = [255] ∧
    httpdUrlDecode [97, 43, 37, 52, 49, 37, 52] 7 [9, 9, 9, 9] 4 = (3, [97, 32, 65, 0]) := by
  decide

/-- C2: `httpdUrlDecode` undoes the minimal percent-encoder: for bytes `b`
(each below 256) and `retLen ≥ |b|`, decoding `percentEncode b` returns `|b|`
and leaves `ret[0..|b|)` equal to `b`. -/
theorem httpdUrlDecode_percentEncode (b ret : List Nat) (retLen : Int)
    (hb : ∀ c ∈ b, c < 256) (hlen : (b.length : Int) ≤ retLen) (hret : retLen ≤ ret.length) :
    (httpdUrlDecode (percentEncode b) (percentEncode b).length ret retLen).1 = b.length ∧
    (httpdUrlDecode (percentEncode b) (percentEncode b).length ret retLen).2.take b.length
      = b := by
  have h := httpdUrlDecode_eq (percentEncode b) ret (percentEncode b).length retLen (le_refl _)
    (by omega) hret
  rw [List.take_length, urlDecodeFull_percentEncode b hb] at h
  have hm : min retLen.toNat b.length = b.length := by omega
  rw [h, hm]
  refine ⟨rfl, ?_⟩
  simp only [retAfter, hm]
  rw [List.take_append_eq_append_take]
  simp

theorem httpdUrlDecode_percentEncode_witness :
    (∀ c ∈ ([97, 32, 195, 37] : List Nat), c < 256) ∧
    ((([97, 32, 195, 37] : List Nat).length : Int) ≤ 5) ∧
    ((5 : Int) ≤ ([7, 7, 7, 7, 7, 7] : List Nat).length) ∧
    (httpdUrlDecode (percentEncode [97, 32, 195, 37]) (percentEncode [97, 32, 195, 37]).length
      [7, 7, 7, 7, 7, 7] 5).1 = ([97, 32, 195, 37] : List Nat).length ∧
    (httpdUrlDecode (percentEncode [97, 32, 195, 37]) (percentEncode [97, 32, 195, 37]).length
      [7, 7, 7, 7, 7, 7] 5).2.take ([97, 32, 195, 37] : List Nat).length = [97, 32, 195, 37] :=
  ⟨by decide, by decide, by decide,
    httpdUrlDecode_percentEncode [97, 32, 195, 37] [7, 7, 7, 7, 7, 7] 5
      (by decide) (by decide) (by decide)⟩

/-! ### `httpdFindArg` -/

theorem cstr_of_no_nul (name : List Nat) (h : ∀ c ∈ name, c ≠ 0) : cstr name = name := by
  unfold cstr
  rw [List.takeWhile_eq_self_iff]
  intro c hc
  simpa using h c hc

theorem cstr_cons (c : Nat) (t : List Nat) :
    cstr (c :: t) = if c = 0 then [] else c :: cstr t := by
  unfold cstr
  by_cases h : c = 0 <;> simp [List.takeWhile_cons, h]

theorem seg_cons (c : Nat) (t : List Nat) :
    seg (c :: t) = if c = 0 ∨ c = 38 then [] else c :: seg t := by
  unfold seg
  by_cases h0 : c = 0
  · simp [List.takeWhile_cons, h0]
  · by_cases h1 : c = 38
    · simp [List.takeWhile_cons, h1]
    · simp [List.takeWhile_cons, h0, h1]

theorem strstrFrom_amp (p : List Nat) : ∀ i,
    strstrFrom [38] (cstr p) i =
      if p.getD (seg p).length 0 = 38 then some (i + (seg p).length) else none := by
  induction p with
  | nil => intro i; simp [cstr, seg, strstrFrom]
  | cons c t ih =>
    intro i
    rw [cstr_cons, seg_cons]
    by_cases h0 : c = 0
    · simp [h0, strstrFrom]
    · by_cases h1 : c = 38
      · simp [h1, strstrFrom, List.isPrefixOf]
      · have hne : ¬ (c = 0 ∨ c = 38) := by simp [h0, h1]
        rw [if_neg h0, if_neg hne]
        have h1' : ¬ (38 = c) := fun h => h1 h.symm
        simp only [strstrFrom, List.isPrefixOf, List.length_cons, List.getD_cons_succ]
        simp only [beq_iff_eq, Bool.and_true, h1', Bool.false_eq_true, if_false]
        rw [ih (i + 1)]
        have e : i + 1 + (seg t).length = i + ((seg t).length + 1) := by omega
        rw [e]

theorem strstr_amp (p : List Nat) :
    strstr p [38] = if p.getD (seg p).length 0 = 38 then some (seg p).length else none := by
  unfold strstr
  rw [strstrFrom_amp]
  simp

theorem strlen_of_no_amp (p : List Nat) (h : p.getD (seg p).length 0 ≠ 38) :
    strlen p = (seg p).length := by
  induction p with
  | nil => simp [strlen, cstr, seg]
  | cons c t ih =>
    unfold strlen at *
    rw [cstr_cons]
    rw [seg_cons] at h ⊢
    by_cases h0 : c = 0
    · simp [h0]
    · by_cases h1 : c = 38
      · simp [h1] at h
      · have hne : ¬ (c = 0 ∨ c = 38) := by simp [h0, h1]
        rw [if_neg hne] at h ⊢
        rw [if_neg h0]
        simp only [List.length_cons, List.getD_cons_succ] at h ⊢
        rw [ih h]

theorem valueLen_eq (p : List Nat) :
    (match strstr p [38] with
      | some k => k
      | none => strlen p) = (seg p).length := by
  rw [strstr_amp]
  by_cases h : p.getD (seg p).length 0 = 38
  · rw [if_pos h]
  · rw [if_neg h]
    exact strlen_of_no_amp p h

theorem take_seg (p : List Nat) : p.take (seg p).length = seg p := by
  induction p with
  | nil => simp [seg]
  | cons c t ih =>
    rw [seg_cons]
    by_cases h : c = 0 ∨ c = 38
    · simp [h]
    · simp [h, ih]

theorem seg_length_le (p : List Nat) : (seg p).length ≤ p.length := by
  have h := congrArg List.length (take_seg p)
  rw [List.length_take] at h
  omega

theorem match_iff (name : List Nat) (hname : ∀ c ∈ name, c ≠ 0) : ∀ p : List Nat,
    (strncmpEq p name (strlen name) = true ∧ p.getD (strlen name) 0 = 61) ↔
      ∃ p1, p = name ++ 61 :: p1 := by
  have hs : strlen name = name.length := by
    unfold strlen; rw [cstr_of_no_nul name hname]
  rw [hs]
  unfold strncmpEq
  rw [cstr_of_no_nul name hname]
  simp only [List.take_length, beq_iff_eq]
  induction name with
  | nil =>
    intro p
    cases p with
    | nil => simp
    | cons c t => simp
  | cons a as ih =>
    intro p
    have ha : a ≠ 0 := hname a (by simp)
    have ih2 := ih (fun c hc => hname c (by simp [hc]))
      (by unfold strlen; rw [cstr_of_no_nul as (fun c hc => hname c (by simp [hc]))])
    cases p with
    | nil => simp [cstr]
    | cons c t =>
      rw [cstr_cons]
      by_cases h0 : c = 0
      · simp [h0]
        intro hx
        exact absurd hx.symm ha
      · simp only [if_neg h0, List.length_cons, List.take_succ_cons, List.cons.injEq,
          List.getD_cons_succ, List.cons_append]
        rw [and_assoc, ih2 t]
        constructor
        · rintro ⟨h1, p1, h2⟩
          exact ⟨p1, h1, h2⟩
        · rintro ⟨p1, h1, h2⟩
          exact ⟨h1, p1, h2⟩

theorem pairsOf_ne_nil (l : List Nat) : pairsOf l ≠ [] := by
  cases l with
  | nil => simp [pairsOf]
  | cons c cs =>
    unfold pairsOf
    split_ifs <;> simp

theorem pairsOf_clean_append (r : List Nat) : ∀ s : List Nat,
    (∀ c ∈ s, c ≠ 0 ∧ c ≠ 13 ∧ c ≠ 10 ∧ c ≠ 38) →
    pairsOf (s ++ r) = (s ++ (pairsOf r).headD []) :: (pairsOf r).tail := by
  intro s
  induction s with
  | nil =>
    intro _
    have h := pairsOf_ne_nil r
    cases hp : pairsOf r with
    | nil => exact absurd hp h
    | cons a b =>
      simp
      exact hp
  | cons c s ih =>
    intro hs
    have hc := hs c (by simp)
    have ih2 := ih (fun x hx => hs x (by simp [hx]))
    have h1 : ¬ (c = 0 ∨ c = 13 ∨ c = 10) := by
      intro h; rcases h with h | h | h <;> simp [h] at hc
    simp only [List.cons_append, pairsOf, if_neg h1, if_neg hc.2.2.2, List.append_eq]
    rw [ih2]
    simp


theorem getD_of_mem_seg (p : List Nat) : ∀ c ∈ seg p, ∃ i, i < (seg p).length ∧ p.getD i 0 = c := by
  intro c hc
  obtain ⟨i, hi, he⟩ := List.getElem_of_mem hc
  refine ⟨i, hi, ?_⟩
  have h1 : (p.take (seg p).length).getD i 0 = c := by
    rw [take_seg, List.getD_eq_getElem _ _ hi, he]
  have hlen := seg_length_le p
  rw [List.getD_eq_getElem _ _ (by omega)]
  rw [List.getD_eq_getElem _ _ (by rw [List.length_take]; omega)] at h1
  simpa using h1

theorem seg_not_nul_amp (p : List Nat) : ∀ c ∈ seg p, c ≠ 0 ∧ c ≠ 38 := by
  intro c hc
  have := List.mem_takeWhile_imp hc
  simpa using this

theorem seg_length_le_strlen (p : List Nat) : (seg p).length ≤ strlen p := by
  induction p with
  | nil => simp [seg, strlen, cstr]
  | cons c t ih =>
    unfold strlen at *
    rw [seg_cons, cstr_cons]
    by_cases h0 : c = 0
    · simp [h0]
    · by_cases h1 : c = 38
      · simp [h1]
      · simp [h0, h1]
        exact ih

theorem getD_seg (p : List Nat) : ∀ i, i < (seg p).length →
    (seg p).getD i 0 = p.getD i 0 := by
  induction p with
  | nil => intro i hi; simp [seg] at hi
  | cons c t ih =>
    intro i hi
    rw [seg_cons] at hi ⊢
    by_cases h : c = 0 ∨ c = 38
    · rw [if_pos h] at hi; simp at hi
    · rw [if_neg h] at hi ⊢
      cases i with
      | zero => rfl
      | succ j =>
        simp only [List.getD_cons_succ]
        exact ih j (by simpa using hi)

theorem getD_pred_seg (p : List Nat) (i : Nat) (hi : i < (seg p).length) :
    p.getD i 0 ≠ 0 ∧ p.getD i 0 ≠ 38 := by
  rw [← getD_seg p i hi, List.getD_eq_getElem _ _ hi]
  exact seg_not_nul_amp p _ (List.getElem_mem _)

/-- Under `crlfStartsPair`, the pair the scan stands at holds no CR or LF
once its first byte is none. -/
theorem seg_clean (p : List Nat) (hg : crlfStartsPair p)
    (h0 : p.getD 0 0 ≠ 10 ∧ p.getD 0 0 ≠ 13 ∧ p.getD 0 0 ≠ 0) :
    ∀ c ∈ seg p, c ≠ 0 ∧ c ≠ 13 ∧ c ≠ 10 ∧ c ≠ 38 := by
  intro c hc
  have hna := seg_not_nul_amp p c hc
  obtain ⟨i, hi, he⟩ := getD_of_mem_seg p c hc
  have hcr : ¬ (c = 13 ∨ c = 10) := by
    intro h
    rw [← he] at h
    rcases hg i (by have := seg_length_le_strlen p; omega) h with h1 | h1
    · subst h1
      rcases h with h | h
      · exact h0.2.1 h
      · exact h0.1 h
    · have : i - 1 < (seg p).length := by omega
      exact (getD_pred_seg p (i - 1) this).2 h1
  exact ⟨hna.1, fun h => hcr (Or.inl h), fun h => hcr (Or.inr h), hna.2⟩

theorem getD_drop_add (p : List Nat) (k i : Nat) : (p.drop k).getD i 0 = p.getD (k + i) 0 := by
  simp [List.getD_eq_getElem?_getD, List.getElem?_drop]

theorem seg_append_drop (p : List Nat) : seg p ++ p.drop (seg p).length = p := by
  conv_rhs => rw [← List.take_append_drop (seg p).length p]
  rw [take_seg]

theorem getD_seg_end (p : List Nat) :
    p.getD (seg p).length 0 = 0 ∨ p.getD (seg p).length 0 = 38 := by
  induction p with
  | nil => simp [seg]
  | cons c t ih =>
    rw [seg_cons]
    by_cases h0 : c = 0
    · simp [h0]
    · by_cases h1 : c = 38
      · simp [h1]
      · have hne : ¬ (c = 0 ∨ c = 38) := by simp [h0, h1]
        rw [if_neg hne]
        simpa using ih

theorem drop_seg_of_amp (p : List Nat) (h : p.getD (seg p).length 0 = 38) :
    p.drop (seg p).length = 38 :: p.drop ((seg p).length + 1) := by
  have hlt : (seg p).length < p.length := by
    by_contra hge
    rw [List.getD_eq_default _ _ (by omega)] at h
    omega
  rw [List.drop_eq_getElem_cons hlt]
  rw [List.getD_eq_getElem _ _ hlt] at h
  rw [h]

theorem pairsOf_drop_seg (p : List Nat) :
    pairsOf (p.drop (seg p).length) =
      [] :: (if p.getD (seg p).length 0 = 38 then pairsOf (p.drop ((seg p).length + 1)) else []) := by
  by_cases h : p.getD (seg p).length 0 = 38
  · rw [if_pos h, drop_seg_of_amp p h]
    simp [pairsOf]
  · rw [if_neg h]
    have h0 : p.getD (seg p).length 0 = 0 := by
      rcases getD_seg_end p with h1 | h1
      · exact h1
      · exact absurd h1 h
    rw [← Nat.add_zero (seg p).length, ← getD_drop_add] at h0
    cases hr : p.drop (seg p).length with
    | nil => simp [pairsOf]
    | cons c t =>
      rw [hr] at h0
      simp at h0
      simp [pairsOf, h0]

theorem pairsOf_eq_seg (p : List Nat) (hc : ∀ c ∈ seg p, c ≠ 0 ∧ c ≠ 13 ∧ c ≠ 10 ∧ c ≠ 38) :
    pairsOf p =
      seg p :: (if p.getD (seg p).length 0 = 38 then pairsOf (p.drop ((seg p).length + 1)) else []) := by
  conv_lhs => rw [← seg_append_drop p]
  rw [pairsOf_clean_append _ _ hc, pairsOf_drop_seg]
  simp

theorem strlen_of_amp (p : List Nat) (h : p.getD (seg p).length 0 = 38) :
    strlen p = (seg p).length + 1 + strlen (p.drop ((seg p).length + 1)) := by
  induction p with
  | nil => simp [seg] at h
  | cons c t ih =>
    unfold strlen at *
    rw [seg_cons] at h ⊢
    rw [cstr_cons]
    by_cases h0 : c = 0
    · simp [h0] at h
    · by_cases h1 : c = 38
      · simp [h1]
        omega
      · have hne : ¬ (c = 0 ∨ c = 38) := by simp [h0, h1]
        rw [if_neg hne] at h ⊢
        rw [if_neg h0]
        simp only [List.length_cons, List.getD_cons_succ, List.drop_succ_cons] at h ⊢
        rw [ih h]
        omega

theorem crlfStartsPair_drop (p : List Nat) (h : p.getD (seg p).length 0 = 38)
    (hg : crlfStartsPair p) : crlfStartsPair (p.drop ((seg p).length + 1)) := by
  intro i hi hcr
  rw [getD_drop_add] at hcr
  have hs := strlen_of_amp p h
  rcases hg ((seg p).length + 1 + i) (by omega) hcr with h1 | h1
  · omega
  · by_cases hi0 : i = 0
    · exact Or.inl hi0
    · right
      rw [getD_drop_add]
      have e : (seg p).length + 1 + i - 1 = (seg p).length + 1 + (i - 1) := by omega
      rw [e] at h1
      exact h1

theorem seg_name_eq (name p1 : List Nat) (hname : ∀ c ∈ name, c ≠ 0 ∧ c ≠ 38 ∧ c ≠ 61) :
    seg (name ++ 61 :: p1) = name ++ 61 :: seg p1 := by
  induction name with
  | nil => simp [seg_cons]
  | cons a as ih =>
    have ha := hname a (by simp)
    have hne : ¬ (a = 0 ∨ a = 38) := by
      intro h; rcases h with h | h
      · exact ha.1 h
      · exact ha.2.1 h
    rw [List.cons_append, seg_cons, if_neg hne, ih (fun c hc => hname c (by simp [hc]))]
    rfl

theorem pairKey_name (name v : List Nat) (hname : ∀ c ∈ name, c ≠ 0 ∧ c ≠ 38 ∧ c ≠ 61) :
    pairKey (name ++ 61 :: v) = some name := by
  unfold pairKey
  rw [if_pos (by simp)]
  congr 1
  induction name with
  | nil => simp
  | cons a as ih =>
    have ha := hname a (by simp)
    simp only [List.cons_append, List.takeWhile_cons]
    simp [ha.2.2, ih (fun c hc => hname c (by simp [hc]))]

theorem pairValue_name (name v : List Nat) (hname : ∀ c ∈ name, c ≠ 0 ∧ c ≠ 38 ∧ c ≠ 61) :
    pairValue (name ++ 61 :: v) = v := by
  unfold pairValue
  induction name with
  | nil => simp
  | cons a as ih =>
    have ha := hname a (by simp)
    simp only [List.cons_append, List.dropWhile_cons]
    simp [ha.2.2, ih (fun c hc => hname c (by simp [hc]))]

theorem eq_append_of_pairKey (name s : List Nat) (h : pairKey s = some name) :
    ∃ v, s = name ++ 61 :: v := by
  unfold pairKey at h
  by_cases hm : 61 ∈ s
  · rw [if_pos hm] at h
    simp only [Option.some.injEq] at h
    refine ⟨(s.dropWhile (fun c => c != 61)).drop 1, ?_⟩
    have h1 := List.takeWhile_append_dropWhile (fun c => c != 61) s
    rw [h] at h1
    cases hd : s.dropWhile (fun c => c != 61) with
    | nil =>
      rw [hd] at h1
      simp at h1
      rw [← h1, ← h] at hm
      have := List.mem_takeWhile_imp hm
      simp at this
    | cons c t =>
      have hc : ¬ ((fun c => c != 61) c = true) := by
        have := List.head_dropWhile_not (fun c => c != 61) s (by rw [hd]; simp)
        simpa [hd] using this
      simp at hc
      rw [hd] at h1
      simp [hc] at h1 ⊢
      exact h1.symm
  · rw [if_neg hm] at h
    exact absurd h (by simp)

theorem findArgSpec_of_find (line name dst q : List Nat)
    (h : (pairsOf line).find? (fun p => pairKey p == some name) = some q) :
    findArgSpec line name dst =
      ((((urlDecodeFull (pairValue q)).length : Nat) : Int),
        urlDecodeFull (pairValue q) ++ 0 :: dst.drop ((urlDecodeFull (pairValue q)).length + 1)) := by
  unfold findArgSpec
  rw [h]

theorem retAfter_of_lt (D ret : List Nat) (retLen : Int) (h : (D.length : Int) < retLen) :
    min retLen.toNat D.length = D.length ∧
      retAfter D ret retLen = D ++ 0 :: ret.drop (D.length + 1) := by
  have hm : min retLen.toNat D.length = D.length := by omega
  refine ⟨hm, ?_⟩
  unfold retAfter
  rw [hm, if_pos h, List.take_length]

theorem httpdFindArgLoop_eq (name dst : List Nat) (dstLen : Int)
    (hname : ∀ c ∈ name, c ≠ 0 ∧ c ≠ 38 ∧ c ≠ 61) (hdst : dstLen ≤ dst.length) :
    ∀ (n : Nat) (p : List Nat), p.length < n → crlfStartsPair p →
      (∀ q, (pairsOf p).find? (fun q => pairKey q == some name) = some q →
        ((urlDecodeFull (pairValue q)).length : Int) < dstLen) →
      httpdFindArgLoop name dst dstLen n (some p) = some (findArgSpec p name dst) := by
  have hn0 : ∀ c ∈ name, c ≠ 0 := fun c hc => (hname c hc).1
  have hsl : strlen name = name.length := by
    unfold strlen; rw [cstr_of_no_nul name hn0]
  intro n
  induction n with
  | zero => intro p hp; omega
  | succ n ih =>
    intro p hp hg hbig
    unfold httpdFindArgLoop
    simp only []
    by_cases hc : p.getD 0 0 ≠ 10 ∧ p.getD 0 0 ≠ 13 ∧ p.getD 0 0 ≠ 0
    · rw [if_pos hc]
      have hclean := seg_clean p hg hc
      have hpairs := pairsOf_eq_seg p hclean
      by_cases hm : strncmpEq p name (strlen name) = true ∧ p.getD (strlen name) 0 = 61
      · rw [if_pos hm]
        obtain ⟨p1, hp1⟩ := (match_iff name hn0 p).1 hm
        have hd : p.drop (strlen name + 1) = p1 := by
          rw [hsl, hp1]
          simp
        rw [hd, valueLen_eq p1]
        have hseg : seg p = name ++ 61 :: seg p1 := by
          rw [hp1, seg_name_eq name p1 hname]
        have hfind : (pairsOf p).find? (fun q => pairKey q == some name) = some (seg p) := by
          rw [hpairs, List.find?_cons]
          rw [hseg, pairKey_name name _ hname]
          simp
        have hv : pairValue (seg p) = seg p1 := by
          rw [hseg, pairValue_name name _ hname]
        have hlt := hbig _ hfind
        rw [hv] at hlt
        have h0 : (0 : Int) ≤ dstLen := by omega
        rw [httpdUrlDecode_eq p1 dst (seg p1).length dstLen (seg_length_le p1) h0 hdst,
          take_seg, findArgSpec_of_find p name dst _ hfind, hv]
        obtain ⟨e1, e2⟩ := retAfter_of_lt (urlDecodeFull (seg p1)) dst dstLen hlt
        rw [e1, e2]
      · rw [if_neg hm]
        have hkey : (pairKey (seg p) == some name) = false := by
          rw [beq_eq_false_iff_ne]
          intro hk
          obtain ⟨v, hv⟩ := eq_append_of_pairKey name (seg p) hk
          apply hm
          apply (match_iff name hn0 p).2
          refine ⟨v ++ p.drop (seg p).length, ?_⟩
          conv_lhs => rw [← seg_append_drop p, hv]
          simp only [List.append_assoc, List.cons_append]
          rw [hv]
        have hfind : (pairsOf p).find? (fun q => pairKey q == some name) =
            (if p.getD (seg p).length 0 = 38 then pairsOf (p.drop ((seg p).length + 1))
              else []).find? (fun q => pairKey q == some name) := by
          rw [hpairs, List.find?_cons, hkey]
        rw [strstr_amp]
        have hpl : 0 < p.length := by
          by_contra h
          have : p = [] := List.length_eq_zero.1 (by omega)
          rw [this] at hc
          simp at hc
        by_cases h38 : p.getD (seg p).length 0 = 38
        · rw [if_pos h38]
          simp only []
          rw [if_pos h38] at hfind
          have hlen : (p.drop ((seg p).length + 1)).length < n := by
            rw [List.length_drop]; omega
          rw [ih _ hlen (crlfStartsPair_drop p h38 hg) (fun q hq => hbig q (by rw [hfind]; exact hq))]
          unfold findArgSpec
          rw [hfind]
        · rw [if_neg h38]
          simp only []
          rw [if_neg h38] at hfind
          obtain ⟨m, rfl⟩ : ∃ m, n = m + 1 := ⟨n - 1, by omega⟩
          unfold httpdFindArgLoop
          simp only []
          unfold findArgSpec
          rw [hfind]
          simp
    · rw [if_neg hc]
      have hp0 : pairsOf p = [[]] := by
        cases p with
        | nil => simp [pairsOf]
        | cons c t =>
          simp only [List.getD_cons_zero] at hc
          have : c = 0 ∨ c = 13 ∨ c = 10 := by omega
          simp [pairsOf, this]
      unfold findArgSpec
      rw [hp0]
      simp [pairKey]

/-- C3 (as amended): for every `line` in which each CR or LF before the first
NUL begins a pair, every `name` free of NUL, `&` and `=`, and a `dst` large
enough for the value, `httpdFindArg` returns the length of the url-decoded
value of the first pair of `line` (pairs being `&`-separated and ending at the
first NUL, CR or LF) whose key is `name` and stores that value NUL-terminated
in `dst`; it returns -1, leaving `dst` alone, exactly when no pair has key
`name`, and also when `line` is `NULL`. -/
theorem httpdFindArg_first_pair (line name dst : List Nat) (dstLen : Int)
    (hname : ∀ c ∈ name, c ≠ 0 ∧ c ≠ 38 ∧ c ≠ 61)
    (hline : crlfStartsPair line)
    (hdst : dstLen ≤ dst.length)
    (hbig : ∀ q, (pairsOf line).find? (fun p => pairKey p == some name) = some q →
      ((urlDecodeFull (pairValue q)).length : Int) < dstLen) :
    httpdFindArg (some line) name dst dstLen = some (findArgSpec line name dst) ∧
    ((findArgSpec line name dst).1 = -1 ↔ ∀ q ∈ pairsOf line, pairKey q ≠ some name) ∧
    httpdFindArg none name dst dstLen = some (-1, dst) := by
  refine ⟨?_, ?_, rfl⟩
  · unfold httpdFindArg
    exact httpdFindArgLoop_eq name dst dstLen hname hdst _ line (by omega) hline hbig
  · unfold findArgSpec
    cases hf : (pairsOf line).find? (fun p => pairKey p == some name) with
    | none =>
      simp only [true_iff]
      intro q hq
      have := List.find?_eq_none.1 hf q hq
      simpa using this
    | some q =>
      simp only []
      constructor
      · intro h
        omega
      · intro h
        have h1 := List.find?_some hf
        have h2 := h q (List.mem_of_find?_eq_some hf)
        simp at h1
        exact absurd h1 h2

theorem httpdFindArg_first_pair_witness :
    (∀ c ∈ ([110, 97, 109, 101] : List Nat), c ≠ 0 ∧ c ≠ 38 ∧ c ≠ 61) ∧
    crlfStartsPair [110, 97, 109, 101, 61, 119, 111, 114, 108, 100] ∧
    (httpdFindArg (some [110, 97, 109, 101, 61, 119, 111, 114, 108, 100]) [110, 97, 109, 101]
        [7, 7, 7, 7, 7, 7, 7, 7] 8 =
      some (findArgSpec [110, 97, 109, 101, 61, 119, 111, 114, 108, 100] [110, 97, 109, 101]
        [7, 7, 7, 7, 7, 7, 7, 7])) ∧
    findArgSpec [110, 97, 109, 101, 61, 119, 111, 114, 108, 100] [110, 97, 109, 101]
        [7, 7, 7, 7, 7, 7, 7, 7] = (5, [119, 111, 114, 108, 100, 0, 7, 7]) :=
  ⟨by decide, by unfold crlfStartsPair; decide,
    (httpdFindArg_first_pair [110, 97, 109, 101, 61, 119, 111, 114, 108, 100] [110, 97, 109, 101]
      [7, 7, 7, 7, 7, 7, 7, 7] 8 (by decide) (by unfold crlfStartsPair; decide) (by decide)
      (by decide)).1,
    by decide⟩

/-- C3 as first stated fails: on the line `name=a\rb` the value handed back for
`name` is `a\rb` (3 bytes), while the pairs of the line end at the CR, which
makes the value `a` (1 byte). -/
theorem httpdFindArg_value_runs_past_cr :
    httpdFindArg (some [110, 97, 109, 101, 61, 97, 13, 98]) [110, 97, 109, 101]
        [7, 7, 7, 7, 7, 7, 7, 7] 8 = some (3, [97, 13, 98, 0, 7, 7, 7, 7]) ∧
    findArgSpec [110, 97, 109, 101, 61, 97, 13, 98] [110, 97, 109, 101]
        [7, 7, 7, 7, 7, 7, 7, 7] = (1, [97, 0, 7, 7, 7, 7, 7, 7]) := by
  decide

/-! ### `httpdSend` -/

/-- C10: `httpdSend` returns 0 when the transport handle is gone, and when
`sendBuffLen + len` (plus 6 when a chunk header slot has first to be reserved:
CHUNKED and SENDINGBODY set, `chunkHdr` unset) exceeds
`HTTPD_MAX_SENDBUFF_LEN`; and whenever it returns 0 the connection, so the
send buffer, `sendBuffLen` and `chunkHdr`, is as before the call. -/
theorem httpdSend_zero_leaves_buffer (env : HttpdEnv) (conn : HttpdConnData) (data : List Nat)
    (len : Int) :
    (conn.conn = none → (httpdSend env conn data len).1 = 0) ∧
    (conn.priv.sendBuffLen + (if len < 0 then (strlen data : Int) else len) +
        (if conn.priv.flags.HFL_CHUNKED = true ∧ conn.priv.flags.HFL_SENDINGBODY = true ∧
          conn.priv.chunkHdr = none then 6 else 0) > env.HTTPD_MAX_SENDBUFF_LEN →
      (httpdSend env conn data len).1 = 0) ∧
    ((httpdSend env conn data len).1 = 0 → (httpdSend env conn data len).2 = conn) := by
  unfold httpdSend
  refine ⟨?_, ?_, ?_⟩
  · intro h
    rw [if_pos h]
  · intro h
    split_ifs at h ⊢ <;> first | rfl | omega
  · split_ifs <;> first | (intro _; rfl) | (intro h; omega)

/-! ### Handler calls: what they leave alone and what they record -/

@[simp] theorem World.log_trace (w : World) (e : Event) : (w.log e).trace = w.trace ++ [e] :=
  rfl

@[simp] theorem World.log_sendOk (w : World) (e : Event) : (w.log e).sendOk = w.sendOk :=
  rfl

@[simp] theorem World.log_mallocOk (w : World) (e : Event) : (w.log e).mallocOk = w.mallocOk :=
  rfl

theorem httpdSend_frame (env : HttpdEnv) (c : HttpdConnData) (data : List Nat) (len : Int) :
    cgiFrame (httpdSend env c data len).2 = cgiFrame c := by
  unfold httpdSend
  split_ifs <;> rfl

theorem httpdStartResponse_frame (env : HttpdEnv) (c : HttpdConnData) (code : Nat) :
    cgiFrame (httpdStartResponse env c code) = cgiFrame c := by
  unfold httpdStartResponse
  exact httpdSend_frame _ _ _ _

theorem httpdHeader_frame (env : HttpdEnv) (c : HttpdConnData) (f v : List Nat) :
    cgiFrame (httpdHeader env c f v) = cgiFrame c := by
  unfold httpdHeader
  rw [httpdSend_frame, httpdSend_frame, httpdSend_frame, httpdSend_frame]

theorem httpdEndHeaders_frame (env : HttpdEnv) (c : HttpdConnData) :
    cgiFrame (httpdEndHeaders env c) = cgiFrame c := by
  have h := httpdSend_frame env c [13, 10] (-1)
  unfold httpdEndHeaders
  simp only [cgiFrame] at h ⊢
  exact h

theorem httpdSetTransferMode_frame (c : HttpdConnData) (m : TransferModes) :
    cgiFrame (httpdSetTransferMode c m) = cgiFrame c := by
  cases m <;> rfl

theorem runCgi_spec (env : HttpdEnv) (sc : CgiScript) : ∀ s : HttpdConnData × World,
    cgiFrame (runCgi env sc s).2.1 = cgiFrame s.1 ∧
    (runCgi env sc s).2.2.sendOk = s.2.sendOk ∧
    (runCgi env sc s).2.2.mallocOk = s.2.mallocOk ∧
    ∃ ext, (runCgi env sc s).2.2.trace = s.2.trace ++ ext ∧ ∀ e ∈ ext, e.isApi = true := by
  induction sc with
  | ret r => intro s; exact ⟨rfl, rfl, rfl, [], by simp [runCgi], by simp⟩
  | send data len k ih =>
    intro s
    obtain ⟨h1, h2, h3, ext, h4, h5⟩ := ih (httpdSend env s.1 data len).1
      ((httpdSend env s.1 data len).2,
        s.2.log (.cgiSend (memRead data (if len < 0 then (strlen data : Int) else len).toNat)
          (httpdSend env s.1 data len).1))
    refine ⟨?_, ?_, ?_,
      Event.cgiSend (memRead data (if len < 0 then (strlen data : Int) else len).toNat)
          (httpdSend env s.1 data len).1 :: ext, ?_, ?_⟩
    · rw [runCgi, h1, httpdSend_frame]
    · rw [runCgi, h2]; rfl
    · rw [runCgi, h3]; rfl
    · rw [runCgi, h4]; simp [World.log]
    · intro e he
      rcases List.mem_cons.1 he with h | h
      · rw [h]; rfl
      · exact h5 e h
  | startResponse code k ih =>
    intro s
    obtain ⟨h1, h2, h3, ext, h4, h5⟩ := ih (httpdStartResponse env s.1 code, s.2)
    exact ⟨by rw [runCgi, h1, httpdStartResponse_frame], by rw [runCgi, h2], by rw [runCgi, h3],
      ext, by rw [runCgi, h4], h5⟩
  | header f v k ih =>
    intro s
    obtain ⟨h1, h2, h3, ext, h4, h5⟩ := ih (httpdHeader env s.1 f v, s.2)
    exact ⟨by rw [runCgi, h1, httpdHeader_frame], by rw [runCgi, h2], by rw [runCgi, h3],
      ext, by rw [runCgi, h4], h5⟩
  | endHeaders k ih =>
    intro s
    obtain ⟨h1, h2, h3, ext, h4, h5⟩ := ih (httpdEndHeaders env s.1, s.2.log .cgiEndHeaders)
    refine ⟨by rw [runCgi, h1, httpdEndHeaders_frame], by rw [runCgi, h2]; rfl,
      by rw [runCgi, h3]; rfl, Event.cgiEndHeaders :: ext, ?_, ?_⟩
    · rw [runCgi, h4]; simp [World.log]
    · intro e he
      rcases List.mem_cons.1 he with h | h
      · rw [h]; rfl
      · exact h5 e h
  | setTransferMode m k ih =>
    intro s
    obtain ⟨h1, h2, h3, ext, h4, h5⟩ := ih (httpdSetTransferMode s.1 m, s.2)
    exact ⟨by rw [runCgi, h1, httpdSetTransferMode_frame], by rw [runCgi, h2],
      by rw [runCgi, h3], ext, by rw [runCgi, h4], h5⟩
  | setCgiData v k ih =>
    intro s
    obtain ⟨h1, h2, h3, ext, h4, h5⟩ := ih ({ s.1 with cgiData := v }, s.2)
    exact ⟨by rw [runCgi, h1]; rfl, by rw [runCgi, h2], by rw [runCgi, h3], ext,
      by rw [runCgi, h4], h5⟩
  | setRecvHdl h k ih =>
    intro s
    obtain ⟨h1, h2, h3, ext, h4, h5⟩ := ih ({ s.1 with recvHdl := h }, s.2)
    exact ⟨by rw [runCgi, h1]; rfl, by rw [runCgi, h2], by rw [runCgi, h3], ext,
      by rw [runCgi, h4], h5⟩

theorem cgiReturns_append (a b : List Event) :
    cgiReturns (a ++ b) = cgiReturns a ++ cgiReturns b := by
  simp [cgiReturns, List.filterMap_append]

theorem cgiReturns_of_isApi (ext : List Event) (h : ∀ e ∈ ext, e.isApi = true) :
    cgiReturns ext = [] := by
  induction ext with
  | nil => rfl
  | cons e t ih =>
    have he := h e (by simp)
    have ht := ih (fun x hx => h x (by simp [hx]))
    cases e <;> simp [Event.isApi] at he <;> simpa [cgiReturns] using ht

theorem cgiReturns_of_isPlat (ext : List Event) (h : ∀ e ∈ ext, e.isPlat = true) :
    cgiReturns ext = [] := by
  induction ext with
  | nil => rfl
  | cons e t ih =>
    have he := h e (by simp)
    have ht := ih (fun x hx => h x (by simp [hx]))
    cases e <;> simp [Event.isPlat] at he <;> simpa [cgiReturns] using ht

theorem callCgi_spec (env : HttpdEnv) (fn : CgiFn) (s : HttpdConnData × World) :
    cgiFrame (callCgi env fn s).2.1 = cgiFrame s.1 ∧
    (callCgi env fn s).2.2.sendOk = s.2.sendOk ∧
    (callCgi env fn s).2.2.mallocOk = s.2.mallocOk ∧
    ∃ ext, (callCgi env fn s).2.2.trace =
        s.2.trace ++ Event.cgiCall fn s.1.post :: (ext ++ [Event.cgiReturn fn (callCgi env fn s).1]) ∧
      ∀ e ∈ ext, e.isApi = true := by
  obtain ⟨h1, h2, h3, ext, h4, h5⟩ :=
    runCgi_spec env (cgiScript env fn (cgiView s.1)) (s.1, s.2.log (.cgiCall fn s.1.post))
  refine ⟨h1, h2, h3, ext, ?_, h5⟩
  simp only [callCgi, World.log_trace]
  rw [h4]
  simp [World.log_trace]

theorem httpdFlushSendBuffer_trace (env : HttpdEnv) (s : HttpdConnData × World) :
    ∃ ext, (httpdFlushSendBuffer env s).2.trace = s.2.trace ++ ext ∧
      ∀ e ∈ ext, e.isPlat = true := by
  unfold httpdFlushSendBuffer
  simp only []
  split_ifs
  · exact ⟨[], by simp, by simp⟩
  · exact ⟨[_], rfl, by simp [Event.isPlat]⟩
  · exact ⟨[_], rfl, by simp [Event.isPlat]⟩
  · exact ⟨[_], rfl, by simp [Event.isPlat]⟩
  · exact ⟨[_], rfl, by simp [Event.isPlat]⟩
  · exact ⟨[], by simp, by simp⟩

theorem httpdCgiIsDone_trace (env : HttpdEnv) (s : HttpdConnData × World) :
    ∃ ext, (httpdCgiIsDone env s).2.trace = s.2.trace ++ ext ∧
      ∀ e ∈ ext, e.isPlat = true := by
  unfold httpdCgiIsDone
  split_ifs
  · exact httpdFlushSendBuffer_trace env _
  · exact ⟨[], by simp, by simp⟩

theorem cgiNotFound_done (env : HttpdEnv) (v : CgiView) (s : HttpdConnData × World) :
    (runCgi env (cgiNotFound v) s).1 = .HTTPD_CGI_DONE := by
  unfold cgiNotFound
  split_ifs <;> simp [runCgi]

theorem findUrl_spec (url : List Nat) : ∀ (rest : List HttpdBuiltInUrl) (i : Nat),
    ∃ k, findUrl url rest i = i + k ∧ k ≤ rest.length ∧
      rest.filter (fun r => routeMatch r.url url) =
        (rest.drop k).filter (fun r => routeMatch r.url url) ∧
      (∀ r, rest.get? k = some r → routeMatch r.url url = true) ∧
      rest.find? (fun r => routeMatch r.url url) = rest.get? k := by
  intro rest
  induction rest with
  | nil => intro i; exact ⟨0, by simp [findUrl]⟩
  | cons r t ih =>
    intro i
    by_cases hm : routeMatch r.url url = true
    · refine ⟨0, by simp [findUrl, hm], by simp, by simp, ?_, by simp [hm]⟩
      intro r' hr'
      simp at hr'
      rw [← hr']; exact hm
    · obtain ⟨k, h1, h2, h3, h4, h5⟩ := ih (i + 1)
      refine ⟨k + 1, ?_, by simp; omega, ?_, ?_, ?_⟩
      · simp only [findUrl, if_neg hm, h1]; omega
      · simp [hm, ← h3]
      · intro r' hr'
        exact h4 r' (by simpa using hr')
      · simp [hm, h5]

theorem callCgi_cgiNotFound_done (env : HttpdEnv) (s : HttpdConnData × World) :
    (callCgi env .cgiNotFound s).1 = .HTTPD_CGI_DONE := by
  simp only [callCgi, cgiScript]
  exact cgiNotFound_done env _ _

theorem cgiFrame_url_head {c c' : HttpdConnData} (h : cgiFrame c' = cgiFrame c) :
    c'.priv.head.drop (c'.url.getD 0) = c.priv.head.drop (c.url.getD 0) ∧ c'.post = c.post := by
  simp only [cgiFrame, Prod.mk.injEq] at h
  obtain ⟨-, -, h3, -, -, -, -, h8, -, -, -, -, -, -, h15, -⟩ := h
  rw [h3, h8, h15]
  exact ⟨rfl, rfl⟩

theorem installCgi_frame (urls : List HttpdBuiltInUrl) (i : Nat) (c : HttpdConnData) :
    (installCgi urls i c).2.priv = c.priv ∧ (installCgi urls i c).2.url = c.url ∧
      (installCgi urls i c).2.post = c.post ∧ (installCgi urls i c).2.conn = c.conn ∧
      (installCgi urls i c).2.cgi = some (installCgi urls i c).1 := by
  unfold installCgi
  cases urls.get? i <;> exact ⟨rfl, rfl, rfl, rfl, rfl⟩

theorem cgiReturns_call (fn : CgiFn) (post : HttpdPostData) (st : CgiStatus)
    (ext ext2 : List Event) (h : ∀ e ∈ ext, e.isApi = true) :
    cgiReturns (Event.cgiCall fn post :: (ext ++ [Event.cgiReturn fn st]) ++ ext2) =
      (fn, st) :: cgiReturns ext2 := by
  rw [cgiReturns_append]
  rw [show Event.cgiCall fn post :: (ext ++ [Event.cgiReturn fn st]) =
      [Event.cgiCall fn post] ++ ext ++ [Event.cgiReturn fn st] by simp]
  rw [cgiReturns_append, cgiReturns_append, cgiReturns_of_isApi ext h]
  simp [cgiReturns]

/-- The loop of `httpdProcessRequest` ends, and the handler calls it records
are those of a search over the matching entries from index `i` on. -/
theorem httpdProcessRequestLoop_spec (env : HttpdEnv) (urls : List HttpdBuiltInUrl) :
    ∀ (n i : Nat) (s : HttpdConnData × World), i ≤ urls.length → urls.length + 1 - i ≤ n →
      ∃ s' ext, httpdProcessRequestLoop env urls n i s = some s' ∧
        s'.2.trace = s.2.trace ++ ext ∧
        resolves ((urls.drop i).filter
          (fun r => routeMatch r.url (s.1.priv.head.drop (s.1.url.getD 0)))) (cgiReturns ext)
          = true ∧
        ext.head? = some (Event.cgiCall
          (match (urls.drop i).find?
              (fun r => routeMatch r.url (s.1.priv.head.drop (s.1.url.getD 0))) with
            | some r => r.cgiCb
            | none => .cgiNotFound) s.1.post) := by
  intro n
  induction n with
  | zero => intro i s hi hn; omega
  | succ n ih =>
    intro i s hi hn
    obtain ⟨k, hk1, hk2, hk3, hk4, hk5⟩ :=
      findUrl_spec (s.1.priv.head.drop (s.1.url.getD 0)) (urls.drop i) i
    have hget : (urls.drop i).get? k = urls.get? (i + k) := by
      simp [List.getElem?_drop]
    rw [hget] at hk4 hk5
    unfold httpdProcessRequestLoop
    simp only [hk1]
    rw [hk3, hk5]
    obtain ⟨hi1, hi2, hi3, -, -⟩ := installCgi_frame urls (i + k) s.1
    have hfn : (installCgi urls (i + k) s.1).1 =
        (match urls.get? (i + k) with
          | some r => r.cgiCb
          | none => .cgiNotFound) := by
      unfold installCgi
      cases urls.get? (i + k) <;> rfl
    rw [← hfn]
    generalize (installCgi urls (i + k) s.1).2 = conn1 at hi1 hi2 hi3
    obtain ⟨hf, -, -, ext, h4, h5⟩ := callCgi_spec env (installCgi urls (i + k) s.1).1 (conn1, s.2)
    have hfr2 := cgiFrame_url_head hf
    simp only [] at h4 hfr2
    rw [hi3] at h4
    rw [hi1, hi2] at hfr2
    have hdone : urls.get? (i + k) = none →
        (callCgi env (installCgi urls (i + k) s.1).1 (conn1, s.2)).1 = .HTTPD_CGI_DONE := by
      intro hr
      rw [hfn, hr]
      exact callCgi_cgiNotFound_done env _
    have hfilter : ∀ r, urls.get? (i + k) = some r →
        List.filter (fun r => routeMatch r.url (s.1.priv.head.drop (s.1.url.getD 0)))
          (List.drop k (List.drop i urls)) =
        r :: List.filter (fun r => routeMatch r.url (s.1.priv.head.drop (s.1.url.getD 0)))
          (urls.drop (i + k + 1)) ∧ (installCgi urls (i + k) s.1).1 = r.cgiCb ∧
          i + k < urls.length := by
      intro r hr
      have hr2 := hr
      rw [List.get?_eq_getElem?] at hr2
      obtain ⟨hlt, hel⟩ := List.getElem?_eq_some_iff.1 hr2
      have hmr := hk4 r hr
      rw [List.drop_drop, List.drop_eq_getElem_cons hlt, hel, List.filter_cons, if_pos hmr]
      refine ⟨rfl, ?_, hlt⟩
      rw [hfn, hr]
    have hnil : urls.get? (i + k) = none →
        List.filter (fun r => routeMatch r.url (s.1.priv.head.drop (s.1.url.getD 0)))
          (List.drop k (List.drop i urls)) = [] ∧
          (installCgi urls (i + k) s.1).1 = .cgiNotFound := by
      intro hr
      have hr2 := hr
      rw [List.get?_eq_getElem?] at hr2
      have hlen := List.getElem?_eq_none_iff.1 hr2
      have hd : List.drop k (List.drop i urls) = [] := by
        apply List.drop_eq_nil_of_le
        rw [List.length_drop]; omega
      rw [hd, hfn, hr]
      exact ⟨rfl, rfl⟩
    generalize (installCgi urls (i + k) s.1).1 = fn at *
    generalize hres : callCgi env fn (conn1, s.2) = res at *
    cases hst : res.1 with
    | HTTPD_CGI_MORE =>
      simp only []
      rw [hst] at h4
      have h8 : ∃ ext3, (if res.2.1.recvHdl ≠ none then
            res.2.2.log (.platDisableTimeout res.2.1.conn) else res.2.2).trace =
            res.2.2.trace ++ ext3 ∧ ∀ e ∈ ext3, e.isPlat = true := by
        split_ifs
        · exact ⟨[_], rfl, by simp [Event.isPlat]⟩
        · exact ⟨[], by simp, by simp⟩
      obtain ⟨ext3, h9, h10⟩ := h8
      obtain ⟨ext2, h6, h7⟩ := httpdFlushSendBuffer_trace env
        (res.2.1, if res.2.1.recvHdl ≠ none then
            res.2.2.log (.platDisableTimeout res.2.1.conn) else res.2.2)
      refine ⟨_, Event.cgiCall fn s.1.post ::
        (ext ++ [Event.cgiReturn fn .HTTPD_CGI_MORE]) ++ (ext3 ++ ext2), rfl, ?_, ?_, ?_⟩
      · rw [h6]
        simp only []
        rw [h9, h4]
        simp
      · rw [cgiReturns_call _ _ _ _ _ h5, cgiReturns_append, cgiReturns_of_isPlat ext2 h7,
          cgiReturns_of_isPlat ext3 h10]
        cases hr : urls.get? (i + k) with
        | none => rw [hdone hr] at hst; exact absurd hst (by simp)
        | some r =>
          obtain ⟨e1, e2, -⟩ := hfilter r hr
          rw [e1, e2]
          simp [resolves]
      · simp
    | HTTPD_CGI_DONE =>
      simp only []
      rw [hst] at h4
      obtain ⟨ext2, h6, h7⟩ := httpdCgiIsDone_trace env res.2
      refine ⟨_, Event.cgiCall fn s.1.post ::
        (ext ++ [Event.cgiReturn fn .HTTPD_CGI_DONE]) ++ ext2, rfl, ?_, ?_, ?_⟩
      · rw [h6, h4]
        simp
      · rw [cgiReturns_call _ _ _ _ _ h5, cgiReturns_of_isPlat ext2 h7]
        cases hr : urls.get? (i + k) with
        | none =>
          obtain ⟨e1, e2⟩ := hnil hr
          rw [e1, e2]
          simp [resolves]
        | some r =>
          obtain ⟨e1, e2, -⟩ := hfilter r hr
          rw [e1, e2]
          simp [resolves]
      · simp
    | HTTPD_CGI_NOTFOUND =>
      simp only []
      rw [hst] at h4
      cases hr : urls.get? (i + k) with
      | none => rw [hdone hr] at hst; exact absurd hst (by simp)
      | some r =>
        obtain ⟨e1, e2, hlt⟩ := hfilter r hr
        obtain ⟨s', ext2, e3, e4, e5, -⟩ := ih (i + k + 1) res.2 (by omega) (by omega)
        rw [hfr2.1] at e5
        refine ⟨s', Event.cgiCall fn s.1.post ::
          (ext ++ [Event.cgiReturn fn .HTTPD_CGI_NOTFOUND]) ++ ext2, e3, ?_, ?_, ?_⟩
        · rw [e4, h4]
          simp
        · rw [cgiReturns_call _ _ _ _ _ h5, e1, e2]
          simp [resolves, e5]
        · simp
    | HTTPD_CGI_AUTHENTICATED =>
      simp only []
      rw [hst] at h4
      cases hr : urls.get? (i + k) with
      | none => rw [hdone hr] at hst; exact absurd hst (by simp)
      | some r =>
        obtain ⟨e1, e2, hlt⟩ := hfilter r hr
        obtain ⟨s', ext2, e3, e4, e5, -⟩ := ih (i + k + 1) res.2 (by omega) (by omega)
        rw [hfr2.1] at e5
        refine ⟨s', Event.cgiCall fn s.1.post ::
          (ext ++ [Event.cgiReturn fn .HTTPD_CGI_AUTHENTICATED]) ++ ext2, e3, ?_, ?_, ?_⟩
        · rw [e4, h4]
          simp
        · rw [cgiReturns_call _ _ _ _ _ h5, e1, e2]
          simp [resolves, e5]
        · simp

theorem routeMatch_eq_routeMatches (route url : List Nat) (hne : route ≠ [])
    (hnul : ∀ c ∈ route, c ≠ 0) : routeMatch route url = routeMatches route (cstr url) := by
  have hc : cstr route = route := cstr_of_no_nul route hnul
  have hlen : strlen route = route.length := by unfold strlen; rw [hc]
  have hpos : 0 < route.length := List.length_pos.2 hne
  unfold routeMatch routeMatches strcmpEq strncmpEq
  rw [hlen, hc]
  congr 1
  have h1 : (route.getD (route.length - 1) 0 == 42) = (route.getLast? == some 42) := by
    rw [List.getLast?_eq_getElem?, List.getD_eq_getElem?_getD]
    have hlt : route.length - 1 < route.length := by omega
    rw [List.getElem?_eq_getElem hlt]
    simp
  have h2 : (List.take (route.length - 1) route == List.take (route.length - 1) (cstr url)) =
      route.dropLast.isPrefixOf (cstr url) := by
    rw [Bool.eq_iff_iff, beq_iff_eq, List.isPrefixOf_iff_prefix, List.prefix_iff_eq_take,
      List.dropLast_eq_take]
    simp
  rw [h1, h2]

theorem find?_eq_of_agree (p q : HttpdBuiltInUrl → Bool) (l : List HttpdBuiltInUrl)
    (h : ∀ x ∈ l, p x = q x) : l.find? p = l.find? q := by
  induction l with
  | nil => rfl
  | cons a t ih =>
    rw [List.find?_cons, List.find?_cons, h a (by simp), ih (fun x hx => h x (by simp [hx]))]

/-- C7: for a route table of non-empty patterns and a request with URL `U`,
the first handler `httpdProcessRequest` installs and calls is that of the
lowest-index entry whose pattern equals `U` or ends in `*` with the bytes
before the `*` a start of `U`; `cgiNotFound` when no entry matches. -/
theorem httpdProcessRequest_first_handler (env : HttpdEnv) (urls : List HttpdBuiltInUrl)
    (s : HttpdConnData × World) (u : Nat) (hurl : s.1.url = some u)
    (hpat : ∀ r ∈ urls, r.url ≠ [] ∧ ∀ c ∈ r.url, c ≠ 0) :
    ∃ s' rest, httpdProcessRequest env urls s = some s' ∧
      s'.2.trace = s.2.trace ++
        Event.cgiCall
          (match urls.find? (fun r => routeMatches r.url (cstr (s.1.priv.head.drop u))) with
            | some r => r.cgiCb
            | none => .cgiNotFound) s.1.post :: rest := by
  obtain ⟨s', ext, h1, h2, -, h4⟩ :=
    httpdProcessRequestLoop_spec env urls (urls.length + 2) 0 s (by omega) (by omega)
  have hfind : urls.find? (fun r => routeMatch r.url (s.1.priv.head.drop (s.1.url.getD 0))) =
      urls.find? (fun r => routeMatches r.url (cstr (s.1.priv.head.drop u))) := by
    apply find?_eq_of_agree
    intro r hr
    rw [hurl]
    exact routeMatch_eq_routeMatches r.url _ (hpat r hr).1 (hpat r hr).2
  rw [List.drop_zero, hfind] at h4
  cases ext with
  | nil => simp at h4
  | cons e rest =>
    simp only [List.head?_cons, Option.some.injEq] at h4
    refine ⟨s', rest, ?_, ?_⟩
    · unfold httpdProcessRequest
      rw [if_neg (by rw [hurl]; simp)]
      exact h1
    · rw [h2, h4]

/-- C8: `httpdProcessRequest` returns, and for a request with a URL the
handler calls it makes are a search over the entries that match the URL, in
table order: every call but the last is the next matching entry answering
NOTFOUND or AUTHENTICATED, and the last call is a matching entry answering
DONE or MORE or, after all matching entries have declined, one call of
`cgiNotFound`, which answers DONE. -/
theorem httpdProcessRequest_search (env : HttpdEnv) (urls : List HttpdBuiltInUrl)
    (s : HttpdConnData × World) :
    ∃ s' ext, httpdProcessRequest env urls s = some s' ∧ s'.2.trace = s.2.trace ++ ext ∧
      (s.1.url ≠ none →
        resolves (urls.filter (fun r => routeMatch r.url (s.1.priv.head.drop (s.1.url.getD 0))))
          (cgiReturns ext) = true) := by
  unfold httpdProcessRequest
  by_cases hurl : s.1.url = none
  · rw [if_pos hurl]
    exact ⟨s, [], rfl, by simp, fun h => absurd hurl h⟩
  · rw [if_neg hurl]
    obtain ⟨s', ext, h1, h2, h3, -⟩ :=
      httpdProcessRequestLoop_spec env urls (urls.length + 2) 0 s (by omega) (by omega)
    rw [List.drop_zero] at h3
    exact ⟨s', ext, h1, h2, fun _ => h3⟩

theorem httpdProcessRequest_first_handler_witness :
    (connWithUrl idleEnv [47, 97, 112, 105, 47, 102, 111, 111], World.start).1.url = some 0 ∧
    (∀ r ∈ apiRoutes, r.url ≠ [] ∧ ∀ c ∈ r.url, c ≠ 0) ∧
    (∃ s' rest, httpdProcessRequest idleEnv apiRoutes
        (connWithUrl idleEnv [47, 97, 112, 105, 47, 102, 111, 111], World.start) = some s' ∧
      s'.2.trace = (connWithUrl idleEnv [47, 97, 112, 105, 47, 102, 111, 111], World.start).2.trace ++
        Event.cgiCall
          (match apiRoutes.find? (fun r => routeMatches r.url
              (cstr ((connWithUrl idleEnv [47, 97, 112, 105, 47, 102, 111, 111],
                World.start).1.priv.head.drop 0))) with
            | some r => r.cgiCb
            | none => .cgiNotFound)
          (connWithUrl idleEnv [47, 97, 112, 105, 47, 102, 111, 111], World.start).1.post :: rest) ∧
    (apiRoutes.find? (fun r => routeMatches r.url [47, 97, 112, 105, 47, 102, 111, 111])).map
      (fun r => r.cgiCb) = some (.user 1) ∧
    (apiRoutes.find? (fun r => routeMatches r.url [47, 111, 116, 104, 101, 114])).map
      (fun r => r.cgiCb) = some (.user 2) :=
  ⟨by decide, by decide,
    httpdProcessRequest_first_handler idleEnv apiRoutes
      (connWithUrl idleEnv [47, 97, 112, 105, 47, 102, 111, 111], World.start) 0 (by decide)
      (by decide),
    by decide, by decide⟩

/-! ### `httpdParseHeader` on a request line -/

theorem cstr_append_nul (a r : List Nat) (h : ∀ c ∈ a, c ≠ 0) : cstr (a ++ 0 :: r) = a := by
  induction a with
  | nil => simp [cstr]
  | cons c t ih =>
    have hc := h c (by simp)
    rw [List.cons_append, cstr_cons, if_neg hc, ih (fun x hx => h x (by simp [hx]))]

theorem cstr_append_of_no_nul (a r : List Nat) (h : ∀ c ∈ a, c ≠ 0) :
    cstr (a ++ r) = a ++ cstr r := by
  induction a with
  | nil => simp
  | cons c t ih =>
    have hc := h c (by simp)
    rw [List.cons_append, cstr_cons, if_neg hc, ih (fun x hx => h x (by simp [hx]))]
    rfl

theorem strstrFrom_single (c : Nat) (a r : List Nat) (h : ∀ x ∈ a, x ≠ c) : ∀ i,
    strstrFrom [c] (a ++ c :: r) i = some (i + a.length) := by
  induction a with
  | nil => intro i; simp [strstrFrom, List.isPrefixOf]
  | cons x t ih =>
    intro i
    have hx : ¬ (c = x) := fun e => h x (by simp) e.symm
    simp only [List.cons_append, strstrFrom, List.isPrefixOf, beq_iff_eq, Bool.and_true, hx,
      Bool.false_eq_true, if_false, List.append_eq]
    rw [ih (fun y hy => h y (by simp [hy])) (i + 1)]
    simp only [List.length_cons]
    congr 1
    omega

theorem strstrFrom_single_none (c : Nat) (a : List Nat) (h : ∀ x ∈ a, x ≠ c) : ∀ i,
    strstrFrom [c] a i = none := by
  induction a with
  | nil => intro i; simp [strstrFrom]
  | cons x t ih =>
    intro i
    have hx : ¬ (c = x) := fun e => h x (by simp) e.symm
    simp only [strstrFrom, List.isPrefixOf, beq_iff_eq, Bool.and_true, hx,
      Bool.false_eq_true, if_false]
    exact ih (fun y hy => h y (by simp [hy])) (i + 1)

theorem strstr_single (c : Nat) (hc : c ≠ 0) (a r : List Nat) (h : ∀ x ∈ a, x ≠ 0 ∧ x ≠ c) :
    strstr (a ++ c :: r) [c] = some a.length := by
  unfold strstr
  rw [cstr_append_of_no_nul a _ (fun x hx => (h x hx).1), cstr_cons, if_neg hc,
    strstrFrom_single c a _ (fun x hx => (h x hx).2)]
  simp

theorem strstr_single_none (c : Nat) (a r : List Nat) (h : ∀ x ∈ a, x ≠ 0 ∧ x ≠ c) :
    strstr (a ++ 0 :: r) [c] = none := by
  unfold strstr
  rw [cstr_append_nul a _ (fun x hx => (h x hx).1)]
  exact strstrFrom_single_none c a (fun x hx => (h x hx).2) 0

theorem takeWhile_append_stop (p : Nat → Bool) (a r : List Nat) (x : Nat) (hx : p x = false) :
    (a ++ x :: r).takeWhile p = a.takeWhile p := by
  induction a with
  | nil => simp [List.takeWhile_cons, hx]
  | cons c t ih =>
    simp only [List.cons_append, List.takeWhile_cons]
    split
    · rw [ih]
    · rfl

theorem set_append_cons (a r : List Nat) (x v : Nat) :
    (a ++ x :: r).set a.length v = a ++ v :: r := by
  induction a with
  | nil => rfl
  | cons c t ih => simp [ih]

theorem drop_append_length (a r : List Nat) : (a ++ r).drop a.length = r := by
  simp

theorem drop_takeWhile_length (p : Nat → Bool) (l : List Nat) :
    l.drop (l.takeWhile p).length = l.dropWhile p := by
  induction l with
  | nil => rfl
  | cons c t ih =>
    simp only [List.takeWhile_cons, List.dropWhile_cons]
    split
    · simpa using ih
    · rfl

theorem takeWhile_eq_self_of_all (p : Nat → Bool) (a : List Nat) (h : ∀ c ∈ a, p c = true) :
    a.takeWhile p = a := by
  rw [List.takeWhile_eq_self_iff]
  exact h

theorem split_at_first (c : Nat) (l : List Nat) (h : c ∈ l) :
    l = l.takeWhile (fun x => x != c) ++ c :: (l.dropWhile (fun x => x != c)).drop 1 := by
  induction l with
  | nil => simp at h
  | cons x t ih =>
    by_cases hx : x = c
    · subst hx
      simp [List.takeWhile_cons, List.dropWhile_cons]
    · have ht : c ∈ t := by
        rcases List.mem_cons.1 h with h1 | h1
        · exact absurd h1.symm hx
        · exact h1
      have hb : (x != c) = true := by simpa using hx
      simp only [List.takeWhile_cons, List.dropWhile_cons, hb, if_true, List.cons_append]
      rw [← ih ht]

theorem drop_append_of_length (a r : List Nat) (n : Nat) (h : a.length = n) :
    (a ++ r).drop n = r := by
  subst h
  simp

theorem set_append_cons_of_length (a r : List Nat) (x v n : Nat) (h : a.length = n) :
    (a ++ x :: r).set n v = a ++ v :: r := by
  subst h
  exact set_append_cons a r x v

theorem length_takeWhile_le_length (p : Nat → Bool) (l : List Nat) :
    (l.takeWhile p).length ≤ l.length := by
  induction l with
  | nil => simp
  | cons c t ih =>
    simp only [List.takeWhile_cons]
    split
    · simp; exact ih
    · simp

theorem mem_of_mem_dropWhile_nat (p : Nat → Bool) (l : List Nat) (c : Nat)
    (h : c ∈ l.dropWhile p) : c ∈ l := by
  induction l with
  | nil => simp at h
  | cons x t ih =>
    simp only [List.dropWhile_cons] at h
    split at h
    · exact List.mem_cons_of_mem _ (ih h)
    · exact h

theorem mem_of_mem_takeWhile_nat (p : Nat → Bool) (l : List Nat) (c : Nat)
    (h : c ∈ l.takeWhile p) : c ∈ l := by
  induction l with
  | nil => simp at h
  | cons x t ih =>
    simp only [List.takeWhile_cons] at h
    split at h
    · rcases List.mem_cons.1 h with h1 | h1
      · rw [h1]; simp
      · exact List.mem_cons_of_mem _ (ih h1)
    · simp at h

theorem parseRequestLine_spec (pre mb target version post : List Nat) (conn : HttpdConnData)
    (hhead : conn.priv.head = pre ++ (mb ++ 32 :: (target ++ 32 :: (version ++ 0 :: post))))
    (hmb : ∀ c ∈ mb, c ≠ 32)
    (ht : ∀ c ∈ target, c ≠ 0 ∧ c ≠ 32)
    (hv : ∀ c ∈ version, c ≠ 0) :
    (parseRequestLine pre.length conn).requestType = conn.requestType ∧
    (∃ u, (parseRequestLine pre.length conn).url = some u ∧
      headStr (parseRequestLine pre.length conn) u = target.takeWhile (fun c => c != 63)) ∧
    (63 ∈ target → ∃ g, (parseRequestLine pre.length conn).getArgs = some g ∧
      headStr (parseRequestLine pre.length conn) g =
        (target.dropWhile (fun c => c != 63)).drop 1) ∧
    (63 ∉ target → (parseRequestLine pre.length conn).getArgs = none) ∧
    (parseRequestLine pre.length conn).priv.flags =
      (if (version.dropWhile (fun c => c == 32)).map tolower =
          [104, 116, 116, 112, 47, 49, 46, 49] then
        { conn.priv.flags with HFL_HTTP11 := true, HFL_CHUNKED := true }
      else conn.priv.flags) := by
  have hl1 : (pre ++ mb ++ [32]).length = pre.length + mb.length + 1 := by
    simp; omega
  have hl2 : (pre ++ mb ++ [32] ++ target).length = pre.length + mb.length + 1 + target.length := by
    simp; omega
  have hl3 : (pre ++ mb ++ [32] ++ target ++ [0]).length =
      pre.length + mb.length + 1 + target.length + 1 := by
    simp; omega
  have e1 : conn.priv.head.drop pre.length =
      mb ++ 32 :: (target ++ 32 :: (version ++ 0 :: post)) := by
    rw [hhead]; exact drop_append_of_length _ _ _ rfl
  have e2 : ((mb ++ 32 :: (target ++ 32 :: (version ++ 0 :: post))).takeWhile
      (fun c => c != 32)).length = mb.length := by
    rw [takeWhile_append_stop _ _ _ _ (by simp),
      takeWhile_eq_self_of_all _ _ (fun c hc => by simpa using hmb c hc)]
  have hA : conn.priv.head = (pre ++ mb ++ [32] ++ target) ++ 32 :: (version ++ 0 :: post) := by
    rw [hhead]; simp
  have e3 : conn.priv.head.drop (pre.length + mb.length + 1) =
      target ++ 32 :: (version ++ 0 :: post) := by
    have : conn.priv.head = (pre ++ mb ++ [32]) ++ (target ++ 32 :: (version ++ 0 :: post)) := by
      rw [hhead]; simp
    rw [this]
    exact drop_append_of_length _ _ _ hl1
  have e4 : strstr (target ++ 32 :: (version ++ 0 :: post)) [32] = some target.length :=
    strstr_single 32 (by decide) _ _ ht
  have e5 : conn.priv.head.set (pre.length + mb.length + 1 + target.length) 0 =
      (pre ++ mb ++ [32] ++ target) ++ 0 :: (version ++ 0 :: post) := by
    rw [hA]
    exact set_append_cons_of_length _ _ _ _ _ hl2
  have e6 : ((pre ++ mb ++ [32] ++ target) ++ 0 :: (version ++ 0 :: post)).drop
      (pre.length + mb.length + 1 + target.length + 1) = version ++ 0 :: post := by
    have : (pre ++ mb ++ [32] ++ target) ++ 0 :: (version ++ 0 :: post) =
        (pre ++ mb ++ [32] ++ target ++ [0]) ++ (version ++ 0 :: post) := by simp
    rw [this]
    exact drop_append_of_length _ _ _ hl3
  have e7 : skipSpaces (version ++ 0 :: post) =
      (version.takeWhile (fun c => c == 32)).length := by
    unfold skipSpaces
    rw [takeWhile_append_stop _ _ _ _ (by simp)]
  have e8 : ((pre ++ mb ++ [32] ++ target) ++ 0 :: (version ++ 0 :: post)).drop
      (pre.length + mb.length + 1 + target.length + 1 +
        (version.takeWhile (fun c => c == 32)).length) =
      version.dropWhile (fun c => c == 32) ++ 0 :: post := by
    rw [← List.drop_drop, e6, List.drop_append_of_le_length (length_takeWhile_le_length _ _),
      drop_takeWhile_length]
  have hv' : ∀ c ∈ version.dropWhile (fun c => c == 32), c ≠ 0 :=
    fun c hc => hv c (mem_of_mem_dropWhile_nat _ _ _ hc)
  have e9 : strcasecmpEq (version.dropWhile (fun c => c == 32) ++ 0 :: post)
      [72, 84, 84, 80, 47, 49, 46, 49] =
      decide ((version.dropWhile (fun c => c == 32)).map tolower =
        [104, 116, 116, 112, 47, 49, 46, 49]) := by
    unfold strcasecmpEq
    rw [cstr_append_nul _ _ hv']
    have : (cstr [72, 84, 84, 80, 47, 49, 46, 49]).map tolower =
        [104, 116, 116, 112, 47, 49, 46, 49] := by decide
    rw [this]
    by_cases h : (version.dropWhile (fun c => c == 32)).map tolower =
        [104, 116, 116, 112, 47, 49, 46, 49]
    · simp [h]
    · simp [h]
  have e10 : ((pre ++ mb ++ [32] ++ target) ++ 0 :: (version ++ 0 :: post)).drop
      (pre.length + mb.length + 1) = target ++ 0 :: (version ++ 0 :: post) := by
    have : (pre ++ mb ++ [32] ++ target) ++ 0 :: (version ++ 0 :: post) =
        (pre ++ mb ++ [32]) ++ (target ++ 0 :: (version ++ 0 :: post)) := by simp
    rw [this]
    exact drop_append_of_length _ _ _ hl1
  unfold parseRequestLine
  simp only [e1, e2, e3, e4, e5, e6, e7, e8, e9, e10]
  have hflags : ∀ f g : Flags, (if decide ((version.dropWhile (fun c => c == 32)).map tolower =
      [104, 116, 116, 112, 47, 49, 46, 49]) = true then f else g) =
      (if (version.dropWhile (fun c => c == 32)).map tolower =
        [104, 116, 116, 112, 47, 49, 46, 49] then f else g) := by
    intro f g
    simp only [decide_eq_true_eq]
  by_cases hq : 63 ∈ target
  · have hsplit := split_at_first 63 target hq
    have ht1 : ∀ x ∈ target.takeWhile (fun x => x != 63), x ≠ 0 ∧ x ≠ 63 := by
      intro x hx
      have h1 := List.mem_takeWhile_imp hx
      have h2 := ht x (mem_of_mem_takeWhile_nat _ _ _ hx)
      exact ⟨h2.1, by simpa using h1⟩
    have ht2 : ∀ x ∈ (target.dropWhile (fun x => x != 63)).drop 1, x ≠ 0 := by
      intro x hx
      exact (ht x (mem_of_mem_dropWhile_nat _ _ _ (List.mem_of_mem_drop hx))).1
    generalize target.takeWhile (fun x => x != 63) = t1 at hsplit ht1
    generalize (target.dropWhile (fun x => x != 63)).drop 1 = t2 at hsplit ht2
    have hs1 : strstr (target ++ 0 :: (version ++ 0 :: post)) [63] = some t1.length := by
      rw [hsplit]
      have : t1 ++ 63 :: t2 ++ 0 :: (version ++ 0 :: post) =
          t1 ++ 63 :: (t2 ++ 0 :: (version ++ 0 :: post)) := by simp
      rw [this]
      exact strstr_single 63 (by decide) _ _ ht1
    rw [hs1]
    have hl4 : (pre ++ mb ++ [32] ++ t1).length = pre.length + mb.length + 1 + t1.length := by
      simp; omega
    have hl5 : (pre ++ mb ++ [32] ++ t1 ++ [0]).length =
        pre.length + mb.length + 1 + t1.length + 1 := by
      simp; omega
    have e11 : (pre ++ mb ++ [32] ++ target ++ 0 :: (version ++ 0 :: post)).set
        (pre.length + mb.length + 1 + t1.length) 0 =
        (pre ++ mb ++ [32] ++ t1) ++ 0 :: (t2 ++ 0 :: (version ++ 0 :: post)) := by
      rw [hsplit]
      have : pre ++ mb ++ [32] ++ (t1 ++ 63 :: t2) ++ 0 :: (version ++ 0 :: post) =
          (pre ++ mb ++ [32] ++ t1) ++ 63 :: (t2 ++ 0 :: (version ++ 0 :: post)) := by simp
      rw [this]
      exact set_append_cons_of_length _ _ _ _ _ hl4
    simp only [e11]
    refine ⟨by first | rfl | trivial, ⟨_, rfl, ?_⟩, fun _ => ⟨_, rfl, ?_⟩,
      fun h => absurd hq h, hflags _ _⟩
    · unfold headStr
      simp only []
      have : (pre ++ mb ++ [32] ++ t1) ++ 0 :: (t2 ++ 0 :: (version ++ 0 :: post)) =
          (pre ++ mb ++ [32]) ++ (t1 ++ 0 :: (t2 ++ 0 :: (version ++ 0 :: post))) := by simp
      rw [this, drop_append_of_length _ _ _ hl1, cstr_append_nul _ _ (fun c hc => (ht1 c hc).1)]
    · unfold headStr
      simp only []
      have : (pre ++ mb ++ [32] ++ t1) ++ 0 :: (t2 ++ 0 :: (version ++ 0 :: post)) =
          (pre ++ mb ++ [32] ++ t1 ++ [0]) ++ (t2 ++ 0 :: (version ++ 0 :: post)) := by simp
      rw [this, drop_append_of_length _ _ _ hl5, cstr_append_nul _ _ ht2]
  · have hno : ∀ x ∈ target, x ≠ 0 ∧ x ≠ 63 :=
      fun x hx => ⟨(ht x hx).1, fun e => hq (e ▸ hx)⟩
    rw [strstr_single_none 63 target _ hno]
    refine ⟨rfl, ⟨_, rfl, ?_⟩, fun h => absurd h hq, fun _ => rfl, hflags _ _⟩
    unfold headStr
    simp only [e10]
    rw [cstr_append_nul _ _ (fun c hc => (ht c hc).1)]
    rw [takeWhile_eq_self_of_all]
    intro c hc
    simpa using (hno c hc).2

theorem httpdParseHeader_requestLine (env : HttpdEnv) (m : RequestTypes) (pre rest : List Nat)
    (s : HttpdConnData × World) (hhead : s.1.priv.head = pre ++ (methodBytes m ++ 32 :: rest)) :
    httpdParseHeader env pre.length s =
      (parseRequestLine pre.length { s.1 with requestType := some m }, s.2) := by
  have e1 : s.1.priv.head.drop pre.length = methodBytes m ++ 32 :: rest := by
    rw [hhead]; exact drop_append_of_length _ _ _ rfl
  unfold httpdParseHeader
  simp only [e1]
  cases m <;>
    simp [methodBytes, strncmpEq, strncasecmpEq, cstr_cons, tolower, cstr]

/-- C6 (as amended): for a request line `M SP target SP version` with `M` one
of the six methods and `target` free of spaces, `httpdParseHeader` sets
`requestType` to `M`, `url` to `target` up to its first `?`, `getArgs` to the
rest of `target` after that `?` (`NULL` when there is none), and sets the
flags HTTP11 and CHUNKED exactly when `version`, its leading spaces skipped,
equals `HTTP/1.1` ignoring case. -/
theorem httpdParseHeader_request_line (env : HttpdEnv) (s : HttpdConnData × World)
    (m : RequestTypes) (pre target version post : List Nat)
    (hhead : s.1.priv.head = pre ++ (requestLine m target version ++ 0 :: post))
    (ht : ∀ c ∈ target, c ≠ 0 ∧ c ≠ 32) (hv : ∀ c ∈ version, c ≠ 0) :
    (httpdParseHeader env pre.length s).2 = s.2 ∧
    (httpdParseHeader env pre.length s).1.requestType = some m ∧
    (∃ u, (httpdParseHeader env pre.length s).1.url = some u ∧
      headStr (httpdParseHeader env pre.length s).1 u = target.takeWhile (fun c => c != 63)) ∧
    (63 ∈ target → ∃ g, (httpdParseHeader env pre.length s).1.getArgs = some g ∧
      headStr (httpdParseHeader env pre.length s).1 g =
        (target.dropWhile (fun c => c != 63)).drop 1) ∧
    (63 ∉ target → (httpdParseHeader env pre.length s).1.getArgs = none) ∧
    (httpdParseHeader env pre.length s).1.priv.flags =
      (if (version.dropWhile (fun c => c == 32)).map tolower =
          [104, 116, 116, 112, 47, 49, 46, 49] then
        { s.1.priv.flags with HFL_HTTP11 := true, HFL_CHUNKED := true }
      else s.1.priv.flags) := by
  have h1 : s.1.priv.head =
      pre ++ (methodBytes m ++ 32 :: (target ++ 32 :: (version ++ 0 :: post))) := by
    rw [hhead]; simp [requestLine]
  rw [httpdParseHeader_requestLine env m pre _ s h1]
  have hmb : ∀ c ∈ methodBytes m, c ≠ 32 := by
    cases m <;> simp [methodBytes]
  obtain ⟨a, b, c, d, e⟩ := parseRequestLine_spec pre (methodBytes m) target version post
    { s.1 with requestType := some m } h1 hmb ht hv
  exact ⟨rfl, a, b, c, d, e⟩

theorem httpdParseHeader_request_line_witness :
    (connWithHead idleEnv (requestLine .HTTPD_METHOD_GET [47, 104, 101, 108, 108, 111]
        [72, 84, 84, 80, 47, 49, 46, 48] ++ [0]), World.start).1.priv.head =
      [] ++ (requestLine .HTTPD_METHOD_GET [47, 104, 101, 108, 108, 111]
        [72, 84, 84, 80, 47, 49, 46, 48] ++ 0 :: []) ∧
    (∀ c ∈ ([47, 104, 101, 108, 108, 111] : List Nat), c ≠ 0 ∧ c ≠ 32) ∧
    (∀ c ∈ ([72, 84, 84, 80, 47, 49, 46, 48] : List Nat), c ≠ 0) ∧
    (httpdParseHeader idleEnv 0
      (connWithHead idleEnv (requestLine .HTTPD_METHOD_GET [47, 104, 101, 108, 108, 111]
        [72, 84, 84, 80, 47, 49, 46, 48] ++ [0]), World.start)).1.requestType =
      some .HTTPD_METHOD_GET ∧
    (httpdParseHeader idleEnv 0
      (connWithHead idleEnv (requestLine .HTTPD_METHOD_GET [47, 104, 101, 108, 108, 111]
        [72, 84, 84, 80, 47, 49, 46, 48] ++ [0]), World.start)).1.getArgs = none ∧
    headStr (httpdParseHeader idleEnv 0
      (connWithHead idleEnv (requestLine .HTTPD_METHOD_GET [47, 104, 101, 108, 108, 111]
        [72, 84, 84, 80, 47, 49, 46, 48] ++ [0]), World.start)).1 4 =
      [47, 104, 101, 108, 108, 111] ∧
    (httpdParseHeader idleEnv 0
      (connWithHead idleEnv (requestLine .HTTPD_METHOD_GET [47, 104, 101, 108, 108, 111]
        [72, 84, 84, 80, 47, 49, 46, 48] ++ [0]), World.start)).1.priv.flags = Flags.zero :=
  ⟨by decide, by decide, by decide,
    (httpdParseHeader_request_line idleEnv
      (connWithHead idleEnv (requestLine .HTTPD_METHOD_GET [47, 104, 101, 108, 108, 111]
        [72, 84, 84, 80, 47, 49, 46, 48] ++ [0]), World.start)
      .HTTPD_METHOD_GET [] [47, 104, 101, 108, 108, 111] [72, 84, 84, 80, 47, 49, 46, 48] []
      (by decide) (by decide) (by decide)).2.1,
    (httpdParseHeader_request_line idleEnv
      (connWithHead idleEnv (requestLine .HTTPD_METHOD_GET [47, 104, 101, 108, 108, 111]
        [72, 84, 84, 80, 47, 49, 46, 48] ++ [0]), World.start)
      .HTTPD_METHOD_GET [] [47, 104, 101, 108, 108, 111] [72, 84, 84, 80, 47, 49, 46, 48] []
      (by decide) (by decide) (by decide)).2.2.2.2.1 (by decide),
    by decide, by decide⟩

/-- C6 as first stated fails: in the request line `GET /x  HTTP/1.1` the
version, all that follows the space after the target, is ` HTTP/1.1` and
differs from `HTTP/1.1` even ignoring case, yet HTTP11 and CHUNKED are set. -/
theorem httpdParseHeader_skips_spaces_before_version :
    (httpdParseHeader idleEnv 0
      (connWithHead idleEnv (requestLine .HTTPD_METHOD_GET [47, 120]
        [32, 72, 84, 84, 80, 47, 49, 46, 49] ++ [0]), World.start)).1.priv.flags =
      { Flags.zero with HFL_HTTP11 := true, HFL_CHUNKED := true } ∧
    ([32, 72, 84, 84, 80, 47, 49, 46, 49] : List Nat).map tolower ≠
      [104, 116, 116, 112, 47, 49, 46, 49] := by
  decide

/-! ### Chunked framing -/

set_option maxRecDepth 100000 in
/-- The run of C4's example: `AAA` with MORE, then `BB` with DONE, gives the
response head and then `0003 CRLF AAA CRLF 0002 CRLF BB CRLF 0 CRLF CRLF`. -/
theorem bigTransfer_two_cycles :
    bigTransfer 2 = some
      (responseHead (burstEnv 2) { Flags.zero with HFL_HTTP11 := true, HFL_CHUNKED := true } 200 ++
        [13, 10] ++
        [48, 48, 48, 51, 13, 10, 65, 65, 65, 13, 10, 48, 48, 48, 50, 13, 10, 66, 66, 13, 10,
          48, 13, 10, 13, 10],
        [([65, 65, 65], 1), ([66, 66], 1)]) := by
  decide

set_option maxRecDepth 100000 in
/-- C4 fails on the code: when the resume cycle sends 122 bytes in one
`httpdSend`, which is accepted and fills the 128-byte send buffer with the
6-byte chunk header, the chunk handed to the transport announces `0078`
(120) bytes, holds 122 payload bytes and lacks its closing CRLF; the
terminal chunk follows at once. -/
theorem bigTransfer_full_buffer_breaks_chunk :
    bigTransfer 122 = some
      (responseHead (burstEnv 122) { Flags.zero with HFL_HTTP11 := true, HFL_CHUNKED := true }
          200 ++ [13, 10] ++
        [48, 48, 48, 51, 13, 10, 65, 65, 65, 13, 10] ++
        [48, 48, 55, 56, 13, 10] ++ List.replicate 122 66 ++ [48, 13, 10, 13, 10],
        [([65, 65, 65], 1), (List.replicate 122 66, 1)]) := by
  decide

/-! ### Post data -/

theorem httpdSend_result (env : HttpdEnv) (c : HttpdConnData) (data : List Nat) (len : Int) :
    (httpdSend env c data len).1 = 0 ∨ (httpdSend env c data len).1 = 1 := by
  unfold httpdSend
  split_ifs <;> simp

theorem runCgi_returnsIn (env : HttpdEnv) (ok : CgiStatus → Bool) (sc : CgiScript) :
    ∀ s : HttpdConnData × World, sc.returnsIn ok = true → ok (runCgi env sc s).1 = true := by
  induction sc with
  | ret r => intro s h; exact h
  | send data len k ih =>
    intro s h
    simp only [CgiScript.returnsIn, Bool.and_eq_true] at h
    rw [runCgi]
    rcases httpdSend_result env s.1 data len with h0 | h1
    · rw [h0]; exact ih 0 _ h.1
    · rw [h1]; exact ih 1 _ h.2
  | startResponse code k ih => intro s h; rw [runCgi]; exact ih _ h
  | header f v k ih => intro s h; rw [runCgi]; exact ih _ h
  | endHeaders k ih => intro s h; rw [runCgi]; exact ih _ h
  | setTransferMode m k ih => intro s h; rw [runCgi]; exact ih _ h
  | setCgiData v k ih => intro s h; rw [runCgi]; exact ih _ h
  | setRecvHdl v k ih => intro s h; rw [runCgi]; exact ih _ h

theorem callCgi_returnsIn (env : HttpdEnv) (ok : CgiStatus → Bool) (fn : CgiFn)
    (s : HttpdConnData × World) (h : (cgiScript env fn (cgiView s.1)).returnsIn ok = true) :
    ok (callCgi env fn s).1 = true := by
  simp only [callCgi]
  exact runCgi_returnsIn env ok _ _ h

theorem cgiCalls_append (a b : List Event) : cgiCalls (a ++ b) = cgiCalls a ++ cgiCalls b := by
  simp [cgiCalls, List.filterMap_append]

theorem cgiCalls_of_isApi (ext : List Event) (h : ∀ e ∈ ext, e.isApi = true) :
    cgiCalls ext = [] := by
  induction ext with
  | nil => rfl
  | cons e t ih =>
    have he := h e (by simp)
    have ht := ih (fun x hx => h x (by simp [hx]))
    cases e <;> simp [Event.isApi] at he <;> simpa [cgiCalls] using ht

theorem cgiCalls_of_isPlat (ext : List Event) (h : ∀ e ∈ ext, e.isPlat = true) :
    cgiCalls ext = [] := by
  induction ext with
  | nil => rfl
  | cons e t ih =>
    have he := h e (by simp)
    have ht := ih (fun x hx => h x (by simp [hx]))
    cases e <;> simp [Event.isPlat] at he <;> simpa [cgiCalls] using ht

theorem cgiCalls_call (fn : CgiFn) (post : HttpdPostData) (st : CgiStatus)
    (ext ext2 : List Event) (h : ∀ e ∈ ext, e.isApi = true) (h2 : ∀ e ∈ ext2, e.isPlat = true) :
    cgiCalls (Event.cgiCall fn post :: (ext ++ [Event.cgiReturn fn st]) ++ ext2) =
      [(fn, post)] := by
  rw [cgiCalls_append, cgiCalls_of_isPlat ext2 h2]
  rw [show Event.cgiCall fn post :: (ext ++ [Event.cgiReturn fn st]) =
      [Event.cgiCall fn post] ++ ext ++ [Event.cgiReturn fn st] by simp]
  rw [cgiCalls_append, cgiCalls_append, cgiCalls_of_isApi ext h]
  simp [cgiCalls]

/-- The parts of a connection a flush leaves alone. -/
theorem httpdFlushSendBuffer_frame (env : HttpdEnv) (s : HttpdConnData × World) :
    (httpdFlushSendBuffer env s).1.post = s.1.post ∧
    (httpdFlushSendBuffer env s).1.cgi = s.1.cgi ∧
    (httpdFlushSendBuffer env s).1.url = s.1.url ∧
    (httpdFlushSendBuffer env s).1.priv.head = s.1.priv.head := by
  have hsend : ∀ c d l, (httpdSend env c d l).2.post = c.post ∧
      (httpdSend env c d l).2.cgi = c.cgi ∧ (httpdSend env c d l).2.url = c.url ∧
      (httpdSend env c d l).2.priv.head = c.priv.head ∧
      (httpdSend env c d l).2.priv.flags = c.priv.flags := by
    intro c d l
    unfold httpdSend
    split_ifs <;> exact ⟨rfl, rfl, rfl, rfl, rfl⟩
  have hclose : (closeChunks env s.1).post = s.1.post ∧ (closeChunks env s.1).cgi = s.1.cgi ∧
      (closeChunks env s.1).url = s.1.url ∧ (closeChunks env s.1).priv.head = s.1.priv.head := by
    unfold closeChunks
    cases s.1.priv.chunkHdr with
    | none =>
      simp only []
      split_ifs <;> exact ⟨rfl, rfl, rfl, rfl⟩
    | some h =>
      simp only [fixChunkHdr]
      obtain ⟨a, b, c, d, e⟩ := hsend s.1 [13, 10] 2
      split_ifs <;> exact ⟨a, b, c, d⟩
  unfold httpdFlushSendBuffer
  simp only []
  split_ifs <;> first | exact ⟨rfl, rfl, rfl, rfl⟩ | exact hclose

/-- A flush or a finished handler after one handler call: one call is on record. -/
theorem cgiCalls_after_call (env : HttpdEnv) (fn : CgiFn) (s : HttpdConnData × World)
    (w : World) (h2 : ∃ ext2, w.trace = (callCgi env fn s).2.2.trace ++ ext2 ∧
      ∀ e ∈ ext2, e.isPlat = true) :
    ∃ ext, w.trace = s.2.trace ++ ext ∧ cgiCalls ext = [(fn, s.1.post)] := by
  obtain ⟨ext2, h2a, h2b⟩ := h2
  obtain ⟨_, _, _, ext, h1a, h1b⟩ := callCgi_spec env fn s
  refine ⟨Event.cgiCall fn s.1.post :: (ext ++ [Event.cgiReturn fn (callCgi env fn s).1]) ++ ext2,
    ?_, cgiCalls_call fn _ _ ext ext2 h1b h2b⟩
  rw [h2a, h1a, List.append_assoc]

theorem trace_plat_refl (w : World) :
    ∃ ext2, w.trace = w.trace ++ ext2 ∧ ∀ e ∈ ext2, e.isPlat = true :=
  ⟨[], by simp, by simp⟩

theorem disableTimeout_plat (w : World) (c : Option Nat) (b : Prop) [Decidable b] :
    ∃ ext2, (if b then w.log (.platDisableTimeout c) else w).trace = w.trace ++ ext2 ∧
      ∀ e ∈ ext2, e.isPlat = true := by
  by_cases hb : b
  · rw [if_pos hb]
    exact ⟨[.platDisableTimeout c], by simp [World.log], by simp [Event.isPlat]⟩
  · rw [if_neg hb]
    exact trace_plat_refl w

/-- A chunk of post data goes to the handler `fn` of the connection, or to the
first matching route `fn` when none is set, and `fn` takes the request: one
handler call is made, and after MORE the connection keeps its post data and
has `fn` as its handler. -/
theorem passPostChunk_accept (env : HttpdEnv) (urls : List HttpdBuiltInUrl) (fn : CgiFn)
    (s : HttpdConnData × World)
    (hcgi : s.1.cgi = none ∨ s.1.cgi = some fn) (hurl : s.1.url ≠ none)
    (hroute : (urls.find? (fun r => routeMatch r.url (s.1.priv.head.drop (s.1.url.getD 0)))).map
      (fun r => r.cgiCb) = some fn)
    (hacc : ∀ v : CgiView, v.post = s.1.post → (cgiScript env fn v).returnsIn
      (fun r => r == .HTTPD_CGI_MORE || r == .HTTPD_CGI_DONE) = true) :
    ∃ s4 ext, passPostChunk env urls s = some s4 ∧ s4.2.trace = s.2.trace ++ ext ∧
      cgiCalls ext = [(fn, s.1.post)] ∧
      ((∀ v : CgiView, v.post = s.1.post → (cgiScript env fn v).returnsIn
          (fun r => r == .HTTPD_CGI_MORE) = true) →
        s4.1.post = s.1.post ∧ s4.1.cgi = some fn ∧ s4.1.url = s.1.url ∧
          s4.1.priv.head = s.1.priv.head) := by
  rcases hcgi with hnone | hsome
  · -- no handler yet: the first pass of httpdProcessRequest
    obtain ⟨k, hk1, hk2, _, _, hk5⟩ :=
      findUrl_spec (s.1.priv.head.drop (s.1.url.getD 0)) urls 0
    rw [hk5] at hroute
    obtain ⟨r, hr1, hr2⟩ : ∃ r, urls.get? k = some r ∧ r.cgiCb = fn := by
      cases hg : urls.get? k with
      | none => rw [hg] at hroute; simp at hroute
      | some r => rw [hg] at hroute; exact ⟨r, rfl, by simpa using hroute⟩
    have hinst1 : (installCgi urls (findUrl (s.1.priv.head.drop (s.1.url.getD 0))
        (urls.drop 0) 0) s.1).1 = fn := by
      rw [List.drop_zero, hk1, Nat.zero_add]
      simp only [installCgi, hr1, hr2]
    obtain ⟨hi1, hi2, hi3, hi4, hi5⟩ := installCgi_frame urls
      (findUrl (s.1.priv.head.drop (s.1.url.getD 0)) (urls.drop 0) 0) s.1
    rw [hinst1] at hi5
    generalize hc : (installCgi urls (findUrl (s.1.priv.head.drop (s.1.url.getD 0))
        (urls.drop 0) 0) s.1).2 = c at hi1 hi2 hi3 hi4 hi5
    have hpp : passPostChunk env urls s =
        (match (callCgi env fn (c, s.2)).1 with
          | .HTTPD_CGI_MORE =>
            some (httpdFlushSendBuffer env
              ((callCgi env fn (c, s.2)).2.1,
                if (callCgi env fn (c, s.2)).2.1.recvHdl ≠ none then
                  (callCgi env fn (c, s.2)).2.2.log
                    (.platDisableTimeout (callCgi env fn (c, s.2)).2.1.conn)
                else (callCgi env fn (c, s.2)).2.2))
          | .HTTPD_CGI_DONE => some (httpdCgiIsDone env (callCgi env fn (c, s.2)).2)
          | _ => httpdProcessRequestLoop env urls (urls.length + 1)
              (findUrl (s.1.priv.head.drop (s.1.url.getD 0)) (urls.drop 0) 0 + 1)
              (callCgi env fn (c, s.2)).2) := by
      simp only [passPostChunk, hnone, httpdProcessRequest, if_neg hurl]
      rw [httpdProcessRequestLoop]
      simp only [hinst1, hc]
    have hst := callCgi_returnsIn env _ fn (c, s.2) (hacc (cgiView c) (by simp [cgiView, hi3]))
    obtain ⟨hf, _, _, _⟩ := callCgi_spec env fn (c, s.2)
    have hfr : (callCgi env fn (c, s.2)).2.1.post = s.1.post ∧
        (callCgi env fn (c, s.2)).2.1.cgi = some fn ∧
        (callCgi env fn (c, s.2)).2.1.url = s.1.url ∧
        (callCgi env fn (c, s.2)).2.1.priv.head = s.1.priv.head := by
      simp only [cgiFrame, Prod.mk.injEq] at hf
      refine ⟨?_, ?_, ?_, ?_⟩
      · rw [hf.2.2.2.2.2.2.2.2.2.2.2.2.2.2.1]; exact hi3
      · rw [hf.2.2.2.2.2.2.2.2.2.2.2.2.2.1]; exact hi5
      · rw [hf.2.2.1]; exact hi2
      · rw [hf.2.2.2.2.2.2.2.1, hi1]
    rw [hpp]
    cases hr : (callCgi env fn (c, s.2)).1 with
    | HTTPD_CGI_MORE =>
      simp only []
      obtain ⟨e1, he1a, he1b⟩ := disableTimeout_plat (callCgi env fn (c, s.2)).2.2
        (callCgi env fn (c, s.2)).2.1.conn ((callCgi env fn (c, s.2)).2.1.recvHdl ≠ none)
      obtain ⟨e2, he2a, he2b⟩ := httpdFlushSendBuffer_trace env
        ((callCgi env fn (c, s.2)).2.1,
          if (callCgi env fn (c, s.2)).2.1.recvHdl ≠ none then
            (callCgi env fn (c, s.2)).2.2.log
              (.platDisableTimeout (callCgi env fn (c, s.2)).2.1.conn)
          else (callCgi env fn (c, s.2)).2.2)
      obtain ⟨ext, hx1, hx2⟩ := cgiCalls_after_call env fn (c, s.2) _
        ⟨e1 ++ e2, by rw [he2a, he1a, List.append_assoc], by
          intro e he
          rcases List.mem_append.1 he with h | h
          · exact he1b e h
          · exact he2b e h⟩
      refine ⟨_, ext, rfl, hx1, by rw [hx2, hi3], fun _ => ?_⟩
      obtain ⟨f1, f2, f3, f4⟩ := httpdFlushSendBuffer_frame env
        ((callCgi env fn (c, s.2)).2.1,
          if (callCgi env fn (c, s.2)).2.1.recvHdl ≠ none then
            (callCgi env fn (c, s.2)).2.2.log
              (.platDisableTimeout (callCgi env fn (c, s.2)).2.1.conn)
          else (callCgi env fn (c, s.2)).2.2)
      exact ⟨f1.trans hfr.1, f2.trans hfr.2.1, f3.trans hfr.2.2.1, f4.trans hfr.2.2.2⟩
    | HTTPD_CGI_DONE =>
      simp only []
      obtain ⟨ext, hx1, hx2⟩ := cgiCalls_after_call env fn (c, s.2) _
        (httpdCgiIsDone_trace env (callCgi env fn (c, s.2)).2)
      refine ⟨_, ext, rfl, hx1, by rw [hx2, hi3], fun hm => ?_⟩
      have := callCgi_returnsIn env _ fn (c, s.2) (hm (cgiView c) (by simp [cgiView, hi3]))
      rw [hr] at this
      simp at this
    | HTTPD_CGI_NOTFOUND => rw [hr] at hst; simp at hst
    | HTTPD_CGI_AUTHENTICATED => rw [hr] at hst; simp at hst
  · -- the handler of the connection is called
    have hst := callCgi_returnsIn env _ fn s (hacc (cgiView s.1) (by simp [cgiView]))
    obtain ⟨hf, _, _, _⟩ := callCgi_spec env fn s
    simp only [passPostChunk, hsome]
    by_cases hd : (callCgi env fn s).1 = .HTTPD_CGI_DONE
    · rw [if_pos hd]
      obtain ⟨ext, hx1, hx2⟩ := cgiCalls_after_call env fn s _
        (httpdCgiIsDone_trace env (callCgi env fn s).2)
      refine ⟨_, ext, rfl, hx1, hx2, fun hm => ?_⟩
      have := callCgi_returnsIn env _ fn s (hm (cgiView s.1) (by simp [cgiView]))
      rw [hd] at this
      simp at this
    · rw [if_neg hd]
      obtain ⟨ext, hx1, hx2⟩ := cgiCalls_after_call env fn s _
        (trace_plat_refl (callCgi env fn s).2.2)
      refine ⟨_, ext, rfl, hx1, hx2, fun _ => ?_⟩
      simp only [cgiFrame, Prod.mk.injEq] at hf
      refine ⟨?_, ?_, ?_, ?_⟩
      · rw [hf.2.2.2.2.2.2.2.2.2.2.2.2.2.2.1]
      · rw [hf.2.2.2.2.2.2.2.2.2.2.2.2.2.1]; exact hsome
      · rw [hf.2.2.1]
      · rw [hf.2.2.2.2.2.2.2.1]

theorem take_set_ge (l : List Nat) : ∀ (i j a : Nat), i ≤ j → (l.set j a).take i = l.take i := by
  induction l with
  | nil => intro i j a _; simp
  | cons x t ih =>
    intro i j a h
    cases i with
    | zero => simp
    | succ i =>
      cases j with
      | zero => omega
      | succ j => simp [ih i j a (by omega)]

theorem take_succ_set (l : List Nat) : ∀ (m b : Nat), m < l.length →
    (l.set m b).take (m + 1) = l.take m ++ [b] := by
  induction l with
  | nil => intro m b h; simp at h
  | cons x t ih =>
    intro m b h
    cases m with
    | zero => simp
    | succ m => simp [ih m b (by simpa using h)]

theorem getD_set_self (l : List Nat) : ∀ (j a d : Nat), j < l.length →
    (l.set j a).getD j d = a := by
  induction l with
  | nil => intro j a d h; simp at h
  | cons x t ih =>
    intro j a d h
    cases j with
    | zero => rfl
    | succ j =>
      have := ih j a d (by simpa using h)
      simpa [List.getD] using this

theorem chunksOf_nil (size n : Nat) : chunksOf size n [] = [] := by
  cases n <;> simp [chunksOf]

theorem chunksOf_fuel (size : Nat) (hs : 0 < size) : ∀ (n m : Nat) (l : List Nat),
    l.length ≤ n → l.length ≤ m → chunksOf size n l = chunksOf size m l := by
  intro n
  induction n with
  | zero =>
    intro m l h _
    have : l = [] := List.length_eq_zero.1 (by omega)
    subst this
    rw [chunksOf_nil, chunksOf_nil]
  | succ n ih =>
    intro m l h1 h2
    by_cases hl : l = []
    · subst hl; rw [chunksOf_nil, chunksOf_nil]
    · have hpos : 0 < l.length := List.length_pos.2 hl
      cases m with
      | zero => omega
      | succ m =>
        simp only [chunksOf, if_neg hl]
        rw [ih m (l.drop size) (by rw [List.length_drop]; omega)
          (by rw [List.length_drop]; omega)]

theorem chunksOf_single (size n : Nat) (l : List Nat) (hl : l ≠ []) (h : l.length ≤ size)
    (hn : l.length ≤ n) : chunksOf size n l = [l] := by
  have hpos : 0 < l.length := List.length_pos.2 hl
  cases n with
  | zero => omega
  | succ n =>
    simp only [chunksOf, if_neg hl]
    rw [List.take_of_length_le h, List.drop_of_length_le h, chunksOf_nil]

theorem chunksOf_cons (size : Nat) (hs : 0 < size) (a r : List Nat) (ha : a.length = size) :
    chunksOf size (a ++ r).length (a ++ r) = a :: chunksOf size r.length r := by
  have hne : a ++ r ≠ [] := by
    intro h
    have := congrArg List.length h
    rw [List.length_append, List.length_nil] at this
    omega
  have hlen : (a ++ r).length = (a.length + r.length - 1) + 1 := by
    rw [List.length_append]; omega
  rw [hlen]
  simp only [chunksOf, if_neg hne]
  rw [← ha, List.take_left, List.drop_left]
  rw [chunksOf_fuel a.length (by omega) _ r.length r (by omega) (Nat.le_refl _)]

theorem shownChunks_append (a b : List Event) :
    shownChunks (a ++ b) = shownChunks a ++ shownChunks b := by
  simp [shownChunks, cgiCalls_append]

/-- The post body is read to its end: each full buffer, and the rest at the
last byte, goes to the handler in one call. -/
theorem httpdRecvLoop_post (env : HttpdEnv) (urls : List HttpdBuiltInUrl) (fn : CgiFn)
    (n : Int) (size : Nat)
    (hmore : ∀ v : CgiView, (v.post.received : Int) < v.post.len →
      (cgiScript env fn v).returnsIn (fun r => r == .HTTPD_CGI_MORE) = true)
    (hacc : ∀ v : CgiView, (cgiScript env fn v).returnsIn
      (fun r => r == .HTTPD_CGI_MORE || r == .HTTPD_CGI_DONE) = true) :
    ∀ (rest acc : List Nat) (k : Nat) (s : HttpdConnData × World),
      PostInv urls fn n size acc k s → (k : Int) + rest.length = n → (rest = [] → acc = []) →
      ∃ s' ext, httpdRecvLoop env urls rest s = some s' ∧ s'.2.trace = s.2.trace ++ ext ∧
        shownChunks ext =
          (chunksOf size (acc ++ rest).length (acc ++ rest)).map (fun ch => (fn, ch, 0)) ∧
        s'.1.post.buffLen = 0 := by
  intro rest
  induction rest with
  | nil =>
    intro acc k s inv _ hne
    have ha := hne rfl
    subst ha
    exact ⟨s, [], rfl, by simp, by simp [shownChunks, cgiCalls, chunksOf], inv.buffLen⟩
  | cons b rest ih =>
    intro acc k s inv hk _
    obtain ⟨bf, hbf1, hbf2, hbf3⟩ := inv.buff
    have hsz := inv.accLt
    simp only [List.length_cons] at hk
    have hnpos : 0 < n := by omega
    rw [httpdRecvLoop, if_neg (by rw [inv.len]; omega), if_pos (by rw [inv.len]; omega)]
    have hr : postChunkReady (storePostByte s.1 b) ↔
        ((acc.length + 1 : Nat) : Int) ≥ (size : Int) ∨ ((k + 1 : Nat) : Int) = n := by
      unfold postChunkReady
      show (((s.1.post.buffLen + 1 : Nat) : Int) ≥ s.1.post.buffSize ∨
        ((s.1.post.received + 1 : Nat) : Int) = s.1.post.len) ↔ _
      rw [inv.buffLen, inv.buffSize, inv.received, inv.len]
    have hbuff1 : (storePostByte s.1 b).post.buff = some (bf.set acc.length b) := by
      show s.1.post.buff.map (fun m => m.set s.1.post.buffLen b) = _
      rw [hbf1, inv.buffLen]; rfl
    by_cases hready : postChunkReady (storePostByte s.1 b)
    · simp only [recvPostByte, if_pos hready]
      have hbuff2 : (terminatePostChunk (storePostByte s.1 b)).post.buff =
          some ((bf.set acc.length b).set (acc.length + 1) 0) := by
        show (storePostByte s.1 b).post.buff.map
          (fun m => m.set (storePostByte s.1 b).post.buffLen 0) = _
        rw [hbuff1]
        show some ((bf.set acc.length b).set (s.1.post.buffLen + 1) 0) = _
        rw [inv.buffLen]
      have hblen2 : (terminatePostChunk (storePostByte s.1 b)).post.buffLen = acc.length + 1 := by
        show s.1.post.buffLen + 1 = _
        rw [inv.buffLen]
      have hshown : shownChunks [Event.cgiCall fn
          (terminatePostChunk (storePostByte s.1 b)).post] = [(fn, acc ++ [b], 0)] := by
        simp only [shownChunks, cgiCalls, List.filterMap_cons, List.filterMap_nil, List.map,
          hbuff2, hblen2, Option.getD_some]
        rw [take_set_ge _ _ _ _ (Nat.le_refl _), take_succ_set _ _ _ (by omega), hbf3,
          getD_set_self _ _ _ _ (by rw [List.length_set]; omega)]
      obtain ⟨s4, ext, h1, h2, h3, h4⟩ := passPostChunk_accept env urls fn
        (terminatePostChunk (storePostByte s.1 b), s.2) inv.cgi inv.url inv.route
        (fun v _ => hacc v)
      have hshown2 : shownChunks ext = [(fn, acc ++ [b], 0)] := by
        rw [← hshown]
        unfold shownChunks
        rw [h3]
        rfl
      rw [h1]
      simp only []
      by_cases hlast : ((k + 1 : Nat) : Int) = n
      · have hrest : rest = [] := List.length_eq_zero.1 (by push_cast at hlast; omega)
        subst hrest
        refine ⟨clearBuffLen s4, ext, rfl, h2, ?_, rfl⟩
        rw [hshown2, chunksOf_single size _ (acc ++ [b]) (by simp)
          (by rw [List.length_append]; simp; omega) (Nat.le_refl _)]
        rfl
      · have hfull : acc.length + 1 = size := by
          rcases hr.1 hready with h | h
          · omega
          · exact absurd h hlast
        have hlt : ((k + 1 : Nat) : Int) < n := by push_cast; omega
        obtain ⟨m1, m2, m3, m4⟩ := h4 (fun v hv => hmore v (by
          rw [hv]
          show ((s.1.post.received + 1 : Nat) : Int) < s.1.post.len
          rw [inv.received, inv.len]
          exact hlt))
        have inv2 : PostInv urls fn n size [] (k + 1) (clearBuffLen s4) := by
          refine ⟨?_, ?_, ?_, ?_, ⟨(bf.set acc.length b).set (acc.length + 1) 0, ?_, ?_, ?_⟩,
            Or.inr m2, ?_, ?_, ?_⟩
          · show s4.1.post.len = n
            rw [m1]; exact inv.len
          · show s4.1.post.buffSize = size
            rw [m1]; exact inv.buffSize
          · show s4.1.post.received = k + 1
            rw [m1]
            show s.1.post.received + 1 = k + 1
            rw [inv.received]
          · rfl
          · show s4.1.post.buff = _
            rw [m1]; exact hbuff2
          · rw [List.length_set, List.length_set, hbf2]
          · rfl
          · show s4.1.url ≠ none
            rw [m3]; exact inv.url
          · show (urls.find? (fun r => routeMatch r.url
              (s4.1.priv.head.drop (s4.1.url.getD 0)))).map (fun r => r.cgiCb) = some fn
            rw [m3, m4]; exact inv.route
          · show 0 < size
            omega
        obtain ⟨s', ext', g1, g2, g3, g4⟩ := ih [] (k + 1) (clearBuffLen s4) inv2
          (by push_cast; omega) (fun _ => rfl)
        refine ⟨s', ext ++ ext', g1, ?_, ?_, g4⟩
        · rw [g2]
          show s4.2.trace ++ ext' = _
          rw [h2, List.append_assoc]
        · rw [shownChunks_append, hshown2, g3]
          rw [show acc ++ b :: rest = (acc ++ [b]) ++ rest by simp]
          rw [chunksOf_cons size (by omega) (acc ++ [b]) rest (by simp; omega)]
          simp
    · simp only [recvPostByte, if_neg hready]
      have hnr : ¬ (((acc.length + 1 : Nat) : Int) ≥ (size : Int) ∨ ((k + 1 : Nat) : Int) = n) :=
        fun h => hready (hr.2 h)
      have hnr1 : acc.length + 1 < size := by
        by_contra h
        exact hnr (Or.inl (by omega))
      have hnr2 : ¬ ((k + 1 : Nat) : Int) = n := fun h => hnr (Or.inr h)
      have inv2 : PostInv urls fn n size (acc ++ [b]) (k + 1) (storePostByte s.1 b, s.2) := by
        refine ⟨inv.len, inv.buffSize, ?_, ?_, ⟨_, hbuff1, ?_, ?_⟩, inv.cgi, inv.url, inv.route,
          by simp; omega⟩
        · show s.1.post.received + 1 = k + 1
          rw [inv.received]
        · show s.1.post.buffLen + 1 = (acc ++ [b]).length
          rw [inv.buffLen]; simp
        · rw [List.length_set, hbf2]
        · rw [List.length_append, List.length_singleton, take_succ_set _ _ _ (by omega), hbf3]
      obtain ⟨s', ext', g1, g2, g3, g4⟩ := ih (acc ++ [b]) (k + 1) (storePostByte s.1 b, s.2)
        inv2 (by push_cast; omega) (by
          intro h
          subst h
          exfalso
          apply hnr2
          push_cast
          simpa using hk)
      refine ⟨s', ext', g1, g2, ?_, g4⟩
      rw [g3]
      simp

theorem chunksOf_flatten (size : Nat) (hs : 0 < size) : ∀ (n : Nat) (l : List Nat),
    l.length ≤ n → (chunksOf size n l).flatten = l := by
  intro n
  induction n with
  | zero =>
    intro l h
    have : l = [] := List.length_eq_zero.1 (by omega)
    subst this
    rfl
  | succ n ih =>
    intro l h
    by_cases hl : l = []
    · subst hl; rfl
    · have hpos : 0 < l.length := List.length_pos.2 hl
      simp only [chunksOf, if_neg hl, List.flatten_cons]
      rw [ih (l.drop size) (by rw [List.length_drop]; omega), List.take_append_drop]

theorem parseContentLength_len (env : HttpdEnv) (h : Nat) (s : HttpdConnData × World) :
    (parseContentLength env h s).1.post.len =
      atoi ((s.1.priv.head.drop h).drop (15 + skipSpaces ((s.1.priv.head.drop h).drop 15))) := by
  unfold parseContentLength
  simp only []
  split_ifs <;> rfl

/-- C9: a request with Content-Length `n > 0` (the header line at offset `h`
is parsed on a connection without a handler yet, the allocation succeeds and
`HTTPD_MAX_POST_LEN` is positive) whose handler `fn`, the first matching
route, returns MORE while `post.received < post.len` and MORE or DONE at the
end.  The post buffer has size `min(n, HTTPD_MAX_POST_LEN)`; reading the `n`
body bytes returns, and the handler calls made are exactly one per piece of
the body of that size (the last piece is what is left over), each showing the
piece in `post.buff` with a NUL after it; the pieces together are the body,
and `post.buffLen` is 0 at the end. -/
theorem httpdRecvLoop_post_chunks (env : HttpdEnv) (urls : List HttpdBuiltInUrl) (fn : CgiFn)
    (h : Nat) (s : HttpdConnData × World) (n : Int) (body : List Nat)
    (hmax : 0 < env.HTTPD_MAX_POST_LEN)
    (hreceived : s.1.post.received = 0) (hcgi : s.1.cgi = none) (hurl : s.1.url ≠ none)
    (hmalloc : (platMalloc s.2).1 = true)
    (hroute : (urls.find? (fun r => routeMatch r.url (s.1.priv.head.drop (s.1.url.getD 0)))).map
      (fun r => r.cgiCb) = some fn)
    (hmore : ∀ v : CgiView, (v.post.received : Int) < v.post.len →
      (cgiScript env fn v).returnsIn (fun r => r == .HTTPD_CGI_MORE) = true)
    (hacc : ∀ v : CgiView, (cgiScript env fn v).returnsIn
      (fun r => r == .HTTPD_CGI_MORE || r == .HTTPD_CGI_DONE) = true)
    (hlen : (parseContentLength env h s).1.post.len = n) (hn : 0 < n)
    (hbody : (body.length : Int) = n) :
    (parseContentLength env h s).1.post.buffSize = min n env.HTTPD_MAX_POST_LEN ∧
    ∃ s' ext,
      httpdRecvLoop env urls body (parseContentLength env h s) = some s' ∧
      s'.2.trace = (parseContentLength env h s).2.trace ++ ext ∧
      shownChunks ext =
        (chunksOf (min n env.HTTPD_MAX_POST_LEN).toNat body.length body).map
          (fun ch => (fn, ch, 0)) ∧
      (chunksOf (min n env.HTTPD_MAX_POST_LEN).toNat body.length body).flatten = body ∧
      s'.1.post.buffLen = 0 := by
  rw [parseContentLength_len] at hlen
  have hsize : (if n > (env.HTTPD_MAX_POST_LEN : Int) then (env.HTTPD_MAX_POST_LEN : Int) else n) =
      min n env.HTTPD_MAX_POST_LEN := by
    split_ifs with hc
    · rw [min_eq_right (le_of_lt hc)]
    · rw [min_eq_left (not_lt.1 hc)]
  have hpos : 0 < min n (env.HTTPD_MAX_POST_LEN : Int) := lt_min hn (by exact_mod_cast hmax)
  have hnat : ((min n (env.HTTPD_MAX_POST_LEN : Int)).toNat : Int) =
      min n env.HTTPD_MAX_POST_LEN := Int.toNat_of_nonneg (le_of_lt hpos)
  have hpc : parseContentLength env h s =
      ({ s.1 with post := { s.1.post with
          len := n, buffSize := min n env.HTTPD_MAX_POST_LEN,
          buff := some (List.replicate (min n env.HTTPD_MAX_POST_LEN + 1).toNat 0),
          buffLen := 0 } }, (platMalloc s.2).2) := by
    unfold parseContentLength
    simp only [hlen, hsize]
    rw [if_neg (by omega), if_neg (by rw [hmalloc]; simp)]
  have hbs : (parseContentLength env h s).1.post.buffSize = min n env.HTTPD_MAX_POST_LEN := by
    rw [hpc]
  refine ⟨hbs, ?_⟩
  have inv : PostInv urls fn n (min n (env.HTTPD_MAX_POST_LEN : Int)).toNat [] 0
      (parseContentLength env h s) := by
    rw [hpc]
    refine ⟨rfl, ?_, hreceived, rfl, ⟨_, rfl, ?_, rfl⟩, Or.inl hcgi, hurl, hroute, ?_⟩
    · exact hnat.symm
    · rw [List.length_replicate]
      omega
    · show 0 < (min n (env.HTTPD_MAX_POST_LEN : Int)).toNat
      omega
  obtain ⟨s', ext, g1, g2, g3, g4⟩ := httpdRecvLoop_post env urls fn n _ hmore hacc body [] 0
    (parseContentLength env h s) inv (by push_cast; omega) (fun _ => rfl)
  refine ⟨s', ext, g1, g2, ?_, chunksOf_flatten _ (by omega) _ _ (Nat.le_refl _), g4⟩
  rw [g3]
  rfl

theorem httpdRecvLoop_post_chunks_witness :
    (parseContentLength formEnv 6 (formConn, World.start)).1.post.buffSize = min 11 8 ∧
    ∃ s' ext,
      httpdRecvLoop formEnv formRoutes formBody
        (parseContentLength formEnv 6 (formConn, World.start)) = some s' ∧
      s'.2.trace = (parseContentLength formEnv 6 (formConn, World.start)).2.trace ++ ext ∧
      shownChunks ext =
        (chunksOf 8 11 formBody).map (fun ch => (CgiFn.user 0, ch, 0)) ∧
      (chunksOf 8 11 formBody).flatten = formBody ∧
      s'.1.post.buffLen = 0 :=
  httpdRecvLoop_post_chunks formEnv formRoutes (.user 0) 6 (formConn, World.start) 11 formBody
    (by decide) (by decide) (by decide) (by decide) (by decide) (by decide)
    (by
      intro v hv
      simp [cgiScript, formEnv, hv, CgiScript.returnsIn])
    (by
      intro v
      by_cases hv : (v.post.received : Int) < v.post.len <;>
        simp [cgiScript, formEnv, hv, CgiScript.returnsIn])
    (by decide) (by decide) (by decide)

set_option maxRecDepth 100000 in
/-- The request of the example received in one piece on a fresh connection:
the handler is shown `name=wor` and then `ldX`, each with a NUL after it. -/
theorem formRequest_chunks :
    (recvCbConn formEnv formRoutes (some 1) formRequest
      (newConn formEnv (some 1) [10, 0, 0, 1] 80 0, World.start)).map
        (fun s => shownChunks s.2.trace) =
      some [(.user 0, [110, 97, 109, 101, 61, 119, 111, 114], 0),
        (.user 0, [108, 100, 88], 0)] := by
  decide

/-! ### Delivery in pieces -/

theorem norm_norm (c : HttpdConnData) : norm (norm c) = norm c := rfl

theorem cgiView_norm (c : HttpdConnData) : cgiView (norm c) = cgiView c := rfl

theorem cgiView_of_norm {c d : HttpdConnData} (h : norm c = norm d) : cgiView c = cgiView d := by
  rw [← cgiView_norm c, h, cgiView_norm]

theorem conn_of_norm {c d : HttpdConnData} (h : norm c = norm d) : c.conn = d.conn := by
  have h2 := congrArg HttpdConnData.conn h
  exact h2

theorem recvHdl_of_norm {c d : HttpdConnData} (h : norm c = norm d) : c.recvHdl = d.recvHdl := by
  have h2 := congrArg HttpdConnData.recvHdl h
  exact h2

theorem post_of_norm {c d : HttpdConnData} (h : norm c = norm d) : c.post = d.post := by
  have h2 := congrArg HttpdConnData.post h
  exact h2

theorem cgi_of_norm {c d : HttpdConnData} (h : norm c = norm d) : c.cgi = d.cgi := by
  have h2 := congrArg HttpdConnData.cgi h
  exact h2

theorem url_of_norm {c d : HttpdConnData} (h : norm c = norm d) : c.url = d.url := by
  have h2 := congrArg HttpdConnData.url h
  exact h2

theorem head_of_norm {c d : HttpdConnData} (h : norm c = norm d) :
    c.priv.head = d.priv.head := by
  have h2 := congrArg (fun x => x.priv.head) h
  exact h2

theorem headPos_of_norm {c d : HttpdConnData} (h : norm c = norm d) :
    c.priv.headPos = d.priv.headPos := by
  have h2 := congrArg (fun x => x.priv.headPos) h
  exact h2

theorem flags_of_norm {c d : HttpdConnData} (h : norm c = norm d) :
    c.priv.flags = d.priv.flags := by
  have h2 := congrArg (fun x => x.priv.flags) h
  exact h2

theorem norm_httpdSend (env : HttpdEnv) (c : HttpdConnData) (data : List Nat) (len : Int) :
    norm (httpdSend env c data len).2 = norm c := by
  unfold httpdSend
  split_ifs <;> rfl

theorem norm_httpdStartResponse (env : HttpdEnv) (c : HttpdConnData) (code : Nat) :
    norm (httpdStartResponse env c code) = norm c := by
  unfold httpdStartResponse
  exact norm_httpdSend _ _ _ _

theorem norm_httpdHeader (env : HttpdEnv) (c : HttpdConnData) (f v : List Nat) :
    norm (httpdHeader env c f v) = norm c := by
  unfold httpdHeader
  rw [norm_httpdSend, norm_httpdSend, norm_httpdSend, norm_httpdSend]

theorem norm_httpdEndHeaders (env : HttpdEnv) (c : HttpdConnData) :
    norm (httpdEndHeaders env c) =
      norm { c with priv := { c.priv with
        flags := { c.priv.flags with HFL_SENDINGBODY := true } } } := by
  show (fun n : HttpdConnData => { n with priv := { n.priv with
      flags := { n.priv.flags with HFL_SENDINGBODY := true } } })
      (norm (httpdSend env c [13, 10] (-1)).2) = _
  rw [norm_httpdSend env c [13, 10] (-1)]
  rfl

theorem norm_httpdSetTransferMode (c : HttpdConnData) (m : TransferModes) :
    norm (httpdSetTransferMode c m) = httpdSetTransferMode (norm c) m := by
  cases m <;> rfl

/-- A plain handler run goes the same way from two states that agree up to the
output side. -/
theorem runCgi_plain (env : HttpdEnv) (p : PlainScript) :
    ∀ s t : HttpdConnData × World, norm s.1 = norm t.1 →
      norm (runCgi env p.toScript s).2.1 = norm (runCgi env p.toScript t).2.1 ∧
      (runCgi env p.toScript s).1 = (runCgi env p.toScript t).1 := by
  induction p with
  | ret r => intro s t h; exact ⟨h, rfl⟩
  | send data len k ih =>
    intro s t h
    simp only [PlainScript.toScript, runCgi]
    exact ih _ _ (by simp only [norm_httpdSend]; exact h)
  | startResponse code k ih =>
    intro s t h
    simp only [PlainScript.toScript, runCgi]
    exact ih _ _ (by simp only [norm_httpdStartResponse]; exact h)
  | header f v k ih =>
    intro s t h
    simp only [PlainScript.toScript, runCgi]
    exact ih _ _ (by simp only [norm_httpdHeader]; exact h)
  | endHeaders k ih =>
    intro s t h
    simp only [PlainScript.toScript, runCgi]
    refine ih _ _ ?_
    simp only [norm_httpdEndHeaders]
    show (fun n : HttpdConnData => { n with priv := { n.priv with
        flags := { n.priv.flags with HFL_SENDINGBODY := true } } }) (norm s.1) =
      (fun n : HttpdConnData => { n with priv := { n.priv with
        flags := { n.priv.flags with HFL_SENDINGBODY := true } } }) (norm t.1)
    rw [h]
  | setTransferMode m k ih =>
    intro s t h
    simp only [PlainScript.toScript, runCgi]
    exact ih _ _ (by simp only [norm_httpdSetTransferMode]; rw [h])
  | setCgiData v k ih =>
    intro s t h
    simp only [PlainScript.toScript, runCgi]
    refine ih _ _ ?_
    show (fun n : HttpdConnData => { n with cgiData := v }) (norm s.1) =
      (fun n : HttpdConnData => { n with cgiData := v }) (norm t.1)
    rw [h]

theorem runCgi_plain_recvHdl (env : HttpdEnv) (p : PlainScript) :
    ∀ s : HttpdConnData × World, (runCgi env p.toScript s).2.1.recvHdl = s.1.recvHdl := by
  induction p with
  | ret r => intro s; rfl
  | send data len k ih =>
    intro s
    simp only [PlainScript.toScript, runCgi]
    rw [ih]
    exact recvHdl_of_norm (norm_httpdSend env s.1 data len)
  | startResponse code k ih =>
    intro s
    simp only [PlainScript.toScript, runCgi]
    rw [ih]
    exact recvHdl_of_norm (norm_httpdStartResponse env s.1 code)
  | header f v k ih =>
    intro s
    simp only [PlainScript.toScript, runCgi]
    rw [ih]
    exact recvHdl_of_norm (norm_httpdHeader env s.1 f v)
  | endHeaders k ih =>
    intro s
    simp only [PlainScript.toScript, runCgi]
    rw [ih]
    have hn := recvHdl_of_norm (norm_httpdEndHeaders env s.1)
    exact hn
  | setTransferMode m k ih =>
    intro s
    simp only [PlainScript.toScript, runCgi]
    rw [ih]
    cases m <;> rfl
  | setCgiData v k ih =>
    intro s
    simp only [PlainScript.toScript, runCgi]
    rw [ih]

theorem cgiNotFound_plain (v : CgiView) : cgiNotFound v = (plainNotFound v).toScript := by
  unfold cgiNotFound plainNotFound
  split_ifs <;> rfl

theorem cgiScript_plain (env : HttpdEnv) (plain : Nat → CgiView → PlainScript)
    (hplain : ∀ id v, env.cgiFns id v = (plain id v).toScript) (fn : CgiFn) (v : CgiView) :
    ∃ p : PlainScript, cgiScript env fn v = p.toScript := by
  cases fn with
  | cgiNotFound => exact ⟨plainNotFound v, cgiNotFound_plain v⟩
  | user id => exact ⟨plain id v, hplain id v⟩

theorem Sim.symm_left {r : Option Nat} {s t : HttpdConnData × World} (h : Sim r s t) :
    Sim r s s :=
  ⟨rfl, rfl, h.mallocL, h.mallocL, h.recvHdl, h.handle⟩

theorem Sim.right_recvHdl {r : Option Nat} {s t : HttpdConnData × World} (h : Sim r s t) :
    t.1.recvHdl = none := by
  exact (recvHdl_of_norm h.conn).symm.trans h.recvHdl

theorem Sim.right_handle {r : Option Nat} {s t : HttpdConnData × World} (h : Sim r s t) :
    t.1.conn = r := by
  exact (conn_of_norm h.conn).symm.trans h.handle

theorem Sim.symm {r : Option Nat} {s t : HttpdConnData × World} (h : Sim r s t) :
    Sim r t s :=
  ⟨h.conn.symm, h.calls.symm, h.mallocR, h.mallocL, h.right_recvHdl, h.right_handle⟩

theorem Sim.trans {r : Option Nat} {s t u : HttpdConnData × World} (h : Sim r s t)
    (h2 : Sim r t u) : Sim r s u :=
  ⟨h.conn.trans h2.conn, h.calls.trans h2.calls, h.mallocL, h2.mallocR, h.recvHdl, h.handle⟩

/-- A step that changes the output side only: what it takes to stay `Sim`. -/
theorem Sim.of_left {r : Option Nat} {s s1 t : HttpdConnData × World} (h : Sim r s t)
    (h1 : norm s1.1 = norm s.1) (h2 : cgiCalls s1.2.trace = cgiCalls s.2.trace)
    (h3 : s1.2.mallocOk = []) : Sim r s1 t :=
  ⟨h1.trans h.conn, h2.trans h.calls, h3, h.mallocR,
    (recvHdl_of_norm h1).trans h.recvHdl, (conn_of_norm h1).trans h.handle⟩

/-- The same handler call from two states that are `Sim`. -/
theorem callCgi_sim (env : HttpdEnv) (plain : Nat → CgiView → PlainScript)
    (hplain : ∀ id v, env.cgiFns id v = (plain id v).toScript) (fn : CgiFn) (r : Option Nat)
    (s t : HttpdConnData × World) (h : Sim r s t) :
    (callCgi env fn s).1 = (callCgi env fn t).1 ∧ Sim r (callCgi env fn s).2 (callCgi env fn t).2 := by
  obtain ⟨p, hp⟩ := cgiScript_plain env plain hplain fn (cgiView s.1)
  have hpt : cgiScript env fn (cgiView t.1) = p.toScript := by
    rw [← cgiView_of_norm h.conn]; exact hp
  obtain ⟨hs1, _, hs3, exs, hs4, hs5⟩ := callCgi_spec env fn s
  obtain ⟨ht1, _, ht3, ext, ht4, ht5⟩ := callCgi_spec env fn t
  have hrun := runCgi_plain env p (s.1, s.2.log (.cgiCall fn s.1.post))
    (t.1, t.2.log (.cgiCall fn t.1.post)) h.conn
  have hst : (callCgi env fn s).1 = (callCgi env fn t).1 := by
    simp only [callCgi, hp, hpt]
    exact hrun.2
  have hpost : s.1.post = t.1.post := post_of_norm h.conn
  refine ⟨hst, ?_, ?_, ?_, ?_, ?_, ?_⟩
  · simp only [callCgi, hp, hpt]
    exact hrun.1
  · rw [hs4, ht4, cgiCalls_append, cgiCalls_append]
    rw [show Event.cgiCall fn s.1.post :: (exs ++ [Event.cgiReturn fn (callCgi env fn s).1]) =
      Event.cgiCall fn s.1.post :: (exs ++ [Event.cgiReturn fn (callCgi env fn s).1]) ++ [] by simp,
      cgiCalls_call fn _ _ exs [] hs5 (by simp)]
    rw [show Event.cgiCall fn t.1.post :: (ext ++ [Event.cgiReturn fn (callCgi env fn t).1]) =
      Event.cgiCall fn t.1.post :: (ext ++ [Event.cgiReturn fn (callCgi env fn t).1]) ++ [] by simp,
      cgiCalls_call fn _ _ ext [] ht5 (by simp)]
    rw [h.calls, hpost]
  · rw [hs3]; exact h.mallocL
  · rw [ht3]; exact h.mallocR
  · simp only [callCgi, hp]
    rw [runCgi_plain_recvHdl]
    exact h.recvHdl
  · have := congrArg (fun x => x.1) hs1
    simp only [cgiFrame] at this
    rw [this]; exact h.handle

theorem norm_closeChunks (env : HttpdEnv) (c : HttpdConnData) : norm (closeChunks env c) = norm c := by
  have hfix : ∀ h, norm (fixChunkHdr env c h) = norm c := by
    intro h
    show norm (httpdSend env c [13, 10] 2).2 = norm c
    exact norm_httpdSend _ _ _ _
  unfold closeChunks
  cases hch : c.priv.chunkHdr with
  | none =>
    simp only []
    split_ifs <;> rfl
  | some h =>
    simp only []
    split_ifs
    · exact hfix h
    · exact hfix h

/-- A flush changes the output side only. -/
theorem httpdFlushSendBuffer_invisible (env : HttpdEnv) (s : HttpdConnData × World)
    (hm : s.2.mallocOk = []) :
    norm (httpdFlushSendBuffer env s).1 = norm s.1 ∧
    cgiCalls (httpdFlushSendBuffer env s).2.trace = cgiCalls s.2.trace ∧
    (httpdFlushSendBuffer env s).2.mallocOk = [] := by
  refine ⟨?_, ?_, ?_⟩
  · have hc := norm_closeChunks env s.1
    unfold httpdFlushSendBuffer
    simp only []
    split_ifs <;> first | rfl | exact hc
  · obtain ⟨ext, h1, h2⟩ := httpdFlushSendBuffer_trace env s
    rw [h1, cgiCalls_append, cgiCalls_of_isPlat ext h2, List.append_nil]
  · unfold httpdFlushSendBuffer
    simp only []
    split_ifs <;> simp [platMalloc, httpdPlatSendData, hm]

theorem httpdCgiIsDone_malloc (env : HttpdEnv) (s : HttpdConnData × World)
    (hm : s.2.mallocOk = []) : (httpdCgiIsDone env s).2.mallocOk = [] := by
  unfold httpdCgiIsDone
  split_ifs
  · exact (httpdFlushSendBuffer_invisible env ({ s.1 with cgi := none }, s.2) hm).2.2
  · exact hm

theorem norm_httpdCgiIsDone (env : HttpdEnv) (s : HttpdConnData × World)
    (hm : s.2.mallocOk = []) :
    norm (httpdCgiIsDone env s).1 =
      if s.1.priv.flags.HFL_CHUNKED = true then
        (fun n : HttpdConnData =>
          { n with
            cgi := none,
            priv := { n.priv with headPos := 0, flags := Flags.zero },
            post := { n.post with len := -1, buff := none, buffLen := 0, received := 0 },
            hostName := none }) (norm s.1)
      else
        (fun n : HttpdConnData =>
          { n with
            cgi := none,
            priv := { n.priv with
              flags := { n.priv.flags with HFL_DISCONAFTERSENT := true } } }) (norm s.1) := by
  unfold httpdCgiIsDone
  by_cases hc : s.1.priv.flags.HFL_CHUNKED = true
  · rw [if_pos hc, if_pos hc]
    have h1 := (httpdFlushSendBuffer_invisible env ({ s.1 with cgi := none }, s.2) hm).1
    show (fun n : HttpdConnData =>
        { n with
          priv := { n.priv with headPos := 0, flags := Flags.zero },
          post := { n.post with len := -1, buff := none, buffLen := 0, received := 0 },
          hostName := none })
        (norm (httpdFlushSendBuffer env ({ s.1 with cgi := none }, s.2)).1) = _
    rw [h1]
    rfl
  · rw [if_neg hc, if_neg hc]
    rfl

/-- A finished handler from two states that are `Sim`. -/
theorem httpdCgiIsDone_sim (env : HttpdEnv) (r : Option Nat) (s t : HttpdConnData × World)
    (h : Sim r s t) : Sim r (httpdCgiIsDone env s) (httpdCgiIsDone env t) := by
  obtain ⟨e1, h1, h2⟩ := httpdCgiIsDone_trace env s
  obtain ⟨e3, h3, h4⟩ := httpdCgiIsDone_trace env t
  have hn : norm (httpdCgiIsDone env s).1 = norm (httpdCgiIsDone env t).1 := by
    rw [norm_httpdCgiIsDone env s h.mallocL, norm_httpdCgiIsDone env t h.mallocR,
      flags_of_norm h.conn, h.conn]
  refine ⟨hn, ?_, httpdCgiIsDone_malloc env s h.mallocL, httpdCgiIsDone_malloc env t h.mallocR,
    ?_, ?_⟩
  · rw [h1, h3, cgiCalls_append, cgiCalls_append, cgiCalls_of_isPlat e1 h2,
      cgiCalls_of_isPlat e3 h4, h.calls]
  · have k2 := congrArg HttpdConnData.recvHdl (norm_httpdCgiIsDone env s h.mallocL)
    have k3 : (httpdCgiIsDone env s).1.recvHdl = s.1.recvHdl := by
      split_ifs at k2 <;> exact k2
    rw [k3]
    exact h.recvHdl
  · have k2 := congrArg HttpdConnData.conn (norm_httpdCgiIsDone env s h.mallocL)
    have k3 : (httpdCgiIsDone env s).1.conn = s.1.conn := by
      split_ifs at k2 <;> exact k2
    rw [k3]
    exact h.handle

theorem httpdFlushSendBuffer_sim (env : HttpdEnv) (r : Option Nat) (s t : HttpdConnData × World)
    (h : Sim r s t) : Sim r (httpdFlushSendBuffer env s) (httpdFlushSendBuffer env t) := by
  obtain ⟨a1, a2, a3⟩ := httpdFlushSendBuffer_invisible env s h.mallocL
  obtain ⟨b1, b2, b3⟩ := httpdFlushSendBuffer_invisible env t h.mallocR
  exact (h.of_left a1 a2 a3).trans (h.symm.symm_left.of_left b1 b2 b3).symm

theorem installCgi_sim (urls : List HttpdBuiltInUrl) (i : Nat) (r : Option Nat)
    (s t : HttpdConnData × World) (h : Sim r s t) :
    (installCgi urls i s.1).1 = (installCgi urls i t.1).1 ∧
    Sim r ((installCgi urls i s.1).2, s.2) ((installCgi urls i t.1).2, t.2) := by
  unfold installCgi
  cases urls.get? i with
  | none =>
    refine ⟨rfl, ?_, h.calls, h.mallocL, h.mallocR, h.recvHdl, h.handle⟩
    show (fun n : HttpdConnData => { n with cgi := some .cgiNotFound }) (norm s.1) =
      (fun n : HttpdConnData => { n with cgi := some .cgiNotFound }) (norm t.1)
    rw [h.conn]
  | some e =>
    refine ⟨rfl, ?_, h.calls, h.mallocL, h.mallocR, h.recvHdl, h.handle⟩
    show (fun n : HttpdConnData =>
        { n with cgiData := 0, cgi := some e.cgiCb, cgiArg := e.cgiArg, cgiArg2 := e.cgiArg2 })
        (norm s.1) =
      (fun n : HttpdConnData =>
        { n with cgiData := 0, cgi := some e.cgiCb, cgiArg := e.cgiArg, cgiArg2 := e.cgiArg2 })
        (norm t.1)
    rw [h.conn]

/-- The route search from two states that are `Sim`. -/
theorem httpdProcessRequestLoop_rel (env : HttpdEnv) (plain : Nat → CgiView → PlainScript)
    (hplain : ∀ id v, env.cgiFns id v = (plain id v).toScript) (urls : List HttpdBuiltInUrl)
    (r : Option Nat) : ∀ (n i : Nat) (s t : HttpdConnData × World), Sim r s t →
      ORel r (httpdProcessRequestLoop env urls n i s) (httpdProcessRequestLoop env urls n i t) := by
  intro n
  induction n with
  | zero => intro i s t _; exact True.intro
  | succ n ih =>
    intro i s t h
    rw [httpdProcessRequestLoop, httpdProcessRequestLoop]
    rw [← head_of_norm h.conn, ← url_of_norm h.conn]
    obtain ⟨hi1, hi2⟩ := installCgi_sim urls
      (findUrl (s.1.priv.head.drop (s.1.url.getD 0)) (urls.drop i) i) r s t h
    rw [← hi1]
    obtain ⟨hc1, hc2⟩ := callCgi_sim env plain hplain
      (installCgi urls (findUrl (s.1.priv.head.drop (s.1.url.getD 0)) (urls.drop i) i) s.1).1
      r _ _ hi2
    rw [← hc1]
    generalize callCgi env
      (installCgi urls (findUrl (s.1.priv.head.drop (s.1.url.getD 0)) (urls.drop i) i) s.1).1
      ((installCgi urls (findUrl (s.1.priv.head.drop (s.1.url.getD 0)) (urls.drop i) i) s.1).2,
        s.2) = rs at hc1 hc2
    generalize callCgi env
      (installCgi urls (findUrl (s.1.priv.head.drop (s.1.url.getD 0)) (urls.drop i) i) s.1).1
      ((installCgi urls (findUrl (s.1.priv.head.drop (s.1.url.getD 0)) (urls.drop i) i) t.1).2,
        t.2) = rt at hc1 hc2
    cases hst : rs.1 with
    | HTTPD_CGI_MORE =>
      try simp only []
      rw [if_neg (by rw [hc2.recvHdl]; simp), if_neg (by rw [hc2.right_recvHdl]; simp)]
      exact httpdFlushSendBuffer_sim env r _ _ hc2
    | HTTPD_CGI_DONE =>
      try simp only []
      exact httpdCgiIsDone_sim env r _ _ hc2
    | HTTPD_CGI_NOTFOUND =>
      try simp only []
      exact ih _ _ _ hc2
    | HTTPD_CGI_AUTHENTICATED =>
      try simp only []
      exact ih _ _ _ hc2

theorem httpdProcessRequest_rel (env : HttpdEnv) (plain : Nat → CgiView → PlainScript)
    (hplain : ∀ id v, env.cgiFns id v = (plain id v).toScript) (urls : List HttpdBuiltInUrl)
    (r : Option Nat) (s t : HttpdConnData × World) (h : Sim r s t) :
    ORel r (httpdProcessRequest env urls s) (httpdProcessRequest env urls t) := by
  unfold httpdProcessRequest
  rw [← url_of_norm h.conn]
  split_ifs
  · exact h
  · exact httpdProcessRequestLoop_rel env plain hplain urls r _ _ s t h

/-- The route search always returns. -/
theorem httpdProcessRequest_total (env : HttpdEnv) (urls : List HttpdBuiltInUrl)
    (s : HttpdConnData × World) : ∃ s', httpdProcessRequest env urls s = some s' := by
  unfold httpdProcessRequest
  split_ifs
  · exact ⟨s, rfl⟩
  · obtain ⟨s', _, h, _⟩ := httpdProcessRequestLoop_spec env urls (urls.length + 2) 0 s
      (Nat.zero_le _) (by omega)
    exact ⟨s', h⟩

/-- A change of the connection that neither reads nor writes the output side
keeps two states `Sim`. -/
theorem Sim.update {r : Option Nat} {s t : HttpdConnData × World}
    (F : HttpdConnData → HttpdConnData) (hF : ∀ c, norm (F c) = norm (F (norm c)))
    (hR : ∀ c, (F c).recvHdl = c.recvHdl) (hC : ∀ c, (F c).conn = c.conn) (h : Sim r s t) :
    Sim r (F s.1, s.2) (F t.1, t.2) :=
  ⟨by rw [hF s.1, hF t.1, h.conn], h.calls, h.mallocL, h.mallocR,
    (hR s.1).trans h.recvHdl, (hC s.1).trans h.handle⟩

theorem parseRequestLine_keeps (h : Nat) (c : HttpdConnData) :
    (parseRequestLine h c).recvHdl = c.recvHdl ∧ (parseRequestLine h c).conn = c.conn ∧
    (parseRequestLine h c).priv.headPos = c.priv.headPos ∧
    (parseRequestLine h c).post = c.post := by
  unfold parseRequestLine
  simp only []
  split
  · exact ⟨rfl, rfl, rfl, rfl⟩
  · split <;> exact ⟨rfl, rfl, rfl, rfl⟩

theorem norm_parseRequestLine (h : Nat) (c : HttpdConnData) :
    norm (parseRequestLine h c) = norm (parseRequestLine h (norm c)) := by
  have e1 : (norm c).priv.head = c.priv.head := rfl
  have e2 : (norm c).priv.flags = c.priv.flags := rfl
  unfold parseRequestLine
  simp only [e1, e2]
  split
  · rfl
  · split <;> rfl

theorem parseContentType_keeps (h : Nat) (c : HttpdConnData) :
    (parseContentType h c).recvHdl = c.recvHdl ∧ (parseContentType h c).conn = c.conn ∧
    (parseContentType h c).priv.headPos = c.priv.headPos := by
  unfold parseContentType
  simp only []
  split_ifs
  · split <;> exact ⟨rfl, rfl, rfl⟩
  · exact ⟨rfl, rfl, rfl⟩

theorem norm_parseContentType (h : Nat) (c : HttpdConnData) :
    norm (parseContentType h c) = norm (parseContentType h (norm c)) := by
  have e1 : (norm c).priv.head = c.priv.head := rfl
  unfold parseContentType
  simp only [e1]
  split_ifs
  · split <;> rfl
  · rfl

theorem parseContentLength_keeps (env : HttpdEnv) (h : Nat) (s : HttpdConnData × World) :
    (parseContentLength env h s).1.recvHdl = s.1.recvHdl ∧
    (parseContentLength env h s).1.conn = s.1.conn ∧
    (parseContentLength env h s).1.priv.headPos = s.1.priv.headPos ∧
    (parseContentLength env h s).2.trace = s.2.trace ∧
    (s.2.mallocOk = [] → (parseContentLength env h s).2.mallocOk = []) := by
  unfold parseContentLength
  simp only []
  split_ifs <;> refine ⟨rfl, rfl, rfl, rfl, ?_⟩ <;> intro hm <;> simp [platMalloc, hm]

theorem norm_parseContentLength (env : HttpdEnv) (h : Nat) (s : HttpdConnData × World)
    (hm : s.2.mallocOk = []) :
    norm (parseContentLength env h s).1 =
      norm (parseContentLength env h (norm s.1, World.start)).1 := by
  have e1 : (norm s.1).priv.head = s.1.priv.head := rfl
  have e2 : (platMalloc s.2).1 = true := by simp [platMalloc, hm]
  have e3 : (platMalloc World.start).1 = true := rfl
  unfold parseContentLength
  simp only [e1, e2, e3]
  generalize atoi ((s.1.priv.head.drop h).drop
    (15 + skipSpaces ((s.1.priv.head.drop h).drop 15))) = len
  split_ifs <;> rfl

/-- The outcomes of `httpdParseHeader`, by kind of line. -/
theorem httpdParseHeader_cases (env : HttpdEnv) (h : Nat) (s t : HttpdConnData × World)
    (hh : s.1.priv.head = t.1.priv.head) (P : HttpdConnData × World → HttpdConnData × World → Prop)
    (h1 : ∀ rt, P (parseRequestLine h { s.1 with requestType := some rt }, s.2)
      (parseRequestLine h { t.1 with requestType := some rt }, t.2))
    (h2 : ∀ k, P ({ s.1 with hostName := some k }, s.2) ({ t.1 with hostName := some k }, t.2))
    (h3 : P ({ s.1 with priv := { s.1.priv with
          flags := { s.1.priv.flags with HFL_CHUNKED := false } } }, s.2)
        ({ t.1 with priv := { t.1.priv with
          flags := { t.1.priv.flags with HFL_CHUNKED := false } } }, t.2))
    (h4 : P s t)
    (h5 : P (parseContentLength env h s) (parseContentLength env h t))
    (h6 : P (parseContentType h s.1, s.2) (parseContentType h t.1, t.2)) :
    P (httpdParseHeader env h s) (httpdParseHeader env h t) := by
  unfold httpdParseHeader
  rw [← hh]
  generalize s.1.priv.head.drop h = line
  by_cases c1 : strncmpEq line [71, 69, 84, 32] 4 = true
  · rw [if_pos c1, if_pos c1]; exact h1 _
  rw [if_neg c1, if_neg c1]
  by_cases c2 : strncasecmpEq line [72, 111, 115, 116, 58] 5 = true
  · rw [if_pos c2, if_pos c2]; exact h2 _
  rw [if_neg c2, if_neg c2]
  by_cases c3 : strncmpEq line [80, 79, 83, 84, 32] 5 = true
  · rw [if_pos c3, if_pos c3]; exact h1 _
  rw [if_neg c3, if_neg c3]
  by_cases c4 : strncmpEq line [79, 80, 84, 73, 79, 78, 83, 32] 8 = true
  · rw [if_pos c4, if_pos c4]; exact h1 _
  rw [if_neg c4, if_neg c4]
  by_cases c5 : strncmpEq line [80, 85, 84, 32] 4 = true
  · rw [if_pos c5, if_pos c5]; exact h1 _
  rw [if_neg c5, if_neg c5]
  by_cases c6 : strncmpEq line [80, 65, 84, 67, 72, 32] 6 = true
  · rw [if_pos c6, if_pos c6]; exact h1 _
  rw [if_neg c6, if_neg c6]
  by_cases c7 : strncmpEq line [68, 69, 76, 69, 84, 69, 32] 7 = true
  · rw [if_pos c7, if_pos c7]; exact h1 _
  rw [if_neg c7, if_neg c7]
  by_cases c8 : strncasecmpEq line [67, 111, 110, 110, 101, 99, 116, 105, 111, 110, 58] 11 = true
  · rw [if_pos c8, if_pos c8]
    by_cases c9 : strncmpEq (line.drop (11 + skipSpaces (line.drop 11)))
        [99, 108, 111, 115, 101] 5 = true
    · rw [if_pos c9, if_pos c9]; exact h3
    · rw [if_neg c9, if_neg c9]; exact h4
  rw [if_neg c8, if_neg c8]
  by_cases c10 : strncasecmpEq line
      [67, 111, 110, 116, 101, 110, 116, 45, 76, 101, 110, 103, 116, 104, 58] 15 = true
  · rw [if_pos c10, if_pos c10]; exact h5
  rw [if_neg c10, if_neg c10]
  by_cases c11 : strncasecmpEq line
      [67, 111, 110, 116, 101, 110, 116, 45, 84, 121, 112, 101, 58, 32] 14 = true
  · rw [if_pos c11, if_pos c11]; exact h6
  rw [if_neg c11, if_neg c11]
  exact h4

/-- A header line parsed from two states that are `Sim`; the head position
stays. -/
theorem httpdParseHeader_sim (env : HttpdEnv) (h : Nat) (r : Option Nat)
    (s t : HttpdConnData × World) (hs : Sim r s t) :
    Sim r (httpdParseHeader env h s) (httpdParseHeader env h t) ∧
    (httpdParseHeader env h s).1.priv.headPos = s.1.priv.headPos := by
  refine httpdParseHeader_cases env h s t (head_of_norm hs.conn)
    (fun a b => Sim r a b ∧ a.1.priv.headPos = s.1.priv.headPos) ?_ ?_ ?_ ?_ ?_ ?_
  · intro rt
    have h0 : Sim r ({ s.1 with requestType := some rt }, s.2)
        ({ t.1 with requestType := some rt }, t.2) :=
      hs.update (fun c => { c with requestType := some rt }) (fun _ => rfl) (fun _ => rfl)
        (fun _ => rfl)
    exact ⟨h0.update (parseRequestLine h) (norm_parseRequestLine h)
      (fun c => (parseRequestLine_keeps h c).1) (fun c => (parseRequestLine_keeps h c).2.1),
      (parseRequestLine_keeps h _).2.2.1⟩
  · intro k
    exact ⟨hs.update (fun c => { c with hostName := some k }) (fun _ => rfl) (fun _ => rfl)
      (fun _ => rfl), rfl⟩
  · exact ⟨hs.update (fun c => { c with priv := { c.priv with
      flags := { c.priv.flags with HFL_CHUNKED := false } } }) (fun _ => rfl) (fun _ => rfl)
      (fun _ => rfl), rfl⟩
  · exact ⟨hs, rfl⟩
  · obtain ⟨a1, a2, a3, a4, a5⟩ := parseContentLength_keeps env h s
    obtain ⟨_, _, _, b4, b5⟩ := parseContentLength_keeps env h t
    refine ⟨⟨?_, by rw [a4, b4, hs.calls], a5 hs.mallocL, b5 hs.mallocR, a1.trans hs.recvHdl,
      a2.trans hs.handle⟩, a3⟩
    rw [norm_parseContentLength env h s hs.mallocL, norm_parseContentLength env h t hs.mallocR,
      hs.conn]
  · exact ⟨hs.update (parseContentType h) (norm_parseContentType h)
      (fun c => (parseContentType_keeps h c).1) (fun c => (parseContentType_keeps h c).2.1),
      (parseContentType_keeps h _).2.2⟩

theorem ORel_cases {r : Option Nat} {x y : Option (HttpdConnData × World)} (h : ORel r x y) :
    (x = none ∧ y = none) ∨ ∃ a b, x = some a ∧ y = some b ∧ Sim r a b := by
  cases x with
  | none =>
    cases y with
    | none => exact Or.inl ⟨rfl, rfl⟩
    | some b => exact False.elim h
  | some a =>
    cases y with
    | none => exact False.elim h
    | some b => exact Or.inr ⟨a, b, rfl, rfl, h⟩

theorem httpdParseHeader_headPos (env : HttpdEnv) (h : Nat) (s : HttpdConnData × World) :
    (httpdParseHeader env h s).1.priv.headPos = s.1.priv.headPos := by
  refine httpdParseHeader_cases env h s s rfl
    (fun a _ => a.1.priv.headPos = s.1.priv.headPos) ?_ ?_ ?_ ?_ ?_ ?_
  · intro rt; exact (parseRequestLine_keeps h _).2.2.1
  · intro k; rfl
  · rfl
  · rfl
  · exact (parseContentLength_keeps env h s).2.2.1
  · exact (parseContentType_keeps h _).2.2

/-- The loop over the header lines from two states that are `Sim`. -/
theorem parseHeaders_rel (env : HttpdEnv) (r : Option Nat) :
    ∀ (n p : Nat) (s t : HttpdConnData × World), Sim r s t →
      ORel r (parseHeaders env n p s) (parseHeaders env n p t) := by
  intro n
  induction n with
  | zero => intro p s t _; exact True.intro
  | succ n ih =>
    intro p s t hs
    rw [parseHeaders, parseHeaders, ← headPos_of_norm hs.conn, ← head_of_norm hs.conn]
    split_ifs
    · cases strstr (s.1.priv.head.drop p) [13, 10] with
      | none => exact hs
      | some k =>
        simp only []
        have hu : Sim r
            ({ s.1 with priv := { s.1.priv with head := s.1.priv.head.set (p + k) 0 } }, s.2)
            ({ t.1 with priv := { t.1.priv with head := s.1.priv.head.set (p + k) 0 } }, t.2) := by
          have hu0 : Sim r
              ({ s.1 with priv := { s.1.priv with head := s.1.priv.head.set (p + k) 0 } }, s.2)
              ({ t.1 with priv := { t.1.priv with head := t.1.priv.head.set (p + k) 0 } }, t.2) :=
            hs.update (fun c => { c with priv := { c.priv with
              head := c.priv.head.set (p + k) 0 } }) (fun _ => rfl) (fun _ => rfl) (fun _ => rfl)
          rw [← head_of_norm hs.conn] at hu0
          exact hu0
        exact ih _ _ _ (httpdParseHeader_sim env p r _ _ hu).1
    · exact hs

/-- The loop over the header lines returns: every pass moves on by two bytes
at least. -/
theorem parseHeaders_total (env : HttpdEnv) :
    ∀ (n p : Nat) (s : HttpdConnData × World), 1 ≤ n →
      (s.1.priv.headPos : Int) - 4 - p < n → ∃ s', parseHeaders env n p s = some s' := by
  intro n
  induction n with
  | zero => intro p s h1 _; omega
  | succ n ih =>
    intro p s _ h2
    rw [parseHeaders]
    split_ifs with hc
    · cases strstr (s.1.priv.head.drop p) [13, 10] with
      | none => exact ⟨s, rfl⟩
      | some k =>
        simp only []
        apply ih
        · omega
        · rw [httpdParseHeader_headPos]
          show (s.1.priv.headPos : Int) - 4 - ((p + k + 2 : Nat) : Int) < n
          push_cast
          omega
    · exact ⟨s, rfl⟩

theorem headersDone_rel (env : HttpdEnv) (plain : Nat → CgiView → PlainScript)
    (hplain : ∀ id v, env.cgiFns id v = (plain id v).toScript) (urls : List HttpdBuiltInUrl)
    (r : Option Nat) (s t : HttpdConnData × World) (hs : Sim r s t) :
    ORel r (headersDone env urls s) (headersDone env urls t) := by
  unfold headersDone
  rw [← headPos_of_norm hs.conn]
  have h0 := parseHeaders_rel env r (s.1.priv.headPos + 1) 0 _ _
    (hs.update (fun c => { c with post := { c.post with len := 0 }, url := none })
      (fun _ => rfl) (fun _ => rfl) (fun _ => rfl))
  rcases ORel_cases h0 with ⟨e1, e2⟩ | ⟨a, b, e1, e2, hab⟩
  · simp only [] at e1 e2
    rw [e1, e2]
    exact True.intro
  · simp only [] at e1 e2
    rw [e1, e2]
    simp only []
    rw [← post_of_norm hab.conn]
    split_ifs
    · exact httpdProcessRequest_rel env plain hplain urls r a b hab
    · exact hab

theorem headersDone_total (env : HttpdEnv) (urls : List HttpdBuiltInUrl)
    (s : HttpdConnData × World) : ∃ s', headersDone env urls s = some s' := by
  unfold headersDone
  obtain ⟨s2, h2⟩ := parseHeaders_total env (s.1.priv.headPos + 1) 0
    ({ s.1 with post := { s.1.post with len := 0 }, url := none }, s.2) (by omega) (by
      show (s.1.priv.headPos : Int) - 4 - ((0 : Nat) : Int) < ((s.1.priv.headPos + 1 : Nat) : Int)
      push_cast
      omega)
  rw [h2]
  simp only []
  split_ifs
  · exact httpdProcessRequest_total env urls s2
  · exact ⟨s2, rfl⟩

theorem norm_storeHeadByte (env : HttpdEnv) (b : Nat) (c : HttpdConnData) :
    norm { c with priv := storeHeadByte env c.priv b } =
      norm { norm c with priv := storeHeadByte env (norm c).priv b } := by
  have e1 : (norm c).priv.head = c.priv.head := rfl
  have e2 : (norm c).priv.headPos = c.priv.headPos := rfl
  unfold storeHeadByte
  simp only [e1, e2]
  by_cases c1 : b = 10 ∧ c.priv.headPos ≠ 0 ∧ c.priv.head.getD (c.priv.headPos - 1) 0 ≠ 13
  · simp only [if_pos c1, e1, e2]
    split_ifs <;> rfl
  · simp only [if_neg c1, e1, e2]
    split_ifs <;> rfl

theorem storeHeadByte_sim (env : HttpdEnv) (b : Nat) (r : Option Nat)
    (s t : HttpdConnData × World) (hs : Sim r s t) :
    Sim r ({ s.1 with priv := storeHeadByte env s.1.priv b }, s.2)
      ({ t.1 with priv := storeHeadByte env t.1.priv b }, t.2) :=
  hs.update (fun c => { c with priv := storeHeadByte env c.priv b }) (norm_storeHeadByte env b)
    (fun _ => rfl) (fun _ => rfl)

theorem recvHeadByte_rel (env : HttpdEnv) (plain : Nat → CgiView → PlainScript)
    (hplain : ∀ id v, env.cgiFns id v = (plain id v).toScript) (urls : List HttpdBuiltInUrl)
    (r : Option Nat) (b : Nat) (s t : HttpdConnData × World) (hs : Sim r s t) :
    ORel r (recvHeadByte env urls b s) (recvHeadByte env urls b t) := by
  have h1 := storeHeadByte_sim env b r s t hs
  have h2 : (storeHeadByte env s.1.priv b).head = (storeHeadByte env t.1.priv b).head :=
    head_of_norm h1.conn
  unfold recvHeadByte
  rw [← h2]
  split_ifs
  · exact headersDone_rel env plain hplain urls r _ _ h1
  · exact h1

theorem recvHeadByte_total (env : HttpdEnv) (urls : List HttpdBuiltInUrl) (b : Nat)
    (s : HttpdConnData × World) : ∃ s', recvHeadByte env urls b s = some s' := by
  unfold recvHeadByte
  split_ifs
  · exact headersDone_total env urls _
  · exact ⟨_, rfl⟩

theorem passPostChunk_rel (env : HttpdEnv) (plain : Nat → CgiView → PlainScript)
    (hplain : ∀ id v, env.cgiFns id v = (plain id v).toScript) (urls : List HttpdBuiltInUrl)
    (r : Option Nat) (s t : HttpdConnData × World) (hs : Sim r s t) :
    ORel r (passPostChunk env urls s) (passPostChunk env urls t) := by
  unfold passPostChunk
  rw [← cgi_of_norm hs.conn]
  cases s.1.cgi with
  | none => exact httpdProcessRequest_rel env plain hplain urls r s t hs
  | some fn =>
    simp only []
    obtain ⟨h1, h2⟩ := callCgi_sim env plain hplain fn r s t hs
    rw [← h1]
    split_ifs
    · exact httpdCgiIsDone_sim env r _ _ h2
    · exact h2

theorem passPostChunk_total (env : HttpdEnv) (urls : List HttpdBuiltInUrl)
    (s : HttpdConnData × World) : ∃ s', passPostChunk env urls s = some s' := by
  unfold passPostChunk
  cases s.1.cgi with
  | none => exact httpdProcessRequest_total env urls s
  | some fn =>
    simp only []
    split_ifs
    · exact ⟨_, rfl⟩
    · exact ⟨_, rfl⟩

theorem recvPostByte_rel (env : HttpdEnv) (plain : Nat → CgiView → PlainScript)
    (hplain : ∀ id v, env.cgiFns id v = (plain id v).toScript) (urls : List HttpdBuiltInUrl)
    (r : Option Nat) (b : Nat) (s t : HttpdConnData × World) (hs : Sim r s t) :
    ORel r (recvPostByte env urls b s) (recvPostByte env urls b t) := by
  have h1 : Sim r (storePostByte s.1 b, s.2) (storePostByte t.1 b, t.2) :=
    hs.update (fun c => storePostByte c b) (fun _ => rfl) (fun _ => rfl) (fun _ => rfl)
  have h2 : Sim r (terminatePostChunk (storePostByte s.1 b), s.2)
      (terminatePostChunk (storePostByte t.1 b), t.2) :=
    h1.update terminatePostChunk (fun _ => rfl) (fun _ => rfl) (fun _ => rfl)
  have hready : postChunkReady (storePostByte s.1 b) ↔ postChunkReady (storePostByte t.1 b) := by
    unfold postChunkReady
    rw [post_of_norm h1.conn]
  unfold recvPostByte
  by_cases hr : postChunkReady (storePostByte s.1 b)
  · rw [if_pos hr, if_pos (hready.1 hr)]
    rcases ORel_cases (passPostChunk_rel env plain hplain urls r _ _ h2) with
      ⟨e1, e2⟩ | ⟨a, c, e1, e2, hac⟩
    · rw [e1, e2]
      exact True.intro
    · rw [e1, e2]
      exact hac.update (fun c => { c with post := { c.post with buffLen := 0 } })
        (fun _ => rfl) (fun _ => rfl) (fun _ => rfl)
  · rw [if_neg hr, if_neg (fun h => hr (hready.2 h))]
    exact h1

theorem recvPostByte_total (env : HttpdEnv) (urls : List HttpdBuiltInUrl) (b : Nat)
    (s : HttpdConnData × World) : ∃ s', recvPostByte env urls b s = some s' := by
  unfold recvPostByte
  split_ifs
  · obtain ⟨s4, h4⟩ := passPostChunk_total env urls
      (terminatePostChunk (storePostByte s.1 b), s.2)
    rw [h4]
    exact ⟨_, rfl⟩
  · exact ⟨_, rfl⟩

/-- The receive loop from two states that are `Sim`. -/
theorem httpdRecvLoop_rel (env : HttpdEnv) (plain : Nat → CgiView → PlainScript)
    (hplain : ∀ id v, env.cgiFns id v = (plain id v).toScript) (urls : List HttpdBuiltInUrl)
    (r : Option Nat) : ∀ (data : List Nat) (s t : HttpdConnData × World), Sim r s t →
      ORel r (httpdRecvLoop env urls data s) (httpdRecvLoop env urls data t) := by
  intro data
  induction data with
  | nil => intro s t hs; exact hs
  | cons b rest ih =>
    intro s t hs
    rw [httpdRecvLoop, httpdRecvLoop, ← post_of_norm hs.conn]
    split_ifs
    · rcases ORel_cases (recvHeadByte_rel env plain hplain urls r b s t hs) with
        ⟨e1, e2⟩ | ⟨a, c, e1, e2, hac⟩
      · rw [e1, e2]; exact True.intro
      · rw [e1, e2]; exact ih a c hac
    · rcases ORel_cases (recvPostByte_rel env plain hplain urls r b s t hs) with
        ⟨e1, e2⟩ | ⟨a, c, e1, e2, hac⟩
      · rw [e1, e2]; exact True.intro
      · rw [e1, e2]; exact ih a c hac
    · rw [hs.recvHdl, hs.right_recvHdl]
      exact ih s t hs

/-- The receive loop returns, whatever the data and the handlers. -/
theorem httpdRecvLoop_total (env : HttpdEnv) (urls : List HttpdBuiltInUrl) :
    ∀ (data : List Nat) (s : HttpdConnData × World),
      ∃ s', httpdRecvLoop env urls data s = some s' := by
  intro data
  induction data with
  | nil => intro s; exact ⟨s, rfl⟩
  | cons b rest ih =>
    intro s
    rw [httpdRecvLoop]
    split_ifs
    · obtain ⟨s1, h1⟩ := recvHeadByte_total env urls b s
      rw [h1]; exact ih s1
    · obtain ⟨s1, h1⟩ := recvPostByte_total env urls b s
      rw [h1]; exact ih s1
    · cases s.1.recvHdl with
      | none => exact ih s
      | some id => exact ⟨_, rfl⟩

/-- Without a receive handler the loop over `a ++ b` is the loop over `a`
followed by the loop over `b`. -/
theorem httpdRecvLoop_append (env : HttpdEnv) (plain : Nat → CgiView → PlainScript)
    (hplain : ∀ id v, env.cgiFns id v = (plain id v).toScript) (urls : List HttpdBuiltInUrl)
    (r : Option Nat) (b : List Nat) : ∀ (a : List Nat) (s : HttpdConnData × World), Sim r s s →
      httpdRecvLoop env urls (a ++ b) s =
        (httpdRecvLoop env urls a s).bind (httpdRecvLoop env urls b) := by
  intro a
  induction a with
  | nil => intro s _; rfl
  | cons x a ih =>
    intro s hs
    rw [List.cons_append, httpdRecvLoop, httpdRecvLoop]
    split_ifs
    · rcases ORel_cases (recvHeadByte_rel env plain hplain urls r x s s hs) with
        ⟨e1, _⟩ | ⟨a1, c, e1, e2, hac⟩
      · rw [e1]; rfl
      · rw [e1]
        exact ih a1 hac.symm_left
    · rcases ORel_cases (recvPostByte_rel env plain hplain urls r x s s hs) with
        ⟨e1, _⟩ | ⟨a1, c, e1, e2, hac⟩
      · rw [e1]; rfl
      · rw [e1]
        exact ih a1 hac.symm_left
    · rw [hs.recvHdl]
      exact ih s hs

theorem recvCbConn_eq (env : HttpdEnv) (urls : List HttpdBuiltInUrl) (rconn : Option Nat)
    (d : List Nat) (s : HttpdConnData × World) (hm : s.2.mallocOk = []) :
    recvCbConn env urls rconn d s =
      (httpdRecvLoop env urls d
        ({ s.1 with conn := rconn, priv := { s.1.priv with sendBuff := [] } },
          (platMalloc s.2).2)).map
        (fun s1 =>
          ((if s1.1.conn ≠ none then httpdFlushSendBuffer env s1 else s1).1,
            (if s1.1.conn ≠ none then httpdFlushSendBuffer env s1 else s1).2.log .platUnlock)) := by
  have e2 : (platMalloc s.2).1 = true := by simp [platMalloc, hm]
  unfold recvCbConn
  rw [if_neg (by rw [e2]; simp)]
  cases httpdRecvLoop env urls d
      ({ s.1 with conn := rconn, priv := { s.1.priv with sendBuff := [] } },
        (platMalloc s.2).2) <;> rfl

/-- The state `httpdRecvCb` starts its loop with is `Sim` to itself. -/
theorem recvCb_start_sim (rconn : Option Nat) (s : HttpdConnData × World)
    (hm : s.2.mallocOk = []) (hr : s.1.recvHdl = none) :
    Sim rconn ({ s.1 with conn := rconn, priv := { s.1.priv with sendBuff := [] } },
      (platMalloc s.2).2)
      ({ s.1 with conn := rconn, priv := { s.1.priv with sendBuff := [] } },
      (platMalloc s.2).2) :=
  ⟨rfl, rfl, by simp [platMalloc, hm], by simp [platMalloc, hm], hr, rfl⟩

/-- The state `httpdRecvCb` starts its loop with is `Sim` to the one it is
called in, when the transport handle is the stored one. -/
theorem recvCb_start_invisible (rconn : Option Nat) (s t : HttpdConnData × World)
    (hs : Sim rconn s t) :
    Sim rconn ({ s.1 with conn := rconn, priv := { s.1.priv with sendBuff := [] } },
      (platMalloc s.2).2) t := by
  refine hs.of_left ?_ rfl (by simp [platMalloc, hs.mallocL])
  rw [← hs.handle]
  rfl

/-- The end of `httpdRecvCb`, flush and unlock, changes the output side only. -/
theorem recvCb_end_invisible (env : HttpdEnv) (rconn : Option Nat)
    (s t : HttpdConnData × World) (hs : Sim rconn s t) :
    Sim rconn ((if s.1.conn ≠ none then httpdFlushSendBuffer env s else s).1,
      (if s.1.conn ≠ none then httpdFlushSendBuffer env s else s).2.log .platUnlock) t := by
  obtain ⟨a1, a2, a3⟩ := httpdFlushSendBuffer_invisible env s hs.mallocL
  split_ifs
  · refine hs.of_left a1 ?_ a3
    rw [World.log_trace, cgiCalls_append, a2]
    simp [cgiCalls]
  · refine hs.of_left rfl ?_ hs.mallocL
    rw [World.log_trace, cgiCalls_append]
    simp [cgiCalls]

/-- Calls of `httpdRecvCb` piece by piece against one pass of the receive loop
over all the data. -/
theorem recvPieces_sim (env : HttpdEnv) (plain : Nat → CgiView → PlainScript)
    (hplain : ∀ id v, env.cgiFns id v = (plain id v).toScript) (urls : List HttpdBuiltInUrl)
    (rconn : Option Nat) : ∀ (pieces : List (List Nat)) (s t : HttpdConnData × World),
      Sim rconn s t →
      ∃ s1 t1, recvPieces env urls rconn pieces s = some s1 ∧
        httpdRecvLoop env urls pieces.flatten t = some t1 ∧ Sim rconn s1 t1 := by
  intro pieces
  induction pieces with
  | nil => intro s t hs; exact ⟨s, t, rfl, rfl, hs⟩
  | cons d rest ih =>
    intro s t hs
    have h0 := recvCb_start_invisible rconn s t hs
    rcases ORel_cases (httpdRecvLoop_rel env plain hplain urls rconn d _ _ h0) with
      ⟨e1, _⟩ | ⟨a, b, e1, e2, hab⟩
    · obtain ⟨x, hx⟩ := httpdRecvLoop_total env urls d
        ({ s.1 with conn := rconn, priv := { s.1.priv with sendBuff := [] } },
          (platMalloc s.2).2)
      rw [hx] at e1
      exact Option.noConfusion e1
    · obtain ⟨s1, t1, g1, g2, g3⟩ := ih _ b (recvCb_end_invisible env rconn a b hab)
      refine ⟨s1, t1, ?_, ?_, g3⟩
      · rw [recvPieces, recvCbConn_eq env urls rconn d s hs.mallocL, e1]
        exact g1
      · rw [List.flatten_cons,
          httpdRecvLoop_append env plain hplain urls rconn _ d t hs.symm.symm_left, e2]
        exact g2

theorem parsedRequest_of_sim {r : Option Nat} {s t : HttpdConnData × World} (h : Sim r s t) :
    parsedRequest s = parsedRequest t := by
  have h1 : s.1.requestType = t.1.requestType := by
    have h2 := congrArg HttpdConnData.requestType h.conn
    exact h2
  have h3 : s.1.getArgs = t.1.getArgs := by
    have h2 := congrArg HttpdConnData.getArgs h.conn
    exact h2
  have h4 : s.1.hostName = t.1.hostName := by
    have h2 := congrArg HttpdConnData.hostName h.conn
    exact h2
  have h5 : headStr s.1 = headStr t.1 := by
    funext p
    unfold headStr
    rw [head_of_norm h.conn]
  unfold parsedRequest shownChunks
  rw [h1, url_of_norm h.conn, h3, h4, h5, h.calls]

/-- C5, as the code has it: handlers that do not depend on what `httpdSend`
returns and install no receive handler (`cgiFns` are plain scripts), a
connection without receive handler, allocations that succeed.  For every byte
stream and every way of cutting it into one or more consecutive `httpdRecvCb`
calls, the calls return, the one call with the whole stream returns, and the
two end with the same requestType, url, getArgs, hostName and sequence of
post-body chunks shown to the handlers; indeed with the same connection state
but for the output side. -/
theorem recvPieces_same_as_one_call (env : HttpdEnv) (plain : Nat → CgiView → PlainScript)
    (hplain : ∀ id v, env.cgiFns id v = (plain id v).toScript) (urls : List HttpdBuiltInUrl)
    (rconn : Option Nat) (d : List Nat) (rest : List (List Nat)) (s : HttpdConnData × World)
    (hm : s.2.mallocOk = []) (hr : s.1.recvHdl = none) :
    ∃ s1 s2, recvPieces env urls rconn (d :: rest) s = some s1 ∧
      recvCbConn env urls rconn (d ++ rest.flatten) s = some s2 ∧
      parsedRequest s1 = parsedRequest s2 ∧ norm s1.1 = norm s2.1 := by
  have h0 := recvCb_start_sim rconn s hm hr
  rcases ORel_cases (httpdRecvLoop_rel env plain hplain urls rconn d _ _ h0) with
    ⟨e1, _⟩ | ⟨a, b, e1, e2, hab⟩
  · obtain ⟨x, hx⟩ := httpdRecvLoop_total env urls d
      ({ s.1 with conn := rconn, priv := { s.1.priv with sendBuff := [] } },
        (platMalloc s.2).2)
    rw [hx] at e1
    exact Option.noConfusion e1
  · obtain ⟨s1, t1, g1, g2, g3⟩ := recvPieces_sim env plain hplain urls rconn rest _ a
      (recvCb_end_invisible env rconn a a hab.symm_left)
    have g4 := (recvCb_end_invisible env rconn t1 s1 g3.symm).symm
    refine ⟨s1, _, ?_, ?_, parsedRequest_of_sim g4, g4.conn⟩
    · rw [recvPieces, recvCbConn_eq env urls rconn d s hm, e1]
      exact g1
    · rw [recvCbConn_eq env urls rconn (d ++ rest.flatten) s hm,
        httpdRecvLoop_append env plain hplain urls rconn _ d _ h0, e1]
      show (httpdRecvLoop env urls rest.flatten a).map _ = _
      rw [g2]
      rfl

theorem recvPieces_same_as_one_call_witness :
    ∃ s1 s2,
      recvPieces formEnv formRoutes (some 1) [formRequest.take 50, formRequest.drop 50]
        (newConn formEnv (some 1) [10, 0, 0, 1] 80 0, World.start) = some s1 ∧
      recvCbConn formEnv formRoutes (some 1) (formRequest.take 50 ++ [formRequest.drop 50].flatten)
        (newConn formEnv (some 1) [10, 0, 0, 1] 80 0, World.start) = some s2 ∧
      parsedRequest s1 = parsedRequest s2 ∧ norm s1.1 = norm s2.1 :=
  recvPieces_same_as_one_call formEnv formPlain
    (by
      intro id v
      simp only [formEnv, formPlain]
      split_ifs <;> rfl)
    formRoutes (some 1) (formRequest.take 50) [formRequest.drop 50]
    (newConn formEnv (some 1) [10, 0, 0, 1] 80 0, World.start) rfl rfl

set_option maxRecDepth 100000 in
/-- C5 fails for a handler that gives up when `httpdSend` does not take its
data.  The request `pickyRequest` in one `httpdRecvCb` call: the answers to
the second and third piece of post data meet in the send buffer, the third
`httpdSend` fails, the handler returns DONE, and the last eight body bytes
are read as a request head; three pieces are shown and the url reads `567`.
Cut after the second piece, the buffer is flushed in between: four pieces are
shown and the url stays `/form`. -/
theorem recvCb_cut_changes_post_chunks :
    (recvCbConn pickyEnv formRoutes (some 1) pickyRequest
      (newConn pickyEnv (some 1) [10, 0, 0, 1] 80 0, World.start)).map parsedRequest =
      some { requestType := some .HTTPD_METHOD_POST,
             url := some [53, 54, 55],
             getArgs := none,
             hostName := none,
             chunks := [(.user 0, [48, 49, 50, 51, 52, 53, 54, 55], 0),
                        (.user 0, [48, 49, 50, 51, 52, 53, 54, 55], 0),
                        (.user 0, [48, 49, 50, 51, 52, 53, 54, 55], 0)] } ∧
    (recvPieces pickyEnv formRoutes (some 1) [pickyRequest.take 59, pickyRequest.drop 59]
      (newConn pickyEnv (some 1) [10, 0, 0, 1] 80 0, World.start)).map parsedRequest =
      some { requestType := some .HTTPD_METHOD_POST,
             url := some [47, 102, 111, 114, 109],
             getArgs := none,
             hostName := none,
             chunks := [(.user 0, [48, 49, 50, 51, 52, 53, 54, 55], 0),
                        (.user 0, [48, 49, 50, 51, 52, 53, 54, 55], 0),
                        (.user 0, [48, 49, 50, 51, 52, 53, 54, 55], 0),
                        (.user 0, [48, 49, 50, 51, 52, 53, 54, 55], 0)] } := by
  constructor <;> decide

/-! ### The backlog -/

theorem httpdSend_backlog (env : HttpdEnv) (c : HttpdConnData) (data : List Nat) (len : Int) :
    (httpdSend env c data len).2.priv.sendBacklog = c.priv.sendBacklog ∧
    (httpdSend env c data len).2.priv.sendBacklogSize = c.priv.sendBacklogSize ∧
    (httpdSend env c data len).2.conn = c.conn := by
  unfold httpdSend
  split_ifs <;> exact ⟨rfl, rfl, rfl⟩

theorem closeChunks_backlog (env : HttpdEnv) (c : HttpdConnData) :
    (closeChunks env c).priv.sendBacklog = c.priv.sendBacklog ∧
    (closeChunks env c).priv.sendBacklogSize = c.priv.sendBacklogSize ∧
    (closeChunks env c).conn = c.conn := by
  have hfix : ∀ h, (fixChunkHdr env c h).priv.sendBacklog = c.priv.sendBacklog ∧
      (fixChunkHdr env c h).priv.sendBacklogSize = c.priv.sendBacklogSize ∧
      (fixChunkHdr env c h).conn = c.conn := by
    intro h
    exact httpdSend_backlog env c [13, 10] 2
  unfold closeChunks
  cases hch : c.priv.chunkHdr with
  | none =>
    simp only []
    split_ifs <;> exact ⟨rfl, rfl, rfl⟩
  | some h =>
    simp only []
    split_ifs
    · exact hfix h
    · exact hfix h

/-- C14: `httpdFlushSendBuffer` on a live connection whose buffer, as it is
handed to the transport (after the chunk fix-up), is not empty, when the
transport refuses it and the allocation of a backlog item succeeds.  The
transport was offered exactly that buffer; a copy of it, with its length, is
appended at the tail of the backlog and `sendBacklogSize` grows by the length
if `sendBacklogSize + len <= HTTPD_MAX_BACKLOG_SIZE`; otherwise backlog and
size stay as they were; in both cases the send buffer is empty afterwards. -/
theorem httpdFlushSendBuffer_refused (env : HttpdEnv) (s : HttpdConnData × World)
    (hlive : s.1.conn ≠ none) (hbuf : (closeChunks env s.1).priv.sendBuff ≠ [])
    (hrefuse : s.2.sendOk.headD true = false) (hmalloc : s.2.mallocOk.headD true = true) :
    (httpdFlushSendBuffer env s).2.trace =
      s.2.trace ++ [Event.platSendData s.1.conn (closeChunks env s.1).priv.sendBuff false] ∧
    (httpdFlushSendBuffer env s).1.priv.sendBuff = [] ∧
    (s.1.priv.sendBacklogSize + ((closeChunks env s.1).priv.sendBuff.length : Int) ≤
        env.HTTPD_MAX_BACKLOG_SIZE →
      (httpdFlushSendBuffer env s).1.priv.sendBacklog =
        s.1.priv.sendBacklog ++
          [{ len := (closeChunks env s.1).priv.sendBuff.length,
             data := (closeChunks env s.1).priv.sendBuff }] ∧
      (httpdFlushSendBuffer env s).1.priv.sendBacklogSize =
        s.1.priv.sendBacklogSize + ((closeChunks env s.1).priv.sendBuff.length : Int)) ∧
    (¬ s.1.priv.sendBacklogSize + ((closeChunks env s.1).priv.sendBuff.length : Int) ≤
        env.HTTPD_MAX_BACKLOG_SIZE →
      (httpdFlushSendBuffer env s).1.priv.sendBacklog = s.1.priv.sendBacklog ∧
      (httpdFlushSendBuffer env s).1.priv.sendBacklogSize = s.1.priv.sendBacklogSize) := by
  obtain ⟨b1, b2, b3⟩ := closeChunks_backlog env s.1
  have hlen : (closeChunks env s.1).priv.sendBuffLen ≠ 0 := by
    unfold HttpdPriv.sendBuffLen
    intro h
    exact hbuf (List.length_eq_zero.1 (by exact_mod_cast h))
  have hsend : (httpdPlatSendData s.2 (closeChunks env s.1).conn
      (closeChunks env s.1).priv.sendBuff).1 = false := hrefuse
  have hm2 : (platMalloc (httpdPlatSendData s.2 (closeChunks env s.1).conn
      (closeChunks env s.1).priv.sendBuff).2).1 = true := hmalloc
  by_cases hq : s.1.priv.sendBacklogSize + ((closeChunks env s.1).priv.sendBuff.length : Int) ≤
      env.HTTPD_MAX_BACKLOG_SIZE
  · have hq2 : ¬ (closeChunks env s.1).priv.sendBacklogSize +
        (closeChunks env s.1).priv.sendBuffLen > env.HTTPD_MAX_BACKLOG_SIZE := by
      rw [b2]; unfold HttpdPriv.sendBuffLen; omega
    have hflush : httpdFlushSendBuffer env s =
        ({ closeChunks env s.1 with priv := { (closeChunks env s.1).priv with
            sendBacklog := (closeChunks env s.1).priv.sendBacklog ++
              [{ len := (closeChunks env s.1).priv.sendBuffLen,
                 data := (closeChunks env s.1).priv.sendBuff }],
            sendBacklogSize := (closeChunks env s.1).priv.sendBacklogSize +
              (closeChunks env s.1).priv.sendBuffLen,
            sendBuff := [] } },
          (platMalloc (httpdPlatSendData s.2 (closeChunks env s.1).conn
            (closeChunks env s.1).priv.sendBuff).2).2) := by
      unfold httpdFlushSendBuffer
      simp only []
      rw [if_neg hlive, if_pos hlen, if_pos hsend, if_neg hq2, if_neg (by rw [hm2]; simp)]
    rw [hflush]
    refine ⟨?_, rfl, fun _ => ⟨?_, ?_⟩, fun h => absurd hq h⟩
    · show s.2.trace ++ [Event.platSendData (closeChunks env s.1).conn
        (closeChunks env s.1).priv.sendBuff (s.2.sendOk.headD true)] = _
      rw [b3, hrefuse]
    · show (closeChunks env s.1).priv.sendBacklog ++ _ = _
      rw [b1]; rfl
    · show (closeChunks env s.1).priv.sendBacklogSize + _ = _
      rw [b2]; rfl
  · have hq2 : (closeChunks env s.1).priv.sendBacklogSize +
        (closeChunks env s.1).priv.sendBuffLen > env.HTTPD_MAX_BACKLOG_SIZE := by
      rw [b2]; unfold HttpdPriv.sendBuffLen; omega
    have hflush : httpdFlushSendBuffer env s =
        ({ closeChunks env s.1 with priv := { (closeChunks env s.1).priv with sendBuff := [] } },
          (httpdPlatSendData s.2 (closeChunks env s.1).conn
            (closeChunks env s.1).priv.sendBuff).2) := by
      unfold httpdFlushSendBuffer
      simp only []
      rw [if_neg hlive, if_pos hlen, if_pos hsend, if_pos hq2]
    rw [hflush]
    refine ⟨?_, rfl, fun h => absurd h hq, fun _ => ⟨b1, b2⟩⟩
    show s.2.trace ++ [Event.platSendData (closeChunks env s.1).conn
      (closeChunks env s.1).priv.sendBuff (s.2.sendOk.headD true)] = _
    rw [b3, hrefuse]

theorem httpdFlushSendBuffer_refused_witness :
    (httpdFlushSendBuffer idleEnv refusedFlush).2.trace =
      refusedFlush.2.trace ++
        [Event.platSendData refusedFlush.1.conn (closeChunks idleEnv refusedFlush.1).priv.sendBuff
          false] ∧
    (httpdFlushSendBuffer idleEnv refusedFlush).1.priv.sendBuff = [] ∧
    (refusedFlush.1.priv.sendBacklogSize +
        ((closeChunks idleEnv refusedFlush.1).priv.sendBuff.length : Int) ≤
        idleEnv.HTTPD_MAX_BACKLOG_SIZE →
      (httpdFlushSendBuffer idleEnv refusedFlush).1.priv.sendBacklog =
        refusedFlush.1.priv.sendBacklog ++
          [{ len := (closeChunks idleEnv refusedFlush.1).priv.sendBuff.length,
             data := (closeChunks idleEnv refusedFlush.1).priv.sendBuff }] ∧
      (httpdFlushSendBuffer idleEnv refusedFlush).1.priv.sendBacklogSize =
        refusedFlush.1.priv.sendBacklogSize +
          ((closeChunks idleEnv refusedFlush.1).priv.sendBuff.length : Int)) ∧
    (¬ refusedFlush.1.priv.sendBacklogSize +
        ((closeChunks idleEnv refusedFlush.1).priv.sendBuff.length : Int) ≤
        idleEnv.HTTPD_MAX_BACKLOG_SIZE →
      (httpdFlushSendBuffer idleEnv refusedFlush).1.priv.sendBacklog =
        refusedFlush.1.priv.sendBacklog ∧
      (httpdFlushSendBuffer idleEnv refusedFlush).1.priv.sendBacklogSize =
        refusedFlush.1.priv.sendBacklogSize) :=
  httpdFlushSendBuffer_refused idleEnv refusedFlush (by decide) (by decide) (by decide)
    (by decide)

theorem memRead_length (d : List Nat) : memRead d d.length = d := by
  unfold memRead
  rw [List.take_append_of_le_length (Nat.le_refl _), List.take_length]

theorem outs_append (a b : List Event) : outs (a ++ b) = outs a ++ outs b := by
  simp [outs, List.filterMap_append]

/-- The pass of `httpdContinue` over a connection with a backlog. -/
theorem continueConn_backlog (env : HttpdEnv) (s : HttpdConnData × World)
    (item : HttpSendBacklogItem) (next : List HttpSendBacklogItem)
    (hbl : s.1.priv.sendBacklog = item :: next) :
    continueConn env s =
      ({ s.1 with priv := { s.1.priv with
          sendBacklogSize := s.1.priv.sendBacklogSize - item.len,
          sendBacklog := next } },
        { sendOk := s.2.sendOk.tail, mallocOk := s.2.mallocOk,
          trace := s.2.trace ++
            [Event.platSendData s.1.conn (itemBytes item) (s.2.sendOk.headD true),
              Event.platUnlock] }) := by
  unfold continueConn
  rw [hbl]
  simp [httpdPlatSendData, World.log, itemBytes]

/-- Sent events while the backlog lasts: one item leaves per event, oldest
first, and nothing else happens. -/
theorem sentEvents_drain (env : HttpdEnv) : ∀ (k : Nat) (s : HttpdConnData × World),
    k ≤ s.1.priv.sendBacklog.length →
    ∃ ext, (sentEvents env k s).2.trace = s.2.trace ++ ext ∧
      outs ext = (s.1.priv.sendBacklog.take k).map (fun it => Out.data s.1.conn (itemBytes it)) ∧
      cgiCalls ext = [] ∧
      (sentEvents env k s).1.priv.sendBacklog = s.1.priv.sendBacklog.drop k ∧
      (sentEvents env k s).1.priv.sendBacklogSize =
        s.1.priv.sendBacklogSize - ((s.1.priv.sendBacklog.take k).map (fun it => it.len)).sum ∧
      (sentEvents env k s).1.conn = s.1.conn ∧
      (sentEvents env k s).1.priv.flags = s.1.priv.flags ∧
      (sentEvents env k s).1.cgi = s.1.cgi := by
  intro k
  induction k with
  | zero =>
    intro s _
    exact ⟨[], by simp [sentEvents], by simp [outs], rfl, by simp [sentEvents],
      by simp [sentEvents], rfl, rfl, rfl⟩
  | succ k ih =>
    intro s hk
    cases hbl : s.1.priv.sendBacklog with
    | nil => rw [hbl] at hk; simp at hk
    | cons item next =>
      rw [hbl] at hk
      have hstep := continueConn_backlog env (s.1, s.2.log .platLock) item next hbl
      have e1 : (continueConn env (s.1, s.2.log .platLock)).2.trace =
          s.2.trace ++ [Event.platLock,
            Event.platSendData s.1.conn (itemBytes item) (s.2.sendOk.headD true),
            Event.platUnlock] := by
        rw [hstep]; simp [World.log]
      have e2 : (continueConn env (s.1, s.2.log .platLock)).1.priv.sendBacklog = next := by
        rw [hstep]
      have e3 : (continueConn env (s.1, s.2.log .platLock)).1.priv.sendBacklogSize =
          s.1.priv.sendBacklogSize - item.len := by
        rw [hstep]
      have e4 : (continueConn env (s.1, s.2.log .platLock)).1.conn = s.1.conn := by
        rw [hstep]
      have e5 : (continueConn env (s.1, s.2.log .platLock)).1.priv.flags = s.1.priv.flags := by
        rw [hstep]
      have e6 : (continueConn env (s.1, s.2.log .platLock)).1.cgi = s.1.cgi := by
        rw [hstep]
      obtain ⟨ext, h1, h2, h3, h4, h5, h6, h7, h8⟩ := ih (continueConn env (s.1, s.2.log .platLock))
        (by rw [e2]; simpa using hk)
      rw [e1] at h1
      rw [e2, e4] at h2
      rw [e2] at h4
      rw [e2, e3] at h5
      refine ⟨[Event.platLock,
        Event.platSendData s.1.conn (itemBytes item) (s.2.sendOk.headD true),
        Event.platUnlock] ++ ext, ?_, ?_, ?_, ?_, ?_, ?_, ?_, ?_⟩
      · rw [sentEvents, h1, List.append_assoc]
      · rw [outs_append, h2]
        simp [outs]
      · rw [cgiCalls_append, h3]
        simp [cgiCalls]
      · rw [sentEvents, h4]; rfl
      · rw [sentEvents, h5]
        simp only [List.take_succ_cons, List.map_cons, List.sum_cons]
        omega
      · rw [sentEvents, h6, e4]
      · rw [sentEvents, h7, e5]
      · rw [sentEvents, h8, e6]

/-- A refused flush that goes to the backlog, as an equation. -/
theorem httpdFlushSendBuffer_queued (env : HttpdEnv) (s : HttpdConnData × World)
    (hlive : s.1.conn ≠ none) (hbuf : (closeChunks env s.1).priv.sendBuff ≠ [])
    (hrefuse : s.2.sendOk.headD true = false) (hmalloc : s.2.mallocOk.headD true = true)
    (hq : s.1.priv.sendBacklogSize + ((closeChunks env s.1).priv.sendBuff.length : Int) ≤
      env.HTTPD_MAX_BACKLOG_SIZE) :
    httpdFlushSendBuffer env s =
      ({ closeChunks env s.1 with priv := { (closeChunks env s.1).priv with
          sendBacklog := s.1.priv.sendBacklog ++
            [{ len := (closeChunks env s.1).priv.sendBuff.length,
               data := (closeChunks env s.1).priv.sendBuff }],
          sendBacklogSize := s.1.priv.sendBacklogSize +
            ((closeChunks env s.1).priv.sendBuff.length : Int),
          sendBuff := [] } },
        { sendOk := s.2.sendOk.tail, mallocOk := s.2.mallocOk.tail,
          trace := s.2.trace ++
            [Event.platSendData s.1.conn (closeChunks env s.1).priv.sendBuff false] }) := by
  obtain ⟨b1, b2, b3⟩ := closeChunks_backlog env s.1
  have hlen : (closeChunks env s.1).priv.sendBuffLen ≠ 0 := by
    unfold HttpdPriv.sendBuffLen
    intro h
    exact hbuf (List.length_eq_zero.1 (by exact_mod_cast h))
  have hsend : (httpdPlatSendData s.2 (closeChunks env s.1).conn
      (closeChunks env s.1).priv.sendBuff).1 = false := hrefuse
  have hm2 : (platMalloc (httpdPlatSendData s.2 (closeChunks env s.1).conn
      (closeChunks env s.1).priv.sendBuff).2).1 = true := hmalloc
  have hq2 : ¬ (closeChunks env s.1).priv.sendBacklogSize +
      (closeChunks env s.1).priv.sendBuffLen > env.HTTPD_MAX_BACKLOG_SIZE := by
    rw [b2]; unfold HttpdPriv.sendBuffLen; omega
  unfold httpdFlushSendBuffer
  simp only []
  rw [if_neg hlive, if_pos hlen, if_pos hsend, if_neg hq2, if_neg (by rw [hm2]; simp)]
  rw [b1, b2]
  have hw : (platMalloc (httpdPlatSendData s.2 (closeChunks env s.1).conn
      (closeChunks env s.1).priv.sendBuff).2).2 =
      World.mk s.2.sendOk.tail s.2.mallocOk.tail (s.2.trace ++
        [Event.platSendData s.1.conn (closeChunks env s.1).priv.sendBuff false]) := by
    show World.mk s.2.sendOk.tail s.2.mallocOk.tail (s.2.trace ++
      [Event.platSendData (closeChunks env s.1).conn (closeChunks env s.1).priv.sendBuff
        (s.2.sendOk.headD true)]) = _
    rw [b3, hrefuse]
  rw [hw]
  rfl

/-- C15: a sent event for a connection whose backlog is not empty.
`httpdContinue` takes the lock, hands the bytes of the oldest item to the
transport, removes the item, lowers `sendBacklogSize` by its length, unlocks,
and that is all: no handler call, no disconnect (first part; the bytes are
the data of the item when its length is that of its data, second part).  So
`k` sent events hand the first `k` items to the transport, in the order they
were queued (third part).  And a buffer the transport refuses once, on a
connection with an empty backlog, is handed to the transport again at the
next sent event, which leaves the backlog empty and `sendBacklogSize` 0
(fourth part). -/
theorem httpdContinue_sends_oldest_backlog_item (env : HttpdEnv) (c : HttpdConnData)
    (w : World) (item : HttpSendBacklogItem) (next : List HttpSendBacklogItem)
    (hbl : c.priv.sendBacklog = item :: next) :
    httpdContinue env (some c) w =
      (some { c with priv := { c.priv with
          sendBacklogSize := c.priv.sendBacklogSize - item.len,
          sendBacklog := next } },
        { sendOk := w.sendOk.tail, mallocOk := w.mallocOk,
          trace := w.trace ++
            [Event.platLock, Event.platSendData c.conn (itemBytes item) (w.sendOk.headD true),
              Event.platUnlock] }) ∧
    (item.len = item.data.length → itemBytes item = item.data) ∧
    (∀ k, k ≤ (item :: next).length →
      ∃ ext, (sentEvents env k (c, w)).2.trace = w.trace ++ ext ∧
        outs ext = ((item :: next).take k).map (fun it => Out.data c.conn (itemBytes it)) ∧
        cgiCalls ext = [] ∧
        (sentEvents env k (c, w)).1.priv.sendBacklog = (item :: next).drop k) ∧
    (∀ s : HttpdConnData × World, s.1.conn ≠ none → s.1.priv.sendBacklog = [] →
      s.1.priv.sendBacklogSize = 0 → (closeChunks env s.1).priv.sendBuff ≠ [] →
      ((closeChunks env s.1).priv.sendBuff.length : Int) ≤ env.HTTPD_MAX_BACKLOG_SIZE →
      s.2.sendOk.headD true = false → s.2.mallocOk.headD true = true →
      (sentEvents env 1 (httpdFlushSendBuffer env s)).2.trace =
        s.2.trace ++
          [Event.platSendData s.1.conn (closeChunks env s.1).priv.sendBuff false,
            Event.platLock,
            Event.platSendData s.1.conn (closeChunks env s.1).priv.sendBuff
              (s.2.sendOk.tail.headD true),
            Event.platUnlock] ∧
      (sentEvents env 1 (httpdFlushSendBuffer env s)).1.priv.sendBacklog = [] ∧
      (sentEvents env 1 (httpdFlushSendBuffer env s)).1.priv.sendBacklogSize = 0) := by
  refine ⟨?_, ?_, ?_, ?_⟩
  · have h := continueConn_backlog env (c, w.log .platLock) item next hbl
    show (some (continueConn env (c, w.log .platLock)).1,
      (continueConn env (c, w.log .platLock)).2) = _
    rw [h]
    simp [World.log]
  · intro hlen
    unfold itemBytes
    rw [hlen, Int.toNat_ofNat, memRead_length]
  · intro k hk
    obtain ⟨ext, h1, h2, h3, h4, _⟩ := sentEvents_drain env k (c, w) (by
      show k ≤ c.priv.sendBacklog.length
      rw [hbl]; exact hk)
    refine ⟨ext, h1, ?_, h3, ?_⟩
    · rw [h2]
      show List.map _ (c.priv.sendBacklog.take k) = _
      rw [hbl]
    · rw [h4]
      show c.priv.sendBacklog.drop k = _
      rw [hbl]
  · intro s hlive hempty hzero hbuf hfit hrefuse hmalloc
    have hf := httpdFlushSendBuffer_queued env s hlive hbuf hrefuse hmalloc (by rw [hzero]; omega)
    obtain ⟨_, _, b3⟩ := closeChunks_backlog env s.1
    have hbl2 : (httpdFlushSendBuffer env s).1.priv.sendBacklog =
        [{ len := (closeChunks env s.1).priv.sendBuff.length,
           data := (closeChunks env s.1).priv.sendBuff }] := by
      rw [hf, hempty]; rfl
    have hstep := continueConn_backlog env
      ((httpdFlushSendBuffer env s).1, (httpdFlushSendBuffer env s).2.log .platLock) _ [] hbl2
    have hbytes : itemBytes (HttpSendBacklogItem.mk (closeChunks env s.1).priv.sendBuff.length
        (closeChunks env s.1).priv.sendBuff) = (closeChunks env s.1).priv.sendBuff := by
      unfold itemBytes
      simp only [Int.toNat_ofNat]
      exact memRead_length _
    rw [hbytes] at hstep
    show (continueConn env ((httpdFlushSendBuffer env s).1,
        (httpdFlushSendBuffer env s).2.log .platLock)).2.trace = _ ∧
      (continueConn env ((httpdFlushSendBuffer env s).1,
        (httpdFlushSendBuffer env s).2.log .platLock)).1.priv.sendBacklog = _ ∧
      (continueConn env ((httpdFlushSendBuffer env s).1,
        (httpdFlushSendBuffer env s).2.log .platLock)).1.priv.sendBacklogSize = _
    rw [hstep]
    refine ⟨?_, rfl, ?_⟩
    · rw [hf]
      simp [World.log, b3]
    · rw [hf]
      simp [hzero]

theorem httpdContinue_sends_oldest_backlog_item_witness :
    queuedConn.priv.sendBacklog = [{ len := 2, data := [104, 105] }] ∧
    httpdContinue idleEnv (some queuedConn) World.start =
      (some { queuedConn with priv := { queuedConn.priv with
          sendBacklogSize := queuedConn.priv.sendBacklogSize - 2, sendBacklog := [] } },
        { sendOk := World.start.sendOk.tail, mallocOk := World.start.mallocOk,
          trace := World.start.trace ++
            [Event.platLock,
              Event.platSendData queuedConn.conn (itemBytes { len := 2, data := [104, 105] })
                (World.start.sendOk.headD true),
              Event.platUnlock] }) :=
  ⟨rfl, (httpdContinue_sends_oldest_backlog_item idleEnv queuedConn World.start
    { len := 2, data := [104, 105] } [] rfl).1⟩

/-! ### The chunk fix-up -/

set_option maxRecDepth 100000 in
/-- C20 fails on the code when the payload fills the send buffer.  On
`chunkedConn`, with `HTTPD_MAX_SENDBUFF_LEN = 128`, `httpdSend` takes 122 bytes
`B` (it returns 1): the chunk header stands at offset 0 and the buffer is
full.  In the flush the call `httpdSend(conn, "\r\n", 2)` fails and its result
is not looked at: the transport is handed `0078`, CRLF and the 122 bytes, a
size field of 120 for a payload of 122 bytes, without the CRLF that ends the
chunk. -/
theorem httpdFlushSendBuffer_full_buffer_chunk :
    (httpdSend idleEnv chunkedConn (List.replicate 122 66) 122).1 = 1 ∧
    (httpdSend idleEnv chunkedConn (List.replicate 122 66) 122).2.priv.chunkHdr = some 0 ∧
    (httpdSend idleEnv chunkedConn (List.replicate 122 66) 122).2.priv.sendBuff =
      [48, 48, 48, 48, 13, 10] ++ List.replicate 122 66 ∧
    (httpdFlushSendBuffer idleEnv
      ((httpdSend idleEnv chunkedConn (List.replicate 122 66) 122).2, World.start)).2.trace =
      [Event.platSendData (some 1) ([48, 48, 55, 56, 13, 10] ++ List.replicate 122 66) true] := by
  decide

/-! ### A finished handler -/

theorem httpdFlushSendBuffer_backlog_prefix (env : HttpdEnv) (s : HttpdConnData × World) :
    ∃ tail, (httpdFlushSendBuffer env s).1.priv.sendBacklog = s.1.priv.sendBacklog ++ tail := by
  obtain ⟨b1, _, _⟩ := closeChunks_backlog env s.1
  unfold httpdFlushSendBuffer
  simp only []
  split_ifs
  · exact ⟨[], by simp⟩
  · exact ⟨[], by simp [b1]⟩
  · exact ⟨[], by simp [b1]⟩
  · exact ⟨_, by rw [← b1]⟩
  · exact ⟨[], by simp [b1]⟩
  · exact ⟨[], by simp [b1]⟩

/-- The flush of a live connection whose chunked body is complete: the buffer,
after the fix-up of an open chunk, goes to the transport with the terminal
chunk at its end. -/
theorem httpdFlushSendBuffer_terminal (env : HttpdEnv) (s : HttpdConnData × World)
    (hlive : s.1.conn ≠ none) (hch : s.1.priv.flags.HFL_CHUNKED = true)
    (hsb : s.1.priv.flags.HFL_SENDINGBODY = true) (hcgi : s.1.cgi = none) :
    ∃ rest, (httpdFlushSendBuffer env s).2.trace =
      s.2.trace ++ Event.platSendData s.1.conn
        ((match s.1.priv.chunkHdr with
          | none => s.1.priv.sendBuff
          | some h => (fixChunkHdr env s.1 h).priv.sendBuff) ++ [48, 13, 10, 13, 10])
        (s.2.sendOk.headD true) :: rest ∧ ∀ e ∈ rest, e.isPlat = true := by
  have hsend : ∀ d l, (httpdSend env s.1 d l).2.priv.flags = s.1.priv.flags ∧
      (httpdSend env s.1 d l).2.cgi = s.1.cgi ∧ (httpdSend env s.1 d l).2.conn = s.1.conn := by
    intro d l
    unfold httpdSend
    split_ifs <;> exact ⟨rfl, rfl, rfl⟩
  have hc : (closeChunks env s.1).priv.sendBuff =
      (match s.1.priv.chunkHdr with
        | none => s.1.priv.sendBuff
        | some h => (fixChunkHdr env s.1 h).priv.sendBuff) ++ [48, 13, 10, 13, 10] ∧
      (closeChunks env s.1).conn = s.1.conn := by
    unfold closeChunks
    cases hh : s.1.priv.chunkHdr with
    | none =>
      simp only []
      rw [if_pos ⟨hch, hsb, hcgi⟩]
      exact ⟨rfl, rfl⟩
    | some h =>
      obtain ⟨f1, f2, f3⟩ := hsend [13, 10] 2
      have g1 : (fixChunkHdr env s.1 h).priv.flags = s.1.priv.flags := f1
      have g2 : (fixChunkHdr env s.1 h).cgi = s.1.cgi := f2
      have g3 : (fixChunkHdr env s.1 h).conn = s.1.conn := f3
      simp only []
      rw [if_pos ⟨by rw [g1]; exact hch, by rw [g1]; exact hsb, by rw [g2]; exact hcgi⟩]
      exact ⟨rfl, g3⟩
  have hne : (closeChunks env s.1).priv.sendBuffLen ≠ 0 := by
    unfold HttpdPriv.sendBuffLen
    rw [hc.1, List.length_append]
    simp
    omega
  unfold httpdFlushSendBuffer
  simp only []
  rw [if_neg hlive, if_pos hne, ← hc.1, ← hc.2]
  split_ifs <;> first
    | exact ⟨[], by simp [httpdPlatSendData, platMalloc], by simp⟩

theorem norm_httpdFlushSendBuffer (env : HttpdEnv) (s : HttpdConnData × World) :
    norm (httpdFlushSendBuffer env s).1 = norm s.1 := by
  have hc := norm_closeChunks env s.1
  unfold httpdFlushSendBuffer
  simp only []
  split_ifs <;> first | rfl | exact hc

theorem httpdFlushSendBuffer_keeps (env : HttpdEnv) (s : HttpdConnData × World) :
    (httpdFlushSendBuffer env s).1.cgiArg = s.1.cgiArg ∧
    (httpdFlushSendBuffer env s).1.cgiArg2 = s.1.cgiArg2 ∧
    (httpdFlushSendBuffer env s).1.cgiData = s.1.cgiData ∧
    (httpdFlushSendBuffer env s).1.recvHdl = s.1.recvHdl := by
  have h := norm_httpdFlushSendBuffer env s
  have h1 := congrArg HttpdConnData.cgiArg h
  have h2 := congrArg HttpdConnData.cgiArg2 h
  have h3 := congrArg HttpdConnData.cgiData h
  have h4 := congrArg HttpdConnData.recvHdl h
  exact ⟨h1, h2, h3, h4⟩

/-- C11, as the code has it: `httpdCgiIsDone` on a connection in chunked mode.
The connection is reset for reuse: headPos = 0, flags empty, post.len = -1,
post.received = 0, post.buffLen = 0, no post buffer, no hostName, no handler
function.  The two handler arguments, the handler-owned data pointer and the
receive handler keep their values.  The backlog items of before are still
queued, in the same order, at the front of the backlog.  On a live connection
whose handler had ended the headers, the pending output, after the fix-up of
an open chunk, is handed to the transport closed by the terminal chunk. -/
theorem httpdCgiIsDone_chunked (env : HttpdEnv) (s : HttpdConnData × World)
    (hch : s.1.priv.flags.HFL_CHUNKED = true) :
    ((httpdCgiIsDone env s).1.priv.headPos = 0 ∧
      (httpdCgiIsDone env s).1.priv.flags = Flags.zero ∧
      (httpdCgiIsDone env s).1.post.len = -1 ∧
      (httpdCgiIsDone env s).1.post.received = 0 ∧
      (httpdCgiIsDone env s).1.post.buffLen = 0 ∧
      (httpdCgiIsDone env s).1.post.buff = none ∧
      (httpdCgiIsDone env s).1.hostName = none ∧
      (httpdCgiIsDone env s).1.cgi = none) ∧
    ((httpdCgiIsDone env s).1.cgiArg = s.1.cgiArg ∧
      (httpdCgiIsDone env s).1.cgiArg2 = s.1.cgiArg2 ∧
      (httpdCgiIsDone env s).1.cgiData = s.1.cgiData ∧
      (httpdCgiIsDone env s).1.recvHdl = s.1.recvHdl) ∧
    (∃ tail, (httpdCgiIsDone env s).1.priv.sendBacklog = s.1.priv.sendBacklog ++ tail) ∧
    (s.1.conn ≠ none → s.1.priv.flags.HFL_SENDINGBODY = true →
      ∃ rest, (httpdCgiIsDone env s).2.trace =
        s.2.trace ++ Event.platSendData s.1.conn
          ((match s.1.priv.chunkHdr with
            | none => s.1.priv.sendBuff
            | some h => (fixChunkHdr env { s.1 with cgi := none } h).priv.sendBuff) ++
              [48, 13, 10, 13, 10])
          (s.2.sendOk.headD true) :: rest ∧ ∀ e ∈ rest, e.isPlat = true) := by
  have hd : httpdCgiIsDone env s =
      ({ (httpdFlushSendBuffer env ({ s.1 with cgi := none }, s.2)).1 with
          priv := { (httpdFlushSendBuffer env ({ s.1 with cgi := none }, s.2)).1.priv with
            headPos := 0, flags := Flags.zero },
          post := { (httpdFlushSendBuffer env ({ s.1 with cgi := none }, s.2)).1.post with
            len := -1, buff := none, buffLen := 0, received := 0 },
          hostName := none },
        (httpdFlushSendBuffer env ({ s.1 with cgi := none }, s.2)).2) := by
    unfold httpdCgiIsDone
    rw [if_pos hch]
  obtain ⟨f1, f2, f3, f4⟩ := httpdFlushSendBuffer_frame env ({ s.1 with cgi := none }, s.2)
  have hkeep := httpdFlushSendBuffer_keeps env ({ s.1 with cgi := none }, s.2)
  rw [hd]
  refine ⟨⟨rfl, rfl, rfl, rfl, rfl, rfl, rfl, f2⟩, hkeep, ?_, ?_⟩
  · exact httpdFlushSendBuffer_backlog_prefix env ({ s.1 with cgi := none }, s.2)
  · intro hlive hsb
    exact httpdFlushSendBuffer_terminal env ({ s.1 with cgi := none }, s.2) hlive hch hsb rfl

theorem httpdCgiIsDone_chunked_witness :
    busyConn.priv.flags.HFL_CHUNKED = true ∧
    (httpdCgiIsDone idleEnv (busyConn, World.start)).1.priv.headPos = 0 ∧
    (httpdCgiIsDone idleEnv (busyConn, World.start)).1.cgi = none ∧
    (httpdCgiIsDone idleEnv (busyConn, World.start)).1.recvHdl = busyConn.recvHdl :=
  ⟨rfl,
    (httpdCgiIsDone_chunked idleEnv (busyConn, World.start) rfl).1.1,
    (httpdCgiIsDone_chunked idleEnv (busyConn, World.start) rfl).1.2.2.2.2.2.2.2,
    (httpdCgiIsDone_chunked idleEnv (busyConn, World.start) rfl).2.1.2.2.2⟩

/-- C11 fails on the code in two places.  After `httpdCgiIsDone` on the
chunked connection `busyConn` the two handler arguments, the data pointer and
the receive handler are what they were, 5, 6, 7 and handler 3: only the
handler function is cleared.  And on `earlyConn`, whose handler has not ended
the headers, the pending `hi` goes to the transport without a terminal
chunk. -/
theorem httpdCgiIsDone_keeps_handler_state :
    (httpdCgiIsDone idleEnv (busyConn, World.start)).1.cgi = none ∧
    (httpdCgiIsDone idleEnv (busyConn, World.start)).1.cgiArg = 5 ∧
    (httpdCgiIsDone idleEnv (busyConn, World.start)).1.cgiArg2 = 6 ∧
    (httpdCgiIsDone idleEnv (busyConn, World.start)).1.cgiData = 7 ∧
    (httpdCgiIsDone idleEnv (busyConn, World.start)).1.recvHdl = some 3 ∧
    (httpdCgiIsDone idleEnv (earlyConn, World.start)).2.trace =
      [Event.platSendData (some 1) [104, 105] true] := by
  decide

theorem sentEvents_add (env : HttpdEnv) : ∀ (a b : Nat) (s : HttpdConnData × World),
    sentEvents env (a + b) s = sentEvents env b (sentEvents env a s) := by
  intro a
  induction a with
  | zero => intro b s; rw [Nat.zero_add]; rfl
  | succ a ih =>
    intro b s
    rw [show a + 1 + b = (a + b) + 1 by omega, sentEvents, sentEvents, ih]

/-- A sent event that finds the backlog empty on a connection marked
`HFL_DISCONAFTERSENT`: the transport is asked to disconnect. -/
theorem sentEvents_close (env : HttpdEnv) (s : HttpdConnData × World)
    (hbl : s.1.priv.sendBacklog = []) (hd : s.1.priv.flags.HFL_DISCONAFTERSENT = true) :
    (sentEvents env 1 s).2.trace =
      s.2.trace ++ [Event.platLock, Event.platDisconnect s.1.conn, Event.platUnlock] := by
  show (continueConn env (s.1, s.2.log .platLock)).2.trace = _
  unfold continueConn
  simp only []
  rw [hbl]
  simp only []
  rw [if_pos hd]
  simp [World.log]

theorem httpdFlushSendBuffer_flags (env : HttpdEnv) (s : HttpdConnData × World) :
    (httpdFlushSendBuffer env s).1.priv.flags = s.1.priv.flags :=
  flags_of_norm (norm_httpdFlushSendBuffer env s)

/-- C12: after a handler returns DONE on a connection that is not in chunked
mode.  `httpdCgiIsDone` sets `HFL_DISCONAFTERSENT` and clears the handler, and
the flush that ends the callback keeps both (first three parts).  For a
connection marked so with `n` items in its backlog: each of the first `n`
sent events hands the next item to the transport and nothing else, so after
`k <= n` events the first `k` items have been sent, no disconnect has been
asked for and no handler called; the sent event after these, the first to
find the backlog empty, asks the transport to disconnect (last part). -/
theorem httpdCgiIsDone_close_after_drain (env : HttpdEnv) (s : HttpdConnData × World)
    (hch : s.1.priv.flags.HFL_CHUNKED = false) :
    (httpdCgiIsDone env s).1.priv.flags.HFL_DISCONAFTERSENT = true ∧
    (httpdCgiIsDone env s).1.cgi = none ∧
    ((httpdFlushSendBuffer env (httpdCgiIsDone env s)).1.priv.flags.HFL_DISCONAFTERSENT = true ∧
      (httpdFlushSendBuffer env (httpdCgiIsDone env s)).1.cgi = none) ∧
    (∀ s1 : HttpdConnData × World, s1.1.priv.flags.HFL_DISCONAFTERSENT = true →
      (∀ k, k ≤ s1.1.priv.sendBacklog.length →
        ∃ ext, (sentEvents env k s1).2.trace = s1.2.trace ++ ext ∧
          outs ext = (s1.1.priv.sendBacklog.take k).map
            (fun it => Out.data s1.1.conn (itemBytes it)) ∧
          cgiCalls ext = []) ∧
      ∃ ext, (sentEvents env (s1.1.priv.sendBacklog.length + 1) s1).2.trace = s1.2.trace ++ ext ∧
        outs ext = s1.1.priv.sendBacklog.map (fun it => Out.data s1.1.conn (itemBytes it)) ++
          [Out.close s1.1.conn] ∧
        cgiCalls ext = []) := by
  have hd : httpdCgiIsDone env s =
      ({ s.1 with
          cgi := none,
          priv := { s.1.priv with
            flags := { s.1.priv.flags with HFL_DISCONAFTERSENT := true } } }, s.2) := by
    unfold httpdCgiIsDone
    rw [if_neg (by rw [hch]; simp)]
  refine ⟨by rw [hd], by rw [hd], ⟨?_, ?_⟩, ?_⟩
  · rw [httpdFlushSendBuffer_flags, hd]
  · rw [(httpdFlushSendBuffer_frame env _).2.1, hd]
  · intro s1 h1
    refine ⟨fun k hk => ?_, ?_⟩
    · obtain ⟨ext, e1, e2, e3, _⟩ := sentEvents_drain env k s1 hk
      exact ⟨ext, e1, e2, e3⟩
    · obtain ⟨ext, e1, e2, e3, e4, _, e6, e7, _⟩ :=
        sentEvents_drain env s1.1.priv.sendBacklog.length s1 (Nat.le_refl _)
      have hc := sentEvents_close env (sentEvents env s1.1.priv.sendBacklog.length s1)
        (by rw [e4]; simp) (by rw [e7]; exact h1)
      refine ⟨ext ++ [Event.platLock, Event.platDisconnect s1.1.conn, Event.platUnlock],
        ?_, ?_, ?_⟩
      · rw [sentEvents_add, hc, e1, e6, List.append_assoc]
      · rw [outs_append, e2, List.take_length]
        simp [outs]
      · rw [cgiCalls_append, e3]
        simp [cgiCalls]

theorem httpdCgiIsDone_close_after_drain_witness :
    (newConn idleEnv (some 1) [10, 0, 0, 1] 80 0).priv.flags.HFL_CHUNKED = false ∧
    closingConn.priv.flags.HFL_DISCONAFTERSENT = true ∧
    ∃ ext, (sentEvents idleEnv (closingConn.priv.sendBacklog.length + 1)
        (closingConn, World.start)).2.trace = World.start.trace ++ ext ∧
      outs ext = closingConn.priv.sendBacklog.map
          (fun it => Out.data closingConn.conn (itemBytes it)) ++ [Out.close closingConn.conn] ∧
      cgiCalls ext = [] :=
  ⟨rfl, rfl,
    ((httpdCgiIsDone_close_after_drain idleEnv
      (newConn idleEnv (some 1) [10, 0, 0, 1] 80 0, World.start) rfl).2.2.2
        (closingConn, World.start) rfl).2⟩

set_option maxRecDepth 100000 in
/-- The example of C12: the request `GET /hello HTTP/1.0` on a fresh
connection, answered by a handler that sends `hi` and is done, and one sent
event.  The transport gets the head with `Connection: close` and the body
`hi` as it is, then the request to disconnect. -/
theorem helloRequest_answered_and_closed :
    (recvCbConn helloEnv helloRoutes (some 1) helloRequest
      (newConn helloEnv (some 1) [10, 0, 0, 1] 80 0, World.start)).map
        (fun s => outs (sentEvents helloEnv 1 s).2.trace) =
      some [Out.data (some 1)
          ([72, 84, 84, 80, 47, 49, 46, 48, 32, 50, 48, 48, 32, 79, 75, 13, 10] ++
            [83, 101, 114, 118, 101, 114, 58, 32, 101, 115, 112, 45, 104, 116, 116, 112, 100, 47,
              48, 46, 52, 13, 10] ++
            [67, 111, 110, 110, 101, 99, 116, 105, 111, 110, 58, 32, 99, 108, 111, 115, 101, 13,
              10] ++ [13, 10] ++ [104, 105]),
        Out.close (some 1)] := by
  decide

/-! ### Backlog accounting -/

theorem backlogOf_of_cgiFrame {c d : HttpdConnData} (h : cgiFrame d = cgiFrame c) :
    backlogOf d = backlogOf c := by
  simp only [cgiFrame, Prod.mk.injEq] at h
  obtain ⟨-, -, -, -, -, -, -, -, -, h10, h11, -⟩ := h
  unfold backlogOf
  rw [h10, h11]

theorem BacklogProp.of_eq {env : HttpdEnv} {P : HttpdConnData → Prop} (hP : BacklogProp env P)
    {c d : HttpdConnData} (hp : P c) (h : backlogOf d = backlogOf c) : P d :=
  hP.congr c d h hp

theorem callCgi_backlogProp (env : HttpdEnv) (P : HttpdConnData → Prop) (hP : BacklogProp env P)
    (fn : CgiFn) (s : HttpdConnData × World) (h : P s.1) : P (callCgi env fn s).2.1 :=
  hP.of_eq h (backlogOf_of_cgiFrame (callCgi_spec env fn s).1)

theorem callRecvHdl_backlogProp (env : HttpdEnv) (P : HttpdConnData → Prop)
    (hP : BacklogProp env P) (id : Nat) (data : List Nat) (s : HttpdConnData × World)
    (h : P s.1) : P (callRecvHdl env id data s).2.1 :=
  hP.of_eq h (backlogOf_of_cgiFrame (runCgi_spec env _ _).1)

theorem httpdCgiIsDone_backlogProp (env : HttpdEnv) (P : HttpdConnData → Prop)
    (hP : BacklogProp env P) (s : HttpdConnData × World) (h : P s.1) :
    P (httpdCgiIsDone env s).1 := by
  unfold httpdCgiIsDone
  split_ifs
  · have h1 : P ({ s.1 with cgi := none }, s.2).1 := hP.of_eq h rfl
    exact hP.of_eq (hP.flush _ h1) rfl
  · exact hP.of_eq h rfl

theorem httpdProcessRequestLoop_backlogProp (env : HttpdEnv) (P : HttpdConnData → Prop)
    (hP : BacklogProp env P) (urls : List HttpdBuiltInUrl) :
    ∀ (n i : Nat) (s s' : HttpdConnData × World),
      httpdProcessRequestLoop env urls n i s = some s' → P s.1 → P s'.1 := by
  intro n
  induction n with
  | zero => intro i s s' h _; exact Option.noConfusion h
  | succ n ih =>
    intro i s s' h hp
    rw [httpdProcessRequestLoop] at h
    have h1 : P ((installCgi urls (findUrl (s.1.priv.head.drop (s.1.url.getD 0))
        (urls.drop i) i) s.1).2, s.2).1 :=
      hP.of_eq hp (by
        unfold backlogOf
        rw [(installCgi_frame urls _ s.1).1])
    have h2 := callCgi_backlogProp env P hP (installCgi urls (findUrl
      (s.1.priv.head.drop (s.1.url.getD 0)) (urls.drop i) i) s.1).1 _ h1
    generalize callCgi env (installCgi urls (findUrl (s.1.priv.head.drop (s.1.url.getD 0))
        (urls.drop i) i) s.1).1
      ((installCgi urls (findUrl (s.1.priv.head.drop (s.1.url.getD 0)) (urls.drop i) i) s.1).2,
        s.2) = r at h h2
    cases hst : r.1 with
    | HTTPD_CGI_MORE =>
      rw [hst] at h
      simp only [Option.some.injEq] at h
      rw [← h]
      exact hP.flush _ h2
    | HTTPD_CGI_DONE =>
      rw [hst] at h
      simp only [Option.some.injEq] at h
      rw [← h]
      exact httpdCgiIsDone_backlogProp env P hP _ h2
    | HTTPD_CGI_NOTFOUND =>
      rw [hst] at h
      exact ih _ _ _ h h2
    | HTTPD_CGI_AUTHENTICATED =>
      rw [hst] at h
      exact ih _ _ _ h h2

theorem httpdProcessRequest_backlogProp (env : HttpdEnv) (P : HttpdConnData → Prop)
    (hP : BacklogProp env P) (urls : List HttpdBuiltInUrl) (s s' : HttpdConnData × World)
    (h : httpdProcessRequest env urls s = some s') (hp : P s.1) : P s'.1 := by
  unfold httpdProcessRequest at h
  split_ifs at h
  · simp only [Option.some.injEq] at h
    rw [← h]; exact hp
  · exact httpdProcessRequestLoop_backlogProp env P hP urls _ _ _ _ h hp

theorem httpdParseHeader_backlog (env : HttpdEnv) (h : Nat) (s : HttpdConnData × World) :
    backlogOf (httpdParseHeader env h s).1 = backlogOf s.1 := by
  refine httpdParseHeader_cases env h s s rfl (fun a _ => backlogOf a.1 = backlogOf s.1)
    ?_ ?_ ?_ ?_ ?_ ?_
  · intro rt
    show backlogOf (parseRequestLine h { s.1 with requestType := some rt }) = _
    unfold parseRequestLine
    simp only []
    split
    · rfl
    · split <;> rfl
  · intro k; rfl
  · rfl
  · rfl
  · show backlogOf (parseContentLength env h s).1 = _
    unfold parseContentLength
    simp only []
    split_ifs <;> rfl
  · show backlogOf (parseContentType h s.1) = _
    unfold parseContentType
    simp only []
    split_ifs
    · split <;> rfl
    · rfl

theorem parseHeaders_backlog (env : HttpdEnv) :
    ∀ (n p : Nat) (s s' : HttpdConnData × World),
      parseHeaders env n p s = some s' → backlogOf s'.1 = backlogOf s.1 := by
  intro n
  induction n with
  | zero => intro p s s' h; exact Option.noConfusion h
  | succ n ih =>
    intro p s s' h
    rw [parseHeaders] at h
    split_ifs at h
    · cases hk : strstr (s.1.priv.head.drop p) [13, 10] with
      | none =>
        rw [hk] at h
        simp only [Option.some.injEq] at h
        rw [← h]
      | some k =>
        rw [hk] at h
        simp only [] at h
        rw [ih _ _ _ h, httpdParseHeader_backlog]
        rfl
    · simp only [Option.some.injEq] at h
      rw [← h]

theorem headersDone_backlogProp (env : HttpdEnv) (P : HttpdConnData → Prop)
    (hP : BacklogProp env P) (urls : List HttpdBuiltInUrl) (s s' : HttpdConnData × World)
    (h : headersDone env urls s = some s') (hp : P s.1) : P s'.1 := by
  unfold headersDone at h
  cases hph : parseHeaders env (s.1.priv.headPos + 1) 0
      ({ s.1 with post := { s.1.post with len := 0 }, url := none }, s.2) with
  | none => rw [hph] at h; exact Option.noConfusion h
  | some s2 =>
    rw [hph] at h
    simp only [] at h
    have h2 : P s2.1 := by
      have h0 : P ({ s.1 with post := { s.1.post with len := 0 }, url := none }, s.2).1 :=
        hP.of_eq hp rfl
      exact hP.of_eq h0 (parseHeaders_backlog env _ _ _ _ hph)
    split_ifs at h
    · exact httpdProcessRequest_backlogProp env P hP urls _ _ h h2
    · simp only [Option.some.injEq] at h
      rw [← h]; exact h2

theorem storeHeadByte_backlog (env : HttpdEnv) (b : Nat) (c : HttpdConnData) :
    backlogOf { c with priv := storeHeadByte env c.priv b } = backlogOf c := by
  unfold storeHeadByte
  simp only []
  split_ifs <;> rfl

theorem recvHeadByte_backlogProp (env : HttpdEnv) (P : HttpdConnData → Prop)
    (hP : BacklogProp env P) (urls : List HttpdBuiltInUrl) (b : Nat)
    (s s' : HttpdConnData × World) (h : recvHeadByte env urls b s = some s') (hp : P s.1) :
    P s'.1 := by
  have h1 : P ({ s.1 with priv := storeHeadByte env s.1.priv b }, s.2).1 :=
    hP.of_eq hp (storeHeadByte_backlog env b s.1)
  unfold recvHeadByte at h
  split_ifs at h
  · exact headersDone_backlogProp env P hP urls _ _ h h1
  · simp only [Option.some.injEq] at h
    rw [← h]; exact h1

theorem passPostChunk_backlogProp (env : HttpdEnv) (P : HttpdConnData → Prop)
    (hP : BacklogProp env P) (urls : List HttpdBuiltInUrl) (s s' : HttpdConnData × World)
    (h : passPostChunk env urls s = some s') (hp : P s.1) : P s'.1 := by
  unfold passPostChunk at h
  cases hc : s.1.cgi with
  | none =>
    rw [hc] at h
    exact httpdProcessRequest_backlogProp env P hP urls _ _ h hp
  | some fn =>
    rw [hc] at h
    simp only [] at h
    have h2 := callCgi_backlogProp env P hP fn s hp
    split_ifs at h
    · simp only [Option.some.injEq] at h
      rw [← h]; exact httpdCgiIsDone_backlogProp env P hP _ h2
    · simp only [Option.some.injEq] at h
      rw [← h]; exact h2

theorem recvPostByte_backlogProp (env : HttpdEnv) (P : HttpdConnData → Prop)
    (hP : BacklogProp env P) (urls : List HttpdBuiltInUrl) (b : Nat)
    (s s' : HttpdConnData × World) (h : recvPostByte env urls b s = some s') (hp : P s.1) :
    P s'.1 := by
  unfold recvPostByte at h
  split_ifs at h
  · cases hpp : passPostChunk env urls (terminatePostChunk (storePostByte s.1 b), s.2) with
    | none => rw [hpp] at h; exact Option.noConfusion h
    | some s4 =>
      rw [hpp] at h
      simp only [Option.some.injEq] at h
      rw [← h]
      have h0 : P (terminatePostChunk (storePostByte s.1 b), s.2).1 := hP.of_eq hp rfl
      have h4 : P s4.1 := passPostChunk_backlogProp env P hP urls _ _ hpp h0
      exact hP.of_eq h4 rfl
  · simp only [Option.some.injEq] at h
    rw [← h]
    exact hP.of_eq hp rfl

theorem httpdRecvLoop_backlogProp (env : HttpdEnv) (P : HttpdConnData → Prop)
    (hP : BacklogProp env P) (urls : List HttpdBuiltInUrl) :
    ∀ (data : List Nat) (s s' : HttpdConnData × World),
      httpdRecvLoop env urls data s = some s' → P s.1 → P s'.1 := by
  intro data
  induction data with
  | nil =>
    intro s s' h hp
    simp only [httpdRecvLoop, Option.some.injEq] at h
    rw [← h]; exact hp
  | cons b rest ih =>
    intro s s' h hp
    rw [httpdRecvLoop] at h
    split_ifs at h
    · cases h1 : recvHeadByte env urls b s with
      | none => rw [h1] at h; exact Option.noConfusion h
      | some s1 =>
        rw [h1] at h
        exact ih _ _ h (recvHeadByte_backlogProp env P hP urls b _ _ h1 hp)
    · cases h1 : recvPostByte env urls b s with
      | none => rw [h1] at h; exact Option.noConfusion h
      | some s1 =>
        rw [h1] at h
        exact ih _ _ h (recvPostByte_backlogProp env P hP urls b _ _ h1 hp)
    · cases hr : s.1.recvHdl with
      | none =>
        rw [hr] at h
        exact ih _ _ h hp
      | some id =>
        rw [hr] at h
        simp only [Option.some.injEq] at h
        rw [← h]
        unfold recvHdlData
        have h2 := callRecvHdl_backlogProp env P hP id (b :: rest) s hp
        split_ifs
        · exact httpdCgiIsDone_backlogProp env P hP _ h2
        · exact h2

theorem recvCbConn_backlogProp (env : HttpdEnv) (P : HttpdConnData → Prop)
    (hP : BacklogProp env P) (urls : List HttpdBuiltInUrl) (rconn : Option Nat)
    (data : List Nat) (s s' : HttpdConnData × World)
    (h : recvCbConn env urls rconn data s = some s') (hp : P s.1) : P s'.1 := by
  unfold recvCbConn at h
  split_ifs at h
  · simp only [Option.some.injEq] at h
    rw [← h]; exact hP.of_eq hp rfl
  · cases hl : httpdRecvLoop env urls data
        ({ s.1 with conn := rconn, priv := { s.1.priv with sendBuff := [] } },
          (platMalloc s.2).2) with
    | none => rw [hl] at h; exact Option.noConfusion h
    | some s1 =>
      rw [hl] at h
      simp only [Option.some.injEq] at h
      rw [← h]
      have h0 : P ({ s.1 with conn := rconn, priv := { s.1.priv with sendBuff := [] } },
          (platMalloc s.2).2).1 := hP.of_eq hp rfl
      have h1 := httpdRecvLoop_backlogProp env P hP urls data _ _ hl h0
      show P (if s1.1.conn ≠ none then httpdFlushSendBuffer env s1 else s1).1
      split_ifs
      · exact hP.flush _ h1
      · exact h1

theorem backlogInv_backlogProp (env : HttpdEnv) : BacklogProp env (backlogInv env) := by
  constructor
  · intro c d h hc
    simp only [backlogOf, Prod.mk.injEq] at h
    unfold backlogInv backlogOk at hc ⊢
    rw [h.1, h.2]
    exact hc
  · intro s hs
    obtain ⟨b1, b2, _⟩ := closeChunks_backlog env s.1
    have hc : backlogInv env (closeChunks env s.1) := by
      unfold backlogInv backlogOk at hs ⊢
      rw [b1, b2]
      exact hs
    have hadd : backlogInv env
        { closeChunks env s.1 with priv := { (closeChunks env s.1).priv with
            sendBacklog := (closeChunks env s.1).priv.sendBacklog ++
              [{ len := (closeChunks env s.1).priv.sendBuffLen,
                 data := (closeChunks env s.1).priv.sendBuff }],
            sendBacklogSize := (closeChunks env s.1).priv.sendBacklogSize +
              (closeChunks env s.1).priv.sendBuffLen,
            sendBuff := [] } } ∨
        (closeChunks env s.1).priv.sendBacklogSize + (closeChunks env s.1).priv.sendBuffLen >
          env.HTTPD_MAX_BACKLOG_SIZE := by
      by_cases hq : (closeChunks env s.1).priv.sendBacklogSize +
          (closeChunks env s.1).priv.sendBuffLen > env.HTTPD_MAX_BACKLOG_SIZE
      · exact Or.inr hq
      · left
        obtain ⟨⟨h1, h2⟩, h3⟩ := hc
        refine ⟨⟨?_, ?_⟩, ?_⟩
        · show (closeChunks env s.1).priv.sendBacklogSize + _ = _
          simp only [List.map_append, List.sum_append, List.map_cons, List.map_nil,
            List.sum_cons, List.sum_nil]
          rw [h1]
          omega
        · show (closeChunks env s.1).priv.sendBacklogSize + _ ≤ _
          omega
        · intro it hit
          rcases List.mem_append.1 hit with hm | hm
          · exact h3 it hm
          · simp only [List.mem_singleton] at hm
            rw [hm]
            show 0 ≤ (closeChunks env s.1).priv.sendBuffLen
            unfold HttpdPriv.sendBuffLen
            omega
    unfold httpdFlushSendBuffer
    simp only []
    split_ifs with g1 g2 g3 g4 g5
    · exact hs
    · exact hc
    · exact hc
    · rcases hadd with ha | ha
      · exact ha
      · exact absurd ha g4
    · exact hc
    · exact hc

theorem continueConn_backlogInv (env : HttpdEnv) (s : HttpdConnData × World)
    (hs : backlogInv env s.1) : backlogInv env (continueConn env s).1 := by
  have hP := backlogInv_backlogProp env
  cases hbl : s.1.priv.sendBacklog with
  | cons item next =>
    rw [continueConn_backlog env s item next hbl]
    obtain ⟨⟨h1, h2⟩, h3⟩ := hs
    rw [hbl] at h1 h3
    simp only [List.map_cons, List.sum_cons] at h1
    have hi : 0 ≤ item.len := h3 item (by simp)
    refine ⟨⟨?_, ?_⟩, ?_⟩
    · show s.1.priv.sendBacklogSize - item.len = (next.map (fun it => it.len)).sum
      omega
    · show s.1.priv.sendBacklogSize - item.len ≤ _
      omega
    · intro it hit
      exact h3 it (by simp [hit])
  | nil =>
    unfold continueConn
    rw [hbl]
    simp only []
    by_cases hd : s.1.priv.flags.HFL_DISCONAFTERSENT = true
    · rw [if_pos hd]; exact hs
    · rw [if_neg hd]
      cases hc : s.1.cgi with
      | none => exact hs
      | some fn =>
        simp only []
        by_cases hm : (platMalloc s.2).1 = false
        · rw [if_pos hm]; exact hs
        · rw [if_neg hm]
          apply hP.flush
          split_ifs
          · exact httpdCgiIsDone_backlogProp env _ hP _ (httpdCgiIsDone_backlogProp env _ hP _
              (callCgi_backlogProp env _ hP fn _ (hP.of_eq hs rfl)))
          · exact httpdCgiIsDone_backlogProp env _ hP _
              (callCgi_backlogProp env _ hP fn _ (hP.of_eq hs rfl))
          · exact httpdCgiIsDone_backlogProp env _ hP _
              (callCgi_backlogProp env _ hP fn _ (hP.of_eq hs rfl))
          · exact callCgi_backlogProp env _ hP fn _ (hP.of_eq hs rfl)

theorem recvCbConn_total (env : HttpdEnv) (urls : List HttpdBuiltInUrl) (rconn : Option Nat)
    (data : List Nat) (s : HttpdConnData × World) :
    ∃ s', recvCbConn env urls rconn data s = some s' := by
  unfold recvCbConn
  split_ifs
  · exact ⟨_, rfl⟩
  · obtain ⟨s1, h1⟩ := httpdRecvLoop_total env urls data
      ({ s.1 with conn := rconn, priv := { s.1.priv with sendBuff := [] } },
        (platMalloc s.2).2)
    rw [h1]
    exact ⟨_, rfl⟩

theorem connEvents_backlogInv (env : HttpdEnv) (urls : List HttpdBuiltInUrl)
    (rconn : Option Nat) : ∀ (evs : List ConnEvent) (s : HttpdConnData × World),
      backlogInv env s.1 →
      ∃ s', connEvents env urls rconn evs s = some s' ∧ backlogInv env s'.1 := by
  have hP := backlogInv_backlogProp env
  intro evs
  induction evs with
  | nil => intro s hs; exact ⟨s, rfl, hs⟩
  | cons e evs ih =>
    intro s hs
    cases e with
    | recv data =>
      obtain ⟨s1, h1⟩ := recvCbConn_total env urls rconn data (s.1, s.2.log .platLock)
      rw [connEvents, h1]
      exact ih s1 (recvCbConn_backlogProp env _ hP urls rconn data _ _ h1 hs)
    | sent =>
      rw [connEvents]
      exact ih _ (continueConn_backlogInv env (s.1, s.2.log .platLock) hs)
    | flush =>
      rw [connEvents]
      exact ih _ (hP.flush s hs)

/-! ### The post buffer when allocations succeed -/

theorem post_of_cgiFrame {c d : HttpdConnData} (h : cgiFrame d = cgiFrame c) : d.post = c.post := by
  simp only [cgiFrame, Prod.mk.injEq] at h
  obtain ⟨-, -, -, -, -, -, -, -, -, -, -, -, -, -, h15, -⟩ := h
  exact h15

theorem callCgi_postBuffInv (env : HttpdEnv) (fn : CgiFn) (s : HttpdConnData × World)
    (h : postBuffInv s) : postBuffInv (callCgi env fn s).2 := by
  obtain ⟨h1, -, h3, -⟩ := callCgi_spec env fn s
  exact ⟨h3.trans h.1, by rw [post_of_cgiFrame h1]; exact h.2⟩

theorem callRecvHdl_postBuffInv (env : HttpdEnv) (id : Nat) (data : List Nat)
    (s : HttpdConnData × World) (h : postBuffInv s) :
    postBuffInv (callRecvHdl env id data s).2 := by
  obtain ⟨h1, -, h3, -⟩ := runCgi_spec env (env.recvHdls id (cgiView s.1) data)
    (s.1, s.2.log (.recvHdlCall id data))
  exact ⟨h3.trans h.1, by
    show 0 < (runCgi env _ _).2.1.post.len → (runCgi env _ _).2.1.post.buff ≠ none
    rw [post_of_cgiFrame h1]; exact h.2⟩

theorem httpdFlushSendBuffer_postBuffInv (env : HttpdEnv) (s : HttpdConnData × World)
    (h : postBuffInv s) : postBuffInv (httpdFlushSendBuffer env s) :=
  ⟨(httpdFlushSendBuffer_invisible env s h.1).2.2, by
    rw [(httpdFlushSendBuffer_frame env s).1]; exact h.2⟩

theorem httpdCgiIsDone_postBuffInv (env : HttpdEnv) (s : HttpdConnData × World)
    (h : postBuffInv s) : postBuffInv (httpdCgiIsDone env s) := by
  refine ⟨httpdCgiIsDone_malloc env s h.1, ?_⟩
  unfold httpdCgiIsDone
  split_ifs
  · intro hl
    have hl2 : (0 : Int) < -1 := hl
    omega
  · exact h.2

theorem httpdProcessRequestLoop_postBuffInv (env : HttpdEnv) (urls : List HttpdBuiltInUrl) :
    ∀ (n i : Nat) (s s' : HttpdConnData × World),
      httpdProcessRequestLoop env urls n i s = some s' → postBuffInv s → postBuffInv s' := by
  intro n
  induction n with
  | zero => intro i s s' h _; exact Option.noConfusion h
  | succ n ih =>
    intro i s s' h hp
    rw [httpdProcessRequestLoop] at h
    have h1 : postBuffInv ((installCgi urls (findUrl (s.1.priv.head.drop (s.1.url.getD 0))
        (urls.drop i) i) s.1).2, s.2) :=
      ⟨hp.1, by
        show 0 < (installCgi urls _ s.1).2.post.len → (installCgi urls _ s.1).2.post.buff ≠ none
        rw [(installCgi_frame urls _ s.1).2.2.1]; exact hp.2⟩
    have h2 := callCgi_postBuffInv env (installCgi urls (findUrl
      (s.1.priv.head.drop (s.1.url.getD 0)) (urls.drop i) i) s.1).1 _ h1
    generalize callCgi env (installCgi urls (findUrl (s.1.priv.head.drop (s.1.url.getD 0))
        (urls.drop i) i) s.1).1
      ((installCgi urls (findUrl (s.1.priv.head.drop (s.1.url.getD 0)) (urls.drop i) i) s.1).2,
        s.2) = r at h h2
    cases hst : r.1 with
    | HTTPD_CGI_MORE =>
      rw [hst] at h
      simp only [Option.some.injEq] at h
      rw [← h]
      refine httpdFlushSendBuffer_postBuffInv env _ ⟨?_, h2.2⟩
      show (if r.2.1.recvHdl ≠ none then r.2.2.log (.platDisableTimeout r.2.1.conn)
        else r.2.2).mallocOk = []
      split_ifs
      · exact h2.1
      · exact h2.1
    | HTTPD_CGI_DONE =>
      rw [hst] at h
      simp only [Option.some.injEq] at h
      rw [← h]
      exact httpdCgiIsDone_postBuffInv env _ h2
    | HTTPD_CGI_NOTFOUND =>
      rw [hst] at h
      exact ih _ _ _ h h2
    | HTTPD_CGI_AUTHENTICATED =>
      rw [hst] at h
      exact ih _ _ _ h h2

theorem httpdProcessRequest_postBuffInv (env : HttpdEnv) (urls : List HttpdBuiltInUrl)
    (s s' : HttpdConnData × World) (h : httpdProcessRequest env urls s = some s')
    (hp : postBuffInv s) : postBuffInv s' := by
  unfold httpdProcessRequest at h
  split_ifs at h
  · simp only [Option.some.injEq] at h
    rw [← h]; exact hp
  · exact httpdProcessRequestLoop_postBuffInv env urls _ _ _ _ h hp

/-- With the allocation succeeding, a `Content-Length` line that asks for post
data gets the post buffer. -/
theorem parseContentLength_postBuffInv (env : HttpdEnv) (h : Nat) (s : HttpdConnData × World)
    (hm : s.2.mallocOk = []) : postBuffInv (parseContentLength env h s) := by
  have e2 : (platMalloc s.2).1 = true := by simp [platMalloc, hm]
  have e3 : (platMalloc s.2).2.mallocOk = [] := by simp [platMalloc, hm]
  unfold parseContentLength
  dsimp only
  generalize atoi ((s.1.priv.head.drop h).drop
    (15 + skipSpaces ((s.1.priv.head.drop h).drop 15))) = len
  by_cases c1 : (if len > (env.HTTPD_MAX_POST_LEN : Int) then (env.HTTPD_MAX_POST_LEN : Int)
      else len) + 1 < 0
  · rw [if_pos c1]
    refine ⟨hm, ?_⟩
    intro hl
    have hl2 : 0 < len := hl
    split_ifs at c1 <;> omega
  · rw [if_neg c1, if_neg (by rw [e2]; simp)]
    exact ⟨e3, fun _ => by simp⟩

theorem httpdParseHeader_postBuffInv (env : HttpdEnv) (h : Nat) (s : HttpdConnData × World)
    (hp : postBuffInv s) : postBuffInv (httpdParseHeader env h s) := by
  refine httpdParseHeader_cases env h s s rfl (fun a _ => postBuffInv a) ?_ ?_ ?_ ?_ ?_ ?_
  · intro rt
    refine ⟨hp.1, ?_⟩
    show 0 < (parseRequestLine h _).post.len → (parseRequestLine h _).post.buff ≠ none
    rw [(parseRequestLine_keeps h _).2.2.2]
    exact hp.2
  · intro k; exact hp
  · exact hp
  · exact hp
  · exact parseContentLength_postBuffInv env h s hp.1
  · refine ⟨hp.1, ?_⟩
    show 0 < (parseContentType h s.1).post.len → (parseContentType h s.1).post.buff ≠ none
    unfold parseContentType
    dsimp only
    split_ifs
    · split
      · exact hp.2
      · exact hp.2
    · exact hp.2

theorem parseHeaders_postBuffInv (env : HttpdEnv) :
    ∀ (n p : Nat) (s s' : HttpdConnData × World),
      parseHeaders env n p s = some s' → postBuffInv s → postBuffInv s' := by
  intro n
  induction n with
  | zero => intro p s s' h _; exact Option.noConfusion h
  | succ n ih =>
    intro p s s' h hp
    rw [parseHeaders] at h
    split_ifs at h
    · cases hk : strstr (s.1.priv.head.drop p) [13, 10] with
      | none =>
        rw [hk] at h
        simp only [Option.some.injEq] at h
        rw [← h]; exact hp
      | some k =>
        rw [hk] at h
        simp only [] at h
        exact ih _ _ _ h (httpdParseHeader_postBuffInv env p _ ⟨hp.1, hp.2⟩)
    · simp only [Option.some.injEq] at h
      rw [← h]; exact hp

theorem headersDone_postBuffInv (env : HttpdEnv) (urls : List HttpdBuiltInUrl)
    (s s' : HttpdConnData × World) (h : headersDone env urls s = some s')
    (hp : s.2.mallocOk = []) : postBuffInv s' := by
  unfold headersDone at h
  cases hph : parseHeaders env (s.1.priv.headPos + 1) 0
      ({ s.1 with post := { s.1.post with len := 0 }, url := none }, s.2) with
  | none => rw [hph] at h; exact Option.noConfusion h
  | some s2 =>
    rw [hph] at h
    simp only [] at h
    have h2 : postBuffInv s2 :=
      parseHeaders_postBuffInv env _ _ _ _ hph ⟨hp, fun hl => by
        have hl2 : (0 : Int) < 0 := hl
        omega⟩
    split_ifs at h
    · exact httpdProcessRequest_postBuffInv env urls _ _ h h2
    · simp only [Option.some.injEq] at h
      rw [← h]; exact h2

theorem recvHeadByte_postBuffInv (env : HttpdEnv) (urls : List HttpdBuiltInUrl) (b : Nat)
    (s s' : HttpdConnData × World) (h : recvHeadByte env urls b s = some s')
    (hp : postBuffInv s) : postBuffInv s' := by
  unfold recvHeadByte at h
  split_ifs at h
  · exact headersDone_postBuffInv env urls _ _ h hp.1
  · simp only [Option.some.injEq] at h
    rw [← h]; exact hp

theorem passPostChunk_postBuffInv (env : HttpdEnv) (urls : List HttpdBuiltInUrl)
    (s s' : HttpdConnData × World) (h : passPostChunk env urls s = some s')
    (hp : postBuffInv s) : postBuffInv s' := by
  unfold passPostChunk at h
  cases hc : s.1.cgi with
  | none =>
    rw [hc] at h
    exact httpdProcessRequest_postBuffInv env urls _ _ h hp
  | some fn =>
    rw [hc] at h
    simp only [] at h
    have h2 := callCgi_postBuffInv env fn s hp
    split_ifs at h
    · simp only [Option.some.injEq] at h
      rw [← h]; exact httpdCgiIsDone_postBuffInv env _ h2
    · simp only [Option.some.injEq] at h
      rw [← h]; exact h2

theorem storePostByte_postBuffInv (b : Nat) (s : HttpdConnData × World) (hp : postBuffInv s) :
    postBuffInv (terminatePostChunk (storePostByte s.1 b), s.2) ∧
    postBuffInv (storePostByte s.1 b, s.2) := by
  have h : 0 < s.1.post.len → (s.1.post.buff.map (fun m => m.set s.1.post.buffLen b)) ≠ none := by
    intro hl
    have := hp.2 hl
    cases hb : s.1.post.buff with
    | none => exact absurd hb this
    | some m => simp
  refine ⟨⟨hp.1, ?_⟩, ⟨hp.1, h⟩⟩
  intro hl
  have h1 := h hl
  show ((s.1.post.buff.map (fun m => m.set s.1.post.buffLen b)).map _) ≠ none
  cases hb : s.1.post.buff.map (fun m => m.set s.1.post.buffLen b) with
  | none => exact absurd hb h1
  | some m => simp

theorem recvPostByte_postBuffInv (env : HttpdEnv) (urls : List HttpdBuiltInUrl) (b : Nat)
    (s s' : HttpdConnData × World) (h : recvPostByte env urls b s = some s')
    (hp : postBuffInv s) : postBuffInv s' := by
  unfold recvPostByte at h
  split_ifs at h
  · cases hpp : passPostChunk env urls (terminatePostChunk (storePostByte s.1 b), s.2) with
    | none => rw [hpp] at h; exact Option.noConfusion h
    | some s4 =>
      rw [hpp] at h
      simp only [Option.some.injEq] at h
      rw [← h]
      have h4 := passPostChunk_postBuffInv env urls _ _ hpp (storePostByte_postBuffInv b s hp).1
      exact ⟨h4.1, h4.2⟩
  · simp only [Option.some.injEq] at h
    rw [← h]
    exact (storePostByte_postBuffInv b s hp).2

theorem recvHdlData_postBuffInv (env : HttpdEnv) (id : Nat) (data : List Nat)
    (s : HttpdConnData × World) (hp : postBuffInv s) : postBuffInv (recvHdlData env id data s) := by
  unfold recvHdlData
  split_ifs
  · exact httpdCgiIsDone_postBuffInv env _ (callRecvHdl_postBuffInv env id data s hp)
  · exact callRecvHdl_postBuffInv env id data s hp

theorem httpdRecvLoop_postBuffInv (env : HttpdEnv) (urls : List HttpdBuiltInUrl) :
    ∀ (data : List Nat) (s s' : HttpdConnData × World),
      httpdRecvLoop env urls data s = some s' → postBuffInv s → postBuffInv s' := by
  intro data
  induction data with
  | nil =>
    intro s s' h hp
    simp only [httpdRecvLoop, Option.some.injEq] at h
    rw [← h]; exact hp
  | cons b rest ih =>
    intro s s' h hp
    rw [httpdRecvLoop] at h
    split_ifs at h
    · cases h1 : recvHeadByte env urls b s with
      | none => rw [h1] at h; exact Option.noConfusion h
      | some s1 =>
        rw [h1] at h
        exact ih _ _ h (recvHeadByte_postBuffInv env urls b _ _ h1 hp)
    · cases h1 : recvPostByte env urls b s with
      | none => rw [h1] at h; exact Option.noConfusion h
      | some s1 =>
        rw [h1] at h
        exact ih _ _ h (recvPostByte_postBuffInv env urls b _ _ h1 hp)
    · cases hr : s.1.recvHdl with
      | none =>
        rw [hr] at h
        exact ih _ _ h hp
      | some id =>
        rw [hr] at h
        simp only [Option.some.injEq] at h
        rw [← h]
        exact recvHdlData_postBuffInv env id _ s hp

theorem recvCbConn_postBuffInv (env : HttpdEnv) (urls : List HttpdBuiltInUrl)
    (rconn : Option Nat) (data : List Nat) (s s' : HttpdConnData × World)
    (h : recvCbConn env urls rconn data s = some s') (hp : postBuffInv s) : postBuffInv s' := by
  have hm : (platMalloc s.2).2.mallocOk = [] := by simp [platMalloc, hp.1]
  unfold recvCbConn at h
  split_ifs at h
  · simp only [Option.some.injEq] at h
    rw [← h]
    exact ⟨hm, hp.2⟩
  · cases h1 : httpdRecvLoop env urls data
        ({ s.1 with conn := rconn, priv := { s.1.priv with sendBuff := [] } },
          (platMalloc s.2).2) with
    | none => rw [h1] at h; exact Option.noConfusion h
    | some s1 =>
      rw [h1] at h
      simp only [Option.some.injEq] at h
      rw [← h]
      have g1 := httpdRecvLoop_postBuffInv env urls data _ _ h1 ⟨hm, hp.2⟩
      by_cases hc : s1.1.conn ≠ none
      · rw [if_pos hc]
        have g2 := httpdFlushSendBuffer_postBuffInv env s1 g1
        exact ⟨g2.1, g2.2⟩
      · rw [if_neg hc]
        exact ⟨g1.1, g1.2⟩

theorem continueConn_postBuffInv (env : HttpdEnv) (s : HttpdConnData × World)
    (hp : postBuffInv s) : postBuffInv (continueConn env s) := by
  cases hbl : s.1.priv.sendBacklog with
  | cons item next =>
    rw [continueConn_backlog env s item next hbl]
    exact ⟨hp.1, hp.2⟩
  | nil =>
    have hm : (platMalloc s.2).2.mallocOk = [] := by simp [platMalloc, hp.1]
    unfold continueConn
    rw [hbl]
    dsimp only
    by_cases hd : s.1.priv.flags.HFL_DISCONAFTERSENT = true
    · rw [if_pos hd]
      exact ⟨hp.1, hp.2⟩
    · rw [if_neg hd]
      cases hc : s.1.cgi with
      | none => exact ⟨hp.1, hp.2⟩
      | some fn =>
        dsimp only
        by_cases hma : (platMalloc s.2).1 = false
        · rw [if_pos hma]
          exact ⟨hm, hp.2⟩
        · rw [if_neg hma]
          have key : ∀ r : CgiStatus × (HttpdConnData × World), postBuffInv r.2 →
              postBuffInv ((httpdFlushSendBuffer env
                (if r.1 = .HTTPD_CGI_NOTFOUND ∨ r.1 = .HTTPD_CGI_AUTHENTICATED then
                  httpdCgiIsDone env
                    (if r.1 = .HTTPD_CGI_DONE then httpdCgiIsDone env r.2 else r.2)
                else (if r.1 = .HTTPD_CGI_DONE then httpdCgiIsDone env r.2 else r.2))).1,
                (httpdFlushSendBuffer env
                (if r.1 = .HTTPD_CGI_NOTFOUND ∨ r.1 = .HTTPD_CGI_AUTHENTICATED then
                  httpdCgiIsDone env
                    (if r.1 = .HTTPD_CGI_DONE then httpdCgiIsDone env r.2 else r.2)
                else (if r.1 = .HTTPD_CGI_DONE then httpdCgiIsDone env r.2
                  else r.2))).2.log .platUnlock) := by
            intro r g1
            have g2 : postBuffInv
                (if r.1 = .HTTPD_CGI_DONE then httpdCgiIsDone env r.2 else r.2) := by
              split_ifs
              · exact httpdCgiIsDone_postBuffInv env _ g1
              · exact g1
            have g3 : postBuffInv
                (if r.1 = .HTTPD_CGI_NOTFOUND ∨ r.1 = .HTTPD_CGI_AUTHENTICATED then
                  httpdCgiIsDone env
                    (if r.1 = .HTTPD_CGI_DONE then httpdCgiIsDone env r.2 else r.2)
                else (if r.1 = .HTTPD_CGI_DONE then httpdCgiIsDone env r.2 else r.2)) := by
              split_ifs at g2 ⊢
              all_goals first
                | exact g2
                | exact httpdCgiIsDone_postBuffInv env _ g2
            have g4 := httpdFlushSendBuffer_postBuffInv env _ g3
            exact ⟨g4.1, g4.2⟩
          exact key _ (callCgi_postBuffInv env fn _ ⟨hm, hp.2⟩)

theorem connEvents_postBuffInv (env : HttpdEnv) (urls : List HttpdBuiltInUrl)
    (rconn : Option Nat) : ∀ (evs : List ConnEvent) (s s' : HttpdConnData × World),
      connEvents env urls rconn evs s = some s' → postBuffInv s → postBuffInv s' := by
  intro evs
  induction evs with
  | nil =>
    intro s s' h hp
    simp only [connEvents, Option.some.injEq] at h
    rw [← h]; exact hp
  | cons e evs ih =>
    intro s s' h hp
    cases e with
    | recv data =>
      rw [connEvents] at h
      cases h1 : recvCbConn env urls rconn data (s.1, s.2.log .platLock) with
      | none => rw [h1] at h; exact Option.noConfusion h
      | some s1 =>
        rw [h1] at h
        exact ih _ _ h (recvCbConn_postBuffInv env urls rconn data _ _ h1 ⟨hp.1, hp.2⟩)
    | sent =>
      rw [connEvents] at h
      exact ih _ _ h (continueConn_postBuffInv env _ ⟨hp.1, hp.2⟩)
    | flush =>
      rw [connEvents] at h
      exact ih _ _ h (httpdFlushSendBuffer_postBuffInv env s hp)

/-- C13: backlog accounting.  A connection set up by `httpdConnectCb`, then any
events in any order: data received (`httpdRecvCb`), sent events
(`httpdContinue`) and flushes (`httpdFlushSendBuffer`), with any handlers,
whatever the transport accepts or refuses, and every allocation succeeding.
The events return, and in the state they lead to `sendBacklogSize` is the sum
of the `len` fields of the items in the backlog and at most
`HTTPD_MAX_BACKLOG_SIZE`; the allocations to come still succeed, and a
connection that expects post data (`post.len` above 0) has its post buffer,
which is where `httpdRecvCb` stores the next post byte (first part).  The two
functions that write the backlog keep the accounting from every state that has
it, whatever the allocator answers as well: a flush, and a sent event (second
part). -/
theorem connEvents_backlog_accounting (env : HttpdEnv) (urls : List HttpdBuiltInUrl)
    (conn rconn : Option Nat) (remIp : List Nat) (remPort : Int) (slot : Nat) (w : World)
    (evs : List ConnEvent) (hmalloc : w.mallocOk = []) :
    (∃ s', connEvents env urls rconn evs (newConn env conn remIp remPort slot, w) = some s' ∧
      s'.1.priv.sendBacklogSize = (s'.1.priv.sendBacklog.map (fun it => it.len)).sum ∧
      s'.1.priv.sendBacklogSize ≤ env.HTTPD_MAX_BACKLOG_SIZE ∧
      s'.2.mallocOk = [] ∧ (0 < s'.1.post.len → s'.1.post.buff ≠ none)) ∧
    (∀ s : HttpdConnData × World,
      s.1.priv.sendBacklogSize = (s.1.priv.sendBacklog.map (fun it => it.len)).sum →
      s.1.priv.sendBacklogSize ≤ env.HTTPD_MAX_BACKLOG_SIZE →
      (∀ it ∈ s.1.priv.sendBacklog, 0 ≤ it.len) →
      ((httpdFlushSendBuffer env s).1.priv.sendBacklogSize =
          ((httpdFlushSendBuffer env s).1.priv.sendBacklog.map (fun it => it.len)).sum ∧
        (httpdFlushSendBuffer env s).1.priv.sendBacklogSize ≤ env.HTTPD_MAX_BACKLOG_SIZE) ∧
      ((continueConn env s).1.priv.sendBacklogSize =
          ((continueConn env s).1.priv.sendBacklog.map (fun it => it.len)).sum ∧
        (continueConn env s).1.priv.sendBacklogSize ≤ env.HTTPD_MAX_BACKLOG_SIZE)) := by
  have h0 : backlogInv env (newConn env conn remIp remPort slot, w).1 := by
    refine ⟨⟨rfl, ?_⟩, ?_⟩
    · show (0 : Int) ≤ _
      omega
    · intro it hit
      exact absurd hit (List.not_mem_nil _)
  have hb : postBuffInv (newConn env conn remIp remPort slot, w) := by
    refine ⟨hmalloc, ?_⟩
    intro hl
    have hl2 : (0 : Int) < -1 := hl
    omega
  obtain ⟨s', h1, h2⟩ := connEvents_backlogInv env urls rconn evs _ h0
  have h3 := connEvents_postBuffInv env urls rconn evs _ _ h1 hb
  refine ⟨⟨s', h1, h2.1.1, h2.1.2, h3.1, h3.2⟩, ?_⟩
  intro s g1 g2 g3
  have hs : backlogInv env s.1 := ⟨⟨g1, g2⟩, g3⟩
  exact ⟨((backlogInv_backlogProp env).flush s hs).1, (continueConn_backlogInv env s hs).1⟩

set_option maxRecDepth 100000 in
theorem connEvents_backlog_accounting_witness :
    (World.mk [false] [] []).mallocOk = [] ∧
    ∃ s', connEvents formEnv formRoutes (some 1)
        [.recv shortFormRequest, .recv [101], .sent, .flush]
        (newConn formEnv (some 1) [10, 0, 0, 1] 80 0, World.mk [false] [] []) = some s' ∧
      s'.1.priv.sendBacklogSize = (s'.1.priv.sendBacklog.map (fun it => it.len)).sum ∧
      s'.1.priv.sendBacklogSize ≤ formEnv.HTTPD_MAX_BACKLOG_SIZE ∧
      s'.2.mallocOk = [] ∧ (0 < s'.1.post.len → s'.1.post.buff ≠ none) :=
  ⟨rfl,
    (connEvents_backlog_accounting formEnv formRoutes (some 1) (some 1) [10, 0, 0, 1] 80 0
      (World.mk [false] [] []) [.recv shortFormRequest, .recv [101], .sent, .flush]
      rfl).1⟩

set_option maxRecDepth 100000 in
/-- The events of the form request, run: the transport refuses the first
write, the 61 bytes of the response wait in the backlog, and the connection,
which keeps `post.len` at 4, keeps its post buffer. -/
theorem connEvents_form_example :
    (connEvents formEnv formRoutes (some 1) [.recv shortFormRequest, .recv [101]]
      (newConn formEnv (some 1) [10, 0, 0, 1] 80 0, World.mk [false] [] [])).map
        (fun t : HttpdConnData × World =>
          (t.1.post.len, t.1.post.buff.isSome, t.1.priv.sendBacklogSize,
            (t.1.priv.sendBacklog.map (fun it => it.len)).sum)) =
      some (4, true, 61, 61) := by
  decide

/-! ### The instance lock -/

/-- C17 fails on the code for a sent event that belongs to no stored
connection.  `httpdSentCb` on an instance with empty slots: `httpdFindConnData`
finds nothing (and asks the transport to disconnect), `httpdContinue` is called
with `NULL`, takes the lock and returns at `if (conn==NULL) return;` without
giving it back.  One lock is held when the entry point has returned. -/
theorem httpdSentCb_unknown_connection_keeps_lock :
    (httpdSentCb idleEnv (emptyInstance idleEnv []) World.start (some 1) [10, 0, 0, 1] 80).2.trace =
      [Event.platDisconnect (some 1), Event.platLock] ∧
    locksHeld
      (httpdSentCb idleEnv (emptyInstance idleEnv []) World.start (some 1) [10, 0, 0, 1] 80).2.trace
      = 1 := by
  decide

/-! ### The connection slots -/

theorem findFreeSlot_spec (slots : List (Option HttpdConnData)) : ∀ (n i : Nat),
    i ≤ findFreeSlot slots n i ∧ findFreeSlot slots n i ≤ i + n ∧
    (∀ j, i ≤ j → j < findFreeSlot slots n i → slots.getD j none ≠ none) ∧
    (findFreeSlot slots n i < i + n → slots.getD (findFreeSlot slots n i) none = none) := by
  intro n
  induction n with
  | zero =>
    intro i
    refine ⟨Nat.le_refl _, Nat.le_refl _, ?_, ?_⟩
    · intro j h1 h2
      simp only [findFreeSlot] at h2
      omega
    · intro h
      simp only [findFreeSlot] at h
      omega
  | succ n ih =>
    intro i
    rw [findFreeSlot]
    split_ifs with hc
    · refine ⟨Nat.le_refl _, by omega, ?_, fun _ => hc⟩
      intro j h1 h2
      omega
    · obtain ⟨a, b, c, d⟩ := ih (i + 1)
      refine ⟨by omega, by omega, ?_, ?_⟩
      · intro j h1 h2
        by_cases hj : j = i
        · rw [hj]; exact hc
        · exact c j (by omega) h2
      · intro h
        exact d (by omega)

theorem findConnIdx_none (remIp : List Nat) (remPort : Int) :
    ∀ (slots : List (Option HttpdConnData)) (i : Nat),
      (∀ j e, slots.getD j none = some e → ¬ connMatches remIp remPort e) →
      findConnIdx remIp remPort slots i = none := by
  intro slots
  induction slots with
  | nil => intro i _; rfl
  | cons c cs ih =>
    intro i h
    have hcs : ∀ j e, cs.getD j none = some e → ¬ connMatches remIp remPort e := by
      intro j e he
      exact h (j + 1) e (by simpa using he)
    cases c with
    | none =>
      rw [findConnIdx]
      exact ih (i + 1) hcs
    | some d =>
      rw [findConnIdx]
      have hd : ¬ connMatches remIp remPort d := h 0 d rfl
      unfold connMatches at hd
      rw [if_neg hd]
      exact ih (i + 1) hcs

theorem findConnIdx_some (remIp : List Nat) (remPort : Int) :
    ∀ (slots : List (Option HttpdConnData)) (i k : Nat) (d : HttpdConnData),
      slots.getD k none = some d → connMatches remIp remPort d →
      (∀ j, j < k → ∀ e, slots.getD j none = some e → ¬ connMatches remIp remPort e) →
      findConnIdx remIp remPort slots i = some (i + k) := by
  intro slots
  induction slots with
  | nil => intro i k d h; simp at h
  | cons c cs ih =>
    intro i k d hk hm hfirst
    cases k with
    | zero =>
      have hc : c = some d := by simpa using hk
      rw [hc, findConnIdx]
      unfold connMatches at hm
      rw [if_pos hm]
      rfl
    | succ k =>
      have hk2 : cs.getD k none = some d := by simpa using hk
      have hf2 : ∀ j, j < k → ∀ e, cs.getD j none = some e → ¬ connMatches remIp remPort e := by
        intro j hj e he
        exact hfirst (j + 1) (by omega) e (by simpa using he)
      have hrec := ih (i + 1) k d hk2 hm hf2
      rw [show i + (k + 1) = i + 1 + k by omega]
      cases c with
      | none =>
        rw [findConnIdx]
        exact hrec
      | some e =>
        rw [findConnIdx]
        have he : ¬ connMatches remIp remPort e := hfirst 0 (by omega) e rfl
        unfold connMatches at he
        rw [if_neg he]
        exact hrec

theorem liveSlots_set_none : ∀ (slots : List (Option HttpdConnData)) (i : Nat)
    (d : HttpdConnData), slots.getD i none = some d →
    liveSlots (slots.set i none) + 1 = liveSlots slots := by
  intro slots
  induction slots with
  | nil => intro i d h; simp at h
  | cons c cs ih =>
    intro i d h
    cases i with
    | zero =>
      have hc : c = some d := by simpa using h
      rw [hc]
      simp [liveSlots]
    | succ i =>
      have h2 : cs.getD i none = some d := by simpa using h
      have := ih i d h2
      unfold liveSlots at this ⊢
      cases c with
      | none => simpa using this
      | some e =>
        simp only [List.set_cons_succ, List.filter_cons, Option.isSome_some, if_true,
          List.length_cons]
        omega

theorem getD_set_none : ∀ (slots : List (Option HttpdConnData)) (i j : Nat) (e : HttpdConnData),
    (slots.set i none).getD j none = some e → j ≠ i ∧ slots.getD j none = some e := by
  intro slots
  induction slots with
  | nil => intro i j e h; simp at h
  | cons c cs ih =>
    intro i j e h
    cases i with
    | zero =>
      cases j with
      | zero => simp at h
      | succ j => exact ⟨by omega, by simpa using h⟩
    | succ i =>
      cases j with
      | zero => exact ⟨by omega, by simpa using h⟩
      | succ j =>
        have := ih i j e (by simpa using h)
        exact ⟨by omega, by simpa using this.2⟩

theorem platMalloc_three (w : World) (h : mallocsOk w 3) :
    (platMalloc (w.log .platLock)).1 = true ∧
    (platMalloc (platMalloc (w.log .platLock)).2).1 = true ∧
    (platMalloc (platMalloc (platMalloc (w.log .platLock)).2).2).1 = true := by
  unfold mallocsOk at h
  unfold platMalloc World.log
  rcases hm : w.mallocOk with _ | ⟨a, _ | ⟨b, _ | ⟨c, t⟩⟩⟩ <;> rw [hm] at h <;>
    simp at h <;> simp [h]

/-- A connect with an empty slot and memory at hand. -/
theorem httpdConnectCb_stores (env : HttpdEnv) (inst : HttpdInstance) (w : World)
    (conn : Option Nat) (remIp : List Nat) (remPort : Int)
    (hfree : ∃ j, j < env.HTTPD_MAX_CONNECTIONS ∧ inst.connData.getD j none = none)
    (hmem : mallocsOk w 3) :
    ∃ i w', i < env.HTTPD_MAX_CONNECTIONS ∧ inst.connData.getD i none = none ∧
      (∀ j, j < i → inst.connData.getD j none ≠ none) ∧
      httpdConnectCb env inst w conn remIp remPort =
        .returned 1
          { inst with connData := inst.connData.set i (some (newConn env conn remIp remPort i)) }
          w' := by
  obtain ⟨j, hj1, hj2⟩ := hfree
  obtain ⟨_, b, c, d⟩ := findFreeSlot_spec inst.connData env.HTTPD_MAX_CONNECTIONS 0
  have hlt : findFreeSlot inst.connData env.HTTPD_MAX_CONNECTIONS 0 < env.HTTPD_MAX_CONNECTIONS := by
    by_contra hge
    exact c j (Nat.zero_le _) (by omega) hj2
  obtain ⟨m1, m2, m3⟩ := platMalloc_three w hmem
  refine ⟨findFreeSlot inst.connData env.HTTPD_MAX_CONNECTIONS 0,
    (platMalloc (platMalloc (platMalloc (w.log .platLock)).2).2).2.log .platUnlock, hlt,
    d (by omega),
    fun j hj => c j (Nat.zero_le _) hj, ?_⟩
  unfold httpdConnectCb
  simp only []
  rw [if_neg (by omega), if_neg (by rw [m1]; simp), if_neg (by rw [m2]; simp),
    if_neg (by rw [m3]; simp)]

/-- A connect when every slot is taken. -/
theorem httpdConnectCb_full (env : HttpdEnv) (inst : HttpdInstance) (w : World)
    (conn : Option Nat) (remIp : List Nat) (remPort : Int)
    (hfull : ∀ j, j < env.HTTPD_MAX_CONNECTIONS → inst.connData.getD j none ≠ none) :
    httpdConnectCb env inst w conn remIp remPort =
      .returned 0 inst ((w.log .platLock).log .platUnlock) := by
  obtain ⟨_, b, c, d⟩ := findFreeSlot_spec inst.connData env.HTTPD_MAX_CONNECTIONS 0
  have heq : findFreeSlot inst.connData env.HTTPD_MAX_CONNECTIONS 0 = env.HTTPD_MAX_CONNECTIONS := by
    by_contra hne
    have hlt : findFreeSlot inst.connData env.HTTPD_MAX_CONNECTIONS 0 <
        env.HTTPD_MAX_CONNECTIONS := by omega
    exact hfull _ hlt (d (by omega))
  unfold httpdConnectCb
  simp only []
  rw [if_pos heq]

/-- A disconnect for the tuple of the stored connection `d` of slot `i`, the
first one with this tuple. -/
theorem httpdDisconCb_retires (env : HttpdEnv) (inst : HttpdInstance) (w : World)
    (rconn : Option Nat) (remIp : List Nat) (remPort : Int) (i : Nat) (d : HttpdConnData)
    (hd : inst.connData.getD i none = some d) (hm : connMatches remIp remPort d)
    (hfirst : ∀ j, j < i → ∀ e, inst.connData.getD j none = some e →
      ¬ connMatches remIp remPort e) :
    (httpdDisconCb env inst w rconn remIp remPort).1 =
      { inst with connData := inst.connData.set i none } := by
  have hidx := findConnIdx_some remIp remPort inst.connData 0 i d hd hm hfirst
  rw [Nat.zero_add] at hidx
  unfold httpdDisconCb httpdFindConnData
  rw [hidx]
  simp only [hd]
  cases d.cgi <;> rfl

/-- A disconnect for a tuple no stored connection has. -/
theorem httpdDisconCb_unknown (env : HttpdEnv) (inst : HttpdInstance) (w : World)
    (rconn : Option Nat) (remIp : List Nat) (remPort : Int)
    (hno : ∀ j e, inst.connData.getD j none = some e → ¬ connMatches remIp remPort e) :
    (httpdDisconCb env inst w rconn remIp remPort).1 = inst := by
  have hidx := findConnIdx_none remIp remPort inst.connData 0 hno
  unfold httpdDisconCb httpdFindConnData
  rw [hidx]

/-- C16, as the code has it.  Connect: when a slot is empty and the three
allocations succeed, `httpdConnectCb` returns 1 and stores a new connection
(post.len = -1, headPos = 0, no handler, slot = its index) in the empty slot
of lowest index, the other slots unchanged; when all `HTTPD_MAX_CONNECTIONS`
slots are occupied it returns 0 and leaves every slot unchanged.  Disconnect:
for the (ip, port) of a stored connection, `httpdDisconCb` empties the slot of
the first connection with that tuple and no other, so that the number of
occupied slots falls by exactly one; for an (ip, port) that no stored
connection has it leaves all slots unchanged; so does a second call for the
tuple of a connection that was the only one with it. -/
theorem slot_accounting (env : HttpdEnv) (inst : HttpdInstance) (w : World)
    (conn : Option Nat) (remIp : List Nat) (remPort : Int) :
    ((∃ j, j < env.HTTPD_MAX_CONNECTIONS ∧ inst.connData.getD j none = none) → mallocsOk w 3 →
      ∃ i w', i < env.HTTPD_MAX_CONNECTIONS ∧ inst.connData.getD i none = none ∧
        (∀ j, j < i → inst.connData.getD j none ≠ none) ∧
        httpdConnectCb env inst w conn remIp remPort =
          .returned 1
            { inst with
              connData := inst.connData.set i (some (newConn env conn remIp remPort i)) } w' ∧
        (newConn env conn remIp remPort i).post.len = -1 ∧
        (newConn env conn remIp remPort i).priv.headPos = 0 ∧
        (newConn env conn remIp remPort i).cgi = none ∧
        (newConn env conn remIp remPort i).slot = i) ∧
    ((∀ j, j < env.HTTPD_MAX_CONNECTIONS → inst.connData.getD j none ≠ none) →
      ∃ w', httpdConnectCb env inst w conn remIp remPort = .returned 0 inst w') ∧
    (∀ (i : Nat) (d : HttpdConnData), inst.connData.getD i none = some d →
      connMatches remIp remPort d →
      (∀ j, j < i → ∀ e, inst.connData.getD j none = some e → ¬ connMatches remIp remPort e) →
      (httpdDisconCb env inst w conn remIp remPort).1 =
        { inst with connData := inst.connData.set i none } ∧
      liveSlots (httpdDisconCb env inst w conn remIp remPort).1.connData + 1 =
        liveSlots inst.connData) ∧
    ((∀ j e, inst.connData.getD j none = some e → ¬ connMatches remIp remPort e) →
      (httpdDisconCb env inst w conn remIp remPort).1 = inst) ∧
    (∀ (i : Nat) (d : HttpdConnData), inst.connData.getD i none = some d →
      connMatches remIp remPort d →
      (∀ j e, j ≠ i → inst.connData.getD j none = some e → ¬ connMatches remIp remPort e) →
      ∀ (w2 : World) (conn2 : Option Nat),
        (httpdDisconCb env (httpdDisconCb env inst w conn remIp remPort).1 w2 conn2 remIp
          remPort).1 = (httpdDisconCb env inst w conn remIp remPort).1) := by
  refine ⟨?_, ?_, ?_, ?_, ?_⟩
  · intro hfree hmem
    obtain ⟨i, w', h1, h2, h3, h4⟩ :=
      httpdConnectCb_stores env inst w conn remIp remPort hfree hmem
    exact ⟨i, w', h1, h2, h3, h4, rfl, rfl, rfl, rfl⟩
  · intro hfull
    exact ⟨_, httpdConnectCb_full env inst w conn remIp remPort hfull⟩
  · intro i d hd hm hfirst
    have h := httpdDisconCb_retires env inst w conn remIp remPort i d hd hm hfirst
    refine ⟨h, ?_⟩
    rw [h]
    exact liveSlots_set_none inst.connData i d hd
  · intro hno
    exact httpdDisconCb_unknown env inst w conn remIp remPort hno
  · intro i d hd hm huniq w2 conn2
    have h := httpdDisconCb_retires env inst w conn remIp remPort i d hd hm
      (fun j hj e he => huniq j e (by omega) he)
    apply httpdDisconCb_unknown
    intro j e he
    rw [h] at he
    obtain ⟨hji, he2⟩ := getD_set_none inst.connData i j e he
    exact huniq j e hji he2

theorem slot_accounting_witness :
    (∃ j, j < idleEnv.HTTPD_MAX_CONNECTIONS ∧ oneConnInstance.connData.getD j none = none) ∧
    mallocsOk World.start 3 ∧
    (∃ i w', i < idleEnv.HTTPD_MAX_CONNECTIONS ∧ oneConnInstance.connData.getD i none = none ∧
      (∀ j, j < i → oneConnInstance.connData.getD j none ≠ none) ∧
      httpdConnectCb idleEnv oneConnInstance World.start (some 2) [10, 0, 0, 1] 80 =
        .returned 1
          { oneConnInstance with
            connData := oneConnInstance.connData.set i
              (some (newConn idleEnv (some 2) [10, 0, 0, 1] 80 i)) } w' ∧
      (newConn idleEnv (some 2) [10, 0, 0, 1] 80 i).post.len = -1 ∧
      (newConn idleEnv (some 2) [10, 0, 0, 1] 80 i).priv.headPos = 0 ∧
      (newConn idleEnv (some 2) [10, 0, 0, 1] 80 i).cgi = none ∧
      (newConn idleEnv (some 2) [10, 0, 0, 1] 80 i).slot = i) ∧
    ((httpdDisconCb idleEnv oneConnInstance World.start (some 2) [10, 0, 0, 1] 80).1 =
        { oneConnInstance with connData := oneConnInstance.connData.set 1 none } ∧
      liveSlots (httpdDisconCb idleEnv oneConnInstance World.start (some 2) [10, 0, 0, 1]
        80).1.connData + 1 = liveSlots oneConnInstance.connData) :=
  ⟨⟨0, by decide, by decide⟩, by decide,
    (slot_accounting idleEnv oneConnInstance World.start (some 2) [10, 0, 0, 1] 80).1
      ⟨0, by decide, by decide⟩ (by decide),
    (slot_accounting idleEnv oneConnInstance World.start (some 2) [10, 0, 0, 1] 80).2.2.1 1
      (newConn idleEnv (some 1) [10, 0, 0, 1] 80 1) (by decide) (by decide) (by decide)⟩

/-- C16 fails on the code when memory runs out: on an instance whose two slots
are empty, with the allocation of the connection struct failing,
`httpdConnectCb` returns 0 and stores nothing, though a slot is empty. -/
theorem httpdConnectCb_out_of_memory :
    (emptyInstance idleEnv []).connData = [none, none] ∧
    httpdConnectCb idleEnv (emptyInstance idleEnv [])
        { sendOk := [], mallocOk := [false], trace := [] } (some 1) [10, 0, 0, 1] 80 =
      .returned 0 (emptyInstance idleEnv [])
        { sendOk := [], mallocOk := [], trace := [Event.platLock, Event.platUnlock] } := by
  decide

/-! ### The HTML encoder -/

/-- The text `a<b` sent by `httpdSend_html` on a fresh connection: three calls
of `httpdSend`, for `a`, `&lt;` and `b`, and 1 is returned. -/
theorem httpdSend_html_example :
    (httpdSend_html idleEnv (newConn idleEnv (some 1) [10, 0, 0, 1] 80 0, World.start)
      [97, 60, 98] 3).1 = 1 ∧
    cgiSends (httpdSend_html idleEnv (newConn idleEnv (some 1) [10, 0, 0, 1] 80 0, World.start)
      [97, 60, 98] 3).2.2.trace = [([97], 1), ([38, 108, 116, 59], 1), ([98], 1)] := by
  decide

/-- The encoding of six bytes written out (a double quote, `a`, a single
quote, `<`, `b`, `>`), and what `httpdSend_html` hands to `httpdSend` for
them: `&#34;`, `a`, `&#39;`, `&lt;`, `b`, `&gt;`. -/
theorem htmlEscape_example :
    htmlEscape [34, 97, 39, 60, 98, 62] =
      [38, 35, 51, 52, 59] ++ [97] ++ [38, 35, 51, 57, 59] ++ [38, 108, 116, 59] ++ [98] ++
        [38, 103, 116, 59] ∧
    (cgiSends (httpdSend_html idleEnv (newConn idleEnv (some 1) [10, 0, 0, 1] 80 0, World.start)
      [34, 97, 39, 60, 98, 62] 6).2.2.trace).map (fun p => p.1) =
      [[38, 35, 51, 52, 59], [97], [38, 35, 51, 57, 59], [38, 108, 116, 59], [98],
        [38, 103, 116, 59]] :=
  ⟨by decide, by decide⟩

/-! ### Bare LF line ends -/

theorem crlf_nil : crlf [] = [] := rfl

theorem crlf_append (a b : List Nat) : crlf (a ++ b) = crlf a ++ crlf b := by
  simp [crlf, List.flatMap_append]

theorem crlf_cons (b : Nat) (t : List Nat) :
    crlf (b :: t) = (if b = 10 then [13, 10] else [b]) ++ crlf t := by
  simp [crlf, List.flatMap_cons]

theorem blankLineAtEndOnly_spec : ∀ (h p q : List Nat), blankLineAtEndOnly h = true →
    h = p ++ 10 :: 10 :: q → q = [] := by
  intro h
  induction h with
  | nil =>
    intro p q _ he
    have := congrArg List.length he
    simp at this
    omega
  | cons b t ih =>
    intro p q hb he
    rw [blankLineAtEndOnly] at hb
    cases p with
    | nil =>
      simp only [List.nil_append, List.cons.injEq] at he
      obtain ⟨h1, h2⟩ := he
      rw [if_pos ⟨h1, by rw [h2]; rfl⟩, h2] at hb
      simpa using hb
    | cons x p =>
      simp only [List.cons_append, List.cons.injEq] at he
      obtain ⟨_, h2⟩ := he
      split_ifs at hb with hc
      · -- b = 10 and t starts with 10 and t.tail is empty: t = [10]
        have ht : t.length ≤ 1 := by
          cases t with
          | nil => simp
          | cons y t2 =>
            have : t2 = [] := by simpa using hb
            rw [this]; simp
        have := congrArg List.length h2
        simp at this
        omega
      · exact ih p q hb h2

theorem strstrFrom_occurs (pat : List Nat) : ∀ (l : List Nat) (i k : Nat),
    strstrFrom pat l i = some k → ∃ a b, l = a ++ pat ++ b := by
  intro l
  induction l with
  | nil => intro i k h; simp [strstrFrom] at h
  | cons c cs ih =>
    intro i k h
    rw [strstrFrom] at h
    split_ifs at h with hp
    · obtain ⟨b, hb⟩ := List.isPrefixOf_iff_prefix.1 hp
      exact ⟨[], b, by simp [hb]⟩
    · obtain ⟨a, b, hab⟩ := ih (i + 1) k h
      exact ⟨c :: a, b, by rw [hab]; simp⟩

theorem cstr_append_zero (x t : List Nat) : cstr (x ++ 0 :: t) = cstr x := by
  induction x with
  | nil => simp [cstr]
  | cons c x ih =>
    rw [List.cons_append, cstr_cons, cstr_cons, ih]

theorem cstr_append_rest (x : List Nat) : ∃ r, x = cstr x ++ r :=
  ⟨x.dropWhile (fun c => c != 0), by unfold cstr; rw [List.takeWhile_append_dropWhile]⟩

/-- The end of the headers in CR LF text is a blank line of the LF text. -/
theorem crlf_blank_line : ∀ (d a b : List Nat), (∀ x ∈ d, x ≠ 13) →
    crlf d = a ++ [13, 10, 13, 10] ++ b → ∃ p q, d = p ++ 10 :: 10 :: q := by
  intro d
  induction d with
  | nil =>
    intro a b _ h
    have := congrArg List.length h
    simp [crlf] at this
    omega
  | cons x d ih =>
    intro a b hcr h
    have hx : x ≠ 13 := hcr x (by simp)
    have hd : ∀ y ∈ d, y ≠ 13 := fun y hy => hcr y (by simp [hy])
    rw [crlf_cons] at h
    by_cases h10 : x = 10
    · rw [if_pos h10] at h
      match a, h with
      | [], h =>
        simp only [List.nil_append, List.cons_append, List.cons.injEq, true_and] at h
        -- crlf d = 13 :: 10 :: b
        cases d with
        | nil => simp [crlf] at h
        | cons y d2 =>
          rw [crlf_cons] at h
          by_cases hy : y = 10
          · exact ⟨[], d2, by rw [h10, hy]; rfl⟩
          · rw [if_neg hy] at h
            simp only [List.cons_append, List.nil_append, List.cons.injEq] at h
            exact absurd h.1 (hd y (by simp))
      | [a1], h =>
        simp only [List.cons_append, List.nil_append, List.cons.injEq] at h
        omega
      | a1 :: a2 :: a3, h =>
        simp only [List.cons_append, List.nil_append, List.cons.injEq] at h
        obtain ⟨p, q, hpq⟩ := ih a3 b hd h.2.2
        exact ⟨x :: p, q, by rw [hpq]; rfl⟩
    · rw [if_neg h10] at h
      match a, h with
      | [], h =>
        simp only [List.nil_append, List.cons_append, List.cons.injEq] at h
        exact absurd h.1 hx
      | a1 :: a3, h =>
        simp only [List.cons_append, List.nil_append, List.cons.injEq] at h
        obtain ⟨p, q, hpq⟩ := ih a3 b hd h.2
        exact ⟨x :: p, q, by rw [hpq]; rfl⟩

theorem getD_set_ne (l : List Nat) (i j a d : Nat) (h : i ≠ j) :
    (l.set i a).getD j d = l.getD j d := by
  rw [List.getD_eq_getElem?_getD, List.getD_eq_getElem?_getD, List.getElem?_set_ne h]

/-- A header byte other than LF is stored at `headPos` when there is room. -/
theorem storeHeadByte_plain (env : HttpdEnv) (priv : HttpdPriv) (b : Nat) (hb : b ≠ 10)
    (hfit : priv.headPos + 2 ≤ env.HTTPD_MAX_HEAD_LEN) :
    storeHeadByte env priv b =
      { priv with head := (priv.head.set priv.headPos b).set (priv.headPos + 1) 0,
                  headPos := priv.headPos + 1 } := by
  have hc : ¬ (b = 10 ∧ priv.headPos ≠ 0 ∧ priv.head.getD (priv.headPos - 1) 0 ≠ 13) :=
    fun h => hb h.1
  have hr : (priv.headPos : Int) < (env.HTTPD_MAX_HEAD_LEN : Int) - 1 := by omega
  unfold storeHeadByte
  dsimp only
  rw [if_neg hc, if_pos hr]

/-- A lone LF is stored as CR LF. -/
theorem storeHeadByte_lf (env : HttpdEnv) (priv : HttpdPriv) (h0 : priv.headPos ≠ 0)
    (hl : priv.head.getD (priv.headPos - 1) 0 ≠ 13)
    (hfit : priv.headPos + 3 ≤ env.HTTPD_MAX_HEAD_LEN) :
    storeHeadByte env priv 10 =
      { priv with
        head := ((priv.head.set priv.headPos 13).set (priv.headPos + 1) 10).set
          (priv.headPos + 2) 0,
        headPos := priv.headPos + 2 } := by
  have hc : (10 : Nat) = 10 ∧ priv.headPos ≠ 0 ∧ priv.head.getD (priv.headPos - 1) 0 ≠ 13 :=
    ⟨rfl, h0, hl⟩
  have hr : ((priv.headPos + 1 : Nat) : Int) < (env.HTTPD_MAX_HEAD_LEN : Int) - 1 := by omega
  unfold storeHeadByte
  dsimp only
  rw [if_pos hc]
  dsimp only
  rw [if_pos hr]

/-- An LF that follows a stored CR gets no second CR: CR LF is stored as the
lone LF is. -/
theorem storeHeadByte_cr_lf (env : HttpdEnv) (priv : HttpdPriv)
    (hlen : priv.headPos < priv.head.length)
    (hfit : priv.headPos + 3 ≤ env.HTTPD_MAX_HEAD_LEN) :
    storeHeadByte env (storeHeadByte env priv 13) 10 =
      { priv with
        head := ((priv.head.set priv.headPos 13).set (priv.headPos + 1) 10).set
          (priv.headPos + 2) 0,
        headPos := priv.headPos + 2 } := by
  rw [storeHeadByte_plain env priv 13 (by decide) (by omega)]
  have hcr : ((priv.head.set priv.headPos 13).set (priv.headPos + 1) 0).getD
      (priv.headPos + 1 - 1) 0 = 13 := by
    rw [Nat.add_sub_cancel, getD_set_ne _ _ _ _ _ (by omega), getD_set_self _ _ _ _ hlen]
  have hc : ¬ ((10 : Nat) = 10 ∧ priv.headPos + 1 ≠ 0 ∧
      ((priv.head.set priv.headPos 13).set (priv.headPos + 1) 0).getD
        (priv.headPos + 1 - 1) 0 ≠ 13) := fun h => h.2.2 hcr
  have hr : ((priv.headPos + 1 : Nat) : Int) < (env.HTTPD_MAX_HEAD_LEN : Int) - 1 := by omega
  unfold storeHeadByte
  dsimp only
  rw [if_neg hc, if_pos hr, List.set_set]

theorem crlf_snoc (d : List Nat) (b : Nat) :
    crlf (d ++ [b]) = crlf d ++ (if b = 10 then [13, 10] else [b]) := by
  rw [crlf_append, crlf_cons, crlf_nil, List.append_nil]

theorem crlf_length_pos (d : List Nat) (h : d ≠ []) : 0 < (crlf d).length := by
  cases d with
  | nil => exact absurd rfl h
  | cons b t =>
    rw [crlf_cons]
    split_ifs <;> simp

theorem split_at_nul (l x : List Nat) (n : Nat) (ht : l.take n = x) (hn : n < l.length)
    (hz : l.getD n 1 = 0) : l = x ++ 0 :: l.drop (n + 1) := by
  rw [List.getD_eq_getElem _ _ hn] at hz
  rw [← ht, ← hz, ← List.drop_eq_getElem_cons hn, List.take_append_drop]

/-- The end of the headers is seen in a head buffer that holds the CR LF form
of a text only when the text has an empty line. -/
theorem strstr_crlf (d head t : List Nat) (hcr : ∀ x ∈ d, x ≠ 13)
    (hh : head = crlf d ++ 0 :: t) (hs : strstr head [13, 10, 13, 10] ≠ none) :
    ∃ p q, d = p ++ 10 :: 10 :: q := by
  unfold strstr at hs
  rw [hh, cstr_append_zero] at hs
  cases hk : strstrFrom [13, 10, 13, 10] (cstr (crlf d)) 0 with
  | none => exact absurd hk hs
  | some k =>
    obtain ⟨a, b, hab⟩ := strstrFrom_occurs _ _ _ _ hk
    obtain ⟨r, hr⟩ := cstr_append_rest (crlf d)
    rw [hab] at hr
    exact crlf_blank_line d a (b ++ r) hcr (by rw [hr]; simp)

theorem httpdRecvLoop_head (env : HttpdEnv) (urls : List HttpdBuiltInUrl) (b : Nat)
    (rest : List Nat) (s : HttpdConnData × World) (h : s.1.post.len < 0) :
    httpdRecvLoop env urls (b :: rest) s =
      (recvHeadByte env urls b s).bind (httpdRecvLoop env urls rest) := by
  rw [httpdRecvLoop, if_pos h]
  cases recvHeadByte env urls b s <;> rfl

theorem recvHeadByte_plain (env : HttpdEnv) (urls : List HttpdBuiltInUrl) (b : Nat)
    (s : HttpdConnData × World) (hb : b ≠ 10) :
    recvHeadByte env urls b s =
      some ({ s.1 with priv := storeHeadByte env s.1.priv b }, s.2) := by
  unfold recvHeadByte
  rw [if_neg (fun h => hb h.1)]

theorem recvHeadByte_quiet (env : HttpdEnv) (urls : List HttpdBuiltInUrl) (b : Nat)
    (s : HttpdConnData × World)
    (h : ¬ strstr (storeHeadByte env s.1.priv b).head [13, 10, 13, 10] ≠ none) :
    recvHeadByte env urls b s =
      some ({ s.1 with priv := storeHeadByte env s.1.priv b }, s.2) := by
  unfold recvHeadByte
  rw [if_neg (fun hc => h hc.2)]

/-- The LF of a CR LF pair is handled as a lone LF is. -/
theorem recvHeadByte_cr_lf (env : HttpdEnv) (urls : List HttpdBuiltInUrl)
    (s : HttpdConnData × World)
    (h : storeHeadByte env (storeHeadByte env s.1.priv 13) 10 = storeHeadByte env s.1.priv 10) :
    recvHeadByte env urls 10 ({ s.1 with priv := storeHeadByte env s.1.priv 13 }, s.2) =
      recvHeadByte env urls 10 s := by
  unfold recvHeadByte
  dsimp only
  rw [h]

/-- A stored byte other than LF and CR extends the stored text. -/
theorem HeadInv.plain {env : HttpdEnv} {done : List Nat} {s : HttpdConnData × World}
    (h : HeadInv env done s) (b : Nat) (hb : b ≠ 10) (hb13 : b ≠ 13)
    (hfit : (crlf done).length + 2 ≤ env.HTTPD_MAX_HEAD_LEN) :
    HeadInv env (done ++ [b]) ({ s.1 with priv := storeHeadByte env s.1.priv b }, s.2) := by
  obtain ⟨hst, hsz, hpos, hcont, _⟩ := h
  have hstore := storeHeadByte_plain env s.1.priv b hb (by rw [hpos]; exact hfit)
  have hl : (crlf (done ++ [b])).length = s.1.priv.headPos + 1 := by
    rw [crlf_snoc, if_neg hb, List.length_append, hpos]; rfl
  rw [← hpos] at hcont
  refine ⟨hst, ?_, ?_, ?_, ?_⟩
  · show (storeHeadByte env s.1.priv b).head.length = _
    rw [hstore]
    simp only [List.length_set]
    exact hsz
  · show (storeHeadByte env s.1.priv b).headPos = _
    rw [hstore, hl]
  · show (storeHeadByte env s.1.priv b).head.take _ = _
    rw [hstore, hl]
    show ((s.1.priv.head.set s.1.priv.headPos b).set (s.1.priv.headPos + 1) 0).take
      (s.1.priv.headPos + 1) = _
    rw [take_set_ge _ _ _ _ (Nat.le_refl _), take_succ_set _ _ _ (by omega), hcont, crlf_snoc,
      if_neg hb]
  · intro _
    show (storeHeadByte env s.1.priv b).head.getD ((storeHeadByte env s.1.priv b).headPos - 1) 0
      ≠ 13
    rw [hstore]
    show ((s.1.priv.head.set s.1.priv.headPos b).set (s.1.priv.headPos + 1) 0).getD
      (s.1.priv.headPos + 1 - 1) 0 ≠ 13
    rw [Nat.add_sub_cancel, getD_set_ne _ _ _ _ _ (by omega),
      getD_set_self _ _ _ _ (by omega)]
    exact hb13

/-- A stored lone LF extends the stored text by CR LF. -/
theorem HeadInv.lf {env : HttpdEnv} {done : List Nat} {s : HttpdConnData × World}
    (h : HeadInv env done s) (hne : done ≠ [])
    (hfit : (crlf done).length + 3 ≤ env.HTTPD_MAX_HEAD_LEN) :
    HeadInv env (done ++ [10]) ({ s.1 with priv := storeHeadByte env s.1.priv 10 }, s.2) := by
  obtain ⟨hst, hsz, hpos, hcont, hlast⟩ := h
  have h0 : s.1.priv.headPos ≠ 0 := by
    have := crlf_length_pos done hne
    omega
  have hstore := storeHeadByte_lf env s.1.priv h0 (hlast h0) (by rw [hpos]; exact hfit)
  have hl : (crlf (done ++ [10])).length = s.1.priv.headPos + 2 := by
    rw [crlf_snoc, if_pos rfl, List.length_append, hpos]; rfl
  rw [← hpos] at hcont
  refine ⟨hst, ?_, ?_, ?_, ?_⟩
  · show (storeHeadByte env s.1.priv 10).head.length = _
    rw [hstore]
    simp only [List.length_set]
    exact hsz
  · show (storeHeadByte env s.1.priv 10).headPos = _
    rw [hstore, hl]
  · show (storeHeadByte env s.1.priv 10).head.take _ = _
    rw [hstore, hl]
    show (((s.1.priv.head.set s.1.priv.headPos 13).set (s.1.priv.headPos + 1) 10).set
      (s.1.priv.headPos + 2) 0).take (s.1.priv.headPos + 1 + 1) = _
    rw [take_set_ge _ _ _ _ (by omega), take_succ_set _ _ _ (by simp only [List.length_set]; omega),
      take_succ_set _ _ _ (by omega), hcont, crlf_snoc, if_pos rfl, List.append_assoc]
    rfl
  · intro _
    show (storeHeadByte env s.1.priv 10).head.getD ((storeHeadByte env s.1.priv 10).headPos - 1) 0
      ≠ 13
    rw [hstore]
    show (((s.1.priv.head.set s.1.priv.headPos 13).set (s.1.priv.headPos + 1) 10).set
      (s.1.priv.headPos + 2) 0).getD (s.1.priv.headPos + 1 + 1 - 1) 0 ≠ 13
    rw [Nat.add_sub_cancel, getD_set_ne _ _ _ _ _ (by omega),
      getD_set_self _ _ _ _ (by simp only [List.length_set]; omega)]
    decide

/-- The head buffer after a lone LF is stored holds the CR LF form of the text
so far, followed by a NUL. -/
theorem HeadInv.lf_head {env : HttpdEnv} {done : List Nat} {s : HttpdConnData × World}
    (h : HeadInv env done s) (hne : done ≠ [])
    (hfit : (crlf done).length + 3 ≤ env.HTTPD_MAX_HEAD_LEN) :
    ∃ t, (storeHeadByte env s.1.priv 10).head = crlf (done ++ [10]) ++ 0 :: t := by
  have h2 := h.lf hne hfit
  have h0 : s.1.priv.headPos ≠ 0 := by
    have := crlf_length_pos done hne
    have := h.pos
    omega
  have hstore := storeHeadByte_lf env s.1.priv h0 (h.last h0) (by rw [h.pos]; exact hfit)
  have hl : (crlf (done ++ [10])).length = s.1.priv.headPos + 2 := by
    rw [crlf_snoc, if_pos rfl, List.length_append, h.pos]; rfl
  have hsz : (storeHeadByte env s.1.priv 10).head.length = env.HTTPD_MAX_HEAD_LEN := h2.size
  have hpos := h.pos
  refine ⟨_, split_at_nul _ _ (crlf (done ++ [10])).length h2.content (by rw [hsz]; omega) ?_⟩
  rw [hstore, hl]
  show (((s.1.priv.head.set s.1.priv.headPos 13).set (s.1.priv.headPos + 1) 10).set
      (s.1.priv.headPos + 2) 0).getD (s.1.priv.headPos + 2) 1 = 0
  rw [getD_set_self _ _ _ _ (by simp only [List.length_set]; rw [h.size]; omega)]

/-- Reading a text with lone LF line ends gives the state that reading its
CR LF form gives, from a connection that has read the start of the text. -/
theorem httpdRecvLoop_crlf (env : HttpdEnv) (urls : List HttpdBuiltInUrl) :
    ∀ (rest done : List Nat) (s : HttpdConnData × World),
      HeadInv env done s → (∀ x ∈ done ++ rest, x ≠ 13) →
      (done = [] → rest.head? ≠ some 10) →
      (crlf (done ++ rest)).length + 1 ≤ env.HTTPD_MAX_HEAD_LEN →
      blankLineAtEndOnly (done ++ rest) = true →
      httpdRecvLoop env urls (crlf rest) s = httpdRecvLoop env urls rest s := by
  intro rest
  induction rest with
  | nil => intros; rfl
  | cons b rest ih =>
    intro done s hinv hcr hfirst hfit hblank
    have hb13 : b ≠ 13 := hcr b (by simp)
    have hassoc : done ++ b :: rest = (done ++ [b]) ++ rest := by simp
    have hlen : (crlf (done ++ b :: rest)).length =
        (crlf done).length + (if b = 10 then 2 else 1) + (crlf rest).length := by
      rw [crlf_append, crlf_cons]
      split_ifs <;> simp <;> omega
    rw [hlen] at hfit
    rw [hassoc] at hcr hblank
    by_cases hb : b = 10
    · subst hb
      rw [if_pos rfl] at hfit
      have hne : done ≠ [] := fun h => hfirst h rfl
      have hsz := hinv.size
      have hpos := hinv.pos
      have h0 : s.1.priv.headPos ≠ 0 := by
        have := crlf_length_pos done hne
        omega
      have e1 := storeHeadByte_cr_lf env s.1.priv (by omega) (by omega)
      have e2 := storeHeadByte_lf env s.1.priv h0 (hinv.last h0) (by omega)
      have e10 := recvHeadByte_cr_lf env urls s (e1.trans e2.symm)
      rw [crlf_cons, if_pos rfl]
      show httpdRecvLoop env urls (13 :: 10 :: crlf rest) s = _
      rw [httpdRecvLoop_head env urls 13 _ s hinv.state,
        recvHeadByte_plain env urls 13 s (by decide), Option.some_bind,
        httpdRecvLoop_head env urls 10 _
          ({ s.1 with priv := storeHeadByte env s.1.priv 13 }, s.2) hinv.state, e10,
        httpdRecvLoop_head env urls 10 _ s hinv.state]
      by_cases htrig : strstr (storeHeadByte env s.1.priv 10).head [13, 10, 13, 10] ≠ none
      · obtain ⟨t, ht⟩ := hinv.lf_head hne (by omega)
        obtain ⟨p, q, hpq⟩ := strstr_crlf (done ++ [10]) _ t
          (fun x hx => hcr x (by simp at hx ⊢; tauto)) ht htrig
        have hq := blankLineAtEndOnly_spec _ p (q ++ rest) hblank (by rw [hpq]; simp)
        have hrest : rest = [] := by
          cases rest with
          | nil => rfl
          | cons y r => simp at hq
        subst hrest
        rfl
      · rw [recvHeadByte_quiet env urls 10 s htrig, Option.some_bind, Option.some_bind]
        exact ih (done ++ [10]) _ (hinv.lf hne (by omega)) hcr (by simp)
          (by rw [crlf_append, List.length_append, crlf_snoc, if_pos rfl, List.length_append]
              simp only [List.length_cons, List.length_nil]; omega)
          hblank
    · rw [if_neg hb] at hfit
      rw [crlf_cons, if_neg hb]
      show httpdRecvLoop env urls (b :: crlf rest) s = _
      rw [httpdRecvLoop_head env urls b _ s hinv.state,
        httpdRecvLoop_head env urls b _ s hinv.state,
        recvHeadByte_plain env urls b s hb, Option.some_bind, Option.some_bind]
      exact ih (done ++ [b]) _ (hinv.plain b hb hb13 (by omega)) hcr (by simp)
        (by rw [crlf_append, List.length_append, crlf_snoc, if_neg hb, List.length_append]
            simp only [List.length_cons, List.length_nil]; omega)
        hblank

/-- C18: a request head without a CR byte that does not begin with LF, whose
only empty line, if it has one, is its end, and whose CR LF form fits the head
buffer with its NUL, is delivered to a connection that waits for a request.
Delivered with lone LF line ends, `httpdRecvCb` returns, and it leaves the
connection, with its head buffer and the parsed `requestType`, `url`,
`getArgs`, `hostName` and flags, and the platform as the delivery of the same
head with CR LF for every LF does. -/
theorem httpdRecvCb_lone_lf_as_crlf (env : HttpdEnv) (urls : List HttpdBuiltInUrl)
    (rconn : Option Nat) (h : List Nat) (s : HttpdConnData × World)
    (hstate : s.1.post.len < 0) (hpos : s.1.priv.headPos = 0)
    (hsize : s.1.priv.head.length = env.HTTPD_MAX_HEAD_LEN)
    (hcr : ∀ b ∈ h, b ≠ 13) (hlf : h.head? ≠ some 10)
    (hfit : (crlf h).length + 1 ≤ env.HTTPD_MAX_HEAD_LEN)
    (hend : blankLineAtEndOnly h = true) :
    ∃ t, recvCbConn env urls rconn h s = some t ∧
      recvCbConn env urls rconn (crlf h) s = some t := by
  obtain ⟨t, ht⟩ := recvCbConn_total env urls rconn h s
  refine ⟨t, ht, ?_⟩
  rw [← ht]
  unfold recvCbConn
  have hinv : HeadInv env []
      ({ s.1 with conn := rconn, priv := { s.1.priv with sendBuff := [] } },
        (platMalloc s.2).2) :=
    ⟨hstate, hsize, hpos, rfl, fun h0 => absurd hpos h0⟩
  rw [httpdRecvLoop_crlf env urls h [] _ hinv hcr (fun _ => hlf) hfit hend]

set_option maxRecDepth 100000 in
theorem httpdRecvCb_lone_lf_as_crlf_witness :
    (newConn helloEnv (some 1) [10, 0, 0, 1] 80 0).post.len < 0 ∧
      (newConn helloEnv (some 1) [10, 0, 0, 1] 80 0).priv.headPos = 0 ∧
      (∀ b ∈ lfRequest, b ≠ 13) ∧ lfRequest.head? ≠ some 10 ∧
      (crlf lfRequest).length + 1 ≤ helloEnv.HTTPD_MAX_HEAD_LEN ∧
      blankLineAtEndOnly lfRequest = true ∧
      ∃ t, recvCbConn helloEnv helloRoutes (some 1) lfRequest
          (newConn helloEnv (some 1) [10, 0, 0, 1] 80 0, World.start) = some t ∧
        recvCbConn helloEnv helloRoutes (some 1) (crlf lfRequest)
          (newConn helloEnv (some 1) [10, 0, 0, 1] 80 0, World.start) = some t :=
  ⟨by decide, rfl, by decide, by decide, by decide, by decide,
    httpdRecvCb_lone_lf_as_crlf helloEnv helloRoutes (some 1) lfRequest
      (newConn helloEnv (some 1) [10, 0, 0, 1] 80 0, World.start)
      (by decide) rfl (by decide) (by decide) (by decide) (by decide) (by decide)⟩

set_option maxRecDepth 100000 in
/-- The example of C18: the head `GET /hello HTTP/1.0`, `Host: a` with lone LF
line ends.  The head buffer holds the CR LF form, cut into strings by the
parser, and the request is parsed as `GET` of `/hello` for the host `a` and
shown to the handler once, without post data. -/
theorem lfRequest_parsed :
    (recvCbConn helloEnv helloRoutes (some 1) lfRequest
      (newConn helloEnv (some 1) [10, 0, 0, 1] 80 0, World.start)).map
        (fun t => (parsedRequest t, t.1.priv.head.take 32)) =
      some (ParsedRequest.mk (some .HTTPD_METHOD_GET) (some [47, 104, 101, 108, 108, 111]) none
          (some [97]) [(.user 0, [], 1)],
        (((crlf lfRequest).set 10 0).set 19 0).set 28 0) := by
  decide

/-! ### Writes while a backlog is present -/

set_option maxRecDepth 100000 in
/-- C21 fails on the code.  Two requests `GET /a` and `GET /b` arrive on a
keep-alive connection in two receive events, and the transport refuses the
first write.  The answer to `/a` goes to the backlog; at the second event the
backlog holds it, and `httpdFlushSendBuffer` hands the answer to `/b` to the
transport all the same, which takes it.  The sent event that follows delivers
the answer to `/a` after it. -/
theorem httpdFlushSendBuffer_writes_past_backlog :
    (connEvents letterEnv letterRoutes (some 1) [.recv (letterRequest 97)]
      (newConn letterEnv (some 1) [10, 0, 0, 1] 80 0, World.mk [false] [] [])).map
        (fun t : HttpdConnData × World => (t.1.priv.sendBacklog, sendCalls t.2.trace)) =
      some ([HttpSendBacklogItem.mk 84 (letterResponse 97)], [(letterResponse 97, false)]) ∧
    (connEvents letterEnv letterRoutes (some 1)
      [.recv (letterRequest 97), .recv (letterRequest 98)]
      (newConn letterEnv (some 1) [10, 0, 0, 1] 80 0, World.mk [false] [] [])).map
        (fun t : HttpdConnData × World => (t.1.priv.sendBacklog, sendCalls t.2.trace)) =
      some ([HttpSendBacklogItem.mk 84 (letterResponse 97)],
        [(letterResponse 97, false), (letterResponse 98, true)]) ∧
    (connEvents letterEnv letterRoutes (some 1)
      [.recv (letterRequest 97), .recv (letterRequest 98), .sent]
      (newConn letterEnv (some 1) [10, 0, 0, 1] 80 0, World.mk [false] [] [])).map
        (fun t : HttpdConnData × World => (t.1.priv.sendBacklog, sendCalls t.2.trace)) =
      some ([], [(letterResponse 97, false), (letterResponse 98, true),
        (letterResponse 97, true)]) :=
  ⟨by decide, by decide, by decide⟩

/-! ### Bounds of the buffers -/

set_option maxRecDepth 100000 in
/-- C24 fails on the code.  A request line longer than the head buffer of 64
bytes is received, ended by CR LF.  The first 63 bytes fill the buffer up to
`HTTPD_MAX_HEAD_LEN - 1`, the CR is dropped, and at the LF the faked CR is
stored at `head[63]` without a test for room: `headPos` is 64, the size of the
buffer, no byte of the buffer is NUL, and `head[headPos]=0` is a write at
index 64, outside the array. -/
theorem httpdRecvCb_fake_cr_fills_head_buffer :
    (recvCbConn idleEnv [] (some 1) longRequestLine
      (newConn idleEnv (some 1) [10, 0, 0, 1] 80 0, World.start)).map
        (fun t : HttpdConnData × World =>
          (t.1.post.len, t.1.priv.headPos, t.1.priv.head.length, t.1.priv.head.getD 63 0,
            t.1.priv.head.contains 0)) =
      some (-1, idleEnv.HTTPD_MAX_HEAD_LEN, idleEnv.HTTPD_MAX_HEAD_LEN, 13, false) := by
  decide

set_option maxRecDepth 100000 in
/-- C25 fails on the code.  The request `POST /form HTTP/1.0` with
`Content-Length: 4` is received with the body `abcd` and one byte more.  The
handler is called for the complete body and is done; `post.len` stays 4, the
fifth byte is counted as post data, and `post.received` is 5. -/
theorem httpdRecvCb_counts_bytes_past_body :
    (recvCbConn formEnv formRoutes (some 1) (shortFormRequest ++ [101])
      (newConn formEnv (some 1) [10, 0, 0, 1] 80 0, World.start)).map
        (fun t : HttpdConnData × World => (t.1.post.len, t.1.post.received)) =
      some (4, 5) := by
  decide

set_option maxRecDepth 100000 in
/-- C26 fails on the code.  With a send buffer of 128 bytes, the handler
answers `GET /big HTTP/1.1` with the response head, 70 bytes with its empty
line, and a body of 50 bytes in one chunk, and is done.  The six bytes of the
chunk header, the body and the closing CR LF fill the buffer to 128 bytes; `httpdFlushSendBuffer` then appends the
terminal chunk without a test for room, and 133 bytes are handed to
`httpdPlatSendData`. -/
theorem httpdFlushSendBuffer_terminal_chunk_overflows :
    (recvCbConn (fillEnv 50) bigRoutes (some 1) bigRequest
      (newConn (fillEnv 50) (some 1) [10, 0, 0, 1] 80 0, World.start)).map
        (fun t : HttpdConnData × World =>
          ((sendCalls t.2.trace).map (fun p => (p.1.length, p.1.drop 128)), cgiSends t.2.trace)) =
      some ([((fillEnv 50).HTTPD_MAX_SENDBUFF_LEN + 5, [48, 13, 10, 13, 10])],
        [(List.replicate 50 66, 1)]) := by
  decide

set_option maxRecDepth 100000 in
/-- C27 fails on the code.  The request `POST /form HTTP/1.0` with the header
`Content-Length: -5` is received: `post.len` is `atoi` of the text, -5.  No
handler is called, and the connection stays in the state `post.len<0` with
`headPos` at the end of the parsed head. -/
theorem httpdParseHeader_negative_content_length :
    (recvCbConn formEnv formRoutes (some 1) negLenRequest
      (newConn formEnv (some 1) [10, 0, 0, 1] 80 0, World.start)).map
        (fun t : HttpdConnData × World => (t.1.post.len, t.1.priv.headPos, cgiCalls t.2.trace)) =
      some (-5, 43, []) := by
  decide

/-! ### A connection marked to be closed -/

theorem handlerCalls_append (a b : List Event) :
    handlerCalls (a ++ b) = handlerCalls a ++ handlerCalls b := by
  simp [handlerCalls, List.filter_append]

theorem handlerCalls_of_isPlat (ext : List Event) (h : ∀ e ∈ ext, e.isPlat = true) :
    handlerCalls ext = [] := by
  induction ext with
  | nil => rfl
  | cons e t ih =>
    have he := h e (by simp)
    have ht := ih (fun x hx => h x (by simp [hx]))
    cases e <;> simp [Event.isPlat] at he <;> simpa [handlerCalls] using ht

/-- Received bytes are dropped by a connection that expects no post data and
has no receive handler. -/
theorem httpdRecvLoop_idle (env : HttpdEnv) (urls : List HttpdBuiltInUrl) :
    ∀ (data : List Nat) (s : HttpdConnData × World), s.1.post.len = 0 → s.1.recvHdl = none →
      httpdRecvLoop env urls data s = some s := by
  intro data
  induction data with
  | nil => intro s _ _; rfl
  | cons b rest ih =>
    intro s hp hr
    rw [httpdRecvLoop, if_neg (by omega), if_neg (by simp [hp]), hr]
    exact ih s hp hr

/-- A flush calls no handler and keeps the flags, the receive handler and the
post state. -/
theorem httpdFlushSendBuffer_quiet (env : HttpdEnv) (s : HttpdConnData × World) :
    ∃ ext, (httpdFlushSendBuffer env s).2.trace = s.2.trace ++ ext ∧ handlerCalls ext = [] ∧
      (httpdFlushSendBuffer env s).1.priv.flags = s.1.priv.flags ∧
      (httpdFlushSendBuffer env s).1.recvHdl = s.1.recvHdl ∧
      (httpdFlushSendBuffer env s).1.post = s.1.post := by
  obtain ⟨ext, h1, h2⟩ := httpdFlushSendBuffer_trace env s
  exact ⟨ext, h1, handlerCalls_of_isPlat ext h2, httpdFlushSendBuffer_flags env s,
    (httpdFlushSendBuffer_keeps env s).2.2.2, (httpdFlushSendBuffer_frame env s).1⟩

/-- A receive event on a connection that expects no post data and has no
receive handler calls no handler. -/
theorem recvCbConn_idle (env : HttpdEnv) (urls : List HttpdBuiltInUrl) (rconn : Option Nat)
    (data : List Nat) (s : HttpdConnData × World) (hp : s.1.post.len = 0)
    (hr : s.1.recvHdl = none) :
    ∃ t ext, recvCbConn env urls rconn data s = some t ∧ t.2.trace = s.2.trace ++ ext ∧
      handlerCalls ext = [] ∧ t.1.priv.flags = s.1.priv.flags ∧ t.1.recvHdl = none ∧
      t.1.post.len = 0 := by
  unfold recvCbConn
  by_cases hm : (platMalloc s.2).1 = false
  · rw [if_pos hm]
    exact ⟨_, [Event.platUnlock], rfl, rfl, rfl, rfl, hr, hp⟩
  · rw [if_neg hm, httpdRecvLoop_idle env urls data
      ({ s.1 with conn := rconn, priv := { s.1.priv with sendBuff := [] } },
        (platMalloc s.2).2) hp hr]
    dsimp only
    by_cases hc : rconn ≠ none
    · rw [if_pos hc]
      obtain ⟨ext, h1, h2, h3, h4, h5⟩ := httpdFlushSendBuffer_quiet env
        ({ s.1 with conn := rconn, priv := { s.1.priv with sendBuff := [] } },
          (platMalloc s.2).2)
      refine ⟨_, ext ++ [Event.platUnlock], rfl, ?_, ?_, h3, ?_, ?_⟩
      · show (httpdFlushSendBuffer env _).2.trace ++ [Event.platUnlock] = _
        rw [h1, List.append_assoc]
        rfl
      · rw [handlerCalls_append, h2]
        rfl
      · rw [h4]; exact hr
      · rw [h5]; exact hp
    · rw [if_neg hc]
      exact ⟨_, [Event.platUnlock], rfl, rfl, rfl, rfl, hr, hp⟩

/-- A sent event on a connection marked `HFL_DISCONAFTERSENT`: the oldest
backlog item is handed to the transport, or the transport is asked to
disconnect when the backlog is empty; no handler is called. -/
theorem continueConn_draining (env : HttpdEnv) (s : HttpdConnData × World)
    (hd : s.1.priv.flags.HFL_DISCONAFTERSENT = true) :
    ∃ out, (continueConn env s).2.trace = s.2.trace ++ [out, Event.platUnlock] ∧
      out = (match s.1.priv.sendBacklog with
        | [] => Event.platDisconnect s.1.conn
        | it :: _ => Event.platSendData s.1.conn (itemBytes it) (s.2.sendOk.headD true)) ∧
      (continueConn env s).1.priv.sendBacklog = s.1.priv.sendBacklog.tail ∧
      (continueConn env s).1.priv.flags = s.1.priv.flags ∧
      (continueConn env s).1.recvHdl = s.1.recvHdl ∧
      (continueConn env s).1.post = s.1.post := by
  cases hbl : s.1.priv.sendBacklog with
  | nil =>
    have h : continueConn env s =
        (s.1, (s.2.log (.platDisconnect s.1.conn)).log .platUnlock) := by
      unfold continueConn
      rw [hbl]
      dsimp only
      rw [if_pos hd]
    rw [h]
    exact ⟨_, by simp [World.log], rfl, by rw [hbl]; rfl, rfl, rfl, rfl⟩
  | cons item next =>
    rw [continueConn_backlog env s item next hbl]
    exact ⟨_, rfl, rfl, rfl, rfl, rfl, rfl⟩

theorem connEvents_draining (env : HttpdEnv) (urls : List HttpdBuiltInUrl) (rconn : Option Nat) :
    ∀ (evs : List ConnEvent) (s : HttpdConnData × World),
      s.1.priv.flags.HFL_DISCONAFTERSENT = true → s.1.recvHdl = none → s.1.post.len = 0 →
      ∃ t ext, connEvents env urls rconn evs s = some t ∧ t.2.trace = s.2.trace ++ ext ∧
        handlerCalls ext = [] ∧ t.1.priv.flags.HFL_DISCONAFTERSENT = true ∧
        t.1.recvHdl = none ∧ t.1.post.len = 0 := by
  intro evs
  induction evs with
  | nil => intro s hd hr hp; exact ⟨s, [], rfl, by simp, rfl, hd, hr, hp⟩
  | cons e evs ih =>
    intro s hd hr hp
    cases e with
    | recv data =>
      obtain ⟨t1, ext1, h1, h2, h3, h4, h5, h6⟩ :=
        recvCbConn_idle env urls rconn data (s.1, s.2.log .platLock) hp hr
      obtain ⟨t, ext, g1, g2, g3, g4, g5, g6⟩ := ih t1 (by rw [h4]; exact hd) h5 h6
      refine ⟨t, [Event.platLock] ++ ext1 ++ ext, ?_, ?_, ?_, g4, g5, g6⟩
      · rw [connEvents, h1]
        exact g1
      · rw [g2, h2]
        simp [World.log]
      · rw [handlerCalls_append, handlerCalls_append, h3, g3]
        rfl
    | sent =>
      obtain ⟨out, h1, h2, -, h4, h5, h6⟩ :=
        continueConn_draining env (s.1, s.2.log .platLock) hd
      obtain ⟨t, ext, g1, g2, g3, g4, g5, g6⟩ := ih (continueConn env (s.1, s.2.log .platLock))
        (by rw [h4]; exact hd) (by rw [h5]; exact hr) (by rw [h6]; exact hp)
      refine ⟨t, [Event.platLock, out, Event.platUnlock] ++ ext, ?_, ?_, ?_, g4, g5, g6⟩
      · rw [connEvents]
        exact g1
      · rw [g2, h1]
        simp [World.log]
      · rw [handlerCalls_append, g3, h2]
        cases s.1.priv.sendBacklog <;> rfl
    | flush =>
      obtain ⟨ext1, h1, h2, h3, h4, h5⟩ := httpdFlushSendBuffer_quiet env s
      obtain ⟨t, ext, g1, g2, g3, g4, g5, g6⟩ := ih (httpdFlushSendBuffer env s)
        (by rw [h3]; exact hd) (by rw [h4]; exact hr) (by rw [h5]; exact hp)
      refine ⟨t, ext1 ++ ext, ?_, ?_, ?_, g4, g5, g6⟩
      · rw [connEvents]
        exact g1
      · rw [g2, h1, List.append_assoc]
      · rw [handlerCalls_append, h2, g3]
        rfl

theorem handlerCalls_of_isApi (ext : List Event) (h : ∀ e ∈ ext, e.isApi = true) :
    handlerCalls ext = [] := by
  induction ext with
  | nil => rfl
  | cons e t ih =>
    have he := h e (by simp)
    have ht := ih (fun x hx => h x (by simp [hx]))
    cases e <;> simp [Event.isApi] at he <;> simpa [handlerCalls] using ht

/-- The record of the data handed to a receive handler: the call of the
receive handler with the data, and no other call of a handler. -/
theorem recvHdlData_calls (env : HttpdEnv) (id : Nat) (data : List Nat)
    (s : HttpdConnData × World) :
    ∃ ext, (recvHdlData env id data s).2.trace = s.2.trace ++ ext ∧
      handlerCalls ext = [Event.recvHdlCall id data] := by
  obtain ⟨-, -, -, ext, h4, h5⟩ := runCgi_spec env (env.recvHdls id (cgiView s.1) data)
    (s.1, s.2.log (.recvHdlCall id data))
  have hc : (callRecvHdl env id data s).2.2.trace =
      s.2.trace ++ (Event.recvHdlCall id data :: ext ++
        [Event.recvHdlReturn id (callRecvHdl env id data s).1]) := by
    show (runCgi env _ _).2.2.trace ++ [Event.recvHdlReturn id (callRecvHdl env id data s).1] = _
    rw [h4]
    simp [World.log]
  have hh : handlerCalls (Event.recvHdlCall id data :: ext ++
      [Event.recvHdlReturn id (callRecvHdl env id data s).1]) = [Event.recvHdlCall id data] := by
    rw [handlerCalls_append]
    show Event.recvHdlCall id data :: handlerCalls ext ++ handlerCalls [_] = _
    rw [handlerCalls_of_isApi ext h5]
    rfl
  unfold recvHdlData
  split_ifs
  · obtain ⟨ext2, g1, g2⟩ := httpdCgiIsDone_trace env (callRecvHdl env id data s).2
    refine ⟨(Event.recvHdlCall id data :: ext ++
        [Event.recvHdlReturn id (callRecvHdl env id data s).1]) ++ ext2, ?_, ?_⟩
    · rw [g1, hc, List.append_assoc]
    · rw [handlerCalls_append, hh, handlerCalls_of_isPlat ext2 g2]
      rfl
  · exact ⟨_, hc, hh⟩

/-- A receive event on a connection that expects no post data and has a
receive handler: the receive handler is called once, with the bytes received,
and no other handler. -/
theorem recvCbConn_recvHdl (env : HttpdEnv) (urls : List HttpdBuiltInUrl) (rconn : Option Nat)
    (data : List Nat) (s : HttpdConnData × World) (id : Nat) (hp : s.1.post.len = 0)
    (hr : s.1.recvHdl = some id) (hdata : data ≠ []) (hm : (platMalloc s.2).1 = true) :
    ∃ t ext, recvCbConn env urls rconn data s = some t ∧ t.2.trace = s.2.trace ++ ext ∧
      handlerCalls ext = [Event.recvHdlCall id data] := by
  cases data with
  | nil => exact absurd rfl hdata
  | cons b rest =>
    obtain ⟨ext, h1, h2⟩ := recvHdlData_calls env id (b :: rest)
      ({ s.1 with conn := rconn, priv := { s.1.priv with sendBuff := [] } },
        (platMalloc s.2).2)
    have hl : httpdRecvLoop env urls (b :: rest)
        ({ s.1 with conn := rconn, priv := { s.1.priv with sendBuff := [] } },
          (platMalloc s.2).2) = some (recvHdlData env id (b :: rest)
        ({ s.1 with conn := rconn, priv := { s.1.priv with sendBuff := [] } },
          (platMalloc s.2).2)) := by
      rw [httpdRecvLoop, if_neg (by show ¬ s.1.post.len < 0; omega),
        if_neg (by show ¬ s.1.post.len ≠ 0; simp [hp])]
      show (match s.1.recvHdl with
        | some id => some (recvHdlData env id (b :: rest) _)
        | none => _) = _
      rw [hr]
    unfold recvCbConn
    rw [if_neg (by rw [hm]; simp), hl]
    dsimp only
    have h1b : (recvHdlData env id (b :: rest)
        ({ s.1 with conn := rconn, priv := { s.1.priv with sendBuff := [] } },
          (platMalloc s.2).2)).2.trace = s.2.trace ++ ext := h1
    split_ifs
    · obtain ⟨ext2, g1, g2⟩ := httpdFlushSendBuffer_trace env (recvHdlData env id (b :: rest)
        ({ s.1 with conn := rconn, priv := { s.1.priv with sendBuff := [] } },
          (platMalloc s.2).2))
      refine ⟨_, ext ++ ext2 ++ [Event.platUnlock], rfl, ?_, ?_⟩
      · show (httpdFlushSendBuffer env _).2.trace ++ [Event.platUnlock] = _
        rw [g1, h1b]
        simp
      · rw [handlerCalls_append, handlerCalls_append, h2, handlerCalls_of_isPlat ext2 g2]
        rfl
    · refine ⟨_, ext ++ [Event.platUnlock], rfl, ?_, ?_⟩
      · show (recvHdlData env id (b :: rest) _).2.trace ++ [Event.platUnlock] = _
        rw [h1b]
        simp
      · rw [handlerCalls_append, h2]
        rfl

/-- C22, as the code has it.  A connection is marked `HFL_DISCONAFTERSENT`.
A sent event for it calls no handler, whatever else its state is: it hands the
oldest backlog item to the transport, or asks the transport to disconnect
when the backlog is empty, and keeps the mark (second part).  `httpdRecvCb`
does not test the mark, so what a receive event does is stated for every
connection that expects no post data (`post.len` is 0), marked or not: without
a receive handler it returns and calls no handler; with a receive handler
installed, at least one byte received and the send buffer allocated, it
returns and calls the receive handler once, with the bytes received, and no
handler function (third part).  So when the marked connection has no receive
handler installed and expects no post data, every sequence of receive events,
with any bytes, sent events and flushes returns and calls no handler function
and no receive handler, and the connection stays so (first part). -/
theorem draining_connection_calls_no_handler (env : HttpdEnv) (urls : List HttpdBuiltInUrl)
    (rconn : Option Nat) (evs : List ConnEvent) (s : HttpdConnData × World)
    (hd : s.1.priv.flags.HFL_DISCONAFTERSENT = true) (hr : s.1.recvHdl = none)
    (hp : s.1.post.len = 0) :
    (∃ t ext, connEvents env urls rconn evs s = some t ∧ t.2.trace = s.2.trace ++ ext ∧
      handlerCalls ext = [] ∧ t.1.priv.flags.HFL_DISCONAFTERSENT = true ∧
      t.1.recvHdl = none ∧ t.1.post.len = 0) ∧
    (∀ s1 : HttpdConnData × World, s1.1.priv.flags.HFL_DISCONAFTERSENT = true →
      ∃ out, (continueConn env s1).2.trace = s1.2.trace ++ [out, Event.platUnlock] ∧
        out = (match s1.1.priv.sendBacklog with
          | [] => Event.platDisconnect s1.1.conn
          | it :: _ => Event.platSendData s1.1.conn (itemBytes it) (s1.2.sendOk.headD true)) ∧
        (continueConn env s1).1.priv.sendBacklog = s1.1.priv.sendBacklog.tail ∧
        (continueConn env s1).1.priv.flags.HFL_DISCONAFTERSENT = true) ∧
    (∀ (s1 : HttpdConnData × World) (data : List Nat), s1.1.post.len = 0 →
      (s1.1.recvHdl = none →
        ∃ t ext, recvCbConn env urls rconn data s1 = some t ∧ t.2.trace = s1.2.trace ++ ext ∧
          handlerCalls ext = []) ∧
      (∀ id, s1.1.recvHdl = some id → data ≠ [] → (platMalloc s1.2).1 = true →
        ∃ t ext, recvCbConn env urls rconn data s1 = some t ∧ t.2.trace = s1.2.trace ++ ext ∧
          handlerCalls ext = [Event.recvHdlCall id data])) := by
  refine ⟨connEvents_draining env urls rconn evs s hd hr hp, ?_, ?_⟩
  · intro s1 h1
    obtain ⟨out, g1, g2, g3, g4, -, -⟩ := continueConn_draining env s1 h1
    exact ⟨out, g1, g2, g3, by rw [g4]; exact h1⟩
  · intro s1 data h0
    refine ⟨?_, ?_⟩
    · intro h1
      obtain ⟨t, ext, g1, g2, g3, -⟩ := recvCbConn_idle env urls rconn data s1 h0 h1
      exact ⟨t, ext, g1, g2, g3⟩
    · intro id h1 h2 h3
      exact recvCbConn_recvHdl env urls rconn data s1 id h0 h1 h2 h3

theorem draining_connection_calls_no_handler_witness :
    drainingConn.priv.flags.HFL_DISCONAFTERSENT = true ∧ drainingConn.recvHdl = none ∧
    drainingConn.post.len = 0 ∧
    (∃ t ext, connEvents helloEnv helloRoutes (some 1)
        [.recv helloRequest, .sent, .sent, .recv helloRequest] (drainingConn, World.start) =
          some t ∧
      t.2.trace = World.start.trace ++ ext ∧ handlerCalls ext = [] ∧
      t.1.priv.flags.HFL_DISCONAFTERSENT = true ∧ t.1.recvHdl = none ∧ t.1.post.len = 0) ∧
    (∃ t ext, recvCbConn helloEnv helloRoutes (some 1) [120, 121]
        ({ drainingConn with recvHdl := some 0 }, World.start) = some t ∧
      t.2.trace = World.start.trace ++ ext ∧
      handlerCalls ext = [Event.recvHdlCall 0 [120, 121]]) :=
  ⟨rfl, rfl, rfl,
    (draining_connection_calls_no_handler helloEnv helloRoutes (some 1)
      [.recv helloRequest, .sent, .sent, .recv helloRequest] (drainingConn, World.start)
      rfl rfl rfl).1,
    ((draining_connection_calls_no_handler helloEnv helloRoutes (some 1)
      [.recv helloRequest, .sent, .sent, .recv helloRequest] (drainingConn, World.start)
      rfl rfl rfl).2.2 ({ drainingConn with recvHdl := some 0 }, World.start) [120, 121] rfl).2
        0 rfl (by decide) rfl⟩

set_option maxRecDepth 100000 in
/-- C22 fails on the code for a connection with a receive handler.  The
handler of `socketEnv` installs receive handler 0 and is done with the request
`GET /hello HTTP/1.0`: the connection is marked `HFL_DISCONAFTERSENT` and the
receive handler stays installed.  The byte `x` of a later receive event is
handed to the receive handler. -/
theorem recvHdl_called_after_disconnect_mark :
    (connEvents socketEnv helloRoutes (some 1) [.recv helloRequest]
      (newConn socketEnv (some 1) [10, 0, 0, 1] 80 0, World.start)).map
        (fun t : HttpdConnData × World =>
          (t.1.priv.flags.HFL_DISCONAFTERSENT, t.1.recvHdl, handlerCalls t.2.trace)) =
      some (true, some 0,
        [Event.cgiCall (.user 0) (HttpdPostData.mk 0 0 0 0 none none)]) ∧
    (connEvents socketEnv helloRoutes (some 1) [.recv helloRequest, .recv [120]]
      (newConn socketEnv (some 1) [10, 0, 0, 1] 80 0, World.start)).map
        (fun t : HttpdConnData × World =>
          (t.1.priv.flags.HFL_DISCONAFTERSENT, t.1.recvHdl, handlerCalls t.2.trace)) =
      some (true, some 0,
        [Event.cgiCall (.user 0) (HttpdPostData.mk 0 0 0 0 none none),
          Event.recvHdlCall 0 [120]]) :=
  ⟨by decide, by decide⟩

set_option maxRecDepth 100000 in
/-- A connection marked `HFL_DISCONAFTERSENT` after a request with post data:
`post.len` stays 4 and the handler function is cleared, so four more bytes
make a chunk of post data for which `httpdProcessRequest` looks up the handler
and calls it again. -/
theorem handler_called_again_for_bytes_past_body :
    (connEvents formEnv formRoutes (some 1) [.recv shortFormRequest]
      (newConn formEnv (some 1) [10, 0, 0, 1] 80 0, World.start)).map
        (fun t : HttpdConnData × World =>
          (t.1.priv.flags.HFL_DISCONAFTERSENT, t.1.cgi, (handlerCalls t.2.trace).length)) =
      some (true, none, 1) ∧
    (connEvents formEnv formRoutes (some 1) [.recv shortFormRequest, .recv [101, 102, 103, 104]]
      (newConn formEnv (some 1) [10, 0, 0, 1] 80 0, World.start)).map
        (fun t : HttpdConnData × World =>
          (t.1.priv.flags.HFL_DISCONAFTERSENT, t.1.post.len, t.1.post.received,
            (handlerCalls t.2.trace).length)) =
      some (true, 4, 8, 2) :=
  ⟨by decide, by decide⟩

/-! ### The end of the headers -/

theorem storeText_length (acc : List Nat) (b : Nat) :
    acc.length < (storeText acc b).length := by
  unfold storeText
  split_ifs <;> simp

theorem foldl_storeText_length : ∀ (h acc : List Nat),
    acc.length ≤ (h.foldl storeText acc).length := by
  intro h
  induction h with
  | nil => intro acc; exact Nat.le_refl _
  | cons b h ih =>
    intro acc
    have h1 := storeText_length acc b
    have h2 := ih (storeText acc b)
    rw [List.foldl_cons]
    omega

theorem getD_take_lt (l : List Nat) (n i d : Nat) (h : i < n) :
    (l.take n).getD i d = l.getD i d := by
  rw [List.getD_eq_getElem?_getD, List.getD_eq_getElem?_getD, List.getElem?_take_of_lt h]

/-- A header byte that gets no faked CR is stored at `headPos` when there is
room. -/
theorem storeHeadByte_keep (env : HttpdEnv) (priv : HttpdPriv) (b : Nat)
    (hc : ¬ (b = 10 ∧ priv.headPos ≠ 0 ∧ priv.head.getD (priv.headPos - 1) 0 ≠ 13))
    (hfit : priv.headPos + 2 ≤ env.HTTPD_MAX_HEAD_LEN) :
    storeHeadByte env priv b =
      { priv with head := (priv.head.set priv.headPos b).set (priv.headPos + 1) 0,
                  headPos := priv.headPos + 1 } := by
  have hr : (priv.headPos : Int) < (env.HTTPD_MAX_HEAD_LEN : Int) - 1 := by omega
  unfold storeHeadByte
  dsimp only
  rw [if_neg hc, if_pos hr]

/-- While there is room, a header byte is stored as `storeText` says, and the
bytes of the buffer behind the NUL are left as they were. -/
theorem storeHeadByte_headRead (env : HttpdEnv) (s : HttpdConnData × World) (acc : List Nat)
    (b : Nat) (hsz : s.1.priv.head.length = env.HTTPD_MAX_HEAD_LEN)
    (hpos : s.1.priv.headPos = acc.length) (hcont : s.1.priv.head.take acc.length = acc)
    (hfit : (storeText acc b).length + 1 ≤ env.HTTPD_MAX_HEAD_LEN) :
    ({ s.1 with priv := storeHeadByte env s.1.priv b }, s.2) = headRead s (storeText acc b) := by
  have hlast : acc.length ≠ 0 →
      s.1.priv.head.getD (s.1.priv.headPos - 1) 0 = acc.getD (acc.length - 1) 0 := by
    intro h0
    have h1 := getD_take_lt s.1.priv.head acc.length (acc.length - 1) 0 (by omega)
    rw [hcont] at h1
    rw [hpos, h1]
  have hpriv : storeHeadByte env s.1.priv b =
      { s.1.priv with
        head := storeText acc b ++ 0 :: s.1.priv.head.drop ((storeText acc b).length + 1),
        headPos := (storeText acc b).length } := by
    by_cases hc : b = 10 ∧ acc.length ≠ 0 ∧ acc.getD (acc.length - 1) 0 ≠ 13
    · have hT : storeText acc b = acc ++ [13, 10] := by
        unfold storeText
        rw [if_pos hc, hc.1]
      rw [hT] at hfit ⊢
      simp only [List.length_append, List.length_cons, List.length_nil] at hfit
      have hl : (acc ++ [13, 10]).length = s.1.priv.headPos + 2 := by
        rw [List.length_append, hpos]; rfl
      rw [hc.1, storeHeadByte_lf env s.1.priv (by rw [hpos]; exact hc.2.1)
        (by rw [hlast hc.2.1]; exact hc.2.2) (by rw [hpos]; omega), hl]
      have hhead : ((s.1.priv.head.set s.1.priv.headPos 13).set (s.1.priv.headPos + 1) 10).set
          (s.1.priv.headPos + 2) 0 =
          (acc ++ [13, 10]) ++ 0 :: s.1.priv.head.drop (s.1.priv.headPos + 2 + 1) := by
        have h1 := split_at_nul
          (((s.1.priv.head.set s.1.priv.headPos 13).set (s.1.priv.headPos + 1) 10).set
            (s.1.priv.headPos + 2) 0) (acc ++ [13, 10]) (s.1.priv.headPos + 2)
          (by
            show _ = _
            rw [show s.1.priv.headPos + 2 = s.1.priv.headPos + 1 + 1 from rfl,
              take_set_ge _ _ _ _ (by omega),
              take_succ_set _ _ _ (by simp only [List.length_set]; omega),
              take_succ_set _ _ _ (by omega), hpos, hcont, List.append_assoc]
            rfl)
          (by simp only [List.length_set]; omega)
          (by rw [getD_set_self _ _ _ _ (by simp only [List.length_set]; omega)])
        rw [List.drop_set_of_lt _ _ (by omega), List.drop_set_of_lt _ _ (by omega),
          List.drop_set_of_lt _ _ (by omega)] at h1
        exact h1
      rw [hhead]
    · have hT : storeText acc b = acc ++ [b] := by
        unfold storeText
        rw [if_neg hc]
      rw [hT] at hfit ⊢
      simp only [List.length_append, List.length_cons, List.length_nil] at hfit
      have hl : (acc ++ [b]).length = s.1.priv.headPos + 1 := by
        rw [List.length_append, hpos]; rfl
      have hc2 : ¬ (b = 10 ∧ s.1.priv.headPos ≠ 0 ∧
          s.1.priv.head.getD (s.1.priv.headPos - 1) 0 ≠ 13) := by
        intro h
        have h0 : acc.length ≠ 0 := by rw [← hpos]; exact h.2.1
        exact hc ⟨h.1, h0, by rw [← hlast h0]; exact h.2.2⟩
      rw [storeHeadByte_keep env s.1.priv b hc2 (by rw [hpos]; omega), hl]
      have hhead : (s.1.priv.head.set s.1.priv.headPos b).set (s.1.priv.headPos + 1) 0 =
          (acc ++ [b]) ++ 0 :: s.1.priv.head.drop (s.1.priv.headPos + 1 + 1) := by
        have h1 := split_at_nul
          ((s.1.priv.head.set s.1.priv.headPos b).set (s.1.priv.headPos + 1) 0) (acc ++ [b])
          (s.1.priv.headPos + 1)
          (by
            rw [take_set_ge _ _ _ _ (by omega), take_succ_set _ _ _ (by omega), hpos, hcont])
          (by simp only [List.length_set]; omega)
          (by rw [getD_set_self _ _ _ _ (by simp only [List.length_set]; omega)])
        rw [List.drop_set_of_lt _ _ (by omega), List.drop_set_of_lt _ _ (by omega)] at h1
        exact h1
      rw [hhead]
  unfold headRead
  rw [hpriv]

theorem headRead_headRead (s : HttpdConnData × World) (a t : List Nat)
    (h : a.length ≤ t.length) : headRead (headRead s a) t = headRead s t := by
  have hd : (a ++ 0 :: s.1.priv.head.drop (a.length + 1)).drop (t.length + 1) =
      s.1.priv.head.drop (t.length + 1) := by
    rw [show t.length + 1 = a.length + (t.length - a.length + 1) by omega,
      List.drop_append, List.drop_succ_cons, List.drop_drop]
    congr 1
    omega
  unfold headRead
  dsimp only
  rw [hd]

theorem headRead_length (s : HttpdConnData × World) (t : List Nat)
    (h : t.length + 1 ≤ s.1.priv.head.length) :
    (headRead s t).1.priv.head.length = s.1.priv.head.length := by
  show (t ++ 0 :: s.1.priv.head.drop (t.length + 1)).length = _
  rw [List.length_append, List.length_cons, List.length_drop]
  omega

theorem headRead_take (s : HttpdConnData × World) (t : List Nat) :
    (headRead s t).1.priv.head.take t.length = t := by
  show (t ++ 0 :: s.1.priv.head.drop (t.length + 1)).take t.length = t
  rw [List.take_left]

/-- The search for the end of the headers sees the stored text. -/
theorem strstr_headRead (s : HttpdConnData × World) (t pat : List Nat) :
    strstr (headRead s t).1.priv.head pat = strstr t pat := by
  show strstr (t ++ 0 :: s.1.priv.head.drop (t.length + 1)) pat = _
  unfold strstr
  rw [cstr_append_zero]

/-- A head that fits the head buffer is stored as it comes, with the faked
CRs, and the header lines are parsed at the byte that completes CR LF CR LF;
the loop goes on with the bytes behind it. -/
theorem httpdRecvLoop_head_end (env : HttpdEnv) (urls : List HttpdBuiltInUrl)
    (rest : List Nat) : ∀ (h acc : List Nat) (s : HttpdConnData × World),
      s.1.post.len < 0 → s.1.priv.head.length = env.HTTPD_MAX_HEAD_LEN →
      s.1.priv.headPos = acc.length → s.1.priv.head.take acc.length = acc →
      (h.foldl storeText acc).length + 1 ≤ env.HTTPD_MAX_HEAD_LEN →
      headEndsAt acc h = true →
      httpdRecvLoop env urls (h ++ rest) s =
        (headersDone env urls (headRead s (h.foldl storeText acc))).bind
          (httpdRecvLoop env urls rest) := by
  intro h
  induction h with
  | nil =>
    intro acc s _ _ _ _ _ hend
    simp [headEndsAt] at hend
  | cons b h ih =>
    intro acc s hstate hsz hpos hcont hfit hend
    rw [List.foldl_cons] at hfit ⊢
    have hmono := foldl_storeText_length h (storeText acc b)
    have hstore := storeHeadByte_headRead env s acc b hsz hpos hcont (by omega)
    have hhead : (storeHeadByte env s.1.priv b).head = (headRead s (storeText acc b)).1.priv.head := by
      have h2 := congrArg (fun x : HttpdConnData × World => x.1.priv.head) hstore
      exact h2
    rw [List.cons_append, httpdRecvLoop_head env urls b _ s hstate]
    unfold recvHeadByte
    rw [hhead, strstr_headRead, hstore]
    rw [headEndsAt] at hend
    by_cases htrig : b = 10 ∧ strstr (storeText acc b) [13, 10, 13, 10] ≠ none
    · rw [if_pos htrig] at hend ⊢
      have hnil : h = [] := by simpa using hend
      subst hnil
      rfl
    · rw [if_neg htrig] at hend ⊢
      rw [Option.some_bind]
      have hsz2 : (headRead s (storeText acc b)).1.priv.head.length = env.HTTPD_MAX_HEAD_LEN := by
        rw [headRead_length s _ (by omega)]
        exact hsz
      rw [ih (storeText acc b) (headRead s (storeText acc b)) hstate hsz2 rfl
        (headRead_take s _) hfit hend, headRead_headRead s _ _ hmono]

/-! ### Request heads line by line -/

theorem requestHead_nil : requestHead [] = [13, 10] := rfl

theorem requestHead_cons (l : List Nat) (ls : List (List Nat)) :
    requestHead (l :: ls) = l ++ 13 :: 10 :: requestHead ls := by
  simp [requestHead]

theorem requestHead_length_cons (l : List Nat) (ls : List (List Nat)) :
    (requestHead (l :: ls)).length = l.length + 2 + (requestHead ls).length := by
  rw [requestHead_cons]
  simp
  omega

theorem requestHead_length_ge (ls : List (List Nat)) : 2 ≤ (requestHead ls).length := by
  cases ls with
  | nil => simp [requestHead]
  | cons l ls => rw [requestHead_length_cons]; omega

theorem cstr_eq_self (l : List Nat) (h : ∀ x ∈ l, x ≠ 0) : cstr l = l := by
  unfold cstr
  rw [List.takeWhile_eq_self_iff]
  intro x hx
  simpa using h x hx

theorem requestHead_no_nul (ls : List (List Nat))
    (hwf : ∀ l ∈ ls, l ≠ [] ∧ ∀ x ∈ l, x ≠ 0 ∧ x ≠ 10 ∧ x ≠ 13) :
    ∀ x ∈ requestHead ls, x ≠ 0 := by
  intro x hx
  simp only [requestHead, List.mem_append, List.mem_flatMap, List.mem_cons, List.mem_singleton,
    List.not_mem_nil, or_false] at hx
  rcases hx with ⟨l, hl, h | h | h⟩ | h | h
  · exact ((hwf l hl).2 x h).1
  all_goals omega

/-- Storing the bytes of a line and its CR LF appends them: no CR is faked. -/
theorem foldl_storeText_line : ∀ (l acc : List Nat), (∀ x ∈ l, x ≠ 10) →
    (l ++ [13, 10]).foldl storeText acc = acc ++ (l ++ [13, 10]) := by
  intro l
  induction l with
  | nil =>
    intro acc _
    have h1 : storeText acc 13 = acc ++ [13] := by
      unfold storeText
      rw [if_neg (by omega)]
    have h2 : storeText (acc ++ [13]) 10 = acc ++ [13] ++ [10] := by
      unfold storeText
      rw [if_neg]
      intro h
      apply h.2.2
      simp [List.getD_eq_getElem?_getD]
    simp only [List.nil_append, List.foldl_cons, List.foldl_nil, h1, h2]
    simp
  | cons b l ih =>
    intro acc h
    have h1 : storeText acc b = acc ++ [b] := by
      unfold storeText
      rw [if_neg]
      intro hc
      exact h b (by simp) hc.1
    rw [List.cons_append, List.foldl_cons, h1, ih _ (fun x hx => h x (by simp [hx]))]
    simp

theorem foldl_storeText_requestHead : ∀ (ls : List (List Nat)) (acc : List Nat),
    (∀ l ∈ ls, l ≠ [] ∧ ∀ x ∈ l, x ≠ 0 ∧ x ≠ 10 ∧ x ≠ 13) →
    (requestHead ls).foldl storeText acc = acc ++ requestHead ls := by
  intro ls
  induction ls with
  | nil =>
    intro acc _
    exact foldl_storeText_line [] acc (by simp)
  | cons l ls ih =>
    intro acc h
    have e : requestHead (l :: ls) = (l ++ [13, 10]) ++ requestHead ls := by
      rw [requestHead_cons]; simp
    rw [e, List.foldl_append,
      foldl_storeText_line l acc (fun x hx => ((h l (by simp)).2 x hx).2.1),
      ih _ (fun l2 hl2 => h l2 (by simp [hl2]))]
    simp

/-- The end-of-headers test over a line and its CR LF: it is made once, at the
LF. -/
theorem headEndsAt_line : ∀ (l acc rest : List Nat), (∀ x ∈ l, x ≠ 10) →
    headEndsAt acc (l ++ 13 :: 10 :: rest) =
      if strstr (acc ++ (l ++ [13, 10])) [13, 10, 13, 10] ≠ none then rest.isEmpty
      else headEndsAt (acc ++ (l ++ [13, 10])) rest := by
  intro l
  induction l with
  | nil =>
    intro acc rest _
    have h1 : storeText acc 13 = acc ++ [13] := by
      unfold storeText
      rw [if_neg (by omega)]
    have h2 : storeText (acc ++ [13]) 10 = acc ++ [13] ++ [10] := by
      unfold storeText
      rw [if_neg]
      intro h
      apply h.2.2
      simp [List.getD_eq_getElem?_getD]
    have h3 : acc ++ [13] ++ [10] = acc ++ ([] ++ [13, 10]) := by simp
    rw [List.nil_append, headEndsAt, if_neg (by omega), h1, headEndsAt, h2, h3]
    simp
  | cons b l ih =>
    intro acc rest h
    have h1 : storeText acc b = acc ++ [b] := by
      unfold storeText
      rw [if_neg]
      intro hc
      exact h b (by simp) hc.1
    have hb : ¬ (b = 10 ∧ strstr (storeText acc b) [13, 10, 13, 10] ≠ none) := by
      intro hc
      exact h b (by simp) hc.1
    rw [List.cons_append, headEndsAt, if_neg hb, h1, ih _ _ (fun x hx => h x (by simp [hx]))]
    simp

theorem linesText_cons (l : List Nat) (ls : List (List Nat)) :
    linesText (l :: ls) = l ++ 13 :: 10 :: linesText ls := by
  simp [linesText]

theorem linesText_snoc (ls : List (List Nat)) (l : List Nat) :
    linesText (ls ++ [l]) = linesText ls ++ (l ++ [13, 10]) := by
  simp [linesText]

theorem requestHead_eq (ls : List (List Nat)) : requestHead ls = linesText ls ++ [13, 10] := rfl

theorem linesText_no_nul (ls : List (List Nat))
    (hwf : ∀ l ∈ ls, l ≠ [] ∧ ∀ x ∈ l, x ≠ 0 ∧ x ≠ 10 ∧ x ≠ 13) :
    ∀ x ∈ linesText ls, x ≠ 0 := by
  intro x hx
  simp only [linesText, List.mem_append, List.mem_flatMap, List.mem_cons, List.mem_singleton,
    List.not_mem_nil, or_false] at hx
  rcases hx with ⟨l, hl, h | h | h⟩
  · exact ((hwf l hl).2 x h).1
  all_goals omega

/-- The text of complete, non-empty lines starts with a byte that is not CR. -/
theorem linesText_head (ls : List (List Nat))
    (hwf : ∀ l ∈ ls, l ≠ [] ∧ ∀ x ∈ l, x ≠ 0 ∧ x ≠ 10 ∧ x ≠ 13) :
    [13, 10].isPrefixOf (linesText ls) = false := by
  cases ls with
  | nil => rfl
  | cons l ls =>
    obtain ⟨h1, h2⟩ := hwf l (by simp)
    cases l with
    | nil => exact absurd rfl h1
    | cons c l =>
      have hc : c ≠ 13 := (h2 c (by simp)).2.2
      rw [linesText_cons]
      simp [List.isPrefixOf, hc.symm]

theorem strstrFrom_skip (pat : List Nat) (c : Nat) (hc : pat.head? ≠ some c) (hp : pat ≠ [])
    (cs : List Nat) (i : Nat) :
    strstrFrom pat (c :: cs) i = strstrFrom pat cs (i + 1) := by
  rw [strstrFrom, if_neg]
  cases pat with
  | nil => exact absurd rfl hp
  | cons a t =>
    simp only [List.head?_cons, ne_eq, Option.some.injEq] at hc
    simp [List.isPrefixOf, hc]

/-- No CR LF CR LF stands in the text of complete, non-empty lines. -/
theorem strstrFrom_linesText : ∀ (ls : List (List Nat)) (i : Nat),
    (∀ l ∈ ls, l ≠ [] ∧ ∀ x ∈ l, x ≠ 0 ∧ x ≠ 10 ∧ x ≠ 13) →
    strstrFrom [13, 10, 13, 10] (linesText ls) i = none := by
  intro ls
  induction ls with
  | nil => intro i _; rfl
  | cons l ls ih =>
    intro i hwf
    have hrest := ih (i + l.length + 2) (fun l2 hl2 => hwf l2 (by simp [hl2]))
    have hhead := linesText_head ls (fun l2 hl2 => hwf l2 (by simp [hl2]))
    have hl : ∀ x ∈ l, x ≠ 13 := fun x hx => ((hwf l (by simp)).2 x hx).2.2
    rw [linesText_cons]
    clear hwf ih
    induction l generalizing i with
    | nil =>
      rw [List.nil_append, strstrFrom, if_neg, strstrFrom_skip _ 10 (by simp) (by simp)]
      · simpa using hrest
      · simp only [List.isPrefixOf, beq_self_eq_true, Bool.true_and]
        intro h
        rw [hhead] at h
        exact Bool.noConfusion h
    | cons c l ihl =>
      rw [List.cons_append, strstrFrom_skip _ c (by
        simp only [List.head?_cons, ne_eq, Option.some.injEq]
        exact fun h => hl c (by simp) h.symm) (by simp)]
      have := ihl (i + 1) (by
        have e : i + 1 + l.length + 2 = i + (c :: l).length + 2 := by simp; omega
        rw [e]; exact hrest) (fun x hx => hl x (by simp [hx]))
      exact this

theorem strstr_linesText (ls : List (List Nat))
    (hwf : ∀ l ∈ ls, l ≠ [] ∧ ∀ x ∈ l, x ≠ 0 ∧ x ≠ 10 ∧ x ≠ 13) :
    strstr (linesText ls) [13, 10, 13, 10] = none := by
  unfold strstr
  rw [cstr_eq_self _ (linesText_no_nul ls hwf)]
  exact strstrFrom_linesText ls 0 hwf

theorem strstrFrom_found (pat : List Nat) (hp : pat ≠ []) : ∀ (a b : List Nat) (i : Nat),
    strstrFrom pat (a ++ pat ++ b) i ≠ none := by
  intro a
  induction a with
  | nil =>
    intro b i
    cases hpb : [] ++ pat ++ b with
    | nil =>
      simp at hpb
      exact absurd hpb.1 hp
    | cons c cs =>
      rw [strstrFrom, if_pos]
      · simp
      · rw [List.isPrefixOf_iff_prefix, ← hpb]
        simp
  | cons c a ih =>
    intro b i
    rw [List.cons_append, List.cons_append, strstrFrom]
    split_ifs
    · simp
    · exact ih b (i + 1)

/-- The empty line behind non-empty lines completes CR LF CR LF. -/
theorem strstr_requestHead (ls : List (List Nat)) (hne : ls ≠ [])
    (hwf : ∀ l ∈ ls, l ≠ [] ∧ ∀ x ∈ l, x ≠ 0 ∧ x ≠ 10 ∧ x ≠ 13) :
    strstr (requestHead ls) [13, 10, 13, 10] ≠ none := by
  unfold strstr
  rw [cstr_eq_self _ (requestHead_no_nul ls hwf)]
  obtain ⟨init, l, rfl⟩ : ∃ init l, ls = init ++ [l] := by
    rcases List.eq_nil_or_concat ls with h | ⟨init, l, h⟩
    · exact absurd h hne
    · exact ⟨init, l, by simpa using h⟩
  have e : requestHead (init ++ [l]) = (linesText init ++ l) ++ [13, 10, 13, 10] ++ [] := by
    rw [requestHead_eq, linesText_snoc]
    simp
  rw [e]
  exact strstrFrom_found _ (by simp) _ _ _

/-- The end-of-headers test succeeds at the last byte of a request head of
non-empty lines, and at no byte before it. -/
theorem headEndsAt_requestHead : ∀ (ls done : List (List Nat)),
    (∀ l ∈ done ++ ls, l ≠ [] ∧ ∀ x ∈ l, x ≠ 0 ∧ x ≠ 10 ∧ x ≠ 13) → done ++ ls ≠ [] →
    headEndsAt (linesText done) (requestHead ls) = true := by
  intro ls
  induction ls with
  | nil =>
    intro done hwf hne
    rw [List.append_nil] at hwf hne
    have h := headEndsAt_line [] (linesText done) [] (by simp)
    rw [List.nil_append] at h
    have hy : strstr (linesText done ++ [13, 10]) [13, 10, 13, 10] ≠ none :=
      strstr_requestHead done hne hwf
    rw [requestHead_nil, h, if_pos hy]
    rfl
  | cons l ls ih =>
    intro done hwf hne
    have hl : ∀ x ∈ l, x ≠ 10 := fun x hx => ((hwf l (by simp)).2 x hx).2.1
    have hwf2 : ∀ l2 ∈ (done ++ [l]) ++ ls, l2 ≠ [] ∧ ∀ x ∈ l2, x ≠ 0 ∧ x ≠ 10 ∧ x ≠ 13 := by
      intro l2 hl2
      exact hwf l2 (by simpa using hl2)
    have hno : strstr (linesText done ++ (l ++ [13, 10])) [13, 10, 13, 10] = none := by
      rw [← linesText_snoc]
      exact strstr_linesText _ (fun l2 hl2 => hwf2 l2 (by simp at hl2 ⊢; tauto))
    rw [requestHead_cons, headEndsAt_line l _ _ hl, if_neg (by rw [hno]; simp),
      ← linesText_snoc]
    exact ih (done ++ [l]) hwf2 (by simp)

/-! ### What a header line lets `httpdParseHeader` write -/

theorem takeWhile_length_le (f : Nat → Bool) : ∀ (l : List Nat) (j d : Nat), j < l.length →
    f (l.getD j d) = false → (l.takeWhile f).length ≤ j := by
  intro l
  induction l with
  | nil => intro j d h _; simp at h
  | cons c t ih =>
    intro j d hj hf
    rw [List.takeWhile_cons]
    cases j with
    | zero =>
      simp only [List.getD_cons_zero] at hf
      rw [hf]
      simp
    | succ j =>
      simp only [List.getD_cons_succ] at hf
      have := ih j d (by simpa using hj) hf
      split_ifs
      · simp; omega
      · simp

/-- The C string at offset `p` ends at or before a NUL that stands at `n`. -/
theorem strlen_drop_le (l : List Nat) (p n : Nat) (hp : p ≤ n) (hn : n < l.length)
    (hz : l.getD n 1 = 0) : strlen (l.drop p) ≤ n - p := by
  unfold strlen cstr
  apply takeWhile_length_le _ _ _ 1
  · rw [List.length_drop]; omega
  · have e : (l.drop p).getD (n - p) 1 = l.getD n 1 := by
      simp only [List.getD_eq_getElem?_getD, List.getElem?_drop]
      congr 2
      omega
    rw [e, hz]
    rfl

theorem strstrFrom_bound (pat : List Nat) : ∀ (l : List Nat) (i k : Nat),
    strstrFrom pat l i = some k → i ≤ k ∧ k - i + pat.length ≤ l.length := by
  intro l
  induction l with
  | nil => intro i k h; simp [strstrFrom] at h
  | cons c cs ih =>
    intro i k h
    rw [strstrFrom] at h
    split_ifs at h with hc
    · simp only [Option.some.injEq] at h
      rw [List.isPrefixOf_iff_prefix] at hc
      have := hc.length_le
      subst h
      exact ⟨Nat.le_refl _, by omega⟩
    · obtain ⟨h1, h2⟩ := ih (i + 1) k h
      simp only [List.length_cons]
      omega

/-- What `strstr` finds lies inside the C string. -/
theorem strstr_bound (hay pat : List Nat) (k : Nat) (h : strstr hay pat = some k) :
    k + pat.length ≤ strlen hay := by
  have := (strstrFrom_bound pat (cstr hay) 0 k h).2
  unfold strlen
  omega

theorem takeWhile_space_lt : ∀ (line : List Nat), 32 ∈ cstr line →
    (line.takeWhile (fun c => c != 32)).length + 1 ≤ (cstr line).length := by
  intro line
  induction line with
  | nil => intro h; simp [cstr] at h
  | cons c t ih =>
    intro h
    have e : cstr (c :: t) = if (c != 0) = true then c :: cstr t else [] := by
      unfold cstr
      rw [List.takeWhile_cons]
    rw [e] at h ⊢
    by_cases hc : (c != 0) = true
    · rw [if_pos hc] at h ⊢
      rw [List.takeWhile_cons]
      by_cases h32 : (c != 32) = true
      · rw [if_pos h32]
        have hm : 32 ∈ cstr t := by
          rcases List.mem_cons.1 h with h1 | h1
          · simp [← h1] at h32
          · exact h1
        have := ih hm
        simp only [List.length_cons]
        omega
      · rw [if_neg h32]
        simp
    · rw [if_neg hc] at h
      simp at h

/-- A line that starts with a method name and a space holds the space inside
its C string: the url pointer of `httpdParseHeader` stays inside the line. -/
theorem url_le_of_strncmpEq (line M : List Nat) (m : Nat)
    (h : strncmpEq line M m = true) (hM : 32 ∈ (cstr M).take m) :
    (line.takeWhile (fun c => c != 32)).length + 1 ≤ strlen line := by
  unfold strncmpEq at h
  have e : (cstr line).take m = (cstr M).take m := by simpa using h
  rw [← e] at hM
  exact takeWhile_space_lt line (List.mem_of_mem_take hM)

/-- The request line part of `httpdParseHeader` writes in front of the NUL that
closes the line only. -/
theorem parseRequestLine_head_drop (p n : Nat) (c : HttpdConnData) (hn : n < c.priv.head.length)
    (hz : c.priv.head.getD n 1 = 0)
    (hurl : p + ((c.priv.head.drop p).takeWhile (fun c => c != 32)).length + 1 ≤ n) :
    (parseRequestLine p c).priv.head.drop n = c.priv.head.drop n := by
  unfold parseRequestLine
  dsimp only
  generalize hu : p + ((c.priv.head.drop p).takeWhile (fun c => c != 32)).length + 1 = url at hurl
  cases hk : strstr (c.priv.head.drop url) [32] with
  | none => rfl
  | some k =>
    have hk1 := strstr_bound _ _ _ hk
    have hk2 := strlen_drop_le c.priv.head url n hurl hn hz
    simp only [List.length_singleton] at hk1
    have hkn : url + k < n := by omega
    dsimp only
    cases hq : strstr ((c.priv.head.set (url + k) 0).drop url) [63] with
    | none =>
      dsimp only
      exact List.drop_set_of_lt _ _ hkn
    | some q =>
      have hq1 := strstr_bound _ _ _ hq
      have hq2 := strlen_drop_le (c.priv.head.set (url + k) 0) url n hurl
        (by rw [List.length_set]; exact hn)
        (by rw [getD_set_ne _ _ _ _ _ (by omega)]; exact hz)
      simp only [List.length_singleton] at hq1
      dsimp only
      rw [List.drop_set_of_lt _ _ (by omega), List.drop_set_of_lt _ _ hkn]

theorem parseContentType_head_drop (p n : Nat) (c : HttpdConnData) (hp : p ≤ n)
    (hn : n < c.priv.head.length) (hz : c.priv.head.getD n 1 = 0) :
    (parseContentType p c).priv.head.drop n = c.priv.head.drop n := by
  unfold parseContentType
  dsimp only
  split_ifs
  · cases hb : strstr (c.priv.head.drop p) [98, 111, 117, 110, 100, 97, 114, 121, 61] with
    | none => rfl
    | some b =>
      have h1 := strstr_bound _ _ _ hb
      have h2 := strlen_drop_le c.priv.head p n hp hn hz
      simp only [List.length_cons, List.length_nil] at h1
      dsimp only
      rw [List.drop_set_of_lt _ _ (by omega), List.drop_set_of_lt _ _ (by omega)]
  · rfl

theorem parseContentLength_head (env : HttpdEnv) (p : Nat) (s : HttpdConnData × World) :
    (parseContentLength env p s).1.priv.head = s.1.priv.head := by
  unfold parseContentLength
  dsimp only
  split_ifs <;> rfl

/-- A header line that is closed by a NUL at `n`: `httpdParseHeader` changes
no byte of the head from `n` on. -/
theorem httpdParseHeader_head_drop (env : HttpdEnv) (p n : Nat) (s : HttpdConnData × World)
    (hp : p ≤ n) (hn : n < s.1.priv.head.length) (hz : s.1.priv.head.getD n 1 = 0) :
    (httpdParseHeader env p s).1.priv.head.drop n = s.1.priv.head.drop n := by
  have hlen := strlen_drop_le s.1.priv.head p n hp hn hz
  have hrl : ∀ (M : List Nat) (m : Nat) (rt : RequestTypes),
      strncmpEq (s.1.priv.head.drop p) M m = true → 32 ∈ (cstr M).take m →
      (parseRequestLine p { s.1 with requestType := some rt }).priv.head.drop n =
        s.1.priv.head.drop n := by
    intro M m rt h1 h2
    have h3 := url_le_of_strncmpEq _ M m h1 h2
    exact parseRequestLine_head_drop p n { s.1 with requestType := some rt } hn hz
      (by
        show p + ((s.1.priv.head.drop p).takeWhile (fun c => c != 32)).length + 1 ≤ n
        omega)
  unfold httpdParseHeader
  dsimp only
  by_cases c1 : strncmpEq (s.1.priv.head.drop p) [71, 69, 84, 32] 4 = true
  · rw [if_pos c1]; exact hrl _ _ _ c1 (by decide)
  rw [if_neg c1]
  by_cases c2 : strncasecmpEq (s.1.priv.head.drop p) [72, 111, 115, 116, 58] 5 = true
  · rw [if_pos c2]
  rw [if_neg c2]
  by_cases c3 : strncmpEq (s.1.priv.head.drop p) [80, 79, 83, 84, 32] 5 = true
  · rw [if_pos c3]; exact hrl _ _ _ c3 (by decide)
  rw [if_neg c3]
  by_cases c4 : strncmpEq (s.1.priv.head.drop p) [79, 80, 84, 73, 79, 78, 83, 32] 8 = true
  · rw [if_pos c4]; exact hrl _ _ _ c4 (by decide)
  rw [if_neg c4]
  by_cases c5 : strncmpEq (s.1.priv.head.drop p) [80, 85, 84, 32] 4 = true
  · rw [if_pos c5]; exact hrl _ _ _ c5 (by decide)
  rw [if_neg c5]
  by_cases c6 : strncmpEq (s.1.priv.head.drop p) [80, 65, 84, 67, 72, 32] 6 = true
  · rw [if_pos c6]; exact hrl _ _ _ c6 (by decide)
  rw [if_neg c6]
  by_cases c7 : strncmpEq (s.1.priv.head.drop p) [68, 69, 76, 69, 84, 69, 32] 7 = true
  · rw [if_pos c7]; exact hrl _ _ _ c7 (by decide)
  rw [if_neg c7]
  by_cases c8 : strncasecmpEq (s.1.priv.head.drop p)
      [67, 111, 110, 110, 101, 99, 116, 105, 111, 110, 58] 11 = true
  · rw [if_pos c8]
    by_cases c9 : strncmpEq ((s.1.priv.head.drop p).drop
        (11 + skipSpaces ((s.1.priv.head.drop p).drop 11))) [99, 108, 111, 115, 101] 5 = true
    · rw [if_pos c9]
    · rw [if_neg c9]
  rw [if_neg c8]
  by_cases c10 : strncasecmpEq (s.1.priv.head.drop p)
      [67, 111, 110, 116, 101, 110, 116, 45, 76, 101, 110, 103, 116, 104, 58] 15 = true
  · rw [if_pos c10, parseContentLength_head]
  rw [if_neg c10]
  by_cases c11 : strncasecmpEq (s.1.priv.head.drop p)
      [67, 111, 110, 116, 101, 110, 116, 45, 84, 121, 112, 101, 58, 32] 14 = true
  · rw [if_pos c11]; exact parseContentType_head_drop p n s.1 hp hn hz
  rw [if_neg c11]

/-! ### The lines of a stored head are parsed in order -/

theorem strstrFrom_line : ∀ (l r : List Nat) (i : Nat), (∀ x ∈ l, x ≠ 13) →
    strstrFrom [13, 10] (l ++ 13 :: 10 :: r) i = some (i + l.length) := by
  intro l
  induction l with
  | nil =>
    intro r i _
    rw [List.nil_append, strstrFrom, if_pos (by simp [List.isPrefixOf])]
    rfl
  | cons c l ih =>
    intro r i h
    rw [List.cons_append, strstrFrom_skip _ c (by
      simp only [List.head?_cons, ne_eq, Option.some.injEq]
      exact fun e => h c (by simp) e.symm) (by simp),
      ih r (i + 1) (fun x hx => h x (by simp [hx]))]
    simp only [List.length_cons, Option.some.injEq]
    omega

/-- The end of the first line is what `strstr` finds for CR LF. -/
theorem strstr_line (l r : List Nat) (h : ∀ x ∈ l, x ≠ 0 ∧ x ≠ 10 ∧ x ≠ 13) :
    strstr (l ++ 13 :: 10 :: r) [13, 10] = some l.length := by
  unfold strstr
  rw [cstr_append_of_no_nul l _ (fun x hx => (h x hx).1)]
  have e : cstr (13 :: 10 :: r) = 13 :: 10 :: cstr r := by
    unfold cstr
    rw [List.takeWhile_cons, if_pos (by decide), List.takeWhile_cons, if_pos (by decide)]
  rw [e, strstrFrom_line l _ 0 (fun x hx => (h x hx).2.2)]
  simp

/-- The loop over the header lines of `httpdRecvCb`, on a head that holds
non-empty lines closed by CR LF and the empty line from offset `p` on: it
parses the lines in order and stops at the empty line. -/
theorem parseHeaders_lines (env : HttpdEnv) : ∀ (ls : List (List Nat)) (n p : Nat)
    (s : HttpdConnData × World) (tail : List Nat),
    (∀ l ∈ ls, l ≠ [] ∧ ∀ x ∈ l, x ≠ 0 ∧ x ≠ 10 ∧ x ≠ 13) →
    s.1.priv.head.drop p = requestHead ls ++ tail →
    s.1.priv.headPos = p + (requestHead ls).length → ls.length + 1 ≤ n →
    parseHeaders env n p s = some (parseLines env ls p s) := by
  intro ls
  induction ls with
  | nil =>
    intro n p s tail _ _ hpos hn
    obtain ⟨m, rfl⟩ : ∃ m, n = m + 1 := ⟨n - 1, by omega⟩
    rw [parseHeaders, if_neg, parseLines]
    rw [hpos, requestHead_nil]
    simp only [List.length_cons, List.length_nil]
    push_cast
    omega
  | cons l ls ih =>
    intro n p s tail hwf hhead hpos hn
    obtain ⟨m, rfl⟩ : ∃ m, n = m + 1 := ⟨n - 1, by simp at hn; omega⟩
    obtain ⟨hl1, hl2⟩ := hwf l (by simp)
    have hlen : 0 < l.length := List.length_pos.2 hl1
    have hrest := requestHead_length_ge ls
    have hdrop : s.1.priv.head.drop p = l ++ 13 :: 10 :: (requestHead ls ++ tail) := by
      rw [hhead, requestHead_cons]
      simp
    have htot : p + l.length + 2 + (requestHead ls).length ≤ s.1.priv.head.length := by
      have h1 := congrArg List.length hdrop
      simp only [List.length_drop, List.length_append, List.length_cons] at h1
      omega
    have hc : (p : Int) < (s.1.priv.headPos : Int) - 4 := by
      rw [hpos, requestHead_length_cons]
      push_cast
      omega
    rw [parseHeaders, if_pos hc, hdrop, strstr_line l _ hl2]
    dsimp only
    rw [parseLines]
    have hn2 : p + l.length < (s.1.priv.head.set (p + l.length) 0).length := by
      rw [List.length_set]; omega
    have hz : (s.1.priv.head.set (p + l.length) 0).getD (p + l.length) 1 = 0 := by
      rw [List.getD_eq_getElem?_getD, List.getElem?_set_self (by omega)]
      rfl
    have hframe := httpdParseHeader_head_drop env p (p + l.length)
      ({ s.1 with priv := { s.1.priv with head := s.1.priv.head.set (p + l.length) 0 } }, s.2)
      (by omega) hn2 hz
    refine ih m (p + l.length + 2) _ tail (fun l2 hl2 => hwf l2 (by simp [hl2])) ?_ ?_
      (by simp at hn; omega)
    · have e1 : ∀ x : List Nat, x.drop (p + l.length + 2) = (x.drop (p + l.length)).drop 2 := by
        intro x
        rw [List.drop_drop]
      rw [e1, hframe]
      show ((s.1.priv.head.set (p + l.length) 0).drop (p + l.length)).drop 2 = _
      rw [← e1, List.drop_set_of_lt _ _ (by omega)]
      have e2 : s.1.priv.head.drop (p + l.length + 2) =
          (s.1.priv.head.drop p).drop (l.length + 2) := by
        rw [List.drop_drop, Nat.add_assoc]
      rw [e2, hdrop]
      have e3 : l ++ 13 :: 10 :: (requestHead ls ++ tail) =
          (l ++ [13, 10]) ++ (requestHead ls ++ tail) := by simp
      rw [e3, List.drop_left' (by simp)]
    · rw [httpdParseHeader_headPos]
      show s.1.priv.headPos = _
      rw [hpos, requestHead_length_cons]
      omega

theorem requestHead_lines_le : ∀ (ls : List (List Nat)),
    ls.length ≤ (requestHead ls).length := by
  intro ls
  induction ls with
  | nil => simp
  | cons l ls ih =>
    rw [requestHead_length_cons]
    simp only [List.length_cons]
    omega

/-- C23, as the code has it.  A connection waits for a request with an empty
head buffer, and a request head arrives, followed by the bytes `rest`: one or
more non-empty lines without NUL, CR or LF in them, each closed by CR LF, and
the empty line.  The head and its NUL fit the head buffer.  Then the end of
the headers is found at the last byte of the head, and what `httpdRecvCb` has
done at that byte is this: the head buffer holds the head, closed by a NUL,
and `headPos` is its length; `post.len` is set to 0 and `url` to `NULL`; the
lines are parsed in order, each with its CR replaced by NUL and handed to
`httpdParseHeader` (`parseLines`); and the request is processed by
`httpdProcessRequest` when `post.len` is 0 after that.  This returns, and the
loop goes on with `rest` from there. -/
theorem httpdRecvCb_end_of_headers (env : HttpdEnv) (urls : List HttpdBuiltInUrl)
    (lines : List (List Nat)) (rest : List Nat) (s : HttpdConnData × World)
    (hstate : s.1.post.len < 0) (hpos : s.1.priv.headPos = 0)
    (hsize : s.1.priv.head.length = env.HTTPD_MAX_HEAD_LEN)
    (hne : lines ≠ [])
    (hwf : ∀ l ∈ lines, l ≠ [] ∧ ∀ x ∈ l, x ≠ 0 ∧ x ≠ 10 ∧ x ≠ 13)
    (hfit : (requestHead lines).length + 1 ≤ env.HTTPD_MAX_HEAD_LEN) :
    let parsed := parseLines env lines 0
      ({ s.1 with
          priv := { s.1.priv with
            head := requestHead lines ++ 0 :: s.1.priv.head.drop ((requestHead lines).length + 1),
            headPos := (requestHead lines).length },
          post := { s.1.post with len := 0 },
          url := none }, s.2)
    (∃ t, (if parsed.1.post.len = 0 then httpdProcessRequest env urls parsed
      else some parsed) = some t) ∧
    httpdRecvLoop env urls (requestHead lines ++ rest) s =
      (if parsed.1.post.len = 0 then httpdProcessRequest env urls parsed
        else some parsed).bind (httpdRecvLoop env urls rest) := by
  intro parsed
  have hfold : (requestHead lines).foldl storeText [] = requestHead lines := by
    rw [foldl_storeText_requestHead lines [] hwf]
    rfl
  have hend : headEndsAt [] (requestHead lines) = true :=
    headEndsAt_requestHead lines [] (by simpa using hwf) (by simpa using hne)
  have h1 := httpdRecvLoop_head_end env urls rest (requestHead lines) [] s hstate hsize hpos rfl
    (by rw [hfold]; exact hfit) hend
  rw [hfold] at h1
  have hparse := parseHeaders_lines env lines ((requestHead lines).length + 1) 0
    ({ (headRead s (requestHead lines)).1 with
        post := { (headRead s (requestHead lines)).1.post with len := 0 }, url := none },
      (headRead s (requestHead lines)).2)
    (0 :: s.1.priv.head.drop ((requestHead lines).length + 1)) hwf rfl
    (by
      show (requestHead lines).length = 0 + (requestHead lines).length
      omega)
    (by have := requestHead_lines_le lines; omega)
  have hdone : headersDone env urls (headRead s (requestHead lines)) =
      (if parsed.1.post.len = 0 then httpdProcessRequest env urls parsed else some parsed) := by
    unfold headersDone
    have e : (headRead s (requestHead lines)).1.priv.headPos + 1 =
        (requestHead lines).length + 1 := rfl
    rw [e, hparse]
    rfl
  refine ⟨?_, ?_⟩
  · split_ifs
    · exact httpdProcessRequest_total env urls parsed
    · exact ⟨_, rfl⟩
  · rw [h1, hdone]

set_option maxRecDepth 100000 in
theorem httpdRecvCb_end_of_headers_witness :
    (newConn helloEnv (some 1) [10, 0, 0, 1] 80 0).post.len < 0 ∧
    (newConn helloEnv (some 1) [10, 0, 0, 1] 80 0).priv.headPos = 0 ∧
    (newConn helloEnv (some 1) [10, 0, 0, 1] 80 0).priv.head.length =
      helloEnv.HTTPD_MAX_HEAD_LEN ∧
    helloLines ≠ [] ∧
    (∀ l ∈ helloLines, l ≠ [] ∧ ∀ x ∈ l, x ≠ 0 ∧ x ≠ 10 ∧ x ≠ 13) ∧
    (requestHead helloLines).length + 1 ≤ helloEnv.HTTPD_MAX_HEAD_LEN ∧
    httpdRecvLoop helloEnv helloRoutes (requestHead helloLines ++ [120])
        (newConn helloEnv (some 1) [10, 0, 0, 1] 80 0, World.start) =
      (if (parseLines helloEnv helloLines 0
          ({ newConn helloEnv (some 1) [10, 0, 0, 1] 80 0 with
              priv := { (newConn helloEnv (some 1) [10, 0, 0, 1] 80 0).priv with
                head := requestHead helloLines ++
                  0 :: (newConn helloEnv (some 1) [10, 0, 0, 1] 80 0).priv.head.drop
                    ((requestHead helloLines).length + 1),
                headPos := (requestHead helloLines).length },
              post := { (newConn helloEnv (some 1) [10, 0, 0, 1] 80 0).post with len := 0 },
              url := none }, World.start)).1.post.len = 0 then
        httpdProcessRequest helloEnv helloRoutes
          (parseLines helloEnv helloLines 0
            ({ newConn helloEnv (some 1) [10, 0, 0, 1] 80 0 with
                priv := { (newConn helloEnv (some 1) [10, 0, 0, 1] 80 0).priv with
                  head := requestHead helloLines ++
                    0 :: (newConn helloEnv (some 1) [10, 0, 0, 1] 80 0).priv.head.drop
                      ((requestHead helloLines).length + 1),
                  headPos := (requestHead helloLines).length },
                post := { (newConn helloEnv (some 1) [10, 0, 0, 1] 80 0).post with len := 0 },
                url := none }, World.start))
      else some (parseLines helloEnv helloLines 0
            ({ newConn helloEnv (some 1) [10, 0, 0, 1] 80 0 with
                priv := { (newConn helloEnv (some 1) [10, 0, 0, 1] 80 0).priv with
                  head := requestHead helloLines ++
                    0 :: (newConn helloEnv (some 1) [10, 0, 0, 1] 80 0).priv.head.drop
                      ((requestHead helloLines).length + 1),
                  headPos := (requestHead helloLines).length },
                post := { (newConn helloEnv (some 1) [10, 0, 0, 1] 80 0).post with len := 0 },
                url := none }, World.start))).bind
        (httpdRecvLoop helloEnv helloRoutes [120]) :=
  ⟨by decide, rfl, rfl, by decide, by decide, by decide,
    (httpdRecvCb_end_of_headers helloEnv helloRoutes helloLines [120]
      (newConn helloEnv (some 1) [10, 0, 0, 1] 80 0, World.start)
      (by decide) rfl rfl (by decide) (by decide) (by decide)).2⟩

set_option maxRecDepth 100000 in
/-- The head of `helloLines`, run: the request line and the `Host` line are
parsed, `post.len` is 0, and the handler for `/hello` is called once. -/
theorem httpdRecvCb_hello_lines_example :
    (httpdRecvLoop helloEnv helloRoutes (requestHead helloLines)
      (newConn helloEnv (some 1) [10, 0, 0, 1] 80 0, World.start)).map
        (fun t : HttpdConnData × World =>
          (t.1.requestType, t.1.url, t.1.hostName, t.1.post.len)) =
      some (some .HTTPD_METHOD_GET, some 4, some 27, 0) ∧
    (httpdRecvLoop helloEnv helloRoutes (requestHead helloLines)
      (newConn helloEnv (some 1) [10, 0, 0, 1] 80 0, World.start)).map
        (fun t : HttpdConnData × World => (t.1.priv.headPos, handlerCalls t.2.trace)) =
      some (32, [Event.cgiCall (.user 0) (HttpdPostData.mk 0 0 0 0 none none)]) :=
  ⟨by decide, by decide⟩

set_option maxRecDepth 100000 in
/-- C23 fails on the code for a head longer than the head buffer.  The request
`wideRequest` of 75 bytes is received with a head buffer of 64 bytes: the
request line and its CR fill the buffer to `HTTPD_MAX_HEAD_LEN - 1`, the bytes
behind them are dropped, the CR LF CR LF among them is not seen, and after the
last byte the connection still reads a head: `post.len` is -1, no header line
is parsed and no handler called. -/
theorem httpdRecvCb_long_head_never_ends :
    (recvCbConn helloEnv helloRoutes (some 1) wideRequest
      (newConn helloEnv (some 1) [10, 0, 0, 1] 80 0, World.start)).map
        (fun t : HttpdConnData × World =>
          (t.1.post.len, t.1.priv.headPos, t.1.priv.head.getD 63 1)) =
      some (-1, 63, 0) ∧
    (recvCbConn helloEnv helloRoutes (some 1) wideRequest
      (newConn helloEnv (some 1) [10, 0, 0, 1] 80 0, World.start)).map
        (fun t : HttpdConnData × World => (t.1.requestType, t.1.url, handlerCalls t.2.trace)) =
      some (none, none, []) :=
  ⟨by decide, by decide⟩

/-! ### The length of the send buffer -/

theorem memRead_length_eq (d : List Nat) (n : Nat) : (memRead d n).length = n := by
  unfold memRead
  rw [List.length_take, List.length_append, List.length_replicate]
  omega

/-- A call of `httpdSend` keeps the send buffer within its capacity. -/
theorem httpdSend_sendBuffLen_le (env : HttpdEnv) (c : HttpdConnData) (data : List Nat)
    (len : Int) (h : c.priv.sendBuffLen ≤ env.HTTPD_MAX_SENDBUFF_LEN) :
    (httpdSend env c data len).2.priv.sendBuffLen ≤ env.HTTPD_MAX_SENDBUFF_LEN := by
  have hn : 0 ≤ (if len < 0 then (strlen data : Int) else len) := by
    split_ifs <;> omega
  unfold HttpdPriv.sendBuffLen at h ⊢
  unfold httpdSend
  unfold HttpdPriv.sendBuffLen
  generalize (if len < 0 then (strlen data : Int) else len) = L at hn ⊢
  split_ifs
  all_goals first
    | exact h
    | (simp only [List.length_append, List.length_cons, List.length_nil, memRead_length_eq]
       push_cast
       omega)

theorem httpdStartResponse_sendBuffLen_le (env : HttpdEnv) (c : HttpdConnData) (code : Nat)
    (h : c.priv.sendBuffLen ≤ env.HTTPD_MAX_SENDBUFF_LEN) :
    (httpdStartResponse env c code).priv.sendBuffLen ≤ env.HTTPD_MAX_SENDBUFF_LEN :=
  httpdSend_sendBuffLen_le env c _ _ h

theorem httpdHeader_sendBuffLen_le (env : HttpdEnv) (c : HttpdConnData) (f v : List Nat)
    (h : c.priv.sendBuffLen ≤ env.HTTPD_MAX_SENDBUFF_LEN) :
    (httpdHeader env c f v).priv.sendBuffLen ≤ env.HTTPD_MAX_SENDBUFF_LEN := by
  unfold httpdHeader
  exact httpdSend_sendBuffLen_le env _ _ _ (httpdSend_sendBuffLen_le env _ _ _
    (httpdSend_sendBuffLen_le env _ _ _ (httpdSend_sendBuffLen_le env _ _ _ h)))

theorem httpdEndHeaders_sendBuffLen_le (env : HttpdEnv) (c : HttpdConnData)
    (h : c.priv.sendBuffLen ≤ env.HTTPD_MAX_SENDBUFF_LEN) :
    (httpdEndHeaders env c).priv.sendBuffLen ≤ env.HTTPD_MAX_SENDBUFF_LEN :=
  httpdSend_sendBuffLen_le env c _ _ h

theorem httpdSetTransferMode_sendBuffLen (c : HttpdConnData) (mode : TransferModes) :
    (httpdSetTransferMode c mode).priv.sendBuffLen = c.priv.sendBuffLen := by
  cases mode <;> rfl

/-- The calls a handler makes keep the send buffer within its capacity. -/
theorem runCgi_sendBuffLen_le (env : HttpdEnv) (sc : CgiScript) :
    ∀ s : HttpdConnData × World, s.1.priv.sendBuffLen ≤ env.HTTPD_MAX_SENDBUFF_LEN →
      (runCgi env sc s).2.1.priv.sendBuffLen ≤ env.HTTPD_MAX_SENDBUFF_LEN := by
  induction sc with
  | ret r => intro s h; exact h
  | send data len k ih =>
    intro s h
    rw [runCgi]
    exact ih _ _ (httpdSend_sendBuffLen_le env s.1 data len h)
  | startResponse code k ih =>
    intro s h
    rw [runCgi]
    exact ih _ (httpdStartResponse_sendBuffLen_le env s.1 code h)
  | header f v k ih =>
    intro s h
    rw [runCgi]
    exact ih _ (httpdHeader_sendBuffLen_le env s.1 f v h)
  | endHeaders k ih =>
    intro s h
    rw [runCgi]
    exact ih _ (httpdEndHeaders_sendBuffLen_le env s.1 h)
  | setTransferMode mode k ih =>
    intro s h
    rw [runCgi]
    exact ih _ (by
      show (httpdSetTransferMode s.1 mode).priv.sendBuffLen ≤ _
      rw [httpdSetTransferMode_sendBuffLen]; exact h)
  | setCgiData v k ih =>
    intro s h
    rw [runCgi]
    exact ih _ h
  | setRecvHdl hd k ih =>
    intro s h
    rw [runCgi]
    exact ih _ h

theorem callCgi_sendBuffLen_le (env : HttpdEnv) (fn : CgiFn) (s : HttpdConnData × World)
    (h : s.1.priv.sendBuffLen ≤ env.HTTPD_MAX_SENDBUFF_LEN) :
    (callCgi env fn s).2.1.priv.sendBuffLen ≤ env.HTTPD_MAX_SENDBUFF_LEN :=
  runCgi_sendBuffLen_le env _ _ h

/-- The buffer `httpdFlushSendBuffer` hands to the transport: within the
capacity of the send buffer unless the terminal chunk is appended, and at most
five bytes more with it. -/
theorem closeChunks_sendBuffLen_le (env : HttpdEnv) (c : HttpdConnData)
    (h : c.priv.sendBuffLen ≤ env.HTTPD_MAX_SENDBUFF_LEN) :
    (closeChunks env c).priv.sendBuffLen ≤ env.HTTPD_MAX_SENDBUFF_LEN + 5 ∧
    (¬ (c.priv.flags.HFL_CHUNKED = true ∧ c.priv.flags.HFL_SENDINGBODY = true ∧ c.cgi = none) →
      (closeChunks env c).priv.sendBuffLen ≤ env.HTTPD_MAX_SENDBUFF_LEN) := by
  have hfix : ∀ k, (fixChunkHdr env c k).priv.sendBuffLen ≤ env.HTTPD_MAX_SENDBUFF_LEN ∧
      (fixChunkHdr env c k).priv.flags = c.priv.flags ∧ (fixChunkHdr env c k).cgi = c.cgi := by
    intro k
    have h1 := httpdSend_sendBuffLen_le env c [13, 10] 2 h
    have h2 := httpdSend_frame env c [13, 10] 2
    have h3 : (httpdSend env c [13, 10] 2).2.priv.flags = c.priv.flags ∧
        (httpdSend env c [13, 10] 2).2.cgi = c.cgi := by
      unfold httpdSend
      split_ifs <;> exact ⟨rfl, rfl⟩
    refine ⟨?_, h3.1, h3.2⟩
    unfold HttpdPriv.sendBuffLen at h1 ⊢
    unfold fixChunkHdr
    simp only [List.length_set]
    exact h1
  unfold closeChunks
  cases hch : c.priv.chunkHdr with
  | none =>
    dsimp only
    by_cases ht : c.priv.flags.HFL_CHUNKED = true ∧ c.priv.flags.HFL_SENDINGBODY = true ∧
        c.cgi = none
    · rw [if_pos ht]
      refine ⟨?_, fun hn => absurd ht hn⟩
      unfold HttpdPriv.sendBuffLen at h ⊢
      simp only [List.length_append, List.length_cons, List.length_nil]
      push_cast
      omega
    · rw [if_neg ht]
      exact ⟨by omega, fun _ => h⟩
  | some k =>
    dsimp only
    obtain ⟨g1, g2, g3⟩ := hfix k
    by_cases ht : c.priv.flags.HFL_CHUNKED = true ∧ c.priv.flags.HFL_SENDINGBODY = true ∧
        c.cgi = none
    · rw [if_pos (by rw [g2, g3]; exact ht)]
      refine ⟨?_, fun hn => absurd ht hn⟩
      unfold HttpdPriv.sendBuffLen at g1 ⊢
      simp only [List.length_append, List.length_cons, List.length_nil]
      push_cast
      omega
    · rw [if_neg (by rw [g2, g3]; exact ht)]
      exact ⟨by omega, fun _ => g1⟩

/-- A flush hands the transport nothing, or once the send buffer with its
chunks closed. -/
theorem httpdFlushSendBuffer_sends (env : HttpdEnv) (s : HttpdConnData × World) :
    (httpdFlushSendBuffer env s).2.trace = s.2.trace ∨
    ∃ r, (httpdFlushSendBuffer env s).2.trace = s.2.trace ++
      [Event.platSendData (closeChunks env s.1).conn (closeChunks env s.1).priv.sendBuff r] := by
  unfold httpdFlushSendBuffer
  dsimp only
  split_ifs
  · exact Or.inl rfl
  · exact Or.inr ⟨_, rfl⟩
  · exact Or.inr ⟨_, rfl⟩
  · exact Or.inr ⟨_, rfl⟩
  · exact Or.inr ⟨_, rfl⟩
  · exact Or.inl rfl

/-- The bytes a flush hands to the transport when the send buffer is within
its capacity before: at most `HTTPD_MAX_SENDBUFF_LEN + 5`, and at most
`HTTPD_MAX_SENDBUFF_LEN` when no terminal chunk is due. -/
theorem httpdFlushSendBuffer_send_le (env : HttpdEnv) (s : HttpdConnData × World)
    (h : s.1.priv.sendBuffLen ≤ env.HTTPD_MAX_SENDBUFF_LEN) :
    (httpdFlushSendBuffer env s).2.trace = s.2.trace ∨
    ∃ c b r, (httpdFlushSendBuffer env s).2.trace = s.2.trace ++ [Event.platSendData c b r] ∧
      (b.length : Int) ≤ env.HTTPD_MAX_SENDBUFF_LEN + 5 ∧
      (¬ (s.1.priv.flags.HFL_CHUNKED = true ∧ s.1.priv.flags.HFL_SENDINGBODY = true ∧
          s.1.cgi = none) → (b.length : Int) ≤ env.HTTPD_MAX_SENDBUFF_LEN) := by
  cases httpdFlushSendBuffer_sends env s with
  | inl h1 => exact Or.inl h1
  | inr h1 =>
    obtain ⟨r, hr⟩ := h1
    exact Or.inr ⟨_, _, r, hr, (closeChunks_sendBuffLen_le env s.1 h).1,
      (closeChunks_sendBuffLen_le env s.1 h).2⟩

/-! ### The flush and the backlog -/

/-- The call `httpdSend` does not look at the backlog. -/
theorem httpdSend_with_backlog (env : HttpdEnv) (c : HttpdConnData) (data : List Nat)
    (len : Int) (bl : List HttpSendBacklogItem) (sz : Int) :
    httpdSend env { c with priv := { c.priv with sendBacklog := bl, sendBacklogSize := sz } }
        data len =
      ((httpdSend env c data len).1,
        { (httpdSend env c data len).2 with
          priv := { (httpdSend env c data len).2.priv with
            sendBacklog := bl, sendBacklogSize := sz } }) := by
  unfold httpdSend
  unfold HttpdPriv.sendBuffLen
  dsimp only
  split_ifs <;> rfl

theorem closeChunks_with_backlog (env : HttpdEnv) (c : HttpdConnData)
    (bl : List HttpSendBacklogItem) (sz : Int) :
    closeChunks env { c with priv := { c.priv with sendBacklog := bl, sendBacklogSize := sz } } =
      { closeChunks env c with
        priv := { (closeChunks env c).priv with sendBacklog := bl, sendBacklogSize := sz } } := by
  obtain ⟨conn, rt, url, ga, a1, a2, cd, hn, priv, cgi, rh, post, rp, ri, slot⟩ := c
  obtain ⟨head, headPos, sendBuff, chunkHdr, bl0, sz0, flags⟩ := priv
  cases chunkHdr with
  | none =>
    unfold closeChunks
    dsimp only
    split_ifs <;> rfl
  | some k =>
    have hs := httpdSend_with_backlog env
      (HttpdConnData.mk conn rt url ga a1 a2 cd hn
        (HttpdPriv.mk head headPos sendBuff (some k) bl0 sz0 flags) cgi rh post rp ri slot)
      [13, 10] 2 bl sz
    dsimp only at hs
    unfold closeChunks fixChunkHdr
    dsimp only
    rw [hs]
    unfold HttpdPriv.sendBuffLen
    dsimp only
    split_ifs <;> rfl

/-- What `httpdFlushSendBuffer` hands to the transport does not depend on the
backlog: a flush with items queued calls `httpdPlatSendData` as a flush
without them does. -/
theorem httpdFlushSendBuffer_trace_with_backlog (env : HttpdEnv) (s : HttpdConnData × World)
    (bl : List HttpSendBacklogItem) (sz : Int) :
    (httpdFlushSendBuffer env
      ({ s.1 with priv := { s.1.priv with sendBacklog := bl, sendBacklogSize := sz } },
        s.2)).2.trace = (httpdFlushSendBuffer env s).2.trace := by
  unfold httpdFlushSendBuffer
  dsimp only
  rw [closeChunks_with_backlog]
  unfold HttpdPriv.sendBuffLen
  dsimp only
  split_ifs <;> rfl

end Httpd
